import Mathlib

/-!
# FilterExpressionSyntaxParser

A shallow embedding of the ANTLR-generated recursive-descent parser
`FilterExpressionSyntaxParser.cpp` (GSF time-series platform library) and
theorems about the token sequences it accepts.

Conventions of the embedding.

* A token stream is a `List Token`; the end-of-file token is not stored: the
  empty list is the stream positioned at `EOF`, whose token type is the
  `size_t` value `-1`, that is `2^64 - 1`.
* A rule function takes the remaining input and returns an `Outcome`: the
  parse-tree node it built together with the input left over, or the first
  recognition error that the rule would hand to its error handler.  The
  recovery that the ANTLR error strategy performs after reporting an error
  (token deletion, insertion, resynchronisation) is not part of the embedding:
  an input is *accepted* when no error is reported at all.
* The calls `_errHandler->sync(this)` therefore do not appear in the rules:
  `sync` only reports an error for a lookahead token that no path through
  the rule can match, and the rule reports an error for such a token anyway,
  so acceptance is the same.  Which error comes first is not the same, nor
  is the token on which the switch of `parse` dispatches after `sync` has
  deleted one: `sync` and `parseReturned` add the call for `parse`.
* A rule function of the program catches the `RecognitionException` raised
  in its body and returns its context all the same.  The definitions named
  `...Returned` add this for the top-level rules at the end of the input,
  where the recovery of the `catch` block has no token to consume.
* Recursion and loops that are not structural on the input carry a fuel
  argument; `Outcome.outOfFuel` is kept apart from the syntax errors.
-/

namespace FilterExpressionSyntaxParser

/-! ## Tokens -/

/-- The token type `antlr4::Token::EOF`, the `size_t` value `-1`. -/
def EOF : Nat := 2 ^ 64 - 1

-- Literal tokens, numbered by their index in `_literalNames`.
def T__0 : Nat := 1   -- ';'
def T__1 : Nat := 2   -- ','
def T__2 : Nat := 3   -- '-'
def T__3 : Nat := 4   -- '+'
def T__4 : Nat := 5   -- '('
def T__5 : Nat := 6   -- ')'
def T__6 : Nat := 7   -- '!'
def T__7 : Nat := 8   -- '~'
def T__8 : Nat := 9   -- '==='
def T__9 : Nat := 10  -- '<'
def T__10 : Nat := 11 -- '<='
def T__11 : Nat := 12 -- '>'
def T__12 : Nat := 13 -- '>='
def T__13 : Nat := 14 -- '='
def T__14 : Nat := 15 -- '=='
def T__15 : Nat := 16 -- '!='
def T__16 : Nat := 17 -- '!=='
def T__17 : Nat := 18 -- '<>'
def T__18 : Nat := 19 -- '&&'
def T__19 : Nat := 20 -- '||'
def T__20 : Nat := 21 -- '<<'
def T__21 : Nat := 22 -- '>>'
def T__22 : Nat := 23 -- '&'
def T__23 : Nat := 24 -- '|'
def T__24 : Nat := 25 -- '^'
def T__25 : Nat := 26 -- '*'
def T__26 : Nat := 27 -- '/'
def T__27 : Nat := 28 -- '%'

-- Symbolic tokens, numbered by their index in `_symbolicNames`.
def K_ABS : Nat := 29
def K_AND : Nat := 30
def K_ASC : Nat := 31
def K_BINARY : Nat := 32
def K_BY : Nat := 33
def K_CEILING : Nat := 34
def K_COALESCE : Nat := 35
def K_CONVERT : Nat := 36
def K_CONTAINS : Nat := 37
def K_DATEADD : Nat := 38
def K_DATEDIFF : Nat := 39
def K_DATEPART : Nat := 40
def K_DESC : Nat := 41
def K_ENDSWITH : Nat := 42
def K_FILTER : Nat := 43
def K_FLOOR : Nat := 44
def K_IIF : Nat := 45
def K_IN : Nat := 46
def K_INDEXOF : Nat := 47
def K_IS : Nat := 48
def K_ISDATE : Nat := 49
def K_ISINTEGER : Nat := 50
def K_ISGUID : Nat := 51
def K_ISNULL : Nat := 52
def K_ISNUMERIC : Nat := 53
def K_LASTINDEXOF : Nat := 54
def K_LEN : Nat := 55
def K_LIKE : Nat := 56
def K_LOWER : Nat := 57
def K_MAXOF : Nat := 58
def K_MINOF : Nat := 59
def K_NOT : Nat := 60
def K_NOW : Nat := 61
def K_NTHINDEXOF : Nat := 62
def K_NULL : Nat := 63
def K_OR : Nat := 64
def K_ORDER : Nat := 65
def K_POWER : Nat := 66
def K_REGEXMATCH : Nat := 67
def K_REGEXVAL : Nat := 68
def K_REPLACE : Nat := 69
def K_REVERSE : Nat := 70
def K_ROUND : Nat := 71
def K_SQRT : Nat := 72
def K_SPLIT : Nat := 73
def K_STARTSWITH : Nat := 74
def K_STRCOUNT : Nat := 75
def K_STRCMP : Nat := 76
def K_SUBSTR : Nat := 77
def K_TOP : Nat := 78
def K_TRIM : Nat := 79
def K_TRIMLEFT : Nat := 80
def K_TRIMRIGHT : Nat := 81
def K_UPPER : Nat := 82
def K_UTCNOW : Nat := 83
def K_WHERE : Nat := 84
def K_XOR : Nat := 85
def BOOLEAN_LITERAL : Nat := 86
def IDENTIFIER : Nat := 87
def INTEGER_LITERAL : Nat := 88
def NUMERIC_LITERAL : Nat := 89
def GUID_LITERAL : Nat := 90
def MEASUREMENT_KEY_LITERAL : Nat := 91
def POINT_TAG_LITERAL : Nat := 92
def STRING_LITERAL : Nat := 93
def DATETIME_LITERAL : Nat := 94
def SINGLE_LINE_COMMENT : Nat := 95
def MULTILINE_COMMENT : Nat := 96
def SPACES : Nat := 97
def UNEXPECTED_CHAR : Nat := 98

-- Rule indices, numbered by their index in `_ruleNames`.
def RuleParse : Nat := 0
def RuleError : Nat := 1
def RuleFilterExpressionStatementList : Nat := 2
def RuleFilterExpressionStatement : Nat := 3
def RuleIdentifierStatement : Nat := 4
def RuleFilterStatement : Nat := 5
def RuleTopLimit : Nat := 6
def RuleOrderingTerm : Nat := 7
def RuleExpressionList : Nat := 8
def RuleExpression : Nat := 9
def RulePredicateExpression : Nat := 10
def RuleValueExpression : Nat := 11
def RuleNotOperator : Nat := 12
def RuleUnaryOperator : Nat := 13
def RuleExactMatchModifier : Nat := 14
def RuleComparisonOperator : Nat := 15
def RuleLogicalOperator : Nat := 16
def RuleBitwiseOperator : Nat := 17
def RuleMathOperator : Nat := 18
def RuleFunctionName : Nat := 19
def RuleFunctionExpression : Nat := 20
def RuleLiteralValue : Nat := 21
def RuleTableName : Nat := 22
def RuleColumnName : Nat := 23
def RuleOrderByColumnName : Nat := 24

/-- A token of the stream: its type and its text. -/
structure Token where
  type : Nat
  text : String
deriving DecidableEq, Repr

/-- A token of type `ty` whose text is irrelevant. -/
def tok (ty : Nat) : Token := ⟨ty, ""⟩

/-- The token stream whose types are the given list. -/
def toks (tys : List Nat) : List Token := tys.map tok

/-- The lookahead `_input->LA(k)`: the type of the `k`-th token ahead
(`k ≥ 1`), `EOF` past the end of the stream. -/
def LA (k : Nat) (input : List Token) : Nat :=
  match input.drop (k - 1) with
  | [] => EOF
  | t :: _ => t.type

/-- A parse tree: a terminal node, or a rule context with its children in
order.  A rule context is tagged with the rule index it reports through
`getRuleIndex()`. -/
inductive ParseTree where
  | terminal (symbol : Token) : ParseTree
  | rule (ruleIndex : Nat) (children : List ParseTree) : ParseTree
deriving Repr

/-- The children of a rule context (none for a terminal). -/
def ParseTree.children : ParseTree → List ParseTree
  | .terminal _ => []
  | .rule _ cs => cs

/-- Whether the node is a rule context of rule `idx`. -/
def ParseTree.isRule (idx : Nat) : ParseTree → Bool
  | .terminal _ => false
  | .rule i _ => i == idx

/-- Whether the node is a terminal of token type `ty`. -/
def ParseTree.isToken (ty : Nat) : ParseTree → Bool
  | .terminal t => t.type == ty
  | .rule _ _ => false

/-- The accessor `getRuleContexts<T>()`: the child contexts of one rule. -/
def ParseTree.getRuleContexts (idx : Nat) (t : ParseTree) : List ParseTree :=
  t.children.filter (ParseTree.isRule idx)

/-- The accessor `getToken(ty, i)` for all `i`: the child terminals of one
token type. -/
def ParseTree.getTokens (ty : Nat) (t : ParseTree) : List ParseTree :=
  t.children.filter (ParseTree.isToken ty)

/-- The exceptions a rule function can raise. -/
inductive ParseError where
  /-- The call `_errHandler->recoverInline(this)`: the lookahead does not
  match the token or token set the rule requires here. -/
  | inputMismatch : ParseError
  /-- A `NoViableAltException`: no alternative of a decision fits the
  lookahead. -/
  | noViableAlt : ParseError
  /-- A `FailedPredicateException`: a precedence predicate does not hold. -/
  | failedPredicate : ParseError
  /-- The `RuntimeException` thrown by the embedded action of rule `error`. -/
  | runtime (message : String) : ParseError
deriving DecidableEq, Repr

/-- The result of running a rule function. -/
inductive Outcome (α : Type) where
  | ok (value : α) : Outcome α
  | error (e : ParseError) : Outcome α
  | outOfFuel : Outcome α
deriving Repr

/-- Sequencing of rule functions: the first error stops the parse. -/
def Outcome.bind {α β : Type} (x : Outcome α) (f : α → Outcome β) : Outcome β :=
  match x with
  | .ok a => f a
  | .error e => .error e
  | .outOfFuel => .outOfFuel

instance : Monad Outcome where
  pure := Outcome.ok
  bind := Outcome.bind

/-- Whether a rule function returned normally. -/
def Outcome.isOk {α : Type} : Outcome α → Bool
  | .ok _ => true
  | _ => false

/-- Whether a rule function raised an exception. -/
def Outcome.isError {α : Type} : Outcome α → Bool
  | .error _ => true
  | _ => false

/-- What a rule function yields: its context and the remaining input. -/
abbrev RuleResult := Outcome (ParseTree × List Token)

/-! ## 64-bit arithmetic of the generated set tests -/

/-- Subtraction of `size_t` values `a` and `b` (both below `2^64`), wrapping
modulo `2^64`: `a - b` when that is not negative, else `a - b + 2^64`. -/
def sub64 (a b : Nat) : Nat := if b ≤ a then a - b else 2 ^ 64 - (b - a)

/-- Bitwise complement of a 64-bit value, `~ x`. -/
def not64 (x : Nat) : Nat := 2 ^ 64 - 1 - x % 2 ^ 64

/-- Left shift of a 64-bit value, `x << s`, truncated to 64 bits. -/
def shl64 (x s : Nat) : Nat := (x <<< s) % 2 ^ 64

/-- The generated membership test
`((la - offset) & ~0x3fULL) == 0 && ((1ULL << (la - offset)) & mask) != 0`.
The shift is evaluated only when the first conjunct holds. -/
def bitsetTest (la offset mask : Nat) : Bool :=
  (sub64 la offset &&& not64 0x3f) == 0 && (shl64 1 (sub64 la offset) &&& mask) != 0

/-- The bit `1ULL << (ty - offset)` of a mask. -/
def bit64 (ty offset : Nat) : Nat := shl64 1 (ty - offset)

/-! ## Matching primitives -/

/-- The runtime call `match(ttype)`: consume the next token when its type is
`ttype`, else recover inline.  At the end of the stream only `EOF` matches,
and matching it leaves the stream where it is. -/
def matchToken (ttype : Nat) (input : List Token) : RuleResult :=
  match input with
  | [] => if ttype = EOF then .ok (.terminal ⟨EOF, "<EOF>"⟩, []) else .error .inputMismatch
  | t :: rest => if t.type = ttype then .ok (.terminal t, rest) else .error .inputMismatch

/-- The generated pattern
`_la = LA(1); if (!(test)) recoverInline(this); else { reportMatch; consume(); }`.
Consuming at the end of the stream leaves the stream where it is. -/
def matchSet (test : Nat → Bool) (input : List Token) : RuleResult :=
  if test (LA 1 input) then
    match input with
    | [] => .ok (.terminal ⟨EOF, "<EOF>"⟩, [])
    | t :: rest => .ok (.terminal t, rest)
  else .error .inputMismatch

/-- An optional sub-rule `if (guard) { rule(); }`: the children it adds. -/
def optional (guard : Bool) (rule : List Token → RuleResult) (input : List Token) :
    Outcome (List ParseTree × List Token) :=
  if guard then
    match rule input with
    | .ok (t, rest) => .ok ([t], rest)
    | .error e => .error e
    | .outOfFuel => .outOfFuel
  else .ok ([], input)

/-- The runtime predicate `precpred(_ctx, k)`: `k` is at least the precedence
on top of the precedence stack, which inside `rule(int precedence)` is
`precedence`. -/
def precpred (precedence k : Nat) : Bool := decide (k ≥ precedence)

/-! ## Token sets of the generated tests -/

/-- The set test of `identifierStatement`. -/
def identifierStatementSet (la : Nat) : Bool :=
  bitsetTest la 90
    (bit64 GUID_LITERAL 90 ||| bit64 MEASUREMENT_KEY_LITERAL 90 ||| bit64 POINT_TAG_LITERAL 90)

/-- The set test of `topLimit` for the optional sign. -/
def signSet (la : Nat) : Bool := la == T__2 || la == T__3

/-- The set test of `orderingTerm` for the optional direction. -/
def directionSet (la : Nat) : Bool := la == K_ASC || la == K_DESC

/-- The set test of `notOperator`. -/
def notOperatorSet (la : Nat) : Bool := la == T__6 || la == K_NOT

/-- The set test of `unaryOperator`. -/
def unaryOperatorSet (la : Nat) : Bool :=
  bitsetTest la 0
    (bit64 T__2 0 ||| bit64 T__3 0 ||| bit64 T__6 0 ||| bit64 T__7 0 ||| bit64 K_NOT 0)

/-- The set test of `exactMatchModifier`. -/
def exactMatchModifierSet (la : Nat) : Bool := la == T__8 || la == K_BINARY

/-- The set test of `comparisonOperator`. -/
def comparisonOperatorSet (la : Nat) : Bool :=
  bitsetTest la 0
    (bit64 T__8 0 ||| bit64 T__9 0 ||| bit64 T__10 0 ||| bit64 T__11 0 ||| bit64 T__12 0
      ||| bit64 T__13 0 ||| bit64 T__14 0 ||| bit64 T__15 0 ||| bit64 T__16 0 ||| bit64 T__17 0)

/-- The set test of `logicalOperator`. -/
def logicalOperatorSet (la : Nat) : Bool :=
  bitsetTest la 19
    (bit64 T__18 19 ||| bit64 T__19 19 ||| bit64 K_AND 19 ||| bit64 K_OR 19)

/-- The set test of `bitwiseOperator`. -/
def bitwiseOperatorSet (la : Nat) : Bool :=
  bitsetTest la 0
    (bit64 T__20 0 ||| bit64 T__21 0 ||| bit64 T__22 0 ||| bit64 T__23 0 ||| bit64 T__24 0)
    || la == K_XOR

/-- The set test of `mathOperator`. -/
def mathOperatorSet (la : Nat) : Bool :=
  bitsetTest la 0
    (bit64 T__2 0 ||| bit64 T__3 0 ||| bit64 T__25 0 ||| bit64 T__26 0 ||| bit64 T__27 0)

/-- The mask of the set test of `functionName`, bits relative to 29. -/
def functionNameMask : Nat :=
  bit64 K_ABS 29 ||| bit64 K_CEILING 29 ||| bit64 K_COALESCE 29 ||| bit64 K_CONVERT 29
    ||| bit64 K_CONTAINS 29 ||| bit64 K_DATEADD 29 ||| bit64 K_DATEDIFF 29
    ||| bit64 K_DATEPART 29 ||| bit64 K_ENDSWITH 29 ||| bit64 K_FLOOR 29 ||| bit64 K_IIF 29
    ||| bit64 K_INDEXOF 29 ||| bit64 K_ISDATE 29 ||| bit64 K_ISINTEGER 29 ||| bit64 K_ISGUID 29
    ||| bit64 K_ISNULL 29 ||| bit64 K_ISNUMERIC 29 ||| bit64 K_LASTINDEXOF 29 ||| bit64 K_LEN 29
    ||| bit64 K_LOWER 29 ||| bit64 K_MAXOF 29 ||| bit64 K_MINOF 29 ||| bit64 K_NOW 29
    ||| bit64 K_NTHINDEXOF 29 ||| bit64 K_POWER 29 ||| bit64 K_REGEXMATCH 29
    ||| bit64 K_REGEXVAL 29 ||| bit64 K_REPLACE 29 ||| bit64 K_REVERSE 29 ||| bit64 K_ROUND 29
    ||| bit64 K_SQRT 29 ||| bit64 K_SPLIT 29 ||| bit64 K_STARTSWITH 29 ||| bit64 K_STRCOUNT 29
    ||| bit64 K_STRCMP 29 ||| bit64 K_SUBSTR 29 ||| bit64 K_TRIM 29 ||| bit64 K_TRIMLEFT 29
    ||| bit64 K_TRIMRIGHT 29 ||| bit64 K_UPPER 29 ||| bit64 K_UTCNOW 29

/-- The set test of `functionName`. -/
def functionNameSet (la : Nat) : Bool := bitsetTest la 29 functionNameMask

/-- The set test of `literalValue`. -/
def literalValueSet (la : Nat) : Bool :=
  bitsetTest la 63
    (bit64 K_NULL 63 ||| bit64 BOOLEAN_LITERAL 63 ||| bit64 INTEGER_LITERAL 63
      ||| bit64 NUMERIC_LITERAL 63 ||| bit64 GUID_LITERAL 63 ||| bit64 STRING_LITERAL 63
      ||| bit64 DATETIME_LITERAL 63)

/-- The first mask of the test in `functionExpression` that guards
`expressionList`, bits relative to 0. -/
def expressionListMaskLow : Nat :=
  bit64 T__2 0 ||| bit64 T__3 0 ||| bit64 T__4 0 ||| bit64 T__6 0 ||| bit64 T__7 0
    ||| bit64 K_ABS 0 ||| bit64 K_CEILING 0 ||| bit64 K_COALESCE 0 ||| bit64 K_CONVERT 0
    ||| bit64 K_CONTAINS 0 ||| bit64 K_DATEADD 0 ||| bit64 K_DATEDIFF 0 ||| bit64 K_DATEPART 0
    ||| bit64 K_ENDSWITH 0 ||| bit64 K_FLOOR 0 ||| bit64 K_IIF 0 ||| bit64 K_INDEXOF 0
    ||| bit64 K_ISDATE 0 ||| bit64 K_ISINTEGER 0 ||| bit64 K_ISGUID 0 ||| bit64 K_ISNULL 0
    ||| bit64 K_ISNUMERIC 0 ||| bit64 K_LASTINDEXOF 0 ||| bit64 K_LEN 0 ||| bit64 K_LOWER 0
    ||| bit64 K_MAXOF 0 ||| bit64 K_MINOF 0 ||| bit64 K_NOT 0 ||| bit64 K_NOW 0
    ||| bit64 K_NTHINDEXOF 0 ||| bit64 K_NULL 0

/-- The second mask of the test in `functionExpression` that guards
`expressionList`, bits relative to 66. -/
def expressionListMaskHigh : Nat :=
  bit64 K_POWER 66 ||| bit64 K_REGEXMATCH 66 ||| bit64 K_REGEXVAL 66 ||| bit64 K_REPLACE 66
    ||| bit64 K_REVERSE 66 ||| bit64 K_ROUND 66 ||| bit64 K_SQRT 66 ||| bit64 K_SPLIT 66
    ||| bit64 K_STARTSWITH 66 ||| bit64 K_STRCOUNT 66 ||| bit64 K_STRCMP 66 ||| bit64 K_SUBSTR 66
    ||| bit64 K_TRIM 66 ||| bit64 K_TRIMLEFT 66 ||| bit64 K_TRIMRIGHT 66 ||| bit64 K_UPPER 66
    ||| bit64 K_UTCNOW 66 ||| bit64 BOOLEAN_LITERAL 66 ||| bit64 IDENTIFIER 66
    ||| bit64 INTEGER_LITERAL 66 ||| bit64 NUMERIC_LITERAL 66 ||| bit64 GUID_LITERAL 66
    ||| bit64 STRING_LITERAL 66 ||| bit64 DATETIME_LITERAL 66

/-- The test in `functionExpression` that guards `expressionList`. -/
def expressionListGuard (la : Nat) : Bool :=
  bitsetTest la 0 expressionListMaskLow || bitsetTest la 66 expressionListMaskHigh

/-- The `case` labels of `valueExpression` that lead to `literalValue`. -/
def literalValueCases : List Nat :=
  [K_NULL, BOOLEAN_LITERAL, INTEGER_LITERAL, NUMERIC_LITERAL, GUID_LITERAL, STRING_LITERAL,
    DATETIME_LITERAL]

/-- The `case` labels of `valueExpression` that lead to `functionExpression`. -/
def functionExpressionCases : List Nat :=
  [K_ABS, K_CEILING, K_COALESCE, K_CONVERT, K_CONTAINS, K_DATEADD, K_DATEDIFF, K_DATEPART,
    K_ENDSWITH, K_FLOOR, K_IIF, K_INDEXOF, K_ISDATE, K_ISINTEGER, K_ISGUID, K_ISNULL,
    K_ISNUMERIC, K_LASTINDEXOF, K_LEN, K_LOWER, K_MAXOF, K_MINOF, K_NOW, K_NTHINDEXOF, K_POWER,
    K_REGEXMATCH, K_REGEXVAL, K_REPLACE, K_REVERSE, K_ROUND, K_SQRT, K_SPLIT, K_STARTSWITH,
    K_STRCOUNT, K_STRCMP, K_SUBSTR, K_TRIM, K_TRIMLEFT, K_TRIMRIGHT, K_UPPER, K_UTCNOW]

/-- The `case` labels of `valueExpression` that lead to `unaryOperator`. -/
def unaryOperatorCases : List Nat := [T__2, T__3, T__6, T__7, K_NOT]

/-- The `case` labels of `parse` that lead to `filterExpressionStatementList`. -/
def statementListCases : List Nat :=
  [T__0, T__2, T__3, T__4, T__6, T__7, K_ABS, K_CEILING, K_COALESCE, K_CONVERT, K_CONTAINS,
    K_DATEADD, K_DATEDIFF, K_DATEPART, K_ENDSWITH, K_FILTER, K_FLOOR, K_IIF, K_INDEXOF,
    K_ISDATE, K_ISINTEGER, K_ISGUID, K_ISNULL, K_ISNUMERIC, K_LASTINDEXOF, K_LEN, K_LOWER,
    K_MAXOF, K_MINOF, K_NOT, K_NOW, K_NTHINDEXOF, K_NULL, K_POWER, K_REGEXMATCH, K_REGEXVAL,
    K_REPLACE, K_REVERSE, K_ROUND, K_SQRT, K_SPLIT, K_STARTSWITH, K_STRCOUNT, K_STRCMP,
    K_SUBSTR, K_TRIM, K_TRIMLEFT, K_TRIMRIGHT, K_UPPER, K_UTCNOW, BOOLEAN_LITERAL, IDENTIFIER,
    INTEGER_LITERAL, NUMERIC_LITERAL, GUID_LITERAL, MEASUREMENT_KEY_LITERAL, POINT_TAG_LITERAL,
    STRING_LITERAL, DATETIME_LITERAL]

/-! ## Rules without recursion -/

/-- Rule `identifierStatement`. -/
def identifierStatement (input : List Token) : RuleResult := do
  let (t, rest) ← matchSet identifierStatementSet input
  pure (.rule RuleIdentifierStatement [t], rest)

/-- Rule `topLimit`. -/
def topLimit (input : List Token) : RuleResult := do
  let (sign, r1) ← optional (LA 1 input == T__2 || LA 1 input == T__3) (matchSet signSet) input
  let (count, r2) ← matchToken INTEGER_LITERAL r1
  pure (.rule RuleTopLimit (sign ++ [count]), r2)

/-- Rule `notOperator`. -/
def notOperator (input : List Token) : RuleResult := do
  let (t, rest) ← matchSet notOperatorSet input
  pure (.rule RuleNotOperator [t], rest)

/-- Rule `unaryOperator`. -/
def unaryOperator (input : List Token) : RuleResult := do
  let (t, rest) ← matchSet unaryOperatorSet input
  pure (.rule RuleUnaryOperator [t], rest)

/-- Rule `exactMatchModifier`. -/
def exactMatchModifier (input : List Token) : RuleResult := do
  let (t, rest) ← matchSet exactMatchModifierSet input
  pure (.rule RuleExactMatchModifier [t], rest)

/-- Rule `comparisonOperator`. -/
def comparisonOperator (input : List Token) : RuleResult := do
  let (t, rest) ← matchSet comparisonOperatorSet input
  pure (.rule RuleComparisonOperator [t], rest)

/-- Rule `logicalOperator`. -/
def logicalOperator (input : List Token) : RuleResult := do
  let (t, rest) ← matchSet logicalOperatorSet input
  pure (.rule RuleLogicalOperator [t], rest)

/-- Rule `bitwiseOperator`. -/
def bitwiseOperator (input : List Token) : RuleResult := do
  let (t, rest) ← matchSet bitwiseOperatorSet input
  pure (.rule RuleBitwiseOperator [t], rest)

/-- Rule `mathOperator`. -/
def mathOperator (input : List Token) : RuleResult := do
  let (t, rest) ← matchSet mathOperatorSet input
  pure (.rule RuleMathOperator [t], rest)

/-- Rule `functionName`. -/
def functionName (input : List Token) : RuleResult := do
  let (t, rest) ← matchSet functionNameSet input
  pure (.rule RuleFunctionName [t], rest)

/-- Rule `literalValue`. -/
def literalValue (input : List Token) : RuleResult := do
  let (t, rest) ← matchSet literalValueSet input
  pure (.rule RuleLiteralValue [t], rest)

/-- Rule `tableName`. -/
def tableName (input : List Token) : RuleResult := do
  let (t, rest) ← matchToken IDENTIFIER input
  pure (.rule RuleTableName [t], rest)

/-- Rule `columnName`. -/
def columnName (input : List Token) : RuleResult := do
  let (t, rest) ← matchToken IDENTIFIER input
  pure (.rule RuleColumnName [t], rest)

/-- Rule `orderByColumnName`. -/
def orderByColumnName (input : List Token) : RuleResult := do
  let (t, rest) ← matchToken IDENTIFIER input
  pure (.rule RuleOrderByColumnName [t], rest)

/-- Rule `orderingTerm`. -/
def orderingTerm (input : List Token) : RuleResult := do
  let (modifier, r1) ←
    optional (LA 1 input == T__8 || LA 1 input == K_BINARY) exactMatchModifier input
  let (column, r2) ← orderByColumnName r1
  let (direction, r3) ←
    optional (LA 1 r2 == K_ASC || LA 1 r2 == K_DESC) (matchSet directionSet) r2
  pure (.rule RuleOrderingTerm (modifier ++ [column] ++ direction), r3)

/-- Rule `error`: after matching `UNEXPECTED_CHAR` its action throws a
`RuntimeException` that quotes the text of the token. -/
def error (input : List Token) : RuleResult :=
  match matchToken UNEXPECTED_CHAR input with
  | .ok (.terminal t, _) => .error (.runtime ("Unexpected character: " ++ t.text))
  | .ok (.rule _ _, _) => .error (.runtime "Unexpected character: ")
  | .error e => .error e
  | .outOfFuel => .outOfFuel

/-! ## Prediction -/

/-- Tokens with which a `valueExpression` can begin: the `case` labels of its
`switch`. -/
def startsValueExpression (la : Nat) : Bool :=
  literalValueCases.contains la || la == IDENTIFIER || functionExpressionCases.contains la
    || unaryOperatorCases.contains la || la == T__4

/-- Tokens with which an `expression` can begin. -/
def startsExpression (la : Nat) : Bool := notOperatorSet la || startsValueExpression la

/-- Tokens with which a `filterExpressionStatement` can begin. -/
def startsStatement (la : Nat) : Bool :=
  identifierStatementSet la || la == K_FILTER || startsExpression la

/-- Tokens that can continue an expression directly after a complete value:
a binary operator of `valueExpression`, `predicateExpression` or
`expression`, or the `notOperator` that opens `NOT LIKE` and `NOT IN`. -/
def continuesExpression (la : Nat) : Bool :=
  mathOperatorSet la || bitwiseOperatorSet la || comparisonOperatorSet la || notOperatorSet la
    || la == K_LIKE || la == K_IN || la == K_IS || logicalOperatorSet la

/-- Whether the lookahead opens the `LIKE` alternative of
`predicateExpression`: `K_LIKE`, or a `notOperator` token before `K_LIKE`. -/
def likeAhead (input : List Token) : Bool :=
  LA 1 input == K_LIKE || (notOperatorSet (LA 1 input) && LA 2 input == K_LIKE)

/-- Whether the lookahead opens the `IN` alternative of
`predicateExpression`: `K_IN`, or a `notOperator` token before `K_IN`. -/
def inAhead (input : List Token) : Bool :=
  LA 1 input == K_IN || (notOperatorSet (LA 1 input) && LA 2 input == K_IN)

/-- Modelled from the spec: `ParserATNSimulator::adaptivePredict` of the ANTLR
runtime, which is not among the sources.  The generated parser calls it at
eight decisions; for each one the alternative returned is the one that
LL prediction over the grammar of the parser yields (the grammar is the one
the rule functions implement and section 6 of the specification lists),
with ANTLR's resolution of an ambiguity to the lowest alternative and with a
precedence predicate evaluated against the precedence of the running rule
invocation.  `none` stands for a `NoViableAltException`.

* 3: the loop `(';'+ filterExpressionStatement)*` of
  `filterExpressionStatementList`; 1 enters the loop, 2 leaves it.  A run of
  `';'` is followed by another statement or by the end of the list.
* 5: the alternatives of `filterExpressionStatement`.  A `GUID_LITERAL`
  begins both an identifier statement and an expression; the token after it
  decides, and where both fit the lowest alternative wins.
* 13: the prefix of `expression`; 1 is `notOperator expression`, 2 is
  `predicateExpression`.  A `notOperator` token fits both (it is also a
  unary operator), so 1 wins.
* 14: the loop of `expression` over `logicalOperator expression`.
* 21 and 20: the loop of `predicateExpression` and the choice among its four
  operator alternatives.
* 24 and 23: the loop of `valueExpression` and the choice between its two
  operator alternatives. -/
def adaptivePredict (decision precedence : Nat) (input : List Token) : Option Nat :=
  if decision = 3 then
    if LA 1 input == T__0 then
      if startsStatement (LA 1 (input.dropWhile (fun t => t.type == T__0))) then some 1
      else some 2
    else some 2
  else if decision = 5 then
    if LA 1 input == MEASUREMENT_KEY_LITERAL || LA 1 input == POINT_TAG_LITERAL then some 1
    else if LA 1 input == GUID_LITERAL then
      if continuesExpression (LA 2 input) then some 3 else some 1
    else if LA 1 input == K_FILTER then some 2
    else if startsExpression (LA 1 input) then some 3
    else none
  else if decision = 13 then
    if notOperatorSet (LA 1 input) then some 1
    else if startsValueExpression (LA 1 input) then some 2
    else none
  else if decision = 14 then
    if logicalOperatorSet (LA 1 input) && precpred precedence 2 then some 1 else some 2
  else if decision = 20 then
    if comparisonOperatorSet (LA 1 input) && precpred precedence 3 then some 1
    else if likeAhead input && precpred precedence 2 then some 2
    else if inAhead input && precpred precedence 5 then some 3
    else if LA 1 input == K_IS && precpred precedence 4 then some 4
    else none
  else if decision = 21 then
    if (comparisonOperatorSet (LA 1 input) && precpred precedence 3)
        || (likeAhead input && precpred precedence 2)
        || (inAhead input && precpred precedence 5)
        || (LA 1 input == K_IS && precpred precedence 4) then some 1
    else some 2
  else if decision = 23 then
    if mathOperatorSet (LA 1 input) && precpred precedence 2 then some 1
    else if bitwiseOperatorSet (LA 1 input) && precpred precedence 1 then some 2
    else none
  else if decision = 24 then
    if (mathOperatorSet (LA 1 input) && precpred precedence 2)
        || (bitwiseOperatorSet (LA 1 input) && precpred precedence 1) then some 1
    else some 2
  else none

/-- The invalid alternative number `atn::ATN::INVALID_ALT_NUMBER`. -/
def INVALID_ALT_NUMBER : Nat := 0

/-! ## The recursive rules -/

mutual

/-- Rule `expressionList`. -/
def expressionList (fuel : Nat) (input : List Token) : RuleResult :=
  match fuel with
  | 0 => .outOfFuel
  | fuel + 1 => do
    let (first, r1) ← expression fuel 0 input
    let (more, r2) ← expressionListLoop fuel r1
    pure (.rule RuleExpressionList (first :: more), r2)
termination_by structural fuel

/-- The loop `while (_la == T__1) { match(T__1); expression(0); }` of
`expressionList`: the children it adds. -/
def expressionListLoop (fuel : Nat) (input : List Token) :
    Outcome (List ParseTree × List Token) :=
  match fuel with
  | 0 => .outOfFuel
  | fuel + 1 =>
    if LA 1 input == T__1 then do
      let (comma, r1) ← matchToken T__1 input
      let (e, r2) ← expression fuel 0 r1
      let (more, r3) ← expressionListLoop fuel r2
      pure (comma :: e :: more, r3)
    else pure ([], input)
termination_by structural fuel

/-- Rule `expression(int precedence)`. -/
def expression (fuel precedence : Nat) (input : List Token) : RuleResult :=
  match fuel with
  | 0 => .outOfFuel
  | fuel + 1 =>
    match adaptivePredict 13 precedence input with
    | none => .error .noViableAlt
    | some 1 => do
      let (n, r1) ← notOperator input
      let (e, r2) ← expression fuel 3 r1
      expressionLoop fuel precedence (.rule RuleExpression [n, e]) r2
    | some 2 => do
      let (p, r1) ← predicateExpression fuel 0 input
      expressionLoop fuel precedence (.rule RuleExpression [p]) r1
    | some _ => expressionLoop fuel precedence (.rule RuleExpression []) input
termination_by structural fuel

/-- The loop of `expression` on decision 14; `localctx` is the context built
so far, which `pushNewRecursionContext` makes the first child of the new
context. -/
def expressionLoop (fuel precedence : Nat) (localctx : ParseTree) (input : List Token) :
    RuleResult :=
  match fuel with
  | 0 => .outOfFuel
  | fuel + 1 =>
    match adaptivePredict 14 precedence input with
    | none => .error .noViableAlt
    | some alt =>
      if alt != 2 && alt != INVALID_ALT_NUMBER then
        if alt == 1 then
          if !precpred precedence 2 then .error .failedPredicate
          else do
            let (op, r1) ← logicalOperator input
            let (rhs, r2) ← expression fuel 3 r1
            expressionLoop fuel precedence (.rule RuleExpression [localctx, op, rhs]) r2
        else expressionLoop fuel precedence localctx input
      else pure (localctx, input)
termination_by structural fuel

/-- Rule `predicateExpression(int precedence)`. -/
def predicateExpression (fuel precedence : Nat) (input : List Token) : RuleResult :=
  match fuel with
  | 0 => .outOfFuel
  | fuel + 1 => do
    let (v, r1) ← valueExpression fuel 0 input
    predicateExpressionLoop fuel precedence (.rule RulePredicateExpression [v]) r1
termination_by structural fuel

/-- The loop of `predicateExpression` on decision 21, with the choice of the
operator alternative on decision 20. -/
def predicateExpressionLoop (fuel precedence : Nat) (localctx : ParseTree)
    (input : List Token) : RuleResult :=
  match fuel with
  | 0 => .outOfFuel
  | fuel + 1 =>
    match adaptivePredict 21 precedence input with
    | none => .error .noViableAlt
    | some alt =>
      if alt != 2 && alt != INVALID_ALT_NUMBER then
        if alt == 1 then
          match adaptivePredict 20 precedence input with
          | none => .error .noViableAlt
          | some 1 =>
            if !precpred precedence 3 then .error .failedPredicate
            else do
              let (op, r1) ← comparisonOperator input
              let (rhs, r2) ← predicateExpression fuel 4 r1
              predicateExpressionLoop fuel precedence
                (.rule RulePredicateExpression [localctx, op, rhs]) r2
          | some 2 =>
            if !precpred precedence 2 then .error .failedPredicate
            else do
              let (n, r1) ← optional (LA 1 input == T__6 || LA 1 input == K_NOT) notOperator input
              let (like, r2) ← matchToken K_LIKE r1
              let (m, r3) ← optional (LA 1 r2 == T__8 || LA 1 r2 == K_BINARY) exactMatchModifier r2
              let (rhs, r4) ← predicateExpression fuel 3 r3
              predicateExpressionLoop fuel precedence
                (.rule RulePredicateExpression ([localctx] ++ n ++ [like] ++ m ++ [rhs])) r4
          | some 3 =>
            if !precpred precedence 5 then .error .failedPredicate
            else do
              let (n, r1) ← optional (LA 1 input == T__6 || LA 1 input == K_NOT) notOperator input
              let (kin, r2) ← matchToken K_IN r1
              let (m, r3) ← optional (LA 1 r2 == T__8 || LA 1 r2 == K_BINARY) exactMatchModifier r2
              let (lp, r4) ← matchToken T__4 r3
              let (list, r5) ← expressionList fuel r4
              let (rp, r6) ← matchToken T__5 r5
              predicateExpressionLoop fuel precedence
                (.rule RulePredicateExpression ([localctx] ++ n ++ [kin] ++ m ++ [lp, list, rp])) r6
          | some 4 =>
            if !precpred precedence 4 then .error .failedPredicate
            else do
              let (is, r1) ← matchToken K_IS input
              let (n, r2) ← optional (LA 1 r1 == T__6 || LA 1 r1 == K_NOT) notOperator r1
              let (null, r3) ← matchToken K_NULL r2
              predicateExpressionLoop fuel precedence
                (.rule RulePredicateExpression ([localctx, is] ++ n ++ [null])) r3
          | some _ => predicateExpressionLoop fuel precedence localctx input
        else predicateExpressionLoop fuel precedence localctx input
      else pure (localctx, input)
termination_by structural fuel

/-- Rule `valueExpression(int precedence)`. -/
def valueExpression (fuel precedence : Nat) (input : List Token) : RuleResult :=
  match fuel with
  | 0 => .outOfFuel
  | fuel + 1 =>
    if literalValueCases.contains (LA 1 input) then do
      let (l, r1) ← literalValue input
      valueExpressionLoop fuel precedence (.rule RuleValueExpression [l]) r1
    else if LA 1 input == IDENTIFIER then do
      let (c, r1) ← columnName input
      valueExpressionLoop fuel precedence (.rule RuleValueExpression [c]) r1
    else if functionExpressionCases.contains (LA 1 input) then do
      let (f, r1) ← functionExpression fuel input
      valueExpressionLoop fuel precedence (.rule RuleValueExpression [f]) r1
    else if unaryOperatorCases.contains (LA 1 input) then do
      let (u, r1) ← unaryOperator input
      let (v, r2) ← valueExpression fuel 4 r1
      valueExpressionLoop fuel precedence (.rule RuleValueExpression [u, v]) r2
    else if LA 1 input == T__4 then do
      let (lp, r1) ← matchToken T__4 input
      let (e, r2) ← expression fuel 0 r1
      let (rp, r3) ← matchToken T__5 r2
      valueExpressionLoop fuel precedence (.rule RuleValueExpression [lp, e, rp]) r3
    else .error .noViableAlt
termination_by structural fuel

/-- The loop of `valueExpression` on decision 24, with the choice of the
operator alternative on decision 23. -/
def valueExpressionLoop (fuel precedence : Nat) (localctx : ParseTree) (input : List Token) :
    RuleResult :=
  match fuel with
  | 0 => .outOfFuel
  | fuel + 1 =>
    match adaptivePredict 24 precedence input with
    | none => .error .noViableAlt
    | some alt =>
      if alt != 2 && alt != INVALID_ALT_NUMBER then
        if alt == 1 then
          match adaptivePredict 23 precedence input with
          | none => .error .noViableAlt
          | some 1 =>
            if !precpred precedence 2 then .error .failedPredicate
            else do
              let (op, r1) ← mathOperator input
              let (rhs, r2) ← valueExpression fuel 3 r1
              valueExpressionLoop fuel precedence
                (.rule RuleValueExpression [localctx, op, rhs]) r2
          | some 2 =>
            if !precpred precedence 1 then .error .failedPredicate
            else do
              let (op, r1) ← bitwiseOperator input
              let (rhs, r2) ← valueExpression fuel 2 r1
              valueExpressionLoop fuel precedence
                (.rule RuleValueExpression [localctx, op, rhs]) r2
          | some _ => valueExpressionLoop fuel precedence localctx input
        else valueExpressionLoop fuel precedence localctx input
      else pure (localctx, input)
termination_by structural fuel

/-- Rule `functionExpression`. -/
def functionExpression (fuel : Nat) (input : List Token) : RuleResult :=
  match fuel with
  | 0 => .outOfFuel
  | fuel + 1 => do
    let (name, r1) ← functionName input
    let (lp, r2) ← matchToken T__4 r1
    let (args, r3) ← optional (expressionListGuard (LA 1 r2)) (expressionList fuel) r2
    let (rp, r4) ← matchToken T__5 r3
    pure (.rule RuleFunctionExpression ([name, lp] ++ args ++ [rp]), r4)

termination_by structural fuel

end

/-! ## Statements -/

/-- The loop `while (_la == T__1) { match(T__1); orderingTerm(); }` of
`filterStatement`: the children it adds. -/
def orderingTermLoop (fuel : Nat) (input : List Token) :
    Outcome (List ParseTree × List Token) :=
  match fuel with
  | 0 => .outOfFuel
  | fuel + 1 =>
    if LA 1 input == T__1 then do
      let (comma, r1) ← matchToken T__1 input
      let (term, r2) ← orderingTerm r1
      let (more, r3) ← orderingTermLoop fuel r2
      pure (comma :: term :: more, r3)
    else pure ([], input)

/-- The block `if (_la == K_TOP) { match(K_TOP); topLimit(); }` of
`filterStatement`: the children it adds. -/
def topClause (input : List Token) : Outcome (List ParseTree × List Token) :=
  if LA 1 input == K_TOP then do
    let (top, r1) ← matchToken K_TOP input
    let (limit, r2) ← topLimit r1
    pure ([top, limit], r2)
  else pure ([], input)

/-- The block `if (_la == K_ORDER) { ... }` of `filterStatement`: the
children it adds. -/
def orderByClause (fuel : Nat) (input : List Token) : Outcome (List ParseTree × List Token) :=
  if LA 1 input == K_ORDER then do
    let (order, r1) ← matchToken K_ORDER input
    let (by_, r2) ← matchToken K_BY r1
    let (term, r3) ← orderingTerm r2
    let (more, r4) ← orderingTermLoop fuel r3
    pure ([order, by_, term] ++ more, r4)
  else pure ([], input)

/-- Rule `filterStatement`. -/
def filterStatement (fuel : Nat) (input : List Token) : RuleResult := do
  let (filter, r1) ← matchToken K_FILTER input
  let (top, r2) ← topClause r1
  let (table, r3) ← tableName r2
  let (where_, r4) ← matchToken K_WHERE r3
  let (e, r5) ← expression fuel 0 r4
  let (orderBy, r6) ← orderByClause fuel r5
  pure (.rule RuleFilterStatement ([filter] ++ top ++ [table, where_, e] ++ orderBy), r6)

/-- Rule `filterExpressionStatement`. -/
def filterExpressionStatement (fuel : Nat) (input : List Token) : RuleResult :=
  match adaptivePredict 5 0 input with
  | none => .error .noViableAlt
  | some 1 => do
    let (s, r1) ← identifierStatement input
    pure (.rule RuleFilterExpressionStatement [s], r1)
  | some 2 => do
    let (s, r1) ← filterStatement fuel input
    pure (.rule RuleFilterExpressionStatement [s], r1)
  | some 3 => do
    let (s, r1) ← expression fuel 0 input
    pure (.rule RuleFilterExpressionStatement [s], r1)
  | some _ => pure (.rule RuleFilterExpressionStatement [], input)

/-- The loop `while (_la == T__0) { match(T__0); }`: the terminals it adds
and the input after the run of `';'`. -/
def semicolons : List Token → List ParseTree × List Token
  | [] => ([], [])
  | t :: rest =>
    if t.type == T__0 then ((semicolons rest).1.cons (.terminal t), (semicolons rest).2)
    else ([], t :: rest)

/-- The loop `do { match(T__0); } while (_la == T__0);`: the terminals it
adds. -/
def semicolonsPlus (input : List Token) : Outcome (List ParseTree × List Token) := do
  let (first, r1) ← matchToken T__0 input
  pure (first :: (semicolons r1).1, (semicolons r1).2)

/-- The loop of `filterExpressionStatementList` on decision 3: the children
it adds. -/
def statementListLoop (fuel : Nat) (input : List Token) :
    Outcome (List ParseTree × List Token) :=
  match fuel with
  | 0 => .outOfFuel
  | fuel + 1 =>
    match adaptivePredict 3 0 input with
    | none => .error .noViableAlt
    | some alt =>
      if alt != 2 && alt != INVALID_ALT_NUMBER then
        if alt == 1 then do
          let (semis, r1) ← semicolonsPlus input
          let (s, r2) ← filterExpressionStatement fuel r1
          let (more, r3) ← statementListLoop fuel r2
          pure (semis ++ s :: more, r3)
        else statementListLoop fuel input
      else pure ([], input)

/-- Rule `filterExpressionStatementList`. -/
def filterExpressionStatementList (fuel : Nat) (input : List Token) : RuleResult := do
  let (s, r1) ← filterExpressionStatement fuel (semicolons input).2
  let (more, r2) ← statementListLoop fuel r1
  pure (.rule RuleFilterExpressionStatementList
    ((semicolons input).1 ++ s :: more ++ (semicolons r2).1), (semicolons r2).2)

/-- Rule `parse`, the start rule. -/
def parse (fuel : Nat) (input : List Token) : RuleResult :=
  if statementListCases.contains (LA 1 input) then do
    let (list, r1) ← filterExpressionStatementList fuel input
    let (eof, r2) ← matchToken EOF r1
    pure (.rule RuleParse [list, eof], r2)
  else if LA 1 input == UNEXPECTED_CHAR then do
    let (e, r1) ← error input
    let (eof, r2) ← matchToken EOF r1
    pure (.rule RuleParse [e, eof], r2)
  else .error .noViableAlt

/-- Whether `parse` accepts the input with the given fuel: it returns
without reporting an error. -/
def accepts (fuel : Nat) (input : List Token) : Bool := (parse fuel input).isOk

/-- Whether `parse` rejects the input with the given fuel: an exception is
raised. -/
def rejects (fuel : Nat) (input : List Token) : Bool := (parse fuel input).isError

/-- The dispatcher `sempred`: the precedence predicate numbered
`predicateIndex` of rule `ruleIndex`, evaluated for a rule invocation
running at `precedence`. -/
def sempred (precedence ruleIndex predicateIndex : Nat) : Bool :=
  match ruleIndex with
  | 9 =>
    match predicateIndex with
    | 0 => precpred precedence 2
    | _ => true
  | 10 =>
    match predicateIndex with
    | 1 => precpred precedence 3
    | 2 => precpred precedence 2
    | 3 => precpred precedence 5
    | 4 => precpred precedence 4
    | _ => true
  | 11 =>
    match predicateIndex with
    | 5 => precpred precedence 2
    | 6 => precpred precedence 1
    | _ => true
  | _ => true

/-! ## Predicates used in the statements of the theorems -/

/-- Token types that the rules from `expression` downwards never test for
and never match: `';'`, `K_ORDER`, `K_TOP` and `EOF`.  An expression that is
followed by one of them is parsed without regard to what follows. -/
def inert (ty : Nat) : Bool := ty == T__0 || ty == K_ORDER || ty == K_TOP || ty == EOF

/-- Token types that end a statement: `';'` and `EOF`. -/
def terminator (ty : Nat) : Bool := ty == T__0 || ty == EOF

/-- The next token of `t` has a type in the set `I`. -/
def HeadIn (I : Nat → Bool) (t : List Token) : Prop := I (LA 1 t) = true

/-- The relation between a run `x` of a rule on `u ++ t` and a run `y` of it
on `u ++ t'`: when `x` returns normally it has consumed a prefix `c` of `u`
and left `u' ++ t`, and `y` returns the same context, having consumed the same
prefix. -/
def Rel {α : Type} (t t' u : List Token) (x y : Outcome (α × List Token)) : Prop :=
  ∀ res a', x = .ok (res, a') →
    ∃ c u', u = c ++ u' ∧ a' = u' ++ t ∧ y = .ok (res, u' ++ t')

/-- The recursive rules run with fuel `n` on inputs ending in `t` are
simulated by the same rules run with any fuel `m ≥ n` on inputs ending
in `t'`. -/
structure AllSim (t t' : List Token) (n : Nat) : Prop where
  exprList : ∀ m u, n ≤ m →
    Rel t t' u (expressionList n (u ++ t)) (expressionList m (u ++ t'))
  exprListLoop : ∀ m u, n ≤ m →
    Rel t t' u (expressionListLoop n (u ++ t)) (expressionListLoop m (u ++ t'))
  expr : ∀ m p u, n ≤ m →
    Rel t t' u (expression n p (u ++ t)) (expression m p (u ++ t'))
  exprLoop : ∀ m p ctx u, n ≤ m →
    Rel t t' u (expressionLoop n p ctx (u ++ t)) (expressionLoop m p ctx (u ++ t'))
  pred : ∀ m p u, n ≤ m →
    Rel t t' u (predicateExpression n p (u ++ t)) (predicateExpression m p (u ++ t'))
  predLoop : ∀ m p ctx u, n ≤ m →
    Rel t t' u (predicateExpressionLoop n p ctx (u ++ t))
      (predicateExpressionLoop m p ctx (u ++ t'))
  value : ∀ m p u, n ≤ m →
    Rel t t' u (valueExpression n p (u ++ t)) (valueExpression m p (u ++ t'))
  valueLoop : ∀ m p ctx u, n ≤ m →
    Rel t t' u (valueExpressionLoop n p ctx (u ++ t)) (valueExpressionLoop m p ctx (u ++ t'))
  func : ∀ m u, n ≤ m →
    Rel t t' u (functionExpression n (u ++ t)) (functionExpression m (u ++ t'))

/-- The run `y` (with more fuel) agrees with the run `x` as soon as `x` did
not run out of fuel. -/
def Stable {α : Type} (x y : Outcome α) : Prop := x ≠ .outOfFuel → y = x

/-- The recursive rules run with fuel `n` keep their result, value or error,
under any fuel `m ≥ n`. -/
structure AllStable (n : Nat) : Prop where
  exprList : ∀ m s, n ≤ m → Stable (expressionList n s) (expressionList m s)
  exprListLoop : ∀ m s, n ≤ m → Stable (expressionListLoop n s) (expressionListLoop m s)
  expr : ∀ m p s, n ≤ m → Stable (expression n p s) (expression m p s)
  exprLoop : ∀ m p ctx s, n ≤ m → Stable (expressionLoop n p ctx s) (expressionLoop m p ctx s)
  pred : ∀ m p s, n ≤ m → Stable (predicateExpression n p s) (predicateExpression m p s)
  predLoop : ∀ m p ctx s, n ≤ m →
    Stable (predicateExpressionLoop n p ctx s) (predicateExpressionLoop m p ctx s)
  value : ∀ m p s, n ≤ m → Stable (valueExpression n p s) (valueExpression m p s)
  valueLoop : ∀ m p ctx s, n ≤ m →
    Stable (valueExpressionLoop n p ctx s) (valueExpressionLoop m p ctx s)
  func : ∀ m s, n ≤ m → Stable (functionExpression n s) (functionExpression m s)

/-! ## Token shapes named in the specification -/

/-- An optional exact-match modifier: nothing, or one `K_BINARY` or `'==='`
token. -/
def OptionalModifier (m : List Token) : Prop :=
  m = [] ∨ ∃ x, m = [x] ∧ (x.type = K_BINARY ∨ x.type = T__8)

/-- An optional sort direction: nothing, or one `K_ASC` or `K_DESC` token. -/
def OptionalDirection (d : List Token) : Prop :=
  d = [] ∨ ∃ x, d = [x] ∧ (x.type = K_ASC ∨ x.type = K_DESC)

/-- The shape `(K_BINARY | '===')? IDENTIFIER (K_ASC | K_DESC)?` of an
ordering term. -/
def OrderingTermShape (s : List Token) : Prop :=
  ∃ m c d, s = m ++ c :: d ∧ OptionalModifier m ∧ c.type = IDENTIFIER ∧ OptionalDirection d

/-- The shape `orderingTerm (',' orderingTerm)*`. -/
inductive OrderingTermsShape : List Token → Prop
  | one (s : List Token) : OrderingTermShape s → OrderingTermsShape s
  | cons (s : List Token) (comma : Token) (rest : List Token) :
      OrderingTermShape s → comma.type = T__1 → OrderingTermsShape rest →
      OrderingTermsShape (s ++ comma :: rest)

/-- The shape `('-' | '+')? INTEGER_LITERAL` of a top limit. -/
def TopLimitShape (s : List Token) : Prop :=
  (∃ i, s = [i] ∧ i.type = INTEGER_LITERAL)
    ∨ (∃ sg i, s = [sg, i] ∧ (sg.type = T__2 ∨ sg.type = T__3) ∧ i.type = INTEGER_LITERAL)

/-- The shape `(K_TOP topLimit)?`. -/
def TopClauseShape (s : List Token) : Prop :=
  s = [] ∨ ∃ k lim, s = k :: lim ∧ k.type = K_TOP ∧ TopLimitShape lim

/-- The shape `(K_ORDER K_BY orderingTerm (',' orderingTerm)*)?`. -/
def OrderByClauseShape (s : List Token) : Prop :=
  s = [] ∨ ∃ o b terms, s = o :: b :: terms ∧ o.type = K_ORDER ∧ b.type = K_BY
    ∧ OrderingTermsShape terms

/-- The token sequence is an expression: rule `expression(0)` consumes it
entirely and returns without error. -/
def IsExpression (s : List Token) : Prop :=
  ∃ fuel tree, expression fuel 0 s = .ok (tree, [])

/-- The token sequence is an identifier statement: rule `identifierStatement`
consumes it entirely and returns without error. -/
def IsIdentifierStatement (s : List Token) : Prop :=
  ∃ tree, identifierStatement s = .ok (tree, [])

/-- The token sequence is a filter statement: rule `filterStatement` consumes
it entirely and returns without error. -/
def IsFilterStatement (s : List Token) : Prop :=
  ∃ fuel tree, filterStatement fuel s = .ok (tree, [])

/-- The shape
`K_FILTER (K_TOP topLimit)? IDENTIFIER K_WHERE expression
(K_ORDER K_BY orderingTerm (',' orderingTerm)*)?`. -/
def FilterStatementShape (s : List Token) : Prop :=
  ∃ f top tb w e ob, s = f :: (top ++ tb :: w :: (e ++ ob)) ∧ f.type = K_FILTER
    ∧ TopClauseShape top ∧ tb.type = IDENTIFIER ∧ w.type = K_WHERE ∧ IsExpression e
    ∧ OrderByClauseShape ob

/-- A statement: an identifier statement, a filter statement or an
expression. -/
def IsStatement (s : List Token) : Prop :=
  IsIdentifierStatement s ∨ IsFilterStatement s ∨ IsExpression s

/-- Rule `parse` accepts the input: with enough fuel it returns without
reporting an error. -/
def Accepted (s : List Token) : Prop := ∃ fuel res, parse fuel s = .ok res

/-- Every token of the sequence is a `';'`. -/
def AllSemicolons (s : List Token) : Prop := ∀ x ∈ s, x.type = T__0

/-- The shape `(';'+ statement)* ';'*`. -/
inductive StatementListTail : List Token → Prop
  | done (semis : List Token) : AllSemicolons semis → StatementListTail semis
  | more (semis st rest : List Token) : semis ≠ [] → AllSemicolons semis → IsStatement st →
      StatementListTail rest → StatementListTail (semis ++ st ++ rest)

/-- The shape `';'* statement (';'+ statement)* ';'*` of a statement list. -/
def StatementListShape (s : List Token) : Prop :=
  ∃ lead st rest, s = lead ++ st ++ rest ∧ AllSemicolons lead ∧ IsStatement st
    ∧ StatementListTail rest

/-- The 41 built-in function names that the specification lists, in its
order (string, numeric, type, date and control functions), each as its
keyword token. -/
def specFunctionNames : List Nat :=
  [K_LEN, K_SUBSTR, K_UPPER, K_LOWER, K_TRIM, K_TRIMLEFT, K_TRIMRIGHT, K_REPLACE, K_SPLIT,
    K_REVERSE, K_STRCOUNT, K_STRCMP, K_INDEXOF, K_LASTINDEXOF, K_NTHINDEXOF, K_STARTSWITH,
    K_ENDSWITH, K_CONTAINS, K_REGEXMATCH, K_REGEXVAL, K_ABS, K_CEILING, K_FLOOR, K_ROUND,
    K_SQRT, K_POWER, K_MAXOF, K_MINOF, K_CONVERT, K_ISNULL, K_ISNUMERIC, K_ISINTEGER, K_ISDATE,
    K_ISGUID, K_COALESCE, K_NOW, K_UTCNOW, K_DATEADD, K_DATEDIFF, K_DATEPART, K_IIF]

/-- Whether the exception is a `RecognitionException`, the only type that
the `catch` clause of a rule function handles (report, then recover).
`InputMismatchException`, `NoViableAltException` and
`FailedPredicateException` are; the `RuntimeException` that the action of
rule `error` throws is not, so no rule function catches it. -/
def ParseError.isRecognitionException : ParseError → Bool
  | .inputMismatch => true
  | .noViableAlt => true
  | .failedPredicate => true
  | .runtime _ => false

/-! ## Consumption and extension of runs -/

/-- The token sequence does not end in a `notOperator` token (`'!'` or
`K_NOT`). -/
def EndsOk (c : List Token) : Prop :=
  ∀ z, c.getLast? = some z → notOperatorSet z.type = false

/-- A non-empty token sequence that does not end in a `notOperator` token. -/
def Complete (c : List Token) : Prop := c ≠ [] ∧ EndsOk c

/-- A run `x` on the input `s` returns normally only after consuming a
prefix of `s` that has the property `Q`. -/
def Consumes {α : Type} (Q : List Token → Prop) (s : List Token)
    (x : Outcome (α × List Token)) : Prop :=
  ∀ res a', x = .ok (res, a') → ∃ c, s = c ++ a' ∧ Q c

/-- What the recursive rules consume when they return normally: the rules
proper a complete sequence, their loops nothing or a sequence that does not
end in a `notOperator` token. -/
structure AllEnds (n : Nat) : Prop where
  exprList : ∀ s, Consumes Complete s (expressionList n s)
  exprListLoop : ∀ s, Consumes EndsOk s (expressionListLoop n s)
  expr : ∀ p s, Consumes Complete s (expression n p s)
  exprLoop : ∀ p ctx s, Consumes EndsOk s (expressionLoop n p ctx s)
  pred : ∀ p s, Consumes Complete s (predicateExpression n p s)
  predLoop : ∀ p ctx s, Consumes EndsOk s (predicateExpressionLoop n p ctx s)
  value : ∀ p s, Consumes Complete s (valueExpression n p s)
  valueLoop : ∀ p ctx s, Consumes EndsOk s (valueExpressionLoop n p ctx s)
  func : ∀ s, Consumes Complete s (functionExpression n s)

/-- The next token of `t` continues no `valueExpression`: it is neither a
math nor a bitwise operator. -/
def StopsValue (t : List Token) : Prop :=
  mathOperatorSet (LA 1 t) = false ∧ bitwiseOperatorSet (LA 1 t) = false

/-- The tokens of `t` continue no `predicateExpression`. -/
def StopsPredicate (t : List Token) : Prop :=
  StopsValue t ∧ comparisonOperatorSet (LA 1 t) = false ∧ likeAhead t = false
    ∧ inAhead t = false ∧ (LA 1 t == K_IS) = false

/-- The tokens of `t` continue no `expression`. -/
def StopsExpression (t : List Token) : Prop :=
  StopsPredicate t ∧ logicalOperatorSet (LA 1 t) = false

/-- The tokens of `t` continue no `expressionList`. -/
def StopsList (t : List Token) : Prop :=
  StopsExpression t ∧ (LA 1 t == T__1) = false

/-- The second token of lookahead cannot change a prediction at the last
token of `u` when `t` follows: `t` begins with neither `K_LIKE` nor `K_IN`,
or `u` does not end in a `notOperator` token. -/
def LastOk (t u : List Token) : Prop :=
  ((LA 1 t == K_LIKE) = false ∧ (LA 1 t == K_IN) = false) ∨ EndsOk u

/-- The relation between a run `x` of a rule on `u` and a run `y` of it on
`u ++ t`: when `x` returns normally, leaving `a`, then `y` returns the same
context and leaves `a ++ t`, provided `a` is not empty or the condition `X`
(which says that `t` does not continue the rule) holds. -/
def Ext {α : Type} (t : List Token) (X : Prop) (u : List Token)
    (x y : Outcome (α × List Token)) : Prop :=
  LastOk t u → ∀ res a, x = .ok (res, a) →
    ∃ c, u = c ++ a ∧ ((a ≠ [] ∨ X) → y = .ok (res, a ++ t))

/-- The recursive rules run with fuel `n` on `u` are extended by the same
rules run with any fuel `m ≥ n` on `u ++ t`. -/
structure AllExt (t : List Token) (n : Nat) : Prop where
  exprList : ∀ m u, n ≤ m →
    Ext t (StopsList t) u (expressionList n u) (expressionList m (u ++ t))
  exprListLoop : ∀ m u, n ≤ m →
    Ext t (StopsList t) u (expressionListLoop n u) (expressionListLoop m (u ++ t))
  expr : ∀ m p u, n ≤ m →
    Ext t (StopsExpression t) u (expression n p u) (expression m p (u ++ t))
  exprLoop : ∀ m p ctx u, n ≤ m →
    Ext t (StopsExpression t) u (expressionLoop n p ctx u) (expressionLoop m p ctx (u ++ t))
  pred : ∀ m p u, n ≤ m →
    Ext t (StopsPredicate t) u (predicateExpression n p u) (predicateExpression m p (u ++ t))
  predLoop : ∀ m p ctx u, n ≤ m →
    Ext t (StopsPredicate t) u (predicateExpressionLoop n p ctx u)
      (predicateExpressionLoop m p ctx (u ++ t))
  value : ∀ m p u, n ≤ m →
    Ext t (StopsValue t) u (valueExpression n p u) (valueExpression m p (u ++ t))
  valueLoop : ∀ m p ctx u, n ≤ m →
    Ext t (StopsValue t) u (valueExpressionLoop n p ctx u) (valueExpressionLoop m p ctx (u ++ t))
  func : ∀ m u, n ≤ m →
    Ext t (StopsValue t) u (functionExpression n u) (functionExpression m (u ++ t))

/-! ## Operands and argument lists -/

/-- The token sequence is a value: rule `valueExpression(0)` consumes it
entirely and returns without error.  A value is what the grammar calls the
operand of a predicate. -/
def IsValue (s : List Token) : Prop :=
  ∃ fuel tree, valueExpression fuel 0 s = .ok (tree, [])

/-- The token sequence is a predicate: rule `predicateExpression(0)` consumes
it entirely and returns without error. -/
def IsPredicate (s : List Token) : Prop :=
  ∃ fuel tree, predicateExpression fuel 0 s = .ok (tree, [])

/-- The shape `expression (',' expression)*` of a non-empty argument list. -/
inductive ExpressionsShape : List Token → Prop
  | one (e : List Token) : IsExpression e → ExpressionsShape e
  | cons (e : List Token) (comma : Token) (rest : List Token) :
      IsExpression e → comma.type = T__1 → ExpressionsShape rest →
      ExpressionsShape (e ++ comma :: rest)

/-- An optional token of the set `f`: nothing, or one token whose type is in
`f`. -/
def OptionalToken (f : Nat → Bool) (o : List Token) : Prop :=
  o = [] ∨ ∃ z, o = [z] ∧ f z.type = true

/-- The contexts that an optional sub-rule of one token adds for the tokens
`o`: none, or one context of rule `idx` over the token. -/
def optionalContexts (idx : Nat) (o : List Token) : List ParseTree :=
  o.map (fun z => .rule idx [.terminal z])

/-- The token sequence of `k + 1` comma-separated integer literals: an
argument list of `k + 1` arguments. -/
def integerArguments : Nat → List Token
  | 0 => [tok INTEGER_LITERAL]
  | k + 1 => tok INTEGER_LITERAL :: tok T__1 :: integerArguments k

/-- Two runs leave the same input: where the first returns, the second
returns too, with the same remaining input. -/
def SameRest {α : Type} (x y : Outcome (α × List Token)) : Prop :=
  ∀ a r, x = .ok (a, r) → ∃ b, y = .ok (b, r)

/-! ## The defaults of `FilterExpressionParser.h` -/

/-- The macro `SUPPRESS_CONSOLE_ERROR_OUTPUT` of `FilterExpressionParser.h`:
`false` under `#ifdef _DEBUG`, `true` under `#else`.  The argument tells
whether `_DEBUG` is defined. -/
def SUPPRESS_CONSOLE_ERROR_OUTPUT (debug : Bool) : Bool :=
  if debug then false else true

/-- The default of the argument `suppressConsoleErrorOutput` of the
constructor `FilterExpressionParser(filterExpression, ...)`. -/
def FilterExpressionParser_suppressDefault (debug : Bool) : Bool :=
  SUPPRESS_CONSOLE_ERROR_OUTPUT debug

/-- The default of the argument `suppressConsoleErrorOutput` of the static
`GenerateExpressionTrees`. -/
def GenerateExpressionTrees_suppressDefault (debug : Bool) : Bool :=
  SUPPRESS_CONSOLE_ERROR_OUTPUT debug

/-- The default of the argument `suppressConsoleErrorOutput` of the static
`GenerateExpressionTree`. -/
def GenerateExpressionTree_suppressDefault (debug : Bool) : Bool :=
  SUPPRESS_CONSOLE_ERROR_OUTPUT debug

/-- The default of the argument `suppressConsoleErrorOutput` of the static
`Evaluate`. -/
def Evaluate_suppressDefault (debug : Bool) : Bool :=
  SUPPRESS_CONSOLE_ERROR_OUTPUT debug

/-- The default of the argument `suppressConsoleErrorOutput` of the static
`Select`. -/
def Select_suppressDefault (debug : Bool) : Bool :=
  SUPPRESS_CONSOLE_ERROR_OUTPUT debug

/-! ## The first token of `parse` -/

/-- The first tokens that the specification sends to
`filterExpressionStatementList`: `';'`, the three identifier literals,
`K_FILTER`, `'-'`, `'+'`, `'('`, `'!'`, `'~'`, `K_NOT`, a function name,
`IDENTIFIER`, or a token that `literalValue` accepts. -/
def specStatementListStart (t : Nat) : Bool :=
  t == T__0 || t == GUID_LITERAL || t == MEASUREMENT_KEY_LITERAL || t == POINT_TAG_LITERAL
    || t == K_FILTER || t == T__2 || t == T__3 || t == T__4 || t == T__6 || t == T__7
    || t == K_NOT || functionNameSet t || t == IDENTIFIER || literalValueSet t

/-- A token sequence that begins with a token of type `t`; it is a statement
for each `t` that can begin one. -/
def statementExample (t : Nat) : List Token :=
  if t == K_FILTER then toks [t, IDENTIFIER, K_WHERE, INTEGER_LITERAL]
  else if t == T__4 then toks [t, INTEGER_LITERAL, T__5]
  else if functionExpressionCases.contains t then toks [t, T__4, T__5]
  else if unaryOperatorCases.contains t then toks [t, INTEGER_LITERAL]
  else toks [t]

/-- Whether `filterExpressionStatement` consumes the input entirely with the
given fuel. -/
def consumedByStatement (fuel : Nat) (input : List Token) : Bool :=
  match filterExpressionStatement fuel input with
  | .ok (_, []) => true
  | _ => false

/-- The loop of `predicateExpression` run at precedence `q` stops before `t`:
no alternative is both opened by the lookahead and admitted by its
precedence predicate. -/
def StopsPredicateAt (q : Nat) (t : List Token) : Prop :=
  (comparisonOperatorSet (LA 1 t) && precpred q 3) = false
    ∧ (likeAhead t && precpred q 2) = false
    ∧ (inAhead t && precpred q 5) = false
    ∧ ((LA 1 t == K_IS) && precpred q 4) = false

/-! ## The filter driver

`FilterExpressionParser.h` declares `Select` and `Evaluate`; their bodies are
in `FilterExpressionParser.cpp`, which is not among the sources.  The
definitions below follow sections 3, 4.2 and 4.3 of the specification. -/

/-- Modelled from the spec: the value type of the expression engine
(`ValueExpression` of `ExpressionTree.h`, not among the sources): a tagged
union over Boolean, Int32, Int64, UInt32, UInt64, Decimal, Double, String,
Guid, DateTime and Undefined.  The payloads that the filter driver never
inspects are kept as text. -/
inductive Value where
  | boolean (b : Bool) : Value
  | int32 (v : Int) : Value
  | int64 (v : Int) : Value
  | uint32 (v : Nat) : Value
  | uint64 (v : Nat) : Value
  | decimal (text : String) : Value
  | double (text : String) : Value
  | string (text : String) : Value
  | guid (text : String) : Value
  | dateTime (text : String) : Value
  | undefined : Value
deriving DecidableEq, Repr

/-- Modelled from the spec: what `Evaluate(row, P)` of
`FilterExpressionParser.cpp` (not among the sources) yields for a row: a
value, or a structured evaluation error. -/
inductive Evaluation where
  | value (v : Value) : Evaluation
  | evaluationError (message : String) : Evaluation
deriving DecidableEq, Repr

/-- Modelled from the spec: one ORDER BY term as the binder of
`FilterExpressionParser.cpp` (not among the sources) captures it: the
comparison of two rows by the column of the term, with the case sensitivity
that its exact-match flag asks for, and the direction. -/
structure OrderByTerm (Row : Type) where
  /-- The comparison of two rows by the column of the term. -/
  compare : Row → Row → Ordering
  /-- Whether the term is `DESC`. -/
  descending : Bool

/-- Modelled from the spec: what the binder of `FilterExpressionParser.cpp`
(not among the sources) captures on entering a FILTER statement: the table
name, the TOP limit (-1 when TOP is absent) and the ORDER BY terms (none when
ORDER BY is absent). -/
structure FilterStatement (Row : Type) where
  /-- The table that the statement scans. -/
  tableName : String
  /-- The limit of the TOP clause. -/
  topLimit : Int := -1
  /-- The terms of the ORDER BY clause. -/
  orderBy : List (OrderByTerm Row) := []

/-- Modelled from the spec: the scan of the filter driver (`Select` of
`FilterExpressionParser.cpp`, not among the sources): every row of the table
in storage order; a row is kept when its predicate evaluates to Boolean
true; a row whose predicate is false, Undefined or of another type is
excluded; an evaluation error is caught, the row is excluded and the scan
goes on. -/
def scanRows {Row : Type} (evaluate : Row → Evaluation) : List Row → List Row
  | [] => []
  | row :: rest =>
    match evaluate row with
    | .value (.boolean true) => row :: scanRows evaluate rest
    | .value _ => scanRows evaluate rest
    | .evaluationError _ => scanRows evaluate rest

/-- Modelled from the spec: the multi-key order of the ORDER BY terms
(`FilterExpressionParser.cpp`, not among the sources): the first term on
which two rows differ decides, in the direction of the term; `true` when the
first row may stand before the second. -/
def orderedBefore {Row : Type} : List (OrderByTerm Row) → Row → Row → Bool
  | [], _, _ => true
  | term :: rest, a, b =>
    match (if term.descending then term.compare b a else term.compare a b) with
    | .lt => true
    | .gt => false
    | .eq => orderedBefore rest a b

/-- Modelled from the spec: the insertion of a row before the first row that
it may stand before, the step of the stable sort of the filter driver
(`FilterExpressionParser.cpp`, not among the sources). -/
def insertOrdered {Row : Type} (before : Row → Row → Bool) (row : Row) : List Row → List Row
  | [] => [row]
  | x :: rest =>
    if before row x then row :: x :: rest else x :: insertOrdered before row rest

/-- Modelled from the spec: the stable sort of the filter driver
(`FilterExpressionParser.cpp`, not among the sources): rows with equal keys
keep their scan order. -/
def sortRows {Row : Type} (before : Row → Row → Bool) : List Row → List Row
  | [] => []
  | row :: rest => insertOrdered before row (sortRows before rest)

/-- Modelled from the spec: ORDER BY of the filter driver
(`FilterExpressionParser.cpp`, not among the sources): the stable multi-key
sort when terms are specified, the scan order otherwise. -/
def applyOrderBy {Row : Type} (terms : List (OrderByTerm Row)) (rows : List Row) : List Row :=
  match terms with
  | [] => rows
  | _ :: _ => sortRows (orderedBefore terms) rows

/-- Modelled from the spec: TOP of the filter driver
(`FilterExpressionParser.cpp`, not among the sources): the limit -1, which is
also the limit of a statement without TOP, keeps every row; any other limit
keeps the first rows, as many as its magnitude. -/
def applyTop {Row : Type} (topLimit : Int) (rows : List Row) : List Row :=
  if topLimit = -1 then rows else rows.take topLimit.natAbs

/-- Modelled from the spec: `FilterExpressionParser::Select` for a FILTER
statement (`FilterExpressionParser.cpp`, not among the sources): scan, then
ORDER BY, then TOP. -/
def Select {Row : Type} (evaluate : Row → Evaluation) (statement : FilterStatement Row)
    (table : List Row) : List Row :=
  applyTop statement.topLimit (applyOrderBy statement.orderBy (scanRows evaluate table))

/-! ## Termination -/

/-- A run `x` on the input `s` returns, normally or with an exception, and
when it returns normally it has consumed at least `k` tokens of `s`. -/
def Returns {α : Type} (k : Nat) (s : List Token) (x : Outcome (α × List Token)) : Prop :=
  x ≠ .outOfFuel ∧ ∀ res a, x = .ok (res, a) → a.length + k ≤ s.length

/-- The recursive rules run with fuel `n` return on every input for which
`n` is at least five times the number of tokens plus the rank of the rule:
5 for `expressionList`, 4 for `expression`, 3 for `predicateExpression`, 2 for
`valueExpression`, 1 for `functionExpression` and for the loops.  The rules
proper consume at least one token. -/
structure AllTotal (n : Nat) : Prop where
  exprList : ∀ s, 5 * s.length + 5 ≤ n → Returns 1 s (expressionList n s)
  exprListLoop : ∀ s, 5 * s.length + 1 ≤ n → Returns 0 s (expressionListLoop n s)
  expr : ∀ p s, 5 * s.length + 4 ≤ n → Returns 1 s (expression n p s)
  exprLoop : ∀ p ctx s, 5 * s.length + 1 ≤ n → Returns 0 s (expressionLoop n p ctx s)
  pred : ∀ p s, 5 * s.length + 3 ≤ n → Returns 1 s (predicateExpression n p s)
  predLoop : ∀ p ctx s, 5 * s.length + 1 ≤ n →
    Returns 0 s (predicateExpressionLoop n p ctx s)
  value : ∀ p s, 5 * s.length + 2 ≤ n → Returns 1 s (valueExpression n p s)
  valueLoop : ∀ p ctx s, 5 * s.length + 1 ≤ n → Returns 0 s (valueExpressionLoop n p ctx s)
  func : ∀ s, 5 * s.length + 1 ≤ n → Returns 1 s (functionExpression n s)

/-! ## The precedence predicates -/

/-- The function `expressionSempred`: the predicates of rule `expression`. -/
def expressionSempred (precedence predicateIndex : Nat) : Bool :=
  match predicateIndex with
  | 0 => precpred precedence 2
  | _ => true

/-- The function `predicateExpressionSempred`: the predicates of rule
`predicateExpression`. -/
def predicateExpressionSempred (precedence predicateIndex : Nat) : Bool :=
  match predicateIndex with
  | 1 => precpred precedence 3
  | 2 => precpred precedence 2
  | 3 => precpred precedence 5
  | 4 => precpred precedence 4
  | _ => true

/-- The function `valueExpressionSempred`: the predicates of rule
`valueExpression`. -/
def valueExpressionSempred (precedence predicateIndex : Nat) : Bool :=
  match predicateIndex with
  | 5 => precpred precedence 2
  | 6 => precpred precedence 1
  | _ => true

/-- The table of precedence checks as the specification states it, to be
compared with `sempred`: rule 9 predicate 0 tests precedence 2; rule 10
predicates 1, 2, 3, 4 test precedences 3, 2, 5, 4; rule 11 predicates 5, 6
test precedences 2, 1; every other pair of indices gives `true`. -/
def specSempred (precedence ruleIndex predicateIndex : Nat) : Bool :=
  if ruleIndex = 9 ∧ predicateIndex = 0 then precpred precedence 2
  else if ruleIndex = 10 ∧ predicateIndex = 1 then precpred precedence 3
  else if ruleIndex = 10 ∧ predicateIndex = 2 then precpred precedence 2
  else if ruleIndex = 10 ∧ predicateIndex = 3 then precpred precedence 5
  else if ruleIndex = 10 ∧ predicateIndex = 4 then precpred precedence 4
  else if ruleIndex = 11 ∧ predicateIndex = 5 then precpred precedence 2
  else if ruleIndex = 11 ∧ predicateIndex = 6 then precpred precedence 1
  else true

/-- The body of `if (alt == 1) { ... }` in the loop of `expression`: the
check `if (!(precpred(_ctx, 2))) throw FailedPredicateException(...)` written
inline, then the logical operator, the right operand and the next turn of
the loop.  `fuel` is the fuel of the calls inside. -/
def expressionAlternative (fuel precedence : Nat) (localctx : ParseTree) (input : List Token) :
    RuleResult :=
  if !precpred precedence 2 then .error .failedPredicate
  else do
    let (op, r1) ← logicalOperator input
    let (rhs, r2) ← expression fuel 3 r1
    expressionLoop fuel precedence (.rule RuleExpression [localctx, op, rhs]) r2

/-- The body of the `switch` on decision 20 in the loop of
`predicateExpression` for the alternative `choice`: the precedence check
written inline in that `case`, then its tokens and operands and the next
turn of the loop. -/
def predicateExpressionAlternative (fuel precedence choice : Nat) (localctx : ParseTree)
    (input : List Token) : RuleResult :=
  match choice with
  | 1 =>
    if !precpred precedence 3 then .error .failedPredicate
    else do
      let (op, r1) ← comparisonOperator input
      let (rhs, r2) ← predicateExpression fuel 4 r1
      predicateExpressionLoop fuel precedence
        (.rule RulePredicateExpression [localctx, op, rhs]) r2
  | 2 =>
    if !precpred precedence 2 then .error .failedPredicate
    else do
      let (n, r1) ← optional (LA 1 input == T__6 || LA 1 input == K_NOT) notOperator input
      let (like, r2) ← matchToken K_LIKE r1
      let (m, r3) ← optional (LA 1 r2 == T__8 || LA 1 r2 == K_BINARY) exactMatchModifier r2
      let (rhs, r4) ← predicateExpression fuel 3 r3
      predicateExpressionLoop fuel precedence
        (.rule RulePredicateExpression ([localctx] ++ n ++ [like] ++ m ++ [rhs])) r4
  | 3 =>
    if !precpred precedence 5 then .error .failedPredicate
    else do
      let (n, r1) ← optional (LA 1 input == T__6 || LA 1 input == K_NOT) notOperator input
      let (kin, r2) ← matchToken K_IN r1
      let (m, r3) ← optional (LA 1 r2 == T__8 || LA 1 r2 == K_BINARY) exactMatchModifier r2
      let (lp, r4) ← matchToken T__4 r3
      let (list, r5) ← expressionList fuel r4
      let (rp, r6) ← matchToken T__5 r5
      predicateExpressionLoop fuel precedence
        (.rule RulePredicateExpression ([localctx] ++ n ++ [kin] ++ m ++ [lp, list, rp])) r6
  | 4 =>
    if !precpred precedence 4 then .error .failedPredicate
    else do
      let (is, r1) ← matchToken K_IS input
      let (n, r2) ← optional (LA 1 r1 == T__6 || LA 1 r1 == K_NOT) notOperator r1
      let (null, r3) ← matchToken K_NULL r2
      predicateExpressionLoop fuel precedence
        (.rule RulePredicateExpression ([localctx, is] ++ n ++ [null])) r3
  | _ => predicateExpressionLoop fuel precedence localctx input

/-- The body of the `switch` on decision 23 in the loop of `valueExpression`
for the alternative `choice`: the precedence check written inline in that
`case`, then the operator, the right operand and the next turn of the
loop. -/
def valueExpressionAlternative (fuel precedence choice : Nat) (localctx : ParseTree)
    (input : List Token) : RuleResult :=
  match choice with
  | 1 =>
    if !precpred precedence 2 then .error .failedPredicate
    else do
      let (op, r1) ← mathOperator input
      let (rhs, r2) ← valueExpression fuel 3 r1
      valueExpressionLoop fuel precedence (.rule RuleValueExpression [localctx, op, rhs]) r2
  | 2 =>
    if !precpred precedence 1 then .error .failedPredicate
    else do
      let (op, r1) ← bitwiseOperator input
      let (rhs, r2) ← valueExpression fuel 2 r1
      valueExpressionLoop fuel precedence (.rule RuleValueExpression [localctx, op, rhs]) r2
  | _ => valueExpressionLoop fuel precedence localctx input

/-! ## The top-level rule functions as the program runs them

The definitions above stop at the first recognition error.  In the program a
rule function catches the `RecognitionException` raised in its own body and
still returns its context, and `parse` calls the error strategy before its
switch.  The definitions below add these two steps for the top-level rules,
where the contexts that are produced and the first error depend on them. -/

/-- What a rule function of the program hands back to its caller: the
context it created on entry, which it returns also from its `catch` block;
the tokens that the error strategy deleted before the switch of `parse` (the
program keeps each one as an error node); the exceptions that the `catch`
blocks stored in `_localctx->exception`; and the remaining input. -/
structure Returned where
  /-- The context `_localctx` that the rule function returns. -/
  context : ParseTree
  /-- The tokens deleted by the error strategy. -/
  deleted : List Token
  /-- The exceptions stored by the `catch` blocks that ran, in order. -/
  caught : List ParseError
  /-- The remaining input. -/
  rest : List Token

/-- Modelled from the spec: the tokens that the ANTLR runtime (not among the
sources) computes as `nextTokens` of state 52, the block of `parse`: in the
grammar `parse : (filterExpressionStatementList | error) EOF` they are the
first tokens of `filterExpressionStatementList` and of `error`, which the
generated switch carries as its `case` labels. -/
def expectedAtParse (la : Nat) : Bool :=
  statementListCases.contains la || la == UNEXPECTED_CHAR

/-- Modelled from the spec: the call `_errHandler->sync(this)` before the
switch of `parse` (state 52, the start of a block), for `DefaultErrorStrategy`
of the ANTLR runtime, which is not among the sources and which a parser uses
unless another strategy is set.  When the lookahead is among the expected
tokens `sync` returns.  Otherwise it tries single-token deletion: when the
token after the lookahead is expected, it reports the lookahead as
extraneous, consumes it and returns; else it throws
`InputMismatchException`.  The result is the tokens deleted and the input to
go on with. -/
def sync (input : List Token) : Outcome (List Token × List Token) :=
  if expectedAtParse (LA 1 input) then .ok ([], input)
  else if expectedAtParse (LA 2 input) then
    match input with
    | t :: rest => .ok ([t], rest)
    | [] => .error .inputMismatch
  else .error .inputMismatch

/-- The rule function `filterExpressionStatement()` with its `catch` block at
the end of the input.  The function creates `_localctx` on entry
(`_tracker.createInstance`, `enterRule`).  When the prediction of decision 5
throws `NoViableAltException`, the block
`catch (RecognitionException &e) { ...; _localctx->exception = ...; ... }`
of the function itself runs and the function returns `_localctx`, which has
no children.  At the end of the input the recovery of the `catch` block has
no token to consume.  Everywhere else the embedding stops at the first
error, as `filterExpressionStatement` does. -/
def filterExpressionStatementReturned (fuel : Nat) (input : List Token) : Outcome Returned :=
  match input, adaptivePredict 5 0 input with
  | [], none => .ok ⟨.rule RuleFilterExpressionStatement [], [], [.noViableAlt], []⟩
  | _, _ => do
    let (s, r1) ← filterExpressionStatement fuel input
    pure ⟨s, [], [], r1⟩

/-- The rule function `filterExpressionStatementList()`: after the loop over
`';'` it calls `filterExpressionStatement()` whatever the lookahead is, and
the context that call returns is a child of the list context, also when the
call caught an exception. -/
def filterExpressionStatementListReturned (fuel : Nat) (input : List Token) :
    Outcome Returned := do
  let s ← filterExpressionStatementReturned fuel (semicolons input).2
  let (more, r2) ← statementListLoop fuel s.rest
  pure ⟨.rule RuleFilterExpressionStatementList
    ((semicolons input).1 ++ s.context :: more ++ (semicolons r2).1), [], s.caught,
    (semicolons r2).2⟩

/-- The switch of `parse()` and the `match(EOF)` after it, run on the input
that `sync` left; `deleted` is what `sync` deleted. -/
def parseSwitch (fuel : Nat) (deleted : List Token) (input : List Token) : Outcome Returned :=
  if statementListCases.contains (LA 1 input) then do
    let list ← filterExpressionStatementListReturned fuel input
    let (eof, r2) ← matchToken EOF list.rest
    pure ⟨.rule RuleParse [list.context, eof], deleted, list.caught, r2⟩
  else if LA 1 input == UNEXPECTED_CHAR then do
    let (e, r1) ← error input
    let (eof, r2) ← matchToken EOF r1
    pure ⟨.rule RuleParse [e, eof], deleted, [], r2⟩
  else .error .noViableAlt

/-- The rule function `parse()` as the program runs it: `sync`, then the
switch on the lookahead that `sync` left, then `match(EOF)`.  An
`InputMismatchException` that `sync` throws at the end of the input is caught
by the `catch` block of `parse`, which returns its context, without
children. -/
def parseReturned (fuel : Nat) (input : List Token) : Outcome Returned :=
  match sync input with
  | .ok (deleted, r0) => parseSwitch fuel deleted r0
  | .error e =>
    match input with
    | [] => .ok ⟨.rule RuleParse [], [], [e], []⟩
    | _ :: _ => .error e
  | .outOfFuel => .outOfFuel

-- END OF DEFINITIONS

/-! ## Theorems -/

/-! ### Sequencing and lookahead -/

theorem bind_eq_ok {α β : Type} {x : Outcome α} {f : α → Outcome β} {b : β} :
    (x >>= f) = .ok b ↔ ∃ a, x = .ok a ∧ f a = .ok b := by
  cases x <;> simp [Bind.bind, Outcome.bind]

theorem pure_eq_ok {α : Type} {a b : α} : (pure a : Outcome α) = .ok b ↔ a = b := by
  simp [Pure.pure]

theorem LA_one_cons (x : Token) (r : List Token) : LA 1 (x :: r) = x.type := rfl

theorem LA_one_nil : LA 1 [] = EOF := rfl

theorem LA_two_cons (x : Token) (r : List Token) : LA 2 (x :: r) = LA 1 r := by
  cases r <;> rfl

theorem inert_cases {ty : Nat} (h : inert ty = true) :
    ty = T__0 ∨ ty = K_ORDER ∨ ty = K_TOP ∨ ty = EOF := by
  simpa [inert, or_assoc] using h

theorem terminator_cases {ty : Nat} (h : terminator ty = true) : ty = T__0 ∨ ty = EOF := by
  simpa [terminator] using h

theorem inert_of_terminator {ty : Nat} (h : terminator ty = true) : inert ty = true := by
  rcases terminator_cases h with h | h <;> subst h <;> decide

theorem inert_tests {ty : Nat} (h : inert ty = true) :
    notOperatorSet ty = false ∧ logicalOperatorSet ty = false ∧ comparisonOperatorSet ty = false
    ∧ mathOperatorSet ty = false ∧ bitwiseOperatorSet ty = false ∧ literalValueSet ty = false
    ∧ functionNameSet ty = false ∧ unaryOperatorSet ty = false ∧ exactMatchModifierSet ty = false
    ∧ startsValueExpression ty = false ∧ expressionListGuard ty = false
    ∧ literalValueCases.contains ty = false ∧ functionExpressionCases.contains ty = false
    ∧ unaryOperatorCases.contains ty = false := by
  rcases inert_cases h with h | h | h | h <;> subst h <;> decide

theorem terminator_tests {ty : Nat} (h : terminator ty = true) :
    identifierStatementSet ty = false ∧ signSet ty = false ∧ directionSet ty = false
    ∧ exactMatchModifierSet ty = false ∧ continuesExpression ty = false
    ∧ startsExpression ty = false ∧ startsStatement ty = false := by
  rcases terminator_cases h with h | h <;> subst h <;> decide

theorem headIn_nil {I : Nat → Bool} (h : I EOF = true) : HeadIn I [] := h

theorem headIn_inert_of_terminator {t : List Token} (h : HeadIn terminator t) :
    HeadIn inert t := inert_of_terminator h

section
variable {I : Nat → Bool} {t t' : List Token}

/-- A token type outside `I` differs from every type in `I`. -/
theorem beq_false_of_mem {ty X : Nat} (h : I ty = true) (hX : I X = false) :
    (ty == X) = false := by
  simp only [beq_eq_false_iff_ne, ne_eq]
  rintro rfl
  rw [h] at hX
  exact Bool.noConfusion hX

/-- A lookahead test that fails on the types in `I` does not see the tail. -/
theorem test_LA_swap (ht : HeadIn I t) (ht' : HeadIn I t') (f : Nat → Bool)
    (hf : ∀ ty, I ty = true → f ty = false) (u : List Token) :
    f (LA 1 (u ++ t')) = f (LA 1 (u ++ t)) := by
  cases u with
  | nil => simp [hf _ ht, hf _ ht']
  | cons x r => rfl

theorem eqTest_swap (ht : HeadIn I t) (ht' : HeadIn I t') (X : Nat) (hX : I X = false)
    (u : List Token) : (LA 1 (u ++ t') == X) = (LA 1 (u ++ t) == X) :=
  test_LA_swap ht ht' (fun ty => ty == X) (fun _ h => beq_false_of_mem h hX) u

theorem rel_bind {α β : Type} {u : List Token} {x y : Outcome (α × List Token)}
    {F G : α × List Token → Outcome (β × List Token)} (h1 : Rel t t' u x y)
    (h2 : ∀ a u1, Rel t t' u1 (F (a, u1 ++ t)) (G (a, u1 ++ t'))) :
    Rel t t' u (x >>= F) (y >>= G) := by
  intro res a' h
  obtain ⟨⟨a, a1⟩, hx, hF⟩ := bind_eq_ok.1 h
  obtain ⟨c, u1, rfl, rfl, hy⟩ := h1 a a1 hx
  obtain ⟨c2, u2, rfl, rfl, hG⟩ := h2 a u1 res a' hF
  exact ⟨c ++ c2, u2, by simp, rfl, bind_eq_ok.2 ⟨_, hy, hG⟩⟩

theorem rel_pure {α : Type} (u : List Token) (a : α) :
    Rel t t' u (pure (a, u ++ t)) (pure (a, u ++ t')) := by
  intro res a' h
  obtain ⟨rfl, rfl⟩ := Prod.mk.inj (pure_eq_ok.1 h)
  exact ⟨[], u, rfl, rfl, rfl⟩

theorem rel_of_not_ok {α : Type} (u : List Token) {x y : Outcome (α × List Token)}
    (h : ∀ r, x ≠ .ok r) : Rel t t' u x y := by
  intro res a' hx
  exact absurd hx (h _)

theorem rel_matchSet (ht : HeadIn I t) (f : Nat → Bool)
    (hf : ∀ ty, I ty = true → f ty = false) (u : List Token) :
    Rel t t' u (matchSet f (u ++ t)) (matchSet f (u ++ t')) := by
  intro res a' h
  cases u with
  | nil => simp [matchSet, hf _ ht] at h
  | cons x r =>
    simp only [matchSet, List.cons_append, LA_one_cons] at h ⊢
    split at h
    · rename_i hx
      simp at h
      obtain ⟨rfl, rfl⟩ := h
      exact ⟨[x], r, rfl, rfl, by simp [hx]⟩
    · simp at h

theorem rel_matchToken (ht : HeadIn I t) (X : Nat) (hX : I X = false) (u : List Token) :
    Rel t t' u (matchToken X (u ++ t)) (matchToken X (u ++ t')) := by
  intro res a' h
  cases u with
  | nil =>
    exfalso
    cases t with
    | nil =>
      have hne : X ≠ EOF := by
        rintro rfl
        have h1 : I EOF = true := ht
        rw [h1] at hX
        exact Bool.noConfusion hX
      simp [matchToken, hne] at h
    | cons y r =>
      have hy : I y.type = true := ht
      have hne : y.type ≠ X := by
        rintro rfl
        rw [hy] at hX
        exact Bool.noConfusion hX
      simp [matchToken, hne] at h
  | cons x r =>
    simp only [matchToken, List.cons_append] at h ⊢
    split at h
    · rename_i hx
      simp at h
      obtain ⟨rfl, rfl⟩ := h
      exact ⟨[x], r, rfl, rfl, by simp [hx]⟩
    · simp at h

theorem rel_optional (u : List Token) (g : Bool)
    (rule rule' : List Token → RuleResult)
    (h : Rel t t' u (rule (u ++ t)) (rule' (u ++ t'))) :
    Rel t t' u (optional g rule (u ++ t)) (optional g rule' (u ++ t')) := by
  intro res a' hx
  unfold optional at hx ⊢
  cases g with
  | false =>
    simp at hx
    obtain ⟨rfl, rfl⟩ := hx
    exact ⟨[], u, rfl, rfl, by simp⟩
  | true =>
    simp only [if_true] at hx ⊢
    cases hr : rule (u ++ t) with
    | ok v =>
      obtain ⟨tr, r⟩ := v
      rw [hr] at hx
      simp at hx
      obtain ⟨rfl, rfl⟩ := hx
      obtain ⟨c, u', rfl, rfl, h'⟩ := h tr r hr
      exact ⟨c, u', rfl, rfl, by rw [h']⟩
    | error e => rw [hr] at hx; simp at hx
    | outOfFuel => rw [hr] at hx; simp at hx

theorem rel_optional_swap {u : List Token} {g g' : Bool} {rule rule' : List Token → RuleResult}
    (hg : g' = g) (h : Rel t t' u (rule (u ++ t)) (rule' (u ++ t'))) :
    Rel t t' u (optional g rule (u ++ t)) (optional g' rule' (u ++ t')) := by
  subst hg
  exact rel_optional u g' rule rule' h

end

/-! ### Simulation of the recursive rules across inert tails -/

section
variable {t t' : List Token}

theorem rel_notOperator (ht : HeadIn inert t) (u : List Token) :
    Rel t t' u (notOperator (u ++ t)) (notOperator (u ++ t')) :=
  rel_bind (rel_matchSet ht _ (fun _ h => (inert_tests h).1) u) (fun _ u1 => rel_pure u1 _)


theorem likeAhead_swap (ht : HeadIn inert t) (ht' : HeadIn inert t') (u : List Token) :
    likeAhead (u ++ t') = likeAhead (u ++ t) := by
  cases u with
  | nil =>
    simp only [likeAhead, List.nil_append, (inert_tests ht).1, (inert_tests ht').1,
      beq_false_of_mem ht (show inert K_LIKE = false by decide),
      beq_false_of_mem ht' (show inert K_LIKE = false by decide), Bool.false_and, Bool.or_false]
  | cons x r =>
    simp only [likeAhead, List.cons_append, LA_one_cons, LA_two_cons]
    rw [test_LA_swap ht ht' (fun ty => ty == K_LIKE)
      (fun ty h => beq_false_of_mem h (by decide)) r]

theorem inAhead_swap (ht : HeadIn inert t) (ht' : HeadIn inert t') (u : List Token) :
    inAhead (u ++ t') = inAhead (u ++ t) := by
  cases u with
  | nil =>
    simp only [inAhead, List.nil_append, (inert_tests ht).1, (inert_tests ht').1,
      beq_false_of_mem ht (show inert K_IN = false by decide),
      beq_false_of_mem ht' (show inert K_IN = false by decide), Bool.false_and, Bool.or_false]
  | cons x r =>
    simp only [inAhead, List.cons_append, LA_one_cons, LA_two_cons]
    rw [test_LA_swap ht ht' (fun ty => ty == K_IN)
      (fun ty h => beq_false_of_mem h (by decide)) r]

theorem adaptivePredict_swap (ht : HeadIn inert t) (ht' : HeadIn inert t') (d p : Nat)
    (hd : d = 13 ∨ d = 14 ∨ d = 20 ∨ d = 21 ∨ d = 23 ∨ d = 24) (u : List Token) :
    adaptivePredict d p (u ++ t') = adaptivePredict d p (u ++ t) := by
  have e1 := test_LA_swap ht ht' notOperatorSet (fun _ h => (inert_tests h).1) u
  have e2 := test_LA_swap ht ht' logicalOperatorSet (fun _ h => (inert_tests h).2.1) u
  have e3 := test_LA_swap ht ht' comparisonOperatorSet (fun _ h => (inert_tests h).2.2.1) u
  have e4 := test_LA_swap ht ht' mathOperatorSet (fun _ h => (inert_tests h).2.2.2.1) u
  have e5 := test_LA_swap ht ht' bitwiseOperatorSet (fun _ h => (inert_tests h).2.2.2.2.1) u
  have e6 := test_LA_swap ht ht' startsValueExpression
    (fun _ h => (inert_tests h).2.2.2.2.2.2.2.2.2.1) u
  have e7 := eqTest_swap ht ht' K_IS (by decide) u
  have e8 := likeAhead_swap ht ht' u
  have e9 := inAhead_swap ht ht' u
  unfold adaptivePredict
  rw [e1, e2, e3, e4, e5, e6, e7, e8, e9]
  rcases hd with rfl | rfl | rfl | rfl | rfl | rfl <;>
    simp only [Nat.reduceEqDiff, ↓reduceIte]

theorem step_expressionList {n : Nat} (ih : AllSim t t' n) (m : Nat) (u : List Token)
    (hm : n + 1 ≤ m) :
    Rel t t' u (expressionList (n + 1) (u ++ t)) (expressionList m (u ++ t')) := by
  obtain ⟨m, rfl⟩ : ∃ k, m = k + 1 := ⟨m - 1, by omega⟩
  simp only [expressionList]
  refine rel_bind (ih.expr m 0 u (by omega)) (fun e u1 => ?_)
  refine rel_bind (ih.exprListLoop m u1 (by omega)) (fun more u2 => ?_)
  exact rel_pure u2 _

theorem step_expressionListLoop (ht : HeadIn inert t) (ht' : HeadIn inert t') {n : Nat}
    (ih : AllSim t t' n) (m : Nat) (u : List Token) (hm : n + 1 ≤ m) :
    Rel t t' u (expressionListLoop (n + 1) (u ++ t)) (expressionListLoop m (u ++ t')) := by
  obtain ⟨m, rfl⟩ : ∃ k, m = k + 1 := ⟨m - 1, by omega⟩
  simp only [expressionListLoop]
  rw [eqTest_swap ht ht' T__1 (by decide) u]
  split
  · refine rel_bind (rel_matchToken ht _ (by decide) u) (fun c u1 => ?_)
    refine rel_bind (ih.expr m 0 u1 (by omega)) (fun e u2 => ?_)
    refine rel_bind (ih.exprListLoop m u2 (by omega)) (fun more u3 => ?_)
    exact rel_pure u3 _
  · exact rel_pure u _

theorem step_expression (ht : HeadIn inert t) (ht' : HeadIn inert t') {n : Nat}
    (ih : AllSim t t' n) (m p : Nat) (u : List Token) (hm : n + 1 ≤ m) :
    Rel t t' u (expression (n + 1) p (u ++ t)) (expression m p (u ++ t')) := by
  obtain ⟨m, rfl⟩ : ∃ k, m = k + 1 := ⟨m - 1, by omega⟩
  simp only [expression]
  rw [adaptivePredict_swap ht ht' 13 p (by simp) u]
  split
  · exact rel_of_not_ok u (by simp)
  · refine rel_bind (rel_notOperator ht u) (fun a u1 => ?_)
    refine rel_bind (ih.expr m 3 u1 (by omega)) (fun e u2 => ?_)
    exact ih.exprLoop m p _ u2 (by omega)
  · refine rel_bind (ih.pred m 0 u (by omega)) (fun e u1 => ?_)
    exact ih.exprLoop m p _ u1 (by omega)
  · exact ih.exprLoop m p _ u (by omega)


theorem notGuard_swap (ht : HeadIn inert t) (ht' : HeadIn inert t') (u : List Token) :
    (LA 1 (u ++ t') == T__6 || LA 1 (u ++ t') == K_NOT)
      = (LA 1 (u ++ t) == T__6 || LA 1 (u ++ t) == K_NOT) := by
  rw [eqTest_swap ht ht' T__6 (by decide) u, eqTest_swap ht ht' K_NOT (by decide) u]

theorem modifierGuard_swap (ht : HeadIn inert t) (ht' : HeadIn inert t') (u : List Token) :
    (LA 1 (u ++ t') == T__8 || LA 1 (u ++ t') == K_BINARY)
      = (LA 1 (u ++ t) == T__8 || LA 1 (u ++ t) == K_BINARY) := by
  rw [eqTest_swap ht ht' T__8 (by decide) u, eqTest_swap ht ht' K_BINARY (by decide) u]

theorem rel_unaryOperator (ht : HeadIn inert t) (u : List Token) :
    Rel t t' u (unaryOperator (u ++ t)) (unaryOperator (u ++ t')) :=
  rel_bind (rel_matchSet ht _ (fun _ h => (inert_tests h).2.2.2.2.2.2.2.1) u)
    (fun _ u1 => rel_pure u1 _)

theorem rel_exactMatchModifier (ht : HeadIn inert t) (u : List Token) :
    Rel t t' u (exactMatchModifier (u ++ t)) (exactMatchModifier (u ++ t')) :=
  rel_bind (rel_matchSet ht _ (fun _ h => (inert_tests h).2.2.2.2.2.2.2.2.1) u)
    (fun _ u1 => rel_pure u1 _)

theorem rel_comparisonOperator (ht : HeadIn inert t) (u : List Token) :
    Rel t t' u (comparisonOperator (u ++ t)) (comparisonOperator (u ++ t')) :=
  rel_bind (rel_matchSet ht _ (fun _ h => (inert_tests h).2.2.1) u) (fun _ u1 => rel_pure u1 _)

theorem rel_logicalOperator (ht : HeadIn inert t) (u : List Token) :
    Rel t t' u (logicalOperator (u ++ t)) (logicalOperator (u ++ t')) :=
  rel_bind (rel_matchSet ht _ (fun _ h => (inert_tests h).2.1) u) (fun _ u1 => rel_pure u1 _)

theorem rel_bitwiseOperator (ht : HeadIn inert t) (u : List Token) :
    Rel t t' u (bitwiseOperator (u ++ t)) (bitwiseOperator (u ++ t')) :=
  rel_bind (rel_matchSet ht _ (fun _ h => (inert_tests h).2.2.2.2.1) u)
    (fun _ u1 => rel_pure u1 _)

theorem rel_mathOperator (ht : HeadIn inert t) (u : List Token) :
    Rel t t' u (mathOperator (u ++ t)) (mathOperator (u ++ t')) :=
  rel_bind (rel_matchSet ht _ (fun _ h => (inert_tests h).2.2.2.1) u) (fun _ u1 => rel_pure u1 _)

theorem rel_functionName (ht : HeadIn inert t) (u : List Token) :
    Rel t t' u (functionName (u ++ t)) (functionName (u ++ t')) :=
  rel_bind (rel_matchSet ht _ (fun _ h => (inert_tests h).2.2.2.2.2.2.1) u)
    (fun _ u1 => rel_pure u1 _)

theorem rel_literalValue (ht : HeadIn inert t) (u : List Token) :
    Rel t t' u (literalValue (u ++ t)) (literalValue (u ++ t')) :=
  rel_bind (rel_matchSet ht _ (fun _ h => (inert_tests h).2.2.2.2.2.1) u)
    (fun _ u1 => rel_pure u1 _)

theorem rel_columnName (ht : HeadIn inert t) (u : List Token) :
    Rel t t' u (columnName (u ++ t)) (columnName (u ++ t')) :=
  rel_bind (rel_matchToken ht _ (by decide) u) (fun _ u1 => rel_pure u1 _)

theorem step_expressionLoop (ht : HeadIn inert t) (ht' : HeadIn inert t') {n : Nat}
    (ih : AllSim t t' n) (m p : Nat) (ctx : ParseTree) (u : List Token) (hm : n + 1 ≤ m) :
    Rel t t' u (expressionLoop (n + 1) p ctx (u ++ t)) (expressionLoop m p ctx (u ++ t')) := by
  obtain ⟨m, rfl⟩ : ∃ k, m = k + 1 := ⟨m - 1, by omega⟩
  simp only [expressionLoop]
  rw [adaptivePredict_swap ht ht' 14 p (by simp) u]
  split
  · exact rel_of_not_ok u (by simp)
  · split
    · split
      · split
        · exact rel_of_not_ok u (by simp)
        · refine rel_bind (rel_logicalOperator ht u) (fun op u1 => ?_)
          refine rel_bind (ih.expr m 3 u1 (by omega)) (fun e u2 => ?_)
          exact ih.exprLoop m p _ u2 (by omega)
      · exact ih.exprLoop m p _ u (by omega)
    · exact rel_pure u _

theorem step_predicateExpression {n : Nat}
    (ih : AllSim t t' n) (m p : Nat) (u : List Token) (hm : n + 1 ≤ m) :
    Rel t t' u (predicateExpression (n + 1) p (u ++ t)) (predicateExpression m p (u ++ t')) := by
  obtain ⟨m, rfl⟩ : ∃ k, m = k + 1 := ⟨m - 1, by omega⟩
  simp only [predicateExpression]
  refine rel_bind (ih.value m 0 u (by omega)) (fun v u1 => ?_)
  exact ih.predLoop m p _ u1 (by omega)

theorem step_predicateExpressionLoop (ht : HeadIn inert t) (ht' : HeadIn inert t') {n : Nat}
    (ih : AllSim t t' n) (m p : Nat) (ctx : ParseTree) (u : List Token) (hm : n + 1 ≤ m) :
    Rel t t' u (predicateExpressionLoop (n + 1) p ctx (u ++ t))
      (predicateExpressionLoop m p ctx (u ++ t')) := by
  obtain ⟨m, rfl⟩ : ∃ k, m = k + 1 := ⟨m - 1, by omega⟩
  simp only [predicateExpressionLoop]
  rw [adaptivePredict_swap ht ht' 21 p (by simp) u, adaptivePredict_swap ht ht' 20 p (by simp) u]
  split
  · exact rel_of_not_ok u (by simp)
  · split
    · split
      · split
        · exact rel_of_not_ok u (by simp)
        · split
          · exact rel_of_not_ok u (by simp)
          · refine rel_bind (rel_comparisonOperator ht u) (fun op u1 => ?_)
            refine rel_bind (ih.pred m 4 u1 (by omega)) (fun e u2 => ?_)
            exact ih.predLoop m p _ u2 (by omega)
        · split
          · exact rel_of_not_ok u (by simp)
          · refine rel_bind
              (rel_optional_swap (notGuard_swap ht ht' u) (rel_notOperator ht u)) (fun a u1 => ?_)
            refine rel_bind (rel_matchToken ht _ (by decide) u1) (fun b u2 => ?_)
            refine rel_bind
              (rel_optional_swap (modifierGuard_swap ht ht' u2) (rel_exactMatchModifier ht u2))
              (fun c u3 => ?_)
            refine rel_bind (ih.pred m 3 u3 (by omega)) (fun e u4 => ?_)
            exact ih.predLoop m p _ u4 (by omega)
        · split
          · exact rel_of_not_ok u (by simp)
          · refine rel_bind
              (rel_optional_swap (notGuard_swap ht ht' u) (rel_notOperator ht u)) (fun a u1 => ?_)
            refine rel_bind (rel_matchToken ht _ (by decide) u1) (fun b u2 => ?_)
            refine rel_bind
              (rel_optional_swap (modifierGuard_swap ht ht' u2) (rel_exactMatchModifier ht u2))
              (fun c u3 => ?_)
            refine rel_bind (rel_matchToken ht _ (by decide) u3) (fun lp u4 => ?_)
            refine rel_bind (ih.exprList m u4 (by omega)) (fun l u5 => ?_)
            refine rel_bind (rel_matchToken ht _ (by decide) u5) (fun rp u6 => ?_)
            exact ih.predLoop m p _ u6 (by omega)
        · split
          · exact rel_of_not_ok u (by simp)
          · refine rel_bind (rel_matchToken ht _ (by decide) u) (fun a u1 => ?_)
            refine rel_bind
              (rel_optional_swap (notGuard_swap ht ht' u1) (rel_notOperator ht u1))
              (fun b u2 => ?_)
            refine rel_bind (rel_matchToken ht _ (by decide) u2) (fun c u3 => ?_)
            exact ih.predLoop m p _ u3 (by omega)
        · exact ih.predLoop m p _ u (by omega)
      · exact ih.predLoop m p _ u (by omega)
    · exact rel_pure u _

theorem step_valueExpression (ht : HeadIn inert t) (ht' : HeadIn inert t') {n : Nat}
    (ih : AllSim t t' n) (m p : Nat) (u : List Token) (hm : n + 1 ≤ m) :
    Rel t t' u (valueExpression (n + 1) p (u ++ t)) (valueExpression m p (u ++ t')) := by
  obtain ⟨m, rfl⟩ : ∃ k, m = k + 1 := ⟨m - 1, by omega⟩
  simp only [valueExpression]
  rw [test_LA_swap ht ht' (List.contains literalValueCases)
      (fun _ h => (inert_tests h).2.2.2.2.2.2.2.2.2.2.2.1) u,
    test_LA_swap ht ht' (List.contains functionExpressionCases)
      (fun _ h => (inert_tests h).2.2.2.2.2.2.2.2.2.2.2.2.1) u,
    test_LA_swap ht ht' (List.contains unaryOperatorCases)
      (fun _ h => (inert_tests h).2.2.2.2.2.2.2.2.2.2.2.2.2) u,
    eqTest_swap ht ht' IDENTIFIER (by decide) u, eqTest_swap ht ht' T__4 (by decide) u]
  split
  · refine rel_bind (rel_literalValue ht u) (fun a u1 => ?_)
    exact ih.valueLoop m p _ u1 (by omega)
  · split
    · refine rel_bind (rel_columnName ht u) (fun a u1 => ?_)
      exact ih.valueLoop m p _ u1 (by omega)
    · split
      · refine rel_bind (ih.func m u (by omega)) (fun a u1 => ?_)
        exact ih.valueLoop m p _ u1 (by omega)
      · split
        · refine rel_bind (rel_unaryOperator ht u) (fun a u1 => ?_)
          refine rel_bind (ih.value m 4 u1 (by omega)) (fun b u2 => ?_)
          exact ih.valueLoop m p _ u2 (by omega)
        · split
          · refine rel_bind (rel_matchToken ht _ (by decide) u) (fun a u1 => ?_)
            refine rel_bind (ih.expr m 0 u1 (by omega)) (fun b u2 => ?_)
            refine rel_bind (rel_matchToken ht _ (by decide) u2) (fun c u3 => ?_)
            exact ih.valueLoop m p _ u3 (by omega)
          · exact rel_of_not_ok u (by simp)

theorem step_valueExpressionLoop (ht : HeadIn inert t) (ht' : HeadIn inert t') {n : Nat}
    (ih : AllSim t t' n) (m p : Nat) (ctx : ParseTree) (u : List Token) (hm : n + 1 ≤ m) :
    Rel t t' u (valueExpressionLoop (n + 1) p ctx (u ++ t))
      (valueExpressionLoop m p ctx (u ++ t')) := by
  obtain ⟨m, rfl⟩ : ∃ k, m = k + 1 := ⟨m - 1, by omega⟩
  simp only [valueExpressionLoop]
  rw [adaptivePredict_swap ht ht' 24 p (by simp) u, adaptivePredict_swap ht ht' 23 p (by simp) u]
  split
  · exact rel_of_not_ok u (by simp)
  · split
    · split
      · split
        · exact rel_of_not_ok u (by simp)
        · split
          · exact rel_of_not_ok u (by simp)
          · refine rel_bind (rel_mathOperator ht u) (fun op u1 => ?_)
            refine rel_bind (ih.value m 3 u1 (by omega)) (fun e u2 => ?_)
            exact ih.valueLoop m p _ u2 (by omega)
        · split
          · exact rel_of_not_ok u (by simp)
          · refine rel_bind (rel_bitwiseOperator ht u) (fun op u1 => ?_)
            refine rel_bind (ih.value m 2 u1 (by omega)) (fun e u2 => ?_)
            exact ih.valueLoop m p _ u2 (by omega)
        · exact ih.valueLoop m p _ u (by omega)
      · exact ih.valueLoop m p _ u (by omega)
    · exact rel_pure u _

theorem step_functionExpression (ht : HeadIn inert t) (ht' : HeadIn inert t') {n : Nat}
    (ih : AllSim t t' n) (m : Nat) (u : List Token) (hm : n + 1 ≤ m) :
    Rel t t' u (functionExpression (n + 1) (u ++ t)) (functionExpression m (u ++ t')) := by
  obtain ⟨m, rfl⟩ : ∃ k, m = k + 1 := ⟨m - 1, by omega⟩
  simp only [functionExpression]
  refine rel_bind (rel_functionName ht u) (fun a u1 => ?_)
  refine rel_bind (rel_matchToken ht _ (by decide) u1) (fun b u2 => ?_)
  refine rel_bind
    (rel_optional_swap
      (test_LA_swap ht ht' expressionListGuard
        (fun _ h => (inert_tests h).2.2.2.2.2.2.2.2.2.2.1) u2)
      (ih.exprList m u2 (by omega))) (fun c u3 => ?_)
  refine rel_bind (rel_matchToken ht _ (by decide) u3) (fun d u4 => ?_)
  exact rel_pure u4 _

theorem allSim (ht : HeadIn inert t) (ht' : HeadIn inert t') : ∀ n, AllSim t t' n
  | 0 =>
    { exprList := fun _ u _ => rel_of_not_ok u (by simp [expressionList])
      exprListLoop := fun _ u _ => rel_of_not_ok u (by simp [expressionListLoop])
      expr := fun _ _ u _ => rel_of_not_ok u (by simp [expression])
      exprLoop := fun _ _ _ u _ => rel_of_not_ok u (by simp [expressionLoop])
      pred := fun _ _ u _ => rel_of_not_ok u (by simp [predicateExpression])
      predLoop := fun _ _ _ u _ => rel_of_not_ok u (by simp [predicateExpressionLoop])
      value := fun _ _ u _ => rel_of_not_ok u (by simp [valueExpression])
      valueLoop := fun _ _ _ u _ => rel_of_not_ok u (by simp [valueExpressionLoop])
      func := fun _ u _ => rel_of_not_ok u (by simp [functionExpression]) }
  | n + 1 =>
    { exprList := fun m u hm => step_expressionList (allSim ht ht' n) m u hm
      exprListLoop := fun m u hm => step_expressionListLoop ht ht' (allSim ht ht' n) m u hm
      expr := fun m p u hm => step_expression ht ht' (allSim ht ht' n) m p u hm
      exprLoop := fun m p c u hm => step_expressionLoop ht ht' (allSim ht ht' n) m p c u hm
      pred := fun m p u hm => step_predicateExpression (allSim ht ht' n) m p u hm
      predLoop := fun m p c u hm =>
        step_predicateExpressionLoop ht ht' (allSim ht ht' n) m p c u hm
      value := fun m p u hm => step_valueExpression ht ht' (allSim ht ht' n) m p u hm
      valueLoop := fun m p c u hm => step_valueExpressionLoop ht ht' (allSim ht ht' n) m p c u hm
      func := fun m u hm => step_functionExpression ht ht' (allSim ht ht' n) m u hm }


end

/-! ### The 64-bit set tests -/

theorem testBit_not64_63 : ∀ i < 64, 6 ≤ i → (not64 0x3f).testBit i = true := by decide

theorem land_not64_ne_zero {x : Nat} (h1 : 64 ≤ x) (h2 : x < 2 ^ 64) :
    (x &&& not64 0x3f) ≠ 0 := by
  obtain ⟨i, hi, hb⟩ := Nat.ge_two_pow_implies_high_bit_true (n := 6) (x := x) (by simpa using h1)
  have hi64 : i < 64 := by
    by_contra hge
    have hlt : x < 2 ^ i := lt_of_lt_of_le h2 (Nat.pow_le_pow_right (by decide) (by omega))
    rw [Nat.testBit_lt_two_pow hlt] at hb
    exact Bool.noConfusion hb
  intro h0
  have hbit : (x &&& not64 0x3f).testBit i = true := by
    rw [Nat.testBit_and, hb, testBit_not64_63 i hi64 hi]
    rfl
  rw [h0, Nat.zero_testBit] at hbit
  exact Bool.noConfusion hbit

/-- Outside the window `[offset, offset + 64)` a set test fails. -/
theorem bitsetTest_out {la off : Nat} (mask : Nat) (hla : la < 2 ^ 64) (hoff : off + 64 ≤ 2 ^ 64)
    (h : la < off ∨ off + 64 ≤ la) : bitsetTest la off mask = false := by
  have hx : 64 ≤ sub64 la off ∧ sub64 la off < 2 ^ 64 := by
    unfold sub64
    split <;> omega
  have hne := land_not64_ne_zero hx.1 hx.2
  unfold bitsetTest
  rw [Bool.and_eq_false_iff]
  left
  simpa using hne

/-- A set test agrees with a predicate on all 64-bit values as soon as it
agrees with it inside its window and the predicate fails outside. -/
theorem bitsetTest_eq (P : Nat → Bool) {off mask : Nat} (hoff : off + 64 ≤ 2 ^ 64)
    (hin : ∀ k < 64, bitsetTest (off + k) off mask = P (off + k))
    (hout : ∀ la, la < off ∨ off + 64 ≤ la → P la = false) :
    ∀ la, la < 2 ^ 64 → bitsetTest la off mask = P la := by
  intro la hla
  by_cases h : la < off ∨ off + 64 ≤ la
  · rw [bitsetTest_out mask hla hoff h, hout la h]
  · have hk : la = off + (la - off) := by omega
    rw [hk]
    exact hin (la - off) (by omega)

theorem identifierStatementSet_eq (la : Nat) (hla : la < 2 ^ 64) :
    identifierStatementSet la
      = (la == GUID_LITERAL || la == MEASUREMENT_KEY_LITERAL || la == POINT_TAG_LITERAL) :=
  bitsetTest_eq
    (fun la => la == GUID_LITERAL || la == MEASUREMENT_KEY_LITERAL || la == POINT_TAG_LITERAL)
    (by decide) (by decide)
    (by
      intro la h
      simp only [GUID_LITERAL, MEASUREMENT_KEY_LITERAL, POINT_TAG_LITERAL, Bool.or_eq_false_iff,
        beq_eq_false_iff_ne, ne_eq]
      omega) la hla

theorem comparisonOperatorSet_eq (la : Nat) (hla : la < 2 ^ 64) :
    comparisonOperatorSet la = (decide (T__8 ≤ la) && decide (la ≤ T__17)) :=
  bitsetTest_eq (fun la => decide (T__8 ≤ la) && decide (la ≤ T__17))
    (by decide) (by decide)
    (by
      intro la h
      simp only [T__8, T__17, Bool.and_eq_false_iff, decide_eq_false_iff_not]
      omega) la hla

theorem literalValueSet_eq (la : Nat) (hla : la < 2 ^ 64) :
    literalValueSet la = literalValueCases.contains la :=
  bitsetTest_eq (fun la => literalValueCases.contains la)
    (by decide) (by decide)
    (by
      intro la h
      simp only [literalValueCases, K_NULL, BOOLEAN_LITERAL, INTEGER_LITERAL, NUMERIC_LITERAL,
        GUID_LITERAL, STRING_LITERAL, DATETIME_LITERAL, List.contains_cons, List.contains_nil,
        Bool.or_false, Bool.or_eq_false_iff, beq_eq_false_iff_ne, ne_eq]
      omega) la hla

/-! ### Rules that match one token -/

theorem matchSet_cons (f : Nat → Bool) (x : Token) (r : List Token) :
    matchSet f (x :: r) = if f x.type then .ok (.terminal x, r) else .error .inputMismatch := rfl

theorem matchSet_nil (f : Nat → Bool) (h : f EOF = false) :
    matchSet f [] = .error .inputMismatch := by
  simp [matchSet, LA_one_nil, h]

theorem matchToken_cons (X : Nat) (x : Token) (r : List Token) :
    matchToken X (x :: r) = if x.type = X then .ok (.terminal x, r) else .error .inputMismatch :=
  rfl

theorem matchToken_nil (X : Nat) (h : X ≠ EOF) : matchToken X [] = .error .inputMismatch := by
  simp [matchToken, h]

theorem ok_bind {α β : Type} (a : α) (f : α → Outcome β) : (Outcome.ok a >>= f) = f a := rfl

theorem error_bind {α β : Type} (e : ParseError) (f : α → Outcome β) :
    (Outcome.error e >>= f) = .error e := rfl

theorem outOfFuel_bind {α β : Type} (f : α → Outcome β) :
    (Outcome.outOfFuel >>= f) = .outOfFuel := rfl

theorem pure_eq {α : Type} (a : α) : (pure a : Outcome α) = .ok a := rfl

theorem identifierStatement_cons (x : Token) (r : List Token) :
    identifierStatement (x :: r) =
      if identifierStatementSet x.type then .ok (.rule RuleIdentifierStatement [.terminal x], r)
      else .error .inputMismatch := by
  unfold identifierStatement
  rw [matchSet_cons]
  split <;> rfl

theorem comparisonOperator_cons (x : Token) (r : List Token) :
    comparisonOperator (x :: r) =
      if comparisonOperatorSet x.type then .ok (.rule RuleComparisonOperator [.terminal x], r)
      else .error .inputMismatch := by
  unfold comparisonOperator
  rw [matchSet_cons]
  split <;> rfl

theorem literalValue_cons (x : Token) (r : List Token) :
    literalValue (x :: r) =
      if literalValueSet x.type then .ok (.rule RuleLiteralValue [.terminal x], r)
      else .error .inputMismatch := by
  unfold literalValue
  rw [matchSet_cons]
  split <;> rfl

theorem exactMatchModifier_cons (x : Token) (r : List Token) :
    exactMatchModifier (x :: r) =
      if exactMatchModifierSet x.type then .ok (.rule RuleExactMatchModifier [.terminal x], r)
      else .error .inputMismatch := by
  unfold exactMatchModifier
  rw [matchSet_cons]
  split <;> rfl

theorem orderByColumnName_cons (x : Token) (r : List Token) :
    orderByColumnName (x :: r) =
      if x.type = IDENTIFIER then .ok (.rule RuleOrderByColumnName [.terminal x], r)
      else .error .inputMismatch := by
  unfold orderByColumnName
  rw [matchToken_cons]
  split <;> rfl

theorem tableName_cons (x : Token) (r : List Token) :
    tableName (x :: r) =
      if x.type = IDENTIFIER then .ok (.rule RuleTableName [.terminal x], r)
      else .error .inputMismatch := by
  unfold tableName
  rw [matchToken_cons]
  split <;> rfl

/-- C7. `identifierStatement` consumes exactly one token, and it accepts that
token if and only if its type is `GUID_LITERAL`, `MEASUREMENT_KEY_LITERAL` or
`POINT_TAG_LITERAL`; for every other 64-bit token type, and at the end of the
stream, the rule takes the inline-recovery branch. -/
theorem identifierStatement_accepts_iff (x : Token) (rest : List Token)
    (hx : x.type < 2 ^ 64) :
    (identifierStatement (x :: rest) =
        if x.type = GUID_LITERAL ∨ x.type = MEASUREMENT_KEY_LITERAL ∨ x.type = POINT_TAG_LITERAL
        then .ok (.rule RuleIdentifierStatement [.terminal x], rest)
        else .error .inputMismatch)
    ∧ ((∃ tree rest', identifierStatement (x :: rest) = .ok (tree, rest')) ↔
        (x.type = GUID_LITERAL ∨ x.type = MEASUREMENT_KEY_LITERAL
          ∨ x.type = POINT_TAG_LITERAL))
    ∧ identifierStatement [] = .error .inputMismatch := by
  have key : identifierStatement (x :: rest) =
      if x.type = GUID_LITERAL ∨ x.type = MEASUREMENT_KEY_LITERAL ∨ x.type = POINT_TAG_LITERAL
      then .ok (.rule RuleIdentifierStatement [.terminal x], rest)
      else .error .inputMismatch := by
    rw [identifierStatement_cons, identifierStatementSet_eq _ hx]
    simp only [Bool.or_eq_true, beq_iff_eq, or_assoc]
  refine ⟨key, ?_, ?_⟩
  · rw [key]
    split
    · rename_i h
      exact ⟨fun _ => h, fun _ => ⟨_, _, rfl⟩⟩
    · rename_i h
      exact ⟨fun ⟨_, _, h'⟩ => Outcome.noConfusion h', fun h' => absurd h' h⟩
  · unfold identifierStatement
    rw [matchSet_nil _ (by decide)]
    rfl

/-- C7, witness: a `GUID_LITERAL` token is accepted, a `STRING_LITERAL` token
is sent to inline recovery. -/
theorem identifierStatement_accepts_iff_witness :
    identifierStatement (toks [GUID_LITERAL]) =
        .ok (.rule RuleIdentifierStatement [.terminal (tok GUID_LITERAL)], [])
      ∧ identifierStatement (toks [STRING_LITERAL]) = .error .inputMismatch :=
  ⟨(identifierStatement_accepts_iff (tok GUID_LITERAL) [] (by decide)).1,
   (identifierStatement_accepts_iff (tok STRING_LITERAL) [] (by decide)).1⟩

/-- C10. `comparisonOperator` accepts a token if and only if its type is one
of the ten operators `'==='`, `'<'`, `'<='`, `'>'`, `'>='`, `'='`, `'=='`,
`'!='`, `'!=='`, `'<>'` (token types 9 to 18); every other 64-bit token type,
and the end of the stream, is rejected by inline recovery. -/
theorem comparisonOperator_accepts_iff (x : Token) (rest : List Token)
    (hx : x.type < 2 ^ 64) :
    (comparisonOperator (x :: rest) =
        if x.type ∈ [T__13, T__14, T__8, T__15, T__16, T__17, T__9, T__10, T__11, T__12]
        then .ok (.rule RuleComparisonOperator [.terminal x], rest)
        else .error .inputMismatch)
    ∧ ((∃ tree rest', comparisonOperator (x :: rest) = .ok (tree, rest')) ↔
        x.type ∈ [T__13, T__14, T__8, T__15, T__16, T__17, T__9, T__10, T__11, T__12])
    ∧ comparisonOperator [] = .error .inputMismatch := by
  have hmem : (comparisonOperatorSet x.type = true) ↔
      x.type ∈ [T__13, T__14, T__8, T__15, T__16, T__17, T__9, T__10, T__11, T__12] := by
    rw [comparisonOperatorSet_eq _ hx]
    simp only [T__8, T__9, T__10, T__11, T__12, T__13, T__14, T__15, T__16, T__17,
      Bool.and_eq_true, decide_eq_true_eq, List.mem_cons, List.mem_singleton, List.mem_nil_iff,
      or_false]
    omega
  have key : comparisonOperator (x :: rest) =
      if x.type ∈ [T__13, T__14, T__8, T__15, T__16, T__17, T__9, T__10, T__11, T__12]
      then .ok (.rule RuleComparisonOperator [.terminal x], rest)
      else .error .inputMismatch := by
    rw [comparisonOperator_cons]
    by_cases h : comparisonOperatorSet x.type = true
    · rw [if_pos h, if_pos (hmem.1 h)]
    · rw [if_neg h, if_neg (fun h' => h (hmem.2 h'))]
  refine ⟨key, ?_, ?_⟩
  · rw [key]
    split
    · rename_i h
      exact ⟨fun _ => h, fun _ => ⟨_, _, rfl⟩⟩
    · rename_i h
      exact ⟨fun ⟨_, _, h'⟩ => Outcome.noConfusion h', fun h' => absurd h' h⟩
  · unfold comparisonOperator
    rw [matchSet_nil _ (by decide)]
    rfl

/-- C10, witness: `'='` is accepted and `'+'` is rejected. -/
theorem comparisonOperator_accepts_iff_witness :
    comparisonOperator (toks [T__13]) =
        .ok (.rule RuleComparisonOperator [.terminal (tok T__13)], [])
      ∧ comparisonOperator (toks [T__3]) = .error .inputMismatch :=
  ⟨(comparisonOperator_accepts_iff (tok T__13) [] (by decide)).1,
   (comparisonOperator_accepts_iff (tok T__3) [] (by decide)).1⟩

/-! ### `topLimit` and `orderingTerm` -/

theorem topLimit_nil : topLimit [] = .error .inputMismatch := rfl

theorem topLimit_cons (x : Token) (r : List Token) :
    topLimit (x :: r) =
      if x.type = T__2 ∨ x.type = T__3 then
        match r with
        | [] => .error .inputMismatch
        | i :: r' =>
          if i.type = INTEGER_LITERAL then
            .ok (.rule RuleTopLimit [.terminal x, .terminal i], r')
          else .error .inputMismatch
      else if x.type = INTEGER_LITERAL then .ok (.rule RuleTopLimit [.terminal x], r)
      else .error .inputMismatch := by
  unfold topLimit optional
  simp only [LA_one_cons, Bool.or_eq_true, beq_iff_eq, matchSet_cons, signSet]
  by_cases h : x.type = T__2 ∨ x.type = T__3
  · simp only [h, if_true, ok_bind]
    cases r with
    | nil => rfl
    | cons i r' =>
      simp only [matchToken_cons]
      split <;> rfl
  · simp only [h, if_false, ok_bind, matchToken_cons]
    split <;> rfl

/-- The inputs on which `topLimit` returns normally, with the context it
returns. -/
theorem topLimit_eq_ok (s : List Token) (tree : ParseTree) (rest : List Token) :
    topLimit s = .ok (tree, rest) ↔
      ((∃ i, s = i :: rest ∧ i.type = INTEGER_LITERAL
          ∧ tree = .rule RuleTopLimit [.terminal i])
        ∨ (∃ sg i, s = sg :: i :: rest ∧ (sg.type = T__2 ∨ sg.type = T__3)
          ∧ i.type = INTEGER_LITERAL
          ∧ tree = .rule RuleTopLimit [.terminal sg, .terminal i])) := by
  cases s with
  | nil =>
    rw [topLimit_nil]
    constructor
    · intro h; exact Outcome.noConfusion h
    · rintro (⟨i, h, _⟩ | ⟨sg, i, h, _⟩) <;> exact List.noConfusion h
  | cons x r =>
    rw [topLimit_cons]
    by_cases hs : x.type = T__2 ∨ x.type = T__3
    · have hni : x.type ≠ INTEGER_LITERAL := by
        rcases hs with h | h <;> rw [h] <;> decide
      rw [if_pos hs]
      cases r with
      | nil =>
        constructor
        · intro h; exact Outcome.noConfusion h
        · rintro (⟨i, h, hi, _⟩ | ⟨sg, i, h, _⟩)
          · obtain ⟨rfl, rfl⟩ := List.cons.inj h
            exact absurd hi hni
          · obtain ⟨_, h2⟩ := List.cons.inj h
            exact List.noConfusion h2
      | cons i r' =>
        by_cases hi : i.type = INTEGER_LITERAL
        · simp only [hi, if_true, Outcome.ok.injEq, Prod.mk.injEq]
          constructor
          · rintro ⟨rfl, rfl⟩
            exact Or.inr ⟨x, i, rfl, hs, hi, rfl⟩
          · rintro (⟨j, h, hj, _⟩ | ⟨sg, j, h, _, _, ht⟩)
            · obtain ⟨rfl, _⟩ := List.cons.inj h
              exact absurd hj hni
            · obtain ⟨rfl, h2⟩ := List.cons.inj h
              obtain ⟨rfl, rfl⟩ := List.cons.inj h2
              exact ⟨ht.symm, rfl⟩
        · simp only [hi, if_false]
          constructor
          · intro h; exact Outcome.noConfusion h
          · rintro (⟨j, h, hj, _⟩ | ⟨sg, j, h, _, hj, _⟩)
            · obtain ⟨rfl, _⟩ := List.cons.inj h
              exact absurd hj hni
            · obtain ⟨rfl, h2⟩ := List.cons.inj h
              obtain ⟨rfl, rfl⟩ := List.cons.inj h2
              exact absurd hj hi
    · rw [if_neg hs]
      by_cases hi : x.type = INTEGER_LITERAL
      · simp only [hi, if_true, Outcome.ok.injEq, Prod.mk.injEq]
        constructor
        · rintro ⟨rfl, rfl⟩
          exact Or.inl ⟨x, rfl, hi, rfl⟩
        · rintro (⟨j, h, _, ht⟩ | ⟨sg, j, h, hsg, _, _⟩)
          · obtain ⟨rfl, rfl⟩ := List.cons.inj h
            exact ⟨ht.symm, rfl⟩
          · obtain ⟨rfl, _⟩ := List.cons.inj h
            exact absurd hsg hs
      · simp only [hi, if_false]
        constructor
        · intro h; exact Outcome.noConfusion h
        · rintro (⟨j, h, hj, _⟩ | ⟨sg, j, h, hsg, _, _⟩)
          · obtain ⟨rfl, _⟩ := List.cons.inj h
            exact absurd hj hi
          · obtain ⟨rfl, _⟩ := List.cons.inj h
            exact absurd hsg hs

/-- C5. `topLimit` accepts exactly an optional single sign token (`'-'` or
`'+'`) followed by one `INTEGER_LITERAL`, and every other input is sent to
inline recovery.  After `K_TOP`: an integer, `-` integer and `+` integer are
accepted; two signs in a row, a `NUMERIC_LITERAL` count and a missing count
are rejected. -/
theorem topLimit_accepts_iff :
    (∀ s tree rest, topLimit s = .ok (tree, rest) ↔
      ((∃ i, s = i :: rest ∧ i.type = INTEGER_LITERAL
          ∧ tree = .rule RuleTopLimit [.terminal i])
        ∨ (∃ sg i, s = sg :: i :: rest ∧ (sg.type = T__2 ∨ sg.type = T__3)
          ∧ i.type = INTEGER_LITERAL
          ∧ tree = .rule RuleTopLimit [.terminal sg, .terminal i])))
    ∧ (∀ s, (∃ r, topLimit s = .ok r) ∨ topLimit s = .error .inputMismatch)
    ∧ (topClause (toks [K_TOP, INTEGER_LITERAL])).isOk = true
    ∧ (topClause (toks [K_TOP, T__2, INTEGER_LITERAL])).isOk = true
    ∧ (topClause (toks [K_TOP, T__3, INTEGER_LITERAL])).isOk = true
    ∧ topClause (toks [K_TOP, T__2, T__2, INTEGER_LITERAL]) = .error .inputMismatch
    ∧ topClause (toks [K_TOP, T__3, T__2, INTEGER_LITERAL]) = .error .inputMismatch
    ∧ topClause (toks [K_TOP, NUMERIC_LITERAL]) = .error .inputMismatch
    ∧ topClause (toks [K_TOP, T__2, NUMERIC_LITERAL]) = .error .inputMismatch
    ∧ topClause (toks [K_TOP]) = .error .inputMismatch
    ∧ topClause (toks [K_TOP, T__2]) = .error .inputMismatch
    ∧ topClause (toks [K_TOP, IDENTIFIER]) = .error .inputMismatch := by
  refine ⟨?_, ?_, rfl, rfl, rfl, rfl, rfl, rfl, rfl, rfl, rfl, rfl⟩
  · exact topLimit_eq_ok
  · intro s
    cases s with
    | nil => exact Or.inr topLimit_nil
    | cons x r =>
      rw [topLimit_cons]
      split
      · cases r with
        | nil => exact Or.inr rfl
        | cons i r' =>
          simp only
          split
          · exact Or.inl ⟨_, rfl⟩
          · exact Or.inr rfl
      · split
        · exact Or.inl ⟨_, rfl⟩
        · exact Or.inr rfl

/-! ### Simulation of the statement rules across statement ends -/

section
variable {t t' : List Token}

theorem rel_expression (ht : HeadIn inert t) (ht' : HeadIn inert t') {n m : Nat} (hm : n ≤ m)
    (p : Nat) (u : List Token) :
    Rel t t' u (expression n p (u ++ t)) (expression m p (u ++ t')) :=
  (allSim ht ht' n).expr m p u hm

theorem rel_identifierStatement (ht : HeadIn terminator t) (u : List Token) :
    Rel t t' u (identifierStatement (u ++ t)) (identifierStatement (u ++ t')) :=
  rel_bind (rel_matchSet ht _ (fun _ h => (terminator_tests h).1) u) (fun _ u1 => rel_pure u1 _)

theorem rel_tableName (ht : HeadIn terminator t) (u : List Token) :
    Rel t t' u (tableName (u ++ t)) (tableName (u ++ t')) :=
  rel_bind (rel_matchToken ht _ (by decide) u) (fun _ u1 => rel_pure u1 _)

theorem rel_orderByColumnName (ht : HeadIn terminator t) (u : List Token) :
    Rel t t' u (orderByColumnName (u ++ t)) (orderByColumnName (u ++ t')) :=
  rel_bind (rel_matchToken ht _ (by decide) u) (fun _ u1 => rel_pure u1 _)

theorem rel_exactMatchModifier_stmt (ht : HeadIn terminator t) (u : List Token) :
    Rel t t' u (exactMatchModifier (u ++ t)) (exactMatchModifier (u ++ t')) :=
  rel_exactMatchModifier (headIn_inert_of_terminator ht) u

theorem orGuard_swap {I : Nat → Bool} (ht : HeadIn I t) (ht' : HeadIn I t') (X Y : Nat)
    (hX : I X = false) (hY : I Y = false) (u : List Token) :
    (LA 1 (u ++ t') == X || LA 1 (u ++ t') == Y) = (LA 1 (u ++ t) == X || LA 1 (u ++ t) == Y) := by
  rw [eqTest_swap ht ht' X hX u, eqTest_swap ht ht' Y hY u]

theorem rel_topLimit (ht : HeadIn terminator t) (ht' : HeadIn terminator t') (u : List Token) :
    Rel t t' u (topLimit (u ++ t)) (topLimit (u ++ t')) := by
  unfold topLimit
  refine rel_bind
    (rel_optional_swap (orGuard_swap ht ht' T__2 T__3 (by decide) (by decide) u)
      (rel_matchSet ht _ (fun _ h => (terminator_tests h).2.1) u)) (fun a u1 => ?_)
  refine rel_bind (rel_matchToken ht _ (by decide) u1) (fun b u2 => ?_)
  exact rel_pure u2 _

theorem rel_orderingTerm (ht : HeadIn terminator t) (ht' : HeadIn terminator t')
    (u : List Token) : Rel t t' u (orderingTerm (u ++ t)) (orderingTerm (u ++ t')) := by
  unfold orderingTerm
  refine rel_bind
    (rel_optional_swap (orGuard_swap ht ht' T__8 K_BINARY (by decide) (by decide) u)
      (rel_exactMatchModifier_stmt ht u)) (fun a u1 => ?_)
  refine rel_bind (rel_orderByColumnName ht u1) (fun b u2 => ?_)
  refine rel_bind
    (rel_optional_swap (orGuard_swap ht ht' K_ASC K_DESC (by decide) (by decide) u2)
      (rel_matchSet ht _ (fun _ h => (terminator_tests h).2.2.1) u2)) (fun c u3 => ?_)
  exact rel_pure u3 _

theorem rel_orderingTermLoop (ht : HeadIn terminator t) (ht' : HeadIn terminator t') :
    ∀ (n m : Nat), n ≤ m → ∀ u : List Token,
      Rel t t' u (orderingTermLoop n (u ++ t)) (orderingTermLoop m (u ++ t'))
  | 0, _, _, u => rel_of_not_ok u (by simp [orderingTermLoop])
  | n + 1, m, hm, u => by
    obtain ⟨m, rfl⟩ : ∃ k, m = k + 1 := ⟨m - 1, by omega⟩
    simp only [orderingTermLoop]
    rw [eqTest_swap ht ht' T__1 (by decide) u]
    split
    · refine rel_bind (rel_matchToken ht _ (by decide) u) (fun c u1 => ?_)
      refine rel_bind (rel_orderingTerm ht ht' u1) (fun e u2 => ?_)
      refine rel_bind (rel_orderingTermLoop ht ht' n m (by omega) u2) (fun more u3 => ?_)
      exact rel_pure u3 _
    · exact rel_pure u _

theorem rel_topClause (ht : HeadIn terminator t) (ht' : HeadIn terminator t') (u : List Token) :
    Rel t t' u (topClause (u ++ t)) (topClause (u ++ t')) := by
  unfold topClause
  rw [eqTest_swap ht ht' K_TOP (by decide) u]
  split
  · refine rel_bind (rel_matchToken ht _ (by decide) u) (fun a u1 => ?_)
    refine rel_bind (rel_topLimit ht ht' u1) (fun b u2 => ?_)
    exact rel_pure u2 _
  · exact rel_pure u _

theorem rel_orderByClause (ht : HeadIn terminator t) (ht' : HeadIn terminator t') {n m : Nat}
    (hm : n ≤ m) (u : List Token) :
    Rel t t' u (orderByClause n (u ++ t)) (orderByClause m (u ++ t')) := by
  unfold orderByClause
  rw [eqTest_swap ht ht' K_ORDER (by decide) u]
  split
  · refine rel_bind (rel_matchToken ht _ (by decide) u) (fun a u1 => ?_)
    refine rel_bind (rel_matchToken ht _ (by decide) u1) (fun b u2 => ?_)
    refine rel_bind (rel_orderingTerm ht ht' u2) (fun c u3 => ?_)
    refine rel_bind (rel_orderingTermLoop ht ht' n m hm u3) (fun d u4 => ?_)
    exact rel_pure u4 _
  · exact rel_pure u _

theorem rel_filterStatement (ht : HeadIn terminator t) (ht' : HeadIn terminator t') {n m : Nat}
    (hm : n ≤ m) (u : List Token) :
    Rel t t' u (filterStatement n (u ++ t)) (filterStatement m (u ++ t')) := by
  unfold filterStatement
  refine rel_bind (rel_matchToken ht _ (by decide) u) (fun a u1 => ?_)
  refine rel_bind (rel_topClause ht ht' u1) (fun b u2 => ?_)
  refine rel_bind (rel_tableName ht u2) (fun c u3 => ?_)
  refine rel_bind (rel_matchToken ht _ (by decide) u3) (fun d u4 => ?_)
  refine rel_bind
    (rel_expression (headIn_inert_of_terminator ht) (headIn_inert_of_terminator ht') hm 0 u4)
    (fun e u5 => ?_)
  refine rel_bind (rel_orderByClause ht ht' hm u5) (fun f u6 => ?_)
  exact rel_pure u6 _

theorem adaptivePredict5_swap (ht : HeadIn terminator t) (ht' : HeadIn terminator t')
    (p : Nat) (u : List Token) :
    adaptivePredict 5 p (u ++ t') = adaptivePredict 5 p (u ++ t) := by
  have e1 := eqTest_swap ht ht' MEASUREMENT_KEY_LITERAL (by decide) u
  have e2 := eqTest_swap ht ht' POINT_TAG_LITERAL (by decide) u
  have e3 := eqTest_swap ht ht' GUID_LITERAL (by decide) u
  have e4 := eqTest_swap ht ht' K_FILTER (by decide) u
  have e5 := test_LA_swap ht ht' startsExpression (fun _ h => (terminator_tests h).2.2.2.2.2.1) u
  unfold adaptivePredict
  simp only [Nat.reduceEqDiff, ↓reduceIte]
  rw [e1, e2, e3, e4, e5]
  cases u with
  | nil =>
    have h3 : (LA 1 ([] ++ t) == GUID_LITERAL) = false :=
      beq_false_of_mem (I := terminator) ht (by decide)
    simp only [h3, Bool.false_eq_true, ↓reduceIte]
  | cons x r =>
    simp only [List.cons_append, LA_two_cons]
    rw [test_LA_swap ht ht' continuesExpression (fun _ h => (terminator_tests h).2.2.2.2.1) r]

theorem rel_filterExpressionStatement (ht : HeadIn terminator t) (ht' : HeadIn terminator t')
    {n m : Nat} (hm : n ≤ m) (u : List Token) :
    Rel t t' u (filterExpressionStatement n (u ++ t)) (filterExpressionStatement m (u ++ t')) := by
  unfold filterExpressionStatement
  rw [adaptivePredict5_swap ht ht' 0 u]
  split
  · exact rel_of_not_ok u (by simp)
  · refine rel_bind (rel_identifierStatement ht u) (fun a u1 => ?_)
    exact rel_pure u1 _
  · refine rel_bind (rel_filterStatement ht ht' hm u) (fun a u1 => ?_)
    exact rel_pure u1 _
  · refine rel_bind
      (rel_expression (headIn_inert_of_terminator ht) (headIn_inert_of_terminator ht') hm 0 u)
      (fun a u1 => ?_)
    exact rel_pure u1 _
  · exact rel_pure u _

end

/-! ### Inversion of the matching primitives -/

theorem matchToken_eq_ok {X : Nat} (hX : X ≠ EOF) {s r : List Token} {tr : ParseTree} :
    matchToken X s = .ok (tr, r) ↔ ∃ x, s = x :: r ∧ x.type = X ∧ tr = .terminal x := by
  cases s with
  | nil => simp [matchToken, hX]
  | cons y s' =>
    rw [matchToken_cons]
    split
    · rename_i h
      constructor
      · intro h'
        obtain ⟨rfl, rfl⟩ := Prod.mk.inj (Outcome.ok.inj h')
        exact ⟨y, rfl, h, rfl⟩
      · rintro ⟨x, hx, _, rfl⟩
        obtain ⟨rfl, rfl⟩ := List.cons.inj hx
        rfl
    · rename_i h
      constructor
      · intro h'; exact Outcome.noConfusion h'
      · rintro ⟨x, hx, hx', _⟩
        obtain ⟨rfl, rfl⟩ := List.cons.inj hx
        exact absurd hx' h

theorem matchSet_eq_ok {f : Nat → Bool} (hf : f EOF = false) {s r : List Token}
    {tr : ParseTree} :
    matchSet f s = .ok (tr, r) ↔ ∃ x, s = x :: r ∧ f x.type = true ∧ tr = .terminal x := by
  cases s with
  | nil => simp [matchSet, LA_one_nil, hf]
  | cons y s' =>
    rw [matchSet_cons]
    split
    · rename_i h
      constructor
      · intro h'
        obtain ⟨rfl, rfl⟩ := Prod.mk.inj (Outcome.ok.inj h')
        exact ⟨y, rfl, h, rfl⟩
      · rintro ⟨x, hx, _, rfl⟩
        obtain ⟨rfl, rfl⟩ := List.cons.inj hx
        rfl
    · rename_i h
      constructor
      · intro h'; exact Outcome.noConfusion h'
      · rintro ⟨x, hx, hx', _⟩
        obtain ⟨rfl, rfl⟩ := List.cons.inj hx
        exact absurd hx' h

theorem optional_eq_ok {g : Bool} {rule : List Token → RuleResult} {s r : List Token}
    {l : List ParseTree} :
    optional g rule s = .ok (l, r) ↔
      (g = false ∧ l = [] ∧ r = s) ∨ (g = true ∧ ∃ tr, rule s = .ok (tr, r) ∧ l = [tr]) := by
  unfold optional
  cases g with
  | false =>
    simp only [Bool.false_eq_true, if_false, Outcome.ok.injEq, Prod.mk.injEq, true_and,
      false_and, or_false]
    constructor
    · rintro ⟨rfl, rfl⟩; exact ⟨rfl, rfl⟩
    · rintro ⟨rfl, rfl⟩; exact ⟨rfl, rfl⟩
  | true =>
    simp only [if_true, Bool.true_eq_false, false_and, true_and, false_or]
    cases hr : rule s with
    | ok v =>
      obtain ⟨tr, r'⟩ := v
      simp only [Outcome.ok.injEq, Prod.mk.injEq]
      constructor
      · rintro ⟨rfl, rfl⟩; exact ⟨tr, ⟨rfl, rfl⟩, rfl⟩
      · rintro ⟨tr', ⟨rfl, rfl⟩, rfl⟩; exact ⟨rfl, rfl⟩
    | error e => simp
    | outOfFuel => simp

/-! ### The shape of an ordering term -/

theorem exactMatchModifier_eq_ok {s r : List Token} {tr : ParseTree} :
    exactMatchModifier s = .ok (tr, r) ↔
      ∃ x, s = x :: r ∧ (x.type = K_BINARY ∨ x.type = T__8)
        ∧ tr = .rule RuleExactMatchModifier [.terminal x] := by
  unfold exactMatchModifier
  constructor
  · intro h
    obtain ⟨⟨a, r1⟩, h1, h2⟩ := bind_eq_ok.1 h
    obtain ⟨x, rfl, hx, rfl⟩ := (matchSet_eq_ok (by decide)).1 h1
    obtain ⟨rfl, rfl⟩ := Prod.mk.inj (pure_eq_ok.1 h2)
    refine ⟨x, rfl, ?_, rfl⟩
    simpa [exactMatchModifierSet, or_comm] using hx
  · rintro ⟨x, rfl, hx, rfl⟩
    have hset : exactMatchModifierSet x.type = true := by
      simpa [exactMatchModifierSet, or_comm] using hx
    rw [matchSet_cons, if_pos hset]
    rfl

theorem orderByColumnName_eq_ok {s r : List Token} {tr : ParseTree} :
    orderByColumnName s = .ok (tr, r) ↔
      ∃ x, s = x :: r ∧ x.type = IDENTIFIER ∧ tr = .rule RuleOrderByColumnName [.terminal x] := by
  unfold orderByColumnName
  constructor
  · intro h
    obtain ⟨⟨a, r1⟩, h1, h2⟩ := bind_eq_ok.1 h
    obtain ⟨x, rfl, hx, rfl⟩ := (matchToken_eq_ok (by decide)).1 h1
    obtain ⟨rfl, rfl⟩ := Prod.mk.inj (pure_eq_ok.1 h2)
    exact ⟨x, rfl, hx, rfl⟩
  · rintro ⟨x, rfl, hx, rfl⟩
    rw [matchToken_cons, if_pos hx]
    rfl

theorem tableName_eq_ok {s r : List Token} {tr : ParseTree} :
    tableName s = .ok (tr, r) ↔
      ∃ x, s = x :: r ∧ x.type = IDENTIFIER ∧ tr = .rule RuleTableName [.terminal x] := by
  unfold tableName
  constructor
  · intro h
    obtain ⟨⟨a, r1⟩, h1, h2⟩ := bind_eq_ok.1 h
    obtain ⟨x, rfl, hx, rfl⟩ := (matchToken_eq_ok (by decide)).1 h1
    obtain ⟨rfl, rfl⟩ := Prod.mk.inj (pure_eq_ok.1 h2)
    exact ⟨x, rfl, hx, rfl⟩
  · rintro ⟨x, rfl, hx, rfl⟩
    rw [matchToken_cons, if_pos hx]
    rfl

theorem modifierGuard_eq (s : List Token) :
    (LA 1 s == T__8 || LA 1 s == K_BINARY) = exactMatchModifierSet (LA 1 s) := rfl

theorem directionGuard_eq (s : List Token) :
    (LA 1 s == K_ASC || LA 1 s == K_DESC) = directionSet (LA 1 s) := rfl

theorem directionSet_iff (ty : Nat) : directionSet ty = true ↔ ty = K_ASC ∨ ty = K_DESC := by
  simp [directionSet]

theorem exactMatchModifierSet_iff (ty : Nat) :
    exactMatchModifierSet ty = true ↔ ty = K_BINARY ∨ ty = T__8 := by
  simp [exactMatchModifierSet, or_comm]

/-- The inputs on which `orderingTerm` returns normally, leaving `rest`. -/
theorem orderingTerm_ok_iff (s rest : List Token) :
    (∃ tree, orderingTerm s = .ok (tree, rest)) ↔
      ∃ m c d, s = m ++ c :: (d ++ rest) ∧ OptionalModifier m ∧ c.type = IDENTIFIER
        ∧ OptionalDirection d ∧ (d = [] → directionSet (LA 1 rest) = false) := by
  constructor
  · rintro ⟨tree, h⟩
    unfold orderingTerm at h
    obtain ⟨⟨m, r1⟩, h1, h⟩ := bind_eq_ok.1 h
    obtain ⟨⟨c, r2⟩, h2, h⟩ := bind_eq_ok.1 h
    obtain ⟨⟨d, r3⟩, h3, h⟩ := bind_eq_ok.1 h
    obtain ⟨-, rfl⟩ := Prod.mk.inj (pure_eq_ok.1 h)
    obtain ⟨x, rfl, hx, -⟩ := orderByColumnName_eq_ok.1 h2
    have hd : ∃ d', r2 = d' ++ r3 ∧ OptionalDirection d'
        ∧ (d' = [] → directionSet (LA 1 r3) = false) := by
      rcases optional_eq_ok.1 h3 with ⟨hg, -, rfl⟩ | ⟨-, tr, htr, -⟩
      · exact ⟨[], rfl, Or.inl rfl, fun _ => hg⟩
      · obtain ⟨y, rfl, hy, -⟩ := (matchSet_eq_ok (by decide)).1 htr
        exact ⟨[y], rfl, Or.inr ⟨y, rfl, (directionSet_iff _).1 hy⟩,
          fun h => List.noConfusion h⟩
    obtain ⟨d', rfl, hd1, hd2⟩ := hd
    rcases optional_eq_ok.1 h1 with ⟨-, -, rfl⟩ | ⟨-, tr, htr, -⟩
    · exact ⟨[], x, d', rfl, Or.inl rfl, hx, hd1, hd2⟩
    · obtain ⟨y, rfl, hy, -⟩ := exactMatchModifier_eq_ok.1 htr
      exact ⟨[y], x, d', rfl, Or.inr ⟨y, rfl, hy⟩, hx, hd1, hd2⟩
  · rintro ⟨m, c, d, rfl, hm, hc, hd, hrest⟩
    have hcm : exactMatchModifierSet c.type = false := by rw [hc]; rfl
    -- the direction part, run on `d ++ rest`
    have hdir : ∃ l, optional (LA 1 (d ++ rest) == K_ASC || LA 1 (d ++ rest) == K_DESC)
        (matchSet directionSet) (d ++ rest) = .ok (l, rest) := by
      rcases hd with rfl | ⟨y, rfl, hy⟩
      · exact ⟨[], optional_eq_ok.2 (Or.inl ⟨hrest rfl, rfl, rfl⟩)⟩
      · have hy' : directionSet y.type = true := (directionSet_iff _).2 hy
        exact ⟨[.terminal y], optional_eq_ok.2
          (Or.inr ⟨hy', _, by rw [List.singleton_append, matchSet_cons, if_pos hy'], rfl⟩)⟩
    obtain ⟨l, hl⟩ := hdir
    have hcol : orderByColumnName (c :: (d ++ rest))
        = .ok (.rule RuleOrderByColumnName [.terminal c], d ++ rest) :=
      orderByColumnName_eq_ok.2 ⟨c, rfl, hc, rfl⟩
    rcases hm with rfl | ⟨y, rfl, hy⟩
    · have h1 : optional (LA 1 ([] ++ c :: (d ++ rest)) == T__8
          || LA 1 ([] ++ c :: (d ++ rest)) == K_BINARY) exactMatchModifier
          ([] ++ c :: (d ++ rest)) = .ok ([], c :: (d ++ rest)) :=
        optional_eq_ok.2 (Or.inl ⟨hcm, rfl, rfl⟩)
      refine ⟨.rule RuleOrderingTerm
        ([] ++ [.rule RuleOrderByColumnName [.terminal c]] ++ l), ?_⟩
      unfold orderingTerm
      rw [h1, ok_bind]
      simp only []
      rw [hcol, ok_bind]
      simp only []
      rw [hl, ok_bind]
      rfl
    · have hy' : exactMatchModifierSet y.type = true := (exactMatchModifierSet_iff _).2 hy
      have h1 : optional (LA 1 ([y] ++ c :: (d ++ rest)) == T__8
          || LA 1 ([y] ++ c :: (d ++ rest)) == K_BINARY) exactMatchModifier
          ([y] ++ c :: (d ++ rest))
          = .ok ([.rule RuleExactMatchModifier [.terminal y]], c :: (d ++ rest)) :=
        optional_eq_ok.2
          (Or.inr ⟨hy', _, exactMatchModifier_eq_ok.2 ⟨y, rfl, hy, rfl⟩, rfl⟩)
      refine ⟨.rule RuleOrderingTerm
        ([.rule RuleExactMatchModifier [.terminal y]]
          ++ [.rule RuleOrderByColumnName [.terminal c]] ++ l), ?_⟩
      unfold orderingTerm
      rw [h1, ok_bind]
      simp only []
      rw [hcol, ok_bind]
      simp only []
      rw [hl, ok_bind]
      rfl

/-! ### Results do not depend on the fuel once it suffices -/

theorem stable_refl {α : Type} (x : Outcome α) : Stable x x := fun _ => rfl

theorem stable_bind {α β : Type} {x y : Outcome α} {F G : α → Outcome β}
    (h1 : Stable x y) (h2 : ∀ a, Stable (F a) (G a)) : Stable (x >>= F) (y >>= G) := by
  intro h
  cases x with
  | ok a =>
    rw [h1 (by simp)]
    exact h2 a h
  | error e =>
    rw [h1 (by simp)]
    rfl
  | outOfFuel => exact absurd rfl h

theorem stable_of_outOfFuel {α : Type} (y : Outcome α) : Stable (.outOfFuel) y :=
  fun h => absurd rfl h

theorem stable_optional (g : Bool) {rule rule' : List Token → RuleResult} (s : List Token)
    (h : Stable (rule s) (rule' s)) : Stable (optional g rule s) (optional g rule' s) := by
  intro hx
  unfold optional at hx ⊢
  cases g with
  | false => rfl
  | true =>
    simp only [if_true] at hx ⊢
    cases hr : rule s with
    | ok v => rw [h (by simp [hr]), hr]
    | error e => rw [h (by simp [hr]), hr]
    | outOfFuel => rw [hr] at hx; exact absurd rfl hx

theorem stable_expressionList {n : Nat} (ih : AllStable n) (m : Nat) (s : List Token)
    (hm : n + 1 ≤ m) : Stable (expressionList (n + 1) s) (expressionList m s) := by
  obtain ⟨m, rfl⟩ : ∃ k, m = k + 1 := ⟨m - 1, by omega⟩
  simp only [expressionList]
  refine stable_bind (ih.expr m 0 s (by omega)) (fun a => ?_)
  refine stable_bind (ih.exprListLoop m _ (by omega)) (fun b => ?_)
  exact stable_refl _

theorem stable_expressionListLoop {n : Nat} (ih : AllStable n) (m : Nat) (s : List Token)
    (hm : n + 1 ≤ m) : Stable (expressionListLoop (n + 1) s) (expressionListLoop m s) := by
  obtain ⟨m, rfl⟩ : ∃ k, m = k + 1 := ⟨m - 1, by omega⟩
  simp only [expressionListLoop]
  split
  · refine stable_bind (stable_refl _) (fun a => ?_)
    refine stable_bind (ih.expr m 0 _ (by omega)) (fun b => ?_)
    refine stable_bind (ih.exprListLoop m _ (by omega)) (fun c => ?_)
    exact stable_refl _
  · exact stable_refl _

theorem stable_expression {n : Nat} (ih : AllStable n) (m p : Nat) (s : List Token)
    (hm : n + 1 ≤ m) : Stable (expression (n + 1) p s) (expression m p s) := by
  obtain ⟨m, rfl⟩ : ∃ k, m = k + 1 := ⟨m - 1, by omega⟩
  simp only [expression]
  split
  · exact stable_refl _
  · refine stable_bind (stable_refl _) (fun a => ?_)
    refine stable_bind (ih.expr m 3 _ (by omega)) (fun b => ?_)
    exact ih.exprLoop m p _ _ (by omega)
  · refine stable_bind (ih.pred m 0 _ (by omega)) (fun b => ?_)
    exact ih.exprLoop m p _ _ (by omega)
  · exact ih.exprLoop m p _ _ (by omega)

theorem stable_expressionLoop {n : Nat} (ih : AllStable n) (m p : Nat) (ctx : ParseTree)
    (s : List Token) (hm : n + 1 ≤ m) :
    Stable (expressionLoop (n + 1) p ctx s) (expressionLoop m p ctx s) := by
  obtain ⟨m, rfl⟩ : ∃ k, m = k + 1 := ⟨m - 1, by omega⟩
  simp only [expressionLoop]
  split
  · exact stable_refl _
  · split
    · split
      · split
        · exact stable_refl _
        · refine stable_bind (stable_refl _) (fun a => ?_)
          refine stable_bind (ih.expr m 3 _ (by omega)) (fun b => ?_)
          exact ih.exprLoop m p _ _ (by omega)
      · exact ih.exprLoop m p _ _ (by omega)
    · exact stable_refl _

theorem stable_predicateExpression {n : Nat} (ih : AllStable n) (m p : Nat) (s : List Token)
    (hm : n + 1 ≤ m) : Stable (predicateExpression (n + 1) p s) (predicateExpression m p s) := by
  obtain ⟨m, rfl⟩ : ∃ k, m = k + 1 := ⟨m - 1, by omega⟩
  simp only [predicateExpression]
  refine stable_bind (ih.value m 0 _ (by omega)) (fun b => ?_)
  exact ih.predLoop m p _ _ (by omega)

theorem stable_predicateExpressionLoop {n : Nat} (ih : AllStable n) (m p : Nat)
    (ctx : ParseTree) (s : List Token) (hm : n + 1 ≤ m) :
    Stable (predicateExpressionLoop (n + 1) p ctx s) (predicateExpressionLoop m p ctx s) := by
  obtain ⟨m, rfl⟩ : ∃ k, m = k + 1 := ⟨m - 1, by omega⟩
  simp only [predicateExpressionLoop]
  split
  · exact stable_refl _
  · split
    · split
      · split
        · exact stable_refl _
        · split
          · exact stable_refl _
          · refine stable_bind (stable_refl _) (fun a => ?_)
            refine stable_bind (ih.pred m 4 _ (by omega)) (fun b => ?_)
            exact ih.predLoop m p _ _ (by omega)
        · split
          · exact stable_refl _
          · refine stable_bind (stable_refl _) (fun a => ?_)
            refine stable_bind (stable_refl _) (fun b => ?_)
            refine stable_bind (stable_refl _) (fun c => ?_)
            refine stable_bind (ih.pred m 3 _ (by omega)) (fun d => ?_)
            exact ih.predLoop m p _ _ (by omega)
        · split
          · exact stable_refl _
          · refine stable_bind (stable_refl _) (fun a => ?_)
            refine stable_bind (stable_refl _) (fun b => ?_)
            refine stable_bind (stable_refl _) (fun c => ?_)
            refine stable_bind (stable_refl _) (fun d => ?_)
            refine stable_bind (ih.exprList m _ (by omega)) (fun e => ?_)
            refine stable_bind (stable_refl _) (fun f => ?_)
            exact ih.predLoop m p _ _ (by omega)
        · split
          · exact stable_refl _
          · refine stable_bind (stable_refl _) (fun a => ?_)
            refine stable_bind (stable_refl _) (fun b => ?_)
            refine stable_bind (stable_refl _) (fun c => ?_)
            exact ih.predLoop m p _ _ (by omega)
        · exact ih.predLoop m p _ _ (by omega)
      · exact ih.predLoop m p _ _ (by omega)
    · exact stable_refl _

theorem stable_valueExpression {n : Nat} (ih : AllStable n) (m p : Nat) (s : List Token)
    (hm : n + 1 ≤ m) : Stable (valueExpression (n + 1) p s) (valueExpression m p s) := by
  obtain ⟨m, rfl⟩ : ∃ k, m = k + 1 := ⟨m - 1, by omega⟩
  simp only [valueExpression]
  split
  · refine stable_bind (stable_refl _) (fun a => ?_)
    exact ih.valueLoop m p _ _ (by omega)
  · split
    · refine stable_bind (stable_refl _) (fun a => ?_)
      exact ih.valueLoop m p _ _ (by omega)
    · split
      · refine stable_bind (ih.func m _ (by omega)) (fun a => ?_)
        exact ih.valueLoop m p _ _ (by omega)
      · split
        · refine stable_bind (stable_refl _) (fun a => ?_)
          refine stable_bind (ih.value m 4 _ (by omega)) (fun b => ?_)
          exact ih.valueLoop m p _ _ (by omega)
        · split
          · refine stable_bind (stable_refl _) (fun a => ?_)
            refine stable_bind (ih.expr m 0 _ (by omega)) (fun b => ?_)
            refine stable_bind (stable_refl _) (fun c => ?_)
            exact ih.valueLoop m p _ _ (by omega)
          · exact stable_refl _

theorem stable_valueExpressionLoop {n : Nat} (ih : AllStable n) (m p : Nat) (ctx : ParseTree)
    (s : List Token) (hm : n + 1 ≤ m) :
    Stable (valueExpressionLoop (n + 1) p ctx s) (valueExpressionLoop m p ctx s) := by
  obtain ⟨m, rfl⟩ : ∃ k, m = k + 1 := ⟨m - 1, by omega⟩
  simp only [valueExpressionLoop]
  split
  · exact stable_refl _
  · split
    · split
      · split
        · exact stable_refl _
        · split
          · exact stable_refl _
          · refine stable_bind (stable_refl _) (fun a => ?_)
            refine stable_bind (ih.value m 3 _ (by omega)) (fun b => ?_)
            exact ih.valueLoop m p _ _ (by omega)
        · split
          · exact stable_refl _
          · refine stable_bind (stable_refl _) (fun a => ?_)
            refine stable_bind (ih.value m 2 _ (by omega)) (fun b => ?_)
            exact ih.valueLoop m p _ _ (by omega)
        · exact ih.valueLoop m p _ _ (by omega)
      · exact ih.valueLoop m p _ _ (by omega)
    · exact stable_refl _

theorem stable_functionExpression {n : Nat} (ih : AllStable n) (m : Nat) (s : List Token)
    (hm : n + 1 ≤ m) : Stable (functionExpression (n + 1) s) (functionExpression m s) := by
  obtain ⟨m, rfl⟩ : ∃ k, m = k + 1 := ⟨m - 1, by omega⟩
  simp only [functionExpression]
  refine stable_bind (stable_refl _) (fun a => ?_)
  refine stable_bind (stable_refl _) (fun b => ?_)
  refine stable_bind (stable_optional _ _ (ih.exprList m _ (by omega))) (fun c => ?_)
  refine stable_bind (stable_refl _) (fun d => ?_)
  exact stable_refl _

theorem allStable : ∀ n, AllStable n
  | 0 =>
    { exprList := fun _ _ _ => by simp only [expressionList]; exact stable_of_outOfFuel _
      exprListLoop := fun _ _ _ => by
        simp only [expressionListLoop]; exact stable_of_outOfFuel _
      expr := fun _ _ _ _ => by simp only [expression]; exact stable_of_outOfFuel _
      exprLoop := fun _ _ _ _ _ => by simp only [expressionLoop]; exact stable_of_outOfFuel _
      pred := fun _ _ _ _ => by simp only [predicateExpression]; exact stable_of_outOfFuel _
      predLoop := fun _ _ _ _ _ => by
        simp only [predicateExpressionLoop]; exact stable_of_outOfFuel _
      value := fun _ _ _ _ => by simp only [valueExpression]; exact stable_of_outOfFuel _
      valueLoop := fun _ _ _ _ _ => by
        simp only [valueExpressionLoop]; exact stable_of_outOfFuel _
      func := fun _ _ _ => by simp only [functionExpression]; exact stable_of_outOfFuel _ }
  | n + 1 =>
    { exprList := fun m s hm => stable_expressionList (allStable n) m s hm
      exprListLoop := fun m s hm => stable_expressionListLoop (allStable n) m s hm
      expr := fun m p s hm => stable_expression (allStable n) m p s hm
      exprLoop := fun m p c s hm => stable_expressionLoop (allStable n) m p c s hm
      pred := fun m p s hm => stable_predicateExpression (allStable n) m p s hm
      predLoop := fun m p c s hm => stable_predicateExpressionLoop (allStable n) m p c s hm
      value := fun m p s hm => stable_valueExpression (allStable n) m p s hm
      valueLoop := fun m p c s hm => stable_valueExpressionLoop (allStable n) m p c s hm
      func := fun m s hm => stable_functionExpression (allStable n) m s hm }

theorem stable_orderingTermLoop :
    ∀ (n m : Nat), n ≤ m → ∀ s : List Token,
      Stable (orderingTermLoop n s) (orderingTermLoop m s)
  | 0, _, _, s => by simp only [orderingTermLoop]; exact stable_of_outOfFuel _
  | n + 1, m, hm, s => by
    obtain ⟨m, rfl⟩ : ∃ k, m = k + 1 := ⟨m - 1, by omega⟩
    simp only [orderingTermLoop]
    split
    · refine stable_bind (stable_refl _) (fun a => ?_)
      refine stable_bind (stable_refl _) (fun b => ?_)
      refine stable_bind (stable_orderingTermLoop n m (by omega) _) (fun c => ?_)
      exact stable_refl _
    · exact stable_refl _

theorem stable_orderByClause {n m : Nat} (hm : n ≤ m) (s : List Token) :
    Stable (orderByClause n s) (orderByClause m s) := by
  unfold orderByClause
  split
  · refine stable_bind (stable_refl _) (fun a => ?_)
    refine stable_bind (stable_refl _) (fun b => ?_)
    refine stable_bind (stable_refl _) (fun c => ?_)
    refine stable_bind (stable_orderingTermLoop n m hm _) (fun d => ?_)
    exact stable_refl _
  · exact stable_refl _

theorem stable_filterStatement {n m : Nat} (hm : n ≤ m) (s : List Token) :
    Stable (filterStatement n s) (filterStatement m s) := by
  unfold filterStatement
  refine stable_bind (stable_refl _) (fun a => ?_)
  refine stable_bind (stable_refl _) (fun b => ?_)
  refine stable_bind (stable_refl _) (fun c => ?_)
  refine stable_bind (stable_refl _) (fun d => ?_)
  refine stable_bind ((allStable n).expr m 0 _ hm) (fun e => ?_)
  refine stable_bind (stable_orderByClause hm _) (fun f => ?_)
  exact stable_refl _

theorem stable_filterExpressionStatement {n m : Nat} (hm : n ≤ m) (s : List Token) :
    Stable (filterExpressionStatement n s) (filterExpressionStatement m s) := by
  unfold filterExpressionStatement
  split
  · exact stable_refl _
  · exact stable_refl _
  · refine stable_bind (stable_filterStatement hm _) (fun a => ?_)
    exact stable_refl _
  · refine stable_bind ((allStable n).expr m 0 _ hm) (fun a => ?_)
    exact stable_refl _
  · exact stable_refl _

theorem stable_statementListLoop :
    ∀ (n m : Nat), n ≤ m → ∀ s : List Token,
      Stable (statementListLoop n s) (statementListLoop m s)
  | 0, _, _, s => by simp only [statementListLoop]; exact stable_of_outOfFuel _
  | n + 1, m, hm, s => by
    obtain ⟨m, rfl⟩ : ∃ k, m = k + 1 := ⟨m - 1, by omega⟩
    simp only [statementListLoop]
    split
    · exact stable_refl _
    · split
      · split
        · refine stable_bind (stable_refl _) (fun a => ?_)
          refine stable_bind (stable_filterExpressionStatement (by omega) _) (fun b => ?_)
          refine stable_bind (stable_statementListLoop n m (by omega) _) (fun c => ?_)
          exact stable_refl _
        · exact stable_statementListLoop n m (by omega) _
      · exact stable_refl _

theorem stable_filterExpressionStatementList {n m : Nat} (hm : n ≤ m) (s : List Token) :
    Stable (filterExpressionStatementList n s) (filterExpressionStatementList m s) := by
  unfold filterExpressionStatementList
  refine stable_bind (stable_filterExpressionStatement hm _) (fun a => ?_)
  refine stable_bind (stable_statementListLoop n m hm _) (fun b => ?_)
  exact stable_refl _

/-- The result of `parse`, value or error, does not change when fuel is added
to a run that did not run out of fuel. -/
theorem stable_parse {n m : Nat} (hm : n ≤ m) (s : List Token) :
    Stable (parse n s) (parse m s) := by
  unfold parse
  split
  · refine stable_bind (stable_filterExpressionStatementList hm _) (fun a => ?_)
    exact stable_refl _
  · exact stable_refl _

/-- A run of `parse` that ends in an error with some fuel is never a normal
return, whatever the fuel. -/
theorem parse_not_ok_of_error {n : Nat} {s : List Token} {e : ParseError}
    (h : parse n s = .error e) (fuel : Nat) : (parse fuel s).isOk = false := by
  rcases Nat.le_total fuel n with hle | hle
  · cases hp : parse fuel s with
    | ok r =>
      have := stable_parse hle s (by simp [hp])
      rw [h, hp] at this
      exact Outcome.noConfusion this
    | error e' => rfl
    | outOfFuel => rfl
  · have := stable_parse hle s (by simp [h])
    rw [this, h]
    rfl

/-! ### C6: the exact-match modifier -/

/-- C6, counterexample. The token `'==='` (`T__8`), which is not `K_BINARY`,
is accepted as the exact-match modifier: by `exactMatchModifier` itself,
before the column name of an ordering term, directly after `K_LIKE` and
directly after `K_IN`. -/
theorem exactMatchModifier_accepts_strict_equality :
    T__8 ≠ K_BINARY
    ∧ exactMatchModifier (toks [T__8])
        = .ok (.rule RuleExactMatchModifier [.terminal (tok T__8)], [])
    ∧ orderingTerm (toks [T__8, IDENTIFIER, K_DESC])
        = .ok (.rule RuleOrderingTerm [.rule RuleExactMatchModifier [.terminal (tok T__8)],
            .rule RuleOrderByColumnName [.terminal (tok IDENTIFIER)], .terminal (tok K_DESC)], [])
    ∧ accepts 20 (toks [K_FILTER, IDENTIFIER, K_WHERE, IDENTIFIER, K_ORDER, K_BY, T__8,
        IDENTIFIER]) = true
    ∧ accepts 20 (toks [IDENTIFIER, K_LIKE, T__8, IDENTIFIER]) = true
    ∧ accepts 20 (toks [IDENTIFIER, K_IN, T__8, T__4, IDENTIFIER, T__5]) = true :=
  ⟨by decide, rfl, rfl, rfl, rfl, rfl⟩

/-- C6, amended. The exact-match modifier is the `BINARY` keyword or the
`'==='` token and nothing else: `exactMatchModifier` accepts a token if and
only if its type is `K_BINARY` or `T__8`; an ordering term is exactly
`(K_BINARY | '===')? IDENTIFIER (K_ASC | K_DESC)?`; directly after `K_LIKE`
and directly after `K_IN` each of the two tokens becomes an
`exactMatchModifier` child, and a token that is neither (here `K_ASC`) is
rejected there. -/
theorem exactMatchModifier_accepts_iff :
    (∀ (x : Token) (rest : List Token), exactMatchModifier (x :: rest) =
        if x.type = K_BINARY ∨ x.type = T__8
        then .ok (.rule RuleExactMatchModifier [.terminal x], rest)
        else .error .inputMismatch)
    ∧ exactMatchModifier [] = .error .inputMismatch
    ∧ (∀ s, (∃ tree, orderingTerm s = .ok (tree, [])) ↔ OrderingTermShape s)
    ∧ (∀ (ctx : ParseTree) (m : Nat), m = K_BINARY ∨ m = T__8 →
        predicateExpressionLoop 6 0 ctx (toks [K_LIKE, m, IDENTIFIER])
          = .ok (.rule RulePredicateExpression [ctx, .terminal (tok K_LIKE),
              .rule RuleExactMatchModifier [.terminal (tok m)],
              .rule RulePredicateExpression
                [.rule RuleValueExpression [.rule RuleColumnName [.terminal (tok IDENTIFIER)]]]],
            [])
        ∧ predicateExpressionLoop 9 0 ctx (toks [K_IN, m, T__4, IDENTIFIER, T__5])
          = .ok (.rule RulePredicateExpression [ctx, .terminal (tok K_IN),
              .rule RuleExactMatchModifier [.terminal (tok m)], .terminal (tok T__4),
              .rule RuleExpressionList [.rule RuleExpression [.rule RulePredicateExpression
                [.rule RuleValueExpression
                  [.rule RuleColumnName [.terminal (tok IDENTIFIER)]]]]],
              .terminal (tok T__5)], []))
    ∧ (∀ fuel, (parse fuel (toks [IDENTIFIER, K_LIKE, K_ASC, IDENTIFIER])).isOk = false)
    ∧ (∀ fuel, (parse fuel (toks [IDENTIFIER, K_IN, K_ASC, T__4, IDENTIFIER, T__5])).isOk
        = false)
    ∧ (∀ fuel, (parse fuel (toks [K_FILTER, IDENTIFIER, K_WHERE, IDENTIFIER, K_ORDER, K_BY,
        K_ASC, IDENTIFIER])).isOk = false) := by
  refine ⟨?_, rfl, ?_, ?_, ?_, ?_, ?_⟩
  · intro x rest
    rw [exactMatchModifier_cons]
    by_cases h : x.type = K_BINARY ∨ x.type = T__8
    · rw [if_pos h, if_pos ((exactMatchModifierSet_iff _).2 h)]
    · rw [if_neg h, if_neg (fun h' => h ((exactMatchModifierSet_iff _).1 h'))]
  · intro s
    rw [orderingTerm_ok_iff]
    constructor
    · rintro ⟨m, c, d, rfl, hm, hc, hd, -⟩
      exact ⟨m, c, d, by simp, hm, hc, hd⟩
    · rintro ⟨m, c, d, rfl, hm, hc, hd⟩
      exact ⟨m, c, d, by simp, hm, hc, hd, fun _ => rfl⟩
  · rintro ctx m (rfl | rfl) <;> exact ⟨rfl, rfl⟩
  · exact parse_not_ok_of_error (n := 20) (e := .noViableAlt) rfl
  · exact parse_not_ok_of_error (n := 20) (e := .inputMismatch) rfl
  · exact parse_not_ok_of_error (n := 20) (e := .inputMismatch) rfl

/-! ### Runs of semicolons -/

theorem semicolons_cons_semi (x : Token) (r : List Token) (hx : x.type = T__0) :
    semicolons (x :: r) = ((semicolons r).1.cons (.terminal x), (semicolons r).2) := by
  simp [semicolons, hx]

theorem semicolons_cons_other (x : Token) (r : List Token) (hx : x.type ≠ T__0) :
    semicolons (x :: r) = ([], x :: r) := by
  simp [semicolons, hx]

theorem semicolons_of_head (s : List Token) (h : LA 1 s ≠ T__0) : semicolons s = ([], s) := by
  cases s with
  | nil => rfl
  | cons x r => exact semicolons_cons_other x r h

theorem semicolons_append (semis rest : List Token) (h : AllSemicolons semis) :
    (semicolons (semis ++ rest)).2 = (semicolons rest).2 := by
  induction semis with
  | nil => rfl
  | cons x r ih =>
    rw [List.cons_append, semicolons_cons_semi _ _ (h x (List.mem_cons_self _ _))]
    exact ih (fun y hy => h y (List.mem_cons_of_mem _ hy))

theorem semicolons_allSemicolons (s : List Token) (h : AllSemicolons s) :
    (semicolons s).2 = [] := by
  have := semicolons_append s [] h
  rwa [List.append_nil] at this

/-- The run of `';'` that `semicolons` skips, and what it leaves. -/
theorem semicolons_split (s : List Token) :
    ∃ semis, s = semis ++ (semicolons s).2 ∧ AllSemicolons semis
      ∧ LA 1 (semicolons s).2 ≠ T__0 := by
  induction s with
  | nil => exact ⟨[], rfl, fun _ h => absurd h (List.not_mem_nil _), by decide⟩
  | cons x r ih =>
    by_cases hx : x.type = T__0
    · obtain ⟨semis, h1, h2, h3⟩ := ih
      rw [semicolons_cons_semi x r hx]
      refine ⟨x :: semis, by rw [List.cons_append, ← h1], ?_, h3⟩
      intro y hy
      rcases List.mem_cons.1 hy with rfl | hy
      · exact hx
      · exact h2 y hy
    · rw [semicolons_cons_other x r hx]
      exact ⟨[], rfl, fun _ h => absurd h (List.not_mem_nil _), hx⟩

theorem dropWhile_semicolons (s : List Token) :
    s.dropWhile (fun t => t.type == T__0) = (semicolons s).2 := by
  induction s with
  | nil => rfl
  | cons x r ih =>
    by_cases hx : x.type = T__0
    · rw [semicolons_cons_semi x r hx, List.dropWhile_cons_of_pos (by simpa using hx)]
      exact ih
    · rw [semicolons_cons_other x r hx, List.dropWhile_cons_of_neg (by simpa using hx)]

/-! ### Inputs without a statement -/

theorem filterExpressionStatement_nil (fuel : Nat) :
    filterExpressionStatement fuel [] = .error .noViableAlt := rfl

/-- On the empty token sequence and on every token sequence that consists
only of `';'` tokens the rules raise a `NoViableAltException`, for every
amount of fuel: the switch of `parse` has no label for the end of the input,
and after a run of semicolons the prediction of the statement rule fails. -/
theorem parse_semicolons_error (s : List Token) (hs : AllSemicolons s) (fuel : Nat) :
    parse fuel s = .error .noViableAlt
      ∧ (parse fuel s).isOk = false
      ∧ filterExpressionStatement fuel (semicolons s).2 = .error .noViableAlt := by
  have h2 : filterExpressionStatement fuel (semicolons s).2 = .error .noViableAlt := by
    rw [semicolons_allSemicolons s hs]
    rfl
  have h1 : parse fuel s = .error .noViableAlt := by
    cases s with
    | nil => rfl
    | cons x r =>
      have hx : x.type = T__0 := hs x (List.mem_cons_self _ _)
      unfold parse
      have hc : statementListCases.contains (LA 1 (x :: r)) = true := by
        rw [LA_one_cons, hx]
        decide
      rw [if_pos hc]
      unfold filterExpressionStatementList
      rw [h2]
      rfl
  exact ⟨h1, by rw [h1]; rfl, h2⟩


/-! ### C8: a bare GUID is an identifier statement -/

theorem continuesExpression_false {la : Nat} (h : continuesExpression la = false) :
    mathOperatorSet la = false ∧ bitwiseOperatorSet la = false ∧ comparisonOperatorSet la = false
    ∧ notOperatorSet la = false ∧ (la == K_LIKE) = false ∧ (la == K_IN) = false
    ∧ (la == K_IS) = false ∧ logicalOperatorSet la = false := by
  simp only [continuesExpression, Bool.or_eq_false_iff] at h
  obtain ⟨⟨⟨⟨⟨⟨⟨h1, h2⟩, h3⟩, h4⟩, h5⟩, h6⟩, h7⟩, h8⟩ := h
  exact ⟨h1, h2, h3, h4, h5, h6, h7, h8⟩

theorem continuesExpression_of_inert {ty : Nat} (h : inert ty = true) :
    continuesExpression ty = false := by
  rcases inert_cases h with h | h | h | h <;> subst h <;> decide

/-- The loop of `valueExpression` ends before a token that continues no
expression. -/
theorem valueExpressionLoop_exit {s : List Token} (hs : continuesExpression (LA 1 s) = false)
    (n p : Nat) (ctx : ParseTree) : valueExpressionLoop (n + 1) p ctx s = .ok (ctx, s) := by
  have hc := continuesExpression_false hs
  have h24 : adaptivePredict 24 p s = some 2 := by
    unfold adaptivePredict
    simp only [Nat.reduceEqDiff, ↓reduceIte, hc.1, hc.2.1, Bool.false_and, Bool.or_false,
      Bool.false_eq_true]
  simp only [valueExpressionLoop, h24]
  rfl

/-- The loop of `predicateExpression` ends before a token that continues no
expression. -/
theorem predicateExpressionLoop_exit {s : List Token}
    (hs : continuesExpression (LA 1 s) = false) (n p : Nat) (ctx : ParseTree) :
    predicateExpressionLoop (n + 1) p ctx s = .ok (ctx, s) := by
  have hc := continuesExpression_false hs
  have hlike : likeAhead s = false := by
    simp only [likeAhead, hc.2.2.2.1, hc.2.2.2.2.1, Bool.false_and, Bool.or_false]
  have hin : inAhead s = false := by
    simp only [inAhead, hc.2.2.2.1, hc.2.2.2.2.2.1, Bool.false_and, Bool.or_false]
  have h21 : adaptivePredict 21 p s = some 2 := by
    unfold adaptivePredict
    simp only [Nat.reduceEqDiff, ↓reduceIte, hc.2.2.1, hlike, hin, hc.2.2.2.2.2.2.1,
      Bool.false_and, Bool.or_false, Bool.false_eq_true]
  simp only [predicateExpressionLoop, h21]
  rfl

/-- The loop of `expression` ends before a token that continues no
expression. -/
theorem expressionLoop_exit {s : List Token} (hs : continuesExpression (LA 1 s) = false)
    (n p : Nat) (ctx : ParseTree) : expressionLoop (n + 1) p ctx s = .ok (ctx, s) := by
  have hc := continuesExpression_false hs
  have h14 : adaptivePredict 14 p s = some 2 := by
    unfold adaptivePredict
    simp only [Nat.reduceEqDiff, ↓reduceIte, hc.2.2.2.2.2.2.2, Bool.false_and,
      Bool.false_eq_true]
  simp only [expressionLoop, h14]
  rfl

/-- A single literal value before a token that continues no expression is an
expression. -/
theorem expression_literal (g : Token) (rest : List Token)
    (hg : literalValueCases.contains g.type = true) (hl : literalValueSet g.type = true)
    (hn : notOperatorSet g.type = false) (hrest : continuesExpression (LA 1 rest) = false)
    (n p : Nat) :
    expression (n + 4) p (g :: rest) = .ok (.rule RuleExpression [.rule RulePredicateExpression
      [.rule RuleValueExpression [.rule RuleLiteralValue [.terminal g]]]], rest) := by
  have h13 : adaptivePredict 13 p (g :: rest) = some 2 := by
    unfold adaptivePredict
    simp only [Nat.reduceEqDiff, ↓reduceIte, LA_one_cons, hn, startsValueExpression, hg,
      Bool.true_or, Bool.false_eq_true]
  have hv : valueExpression (n + 2) 0 (g :: rest)
      = .ok (.rule RuleValueExpression [.rule RuleLiteralValue [.terminal g]], rest) := by
    simp only [valueExpression, LA_one_cons, hg, ↓reduceIte]
    rw [literalValue_cons, if_pos hl, ok_bind]
    exact valueExpressionLoop_exit hrest n 0 _
  have hp : predicateExpression (n + 3) 0 (g :: rest)
      = .ok (.rule RulePredicateExpression
          [.rule RuleValueExpression [.rule RuleLiteralValue [.terminal g]]], rest) := by
    simp only [predicateExpression]
    rw [hv, ok_bind]
    exact predicateExpressionLoop_exit hrest (n + 1) 0 _
  simp only [expression, h13]
  rw [hp, ok_bind]
  exact expressionLoop_exit hrest (n + 2) p _

/-- C8. A statement that is a single `GUID_LITERAL` token, followed by `';'`
or by the end of the input, is parsed as an identifier statement and not as
an expression, although the token alone is also an expression: the
prediction of `filterExpressionStatement` returns alternative 1, the lowest
of the two that fit, and the statement context gets one `identifierStatement`
child, for every amount of fuel.  The alternatives of
`filterExpressionStatement` are, in this order, `identifierStatement`,
`filterStatement` and `expression`.  A `GUID_LITERAL` followed by a token that
continues an expression takes alternative 3 and is parsed by `expression`;
`GUID_LITERAL '=' IDENTIFIER` yields a comparison. -/
theorem bare_guid_is_identifierStatement (g : Token) (rest : List Token)
    (hg : g.type = GUID_LITERAL) :
    (HeadIn terminator rest →
        adaptivePredict 5 0 (g :: rest) = some 1
        ∧ (∀ fuel, filterExpressionStatement fuel (g :: rest)
            = .ok (.rule RuleFilterExpressionStatement
                [.rule RuleIdentifierStatement [.terminal g]], rest))
        ∧ identifierStatement (g :: rest) = .ok (.rule RuleIdentifierStatement [.terminal g], rest)
        ∧ (∀ fuel, 4 ≤ fuel → expression fuel 0 (g :: rest)
            = .ok (.rule RuleExpression [.rule RulePredicateExpression
                [.rule RuleValueExpression [.rule RuleLiteralValue [.terminal g]]]], rest)))
    ∧ (∀ fuel s, adaptivePredict 5 0 s = some 1 → filterExpressionStatement fuel s
        = identifierStatement s >>= fun r => pure (.rule RuleFilterExpressionStatement [r.1], r.2))
    ∧ (∀ fuel s, adaptivePredict 5 0 s = some 2 → filterExpressionStatement fuel s
        = filterStatement fuel s >>= fun r => pure (.rule RuleFilterExpressionStatement [r.1], r.2))
    ∧ (∀ fuel s, adaptivePredict 5 0 s = some 3 → filterExpressionStatement fuel s
        = expression fuel 0 s >>= fun r => pure (.rule RuleFilterExpressionStatement [r.1], r.2))
    ∧ (continuesExpression (LA 1 rest) = true → adaptivePredict 5 0 (g :: rest) = some 3)
    ∧ filterExpressionStatement 6 (toks [GUID_LITERAL, T__13, IDENTIFIER])
        = .ok (.rule RuleFilterExpressionStatement [.rule RuleExpression
            [.rule RulePredicateExpression
              [.rule RulePredicateExpression
                [.rule RuleValueExpression [.rule RuleLiteralValue [.terminal (tok GUID_LITERAL)]]],
               .rule RuleComparisonOperator [.terminal (tok T__13)],
               .rule RulePredicateExpression
                [.rule RuleValueExpression [.rule RuleColumnName [.terminal (tok IDENTIFIER)]]]]]],
            []) := by
  have hmk : (LA 1 (g :: rest) == MEASUREMENT_KEY_LITERAL || LA 1 (g :: rest) == POINT_TAG_LITERAL)
      = false := by
    rw [LA_one_cons, hg]; rfl
  have hgu : (LA 1 (g :: rest) == GUID_LITERAL) = true := by
    rw [LA_one_cons, hg]; rfl
  have hid : identifierStatement (g :: rest)
      = .ok (.rule RuleIdentifierStatement [.terminal g], rest) := by
    rw [identifierStatement_cons, if_pos (by rw [hg]; rfl)]
  refine ⟨fun hrest => ?_, fun fuel s h => ?_, fun fuel s h => ?_, fun fuel s h => ?_,
    fun hcont => ?_, rfl⟩
  · have h1 : adaptivePredict 5 0 (g :: rest) = some 1 := by
      unfold adaptivePredict
      simp only [Nat.reduceEqDiff, ↓reduceIte, hmk, hgu, LA_two_cons,
        (terminator_tests hrest).2.2.2.2.1, Bool.false_eq_true]
    refine ⟨h1, fun fuel => ?_, hid, fun fuel hfuel => ?_⟩
    · simp only [filterExpressionStatement, h1, hid]
      rfl
    · obtain ⟨k, rfl⟩ : ∃ k, fuel = k + 4 := ⟨fuel - 4, by omega⟩
      exact expression_literal g rest (by rw [hg]; rfl) (by rw [hg]; rfl) (by rw [hg]; rfl)
        (terminator_tests hrest).2.2.2.2.1 k 0
  · simp only [filterExpressionStatement, h]
  · simp only [filterExpressionStatement, h]
  · simp only [filterExpressionStatement, h]
  · unfold adaptivePredict
    simp only [Nat.reduceEqDiff, ↓reduceIte, hmk, hgu, LA_two_cons, hcont, Bool.false_eq_true]

/-- C8, witness: the bare GUID before the end of the input and before a
`';'`. -/
theorem bare_guid_is_identifierStatement_witness :
    filterExpressionStatement 0 (toks [GUID_LITERAL])
        = .ok (.rule RuleFilterExpressionStatement
            [.rule RuleIdentifierStatement [.terminal (tok GUID_LITERAL)]], [])
    ∧ filterExpressionStatement 0 (toks [GUID_LITERAL, T__0])
        = .ok (.rule RuleFilterExpressionStatement
            [.rule RuleIdentifierStatement [.terminal (tok GUID_LITERAL)]], toks [T__0])
    ∧ adaptivePredict 5 0 (toks [GUID_LITERAL, T__13, IDENTIFIER]) = some 3 :=
  ⟨((bare_guid_is_identifierStatement (tok GUID_LITERAL) [] rfl).1 rfl).2.1 0,
   ((bare_guid_is_identifierStatement (tok GUID_LITERAL) (toks [T__0]) rfl).1 rfl).2.1 0,
   (bare_guid_is_identifierStatement (tok GUID_LITERAL) (toks [T__13, IDENTIFIER]) rfl).2.2.2.2.1
     (by decide)⟩

/-! ### C9: measurement keys and point tags are not literal values -/

theorem valueExpression_noViableAlt (x : Token) (rest : List Token)
    (hx : startsValueExpression x.type = false) (fuel p : Nat) :
    valueExpression (fuel + 1) p (x :: rest) = .error .noViableAlt := by
  simp only [startsValueExpression, Bool.or_eq_false_iff] at hx
  obtain ⟨⟨⟨⟨h1, h2⟩, h3⟩, h4⟩, h5⟩ := hx
  simp only [valueExpression, LA_one_cons, h1, h2, h3, h4, h5, Bool.false_eq_true, ↓reduceIte]

theorem expression_noViableAlt (x : Token) (rest : List Token)
    (hn : notOperatorSet x.type = false) (hx : startsValueExpression x.type = false)
    (fuel p : Nat) :
    expression (fuel + 1) p (x :: rest) = .error .noViableAlt := by
  have h : adaptivePredict 13 p (x :: rest) = none := by
    unfold adaptivePredict
    simp only [Nat.reduceEqDiff, ↓reduceIte, LA_one_cons, hn, hx, Bool.false_eq_true]
  simp only [expression, h]

theorem predicateExpression_noViableAlt (x : Token) (rest : List Token)
    (hx : startsValueExpression x.type = false) (fuel p : Nat) :
    predicateExpression (fuel + 2) p (x :: rest) = .error .noViableAlt := by
  simp only [predicateExpression, valueExpression_noViableAlt x rest hx fuel 0, error_bind]

theorem expressionList_noViableAlt (x : Token) (rest : List Token)
    (hn : notOperatorSet x.type = false) (hx : startsValueExpression x.type = false)
    (fuel : Nat) :
    expressionList (fuel + 2) (x :: rest) = .error .noViableAlt := by
  simp only [expressionList, expression_noViableAlt x rest hn hx fuel 0, error_bind]

/-- C9. Measurement-key and point-tag literals are not literal values.
`literalValue` accepts a token if and only if its type is `K_NULL`,
`BOOLEAN_LITERAL`, `INTEGER_LITERAL`, `NUMERIC_LITERAL`, `GUID_LITERAL`,
`STRING_LITERAL` or `DATETIME_LITERAL`.  A `MEASUREMENT_KEY_LITERAL` or
`POINT_TAG_LITERAL` token is rejected by `literalValue`, and wherever a value
is expected: `valueExpression`, `predicateExpression`, `expression` and
`expressionList` raise `NoViableAltException` on it for every precedence and
every amount of fuel that lets them start, a WHERE predicate that begins with
it fails, and so does a function argument list or an IN list that begins with
it. -/
theorem literalValue_rejects_key_and_tag (x : Token) (rest : List Token)
    (hx : x.type < 2 ^ 64) :
    (literalValue (x :: rest) =
        if x.type = K_NULL ∨ x.type = BOOLEAN_LITERAL ∨ x.type = INTEGER_LITERAL
          ∨ x.type = NUMERIC_LITERAL ∨ x.type = GUID_LITERAL ∨ x.type = STRING_LITERAL
          ∨ x.type = DATETIME_LITERAL
        then .ok (.rule RuleLiteralValue [.terminal x], rest)
        else .error .inputMismatch)
    ∧ literalValue [] = .error .inputMismatch
    ∧ (x.type = MEASUREMENT_KEY_LITERAL ∨ x.type = POINT_TAG_LITERAL →
        literalValue (x :: rest) = .error .inputMismatch
        ∧ (∀ fuel p, valueExpression (fuel + 1) p (x :: rest) = .error .noViableAlt)
        ∧ (∀ fuel p, predicateExpression (fuel + 2) p (x :: rest) = .error .noViableAlt)
        ∧ (∀ fuel p, expression (fuel + 1) p (x :: rest) = .error .noViableAlt)
        ∧ (∀ fuel, expressionList (fuel + 2) (x :: rest) = .error .noViableAlt)
        ∧ (∀ fuel f t w, f.type = K_FILTER → t.type = IDENTIFIER → w.type = K_WHERE →
            filterStatement (fuel + 1) (f :: t :: w :: x :: rest) = .error .noViableAlt)
        ∧ (∀ fuel name lp, functionNameSet name.type = true → lp.type = T__4 →
            functionExpression (fuel + 1) (name :: lp :: x :: rest) = .error .inputMismatch)
        ∧ (∀ fuel ctx kin lp, kin.type = K_IN → lp.type = T__4 →
            predicateExpressionLoop (fuel + 3) 0 ctx (kin :: lp :: x :: rest)
              = .error .noViableAlt)) := by
  have key : literalValue (x :: rest) =
      if x.type = K_NULL ∨ x.type = BOOLEAN_LITERAL ∨ x.type = INTEGER_LITERAL
        ∨ x.type = NUMERIC_LITERAL ∨ x.type = GUID_LITERAL ∨ x.type = STRING_LITERAL
        ∨ x.type = DATETIME_LITERAL
      then .ok (.rule RuleLiteralValue [.terminal x], rest)
      else .error .inputMismatch := by
    rw [literalValue_cons, literalValueSet_eq _ hx]
    by_cases h : x.type = K_NULL ∨ x.type = BOOLEAN_LITERAL ∨ x.type = INTEGER_LITERAL
        ∨ x.type = NUMERIC_LITERAL ∨ x.type = GUID_LITERAL ∨ x.type = STRING_LITERAL
        ∨ x.type = DATETIME_LITERAL
    · rw [if_pos h, if_pos]
      simpa [literalValueCases] using h
    · rw [if_neg h, if_neg]
      simpa [literalValueCases] using h
  refine ⟨key, rfl, fun hkt => ?_⟩
  have hn : notOperatorSet x.type = false := by
    rcases hkt with h | h <;> rw [h] <;> rfl
  have hv : startsValueExpression x.type = false := by
    rcases hkt with h | h <;> rw [h] <;> rfl
  have hg : expressionListGuard x.type = false := by
    rcases hkt with h | h <;> rw [h] <;> rfl
  refine ⟨?_, valueExpression_noViableAlt x rest hv, predicateExpression_noViableAlt x rest hv,
    expression_noViableAlt x rest hn hv, expressionList_noViableAlt x rest hn hv, ?_, ?_, ?_⟩
  · rw [key, if_neg]
    rcases hkt with h | h <;> rw [h] <;> decide
  · intro fuel f t w hf ht hw
    have hntop : (LA 1 (t :: w :: x :: rest) == K_TOP) = false := by
      rw [LA_one_cons, ht]; rfl
    unfold filterStatement topClause
    rw [matchToken_cons, if_pos hf, ok_bind]
    simp only [hntop, Bool.false_eq_true, ↓reduceIte, pure_eq, ok_bind]
    rw [tableName_cons, if_pos ht, ok_bind]
    simp only []
    rw [matchToken_cons, if_pos hw, ok_bind]
    simp only []
    rw [expression_noViableAlt x rest hn hv fuel 0, error_bind]
  · intro fuel name lp hname hlp
    have hx5 : x.type ≠ T__5 := by
      rcases hkt with h | h <;> rw [h] <;> decide
    simp only [functionExpression]
    unfold functionName
    rw [matchSet_cons, if_pos hname, ok_bind]
    simp only [pure_eq, ok_bind]
    rw [matchToken_cons, if_pos hlp, ok_bind]
    simp only [LA_one_cons, hg]
    unfold optional
    simp only [Bool.false_eq_true, ↓reduceIte, ok_bind]
    rw [matchToken_cons, if_neg hx5, error_bind]
  · intro fuel ctx kin lp hkin hlp
    have hcmp : comparisonOperatorSet (LA 1 (kin :: lp :: x :: rest)) = false := by
      rw [LA_one_cons, hkin]; rfl
    have hlike : likeAhead (kin :: lp :: x :: rest) = false := by
      unfold likeAhead
      rw [LA_one_cons, hkin]; rfl
    have hin : inAhead (kin :: lp :: x :: rest) = true := by
      unfold inAhead
      rw [LA_one_cons, hkin]; rfl
    have h21 : adaptivePredict 21 0 (kin :: lp :: x :: rest) = some 1 := by
      unfold adaptivePredict
      simp only [Nat.reduceEqDiff, ↓reduceIte, hcmp, hlike, hin]
      rfl
    have h20 : adaptivePredict 20 0 (kin :: lp :: x :: rest) = some 3 := by
      unfold adaptivePredict
      simp only [Nat.reduceEqDiff, ↓reduceIte, hcmp, hlike, hin]
      rfl
    have hnot : (LA 1 (kin :: lp :: x :: rest) == T__6 || LA 1 (kin :: lp :: x :: rest) == K_NOT)
        = false := by
      rw [LA_one_cons, hkin]; rfl
    have hmod : (LA 1 (lp :: x :: rest) == T__8 || LA 1 (lp :: x :: rest) == K_BINARY)
        = false := by
      rw [LA_one_cons, hlp]; rfl
    simp only [predicateExpressionLoop, h21, h20]
    simp only [hnot, optional, Bool.false_eq_true, ↓reduceIte, ok_bind]
    rw [matchToken_cons, if_pos hkin, ok_bind]
    simp only [hmod, Bool.false_eq_true, ↓reduceIte, ok_bind]
    rw [matchToken_cons, if_pos hlp, ok_bind]
    simp only []
    rw [expressionList_noViableAlt x rest hn hv fuel, error_bind]
    rfl

/-- C9, witness: a measurement key where a value is expected, in a WHERE
predicate, as a function argument and in an IN list; and the example of the
claim, `FILTER T WHERE c = <measurement key>`, which `parse` rejects whatever
the fuel. -/
theorem literalValue_rejects_key_and_tag_witness :
    literalValue (toks [MEASUREMENT_KEY_LITERAL]) = .error .inputMismatch
    ∧ filterStatement 10 (toks [K_FILTER, IDENTIFIER, K_WHERE, MEASUREMENT_KEY_LITERAL])
        = .error .noViableAlt
    ∧ functionExpression 10 (toks [K_LEN, T__4, MEASUREMENT_KEY_LITERAL, T__5])
        = .error .inputMismatch
    ∧ predicateExpressionLoop 10 0 (.rule RulePredicateExpression [])
        (toks [K_IN, T__4, MEASUREMENT_KEY_LITERAL, T__5]) = .error .noViableAlt
    ∧ parse 10 (toks [K_FILTER, IDENTIFIER, K_WHERE, IDENTIFIER, T__13,
        MEASUREMENT_KEY_LITERAL]) = .error .noViableAlt
    ∧ (∀ fuel, accepts fuel (toks [K_FILTER, IDENTIFIER, K_WHERE, IDENTIFIER, T__13,
        MEASUREMENT_KEY_LITERAL]) = false) :=
  have h := (literalValue_rejects_key_and_tag (tok MEASUREMENT_KEY_LITERAL) (toks [T__5])
    (by decide)).2.2 (Or.inl rfl)
  ⟨((literalValue_rejects_key_and_tag (tok MEASUREMENT_KEY_LITERAL) [] (by decide)).2.2
      (Or.inl rfl)).1,
   ((literalValue_rejects_key_and_tag (tok MEASUREMENT_KEY_LITERAL) [] (by decide)).2.2
      (Or.inl rfl)).2.2.2.2.2.1 9 (tok K_FILTER) (tok IDENTIFIER) (tok K_WHERE) rfl rfl rfl,
   h.2.2.2.2.2.2.1 9 (tok K_LEN) (tok T__4) rfl rfl,
   h.2.2.2.2.2.2.2 7 _ (tok K_IN) (tok T__4) rfl rfl,
   rfl,
   parse_not_ok_of_error (n := 10) (e := .noViableAlt) rfl⟩

/-! ### The shape of a filter statement -/

/-- The inputs on which the TOP block of `filterStatement` returns normally,
leaving `rest`. -/
theorem topClause_ok_iff (s rest : List Token) :
    (∃ l, topClause s = .ok (l, rest)) ↔
      ∃ top, s = top ++ rest ∧ TopClauseShape top ∧ (top = [] → (LA 1 rest == K_TOP) = false) := by
  constructor
  · rintro ⟨l, h⟩
    unfold topClause at h
    split at h
    · obtain ⟨⟨a, r1⟩, h1, h⟩ := bind_eq_ok.1 h
      obtain ⟨⟨b, r2⟩, h2, h⟩ := bind_eq_ok.1 h
      obtain ⟨-, rfl⟩ := Prod.mk.inj (pure_eq_ok.1 h)
      obtain ⟨k, rfl, hk, -⟩ := (matchToken_eq_ok (by decide)).1 h1
      rcases (topLimit_eq_ok _ _ _).1 h2 with ⟨i, rfl, hi, -⟩ | ⟨sg, i, rfl, hsg, hi, -⟩
      · exact ⟨[k, i], rfl, Or.inr ⟨k, [i], rfl, hk, Or.inl ⟨i, rfl, hi⟩⟩,
          fun h => List.noConfusion h⟩
      · exact ⟨[k, sg, i], rfl, Or.inr ⟨k, [sg, i], rfl, hk, Or.inr ⟨sg, i, rfl, hsg, hi⟩⟩,
          fun h => List.noConfusion h⟩
    · rename_i hg
      obtain ⟨-, rfl⟩ := Prod.mk.inj (pure_eq_ok.1 h)
      exact ⟨[], rfl, Or.inl rfl, fun _ => by simpa using hg⟩
  · rintro ⟨top, rfl, htop, hrest⟩
    rcases htop with rfl | ⟨k, lim, rfl, hk, hlim⟩
    · refine ⟨[], ?_⟩
      unfold topClause
      rw [List.nil_append, hrest rfl]
      rfl
    · have hg : (LA 1 (k :: lim ++ rest) == K_TOP) = true := by
        rw [List.cons_append, LA_one_cons, hk]; rfl
      have hl : ∃ tr, topLimit (lim ++ rest) = .ok (tr, rest) := by
        rcases hlim with ⟨i, rfl, hi⟩ | ⟨sg, i, rfl, hsg, hi⟩
        · exact ⟨_, (topLimit_eq_ok _ _ _).2 (Or.inl ⟨i, rfl, hi, rfl⟩)⟩
        · exact ⟨_, (topLimit_eq_ok _ _ _).2 (Or.inr ⟨sg, i, rfl, hsg, hi, rfl⟩)⟩
      obtain ⟨tr, htr⟩ := hl
      refine ⟨[.terminal k, tr], ?_⟩
      unfold topClause
      rw [if_pos hg, List.cons_append, matchToken_cons, if_pos hk, ok_bind]
      simp only []
      rw [htr, ok_bind]
      rfl

theorem orderingTermShape_of_ok {s rest : List Token} {tree : ParseTree}
    (h : orderingTerm s = .ok (tree, rest)) : ∃ term, s = term ++ rest ∧ OrderingTermShape term := by
  obtain ⟨m, c, d, rfl, hm, hc, hd, -⟩ := (orderingTerm_ok_iff s rest).1 ⟨tree, h⟩
  exact ⟨m ++ c :: d, by simp, m, c, d, rfl, hm, hc, hd⟩

theorem orderingTerm_of_shape {term : List Token} (h : OrderingTermShape term)
    (rest : List Token) (hrest : directionSet (LA 1 rest) = false) :
    ∃ tree, orderingTerm (term ++ rest) = .ok (tree, rest) := by
  obtain ⟨m, c, d, rfl, hm, hc, hd⟩ := h
  exact (orderingTerm_ok_iff _ rest).2 ⟨m, c, d, by simp, hm, hc, hd, fun _ => hrest⟩

/-- What the loop over `',' orderingTerm` consumes when it reaches the end of
the input. -/
theorem orderingTermLoop_shape : ∀ (fuel : Nat) (s : List Token) (l : List ParseTree),
    orderingTermLoop fuel s = .ok (l, []) →
      s = [] ∨ ∃ comma terms, s = comma :: terms ∧ comma.type = T__1 ∧ OrderingTermsShape terms
  | 0, _, _, h => by simp [orderingTermLoop] at h
  | n + 1, s, l, h => by
    simp only [orderingTermLoop] at h
    split at h
    · obtain ⟨⟨a, r1⟩, h1, h⟩ := bind_eq_ok.1 h
      obtain ⟨⟨b, r2⟩, h2, h⟩ := bind_eq_ok.1 h
      obtain ⟨⟨c, r3⟩, h3, h⟩ := bind_eq_ok.1 h
      obtain ⟨-, rfl⟩ := Prod.mk.inj (pure_eq_ok.1 h)
      obtain ⟨comma, rfl, hcomma, -⟩ := (matchToken_eq_ok (by decide)).1 h1
      obtain ⟨term, rfl, hterm⟩ := orderingTermShape_of_ok h2
      refine Or.inr ⟨comma, _, rfl, hcomma, ?_⟩
      rcases orderingTermLoop_shape n r2 c h3 with rfl | ⟨comma', terms, rfl, hc', hterms⟩
      · rw [List.append_nil]
        exact OrderingTermsShape.one term hterm
      · exact OrderingTermsShape.cons term comma' terms hterm hc' hterms
    · obtain ⟨-, rfl⟩ := Prod.mk.inj (pure_eq_ok.1 h)
      exact Or.inl rfl

/-- A sequence of ordering terms is consumed by `orderingTerm` followed by
the loop over `',' orderingTerm`. -/
theorem orderingTerms_ok {terms : List Token} (h : OrderingTermsShape terms) :
    ∃ fuel tree r l, orderingTerm terms = .ok (tree, r)
      ∧ orderingTermLoop fuel r = .ok (l, []) := by
  induction h with
  | one s hs =>
    obtain ⟨tree, ht⟩ := orderingTerm_of_shape hs [] rfl
    rw [List.append_nil] at ht
    exact ⟨1, tree, [], [], ht, rfl⟩
  | cons s comma rest hs hcomma _ ih =>
    obtain ⟨fuel, tree, r, l, h1, h2⟩ := ih
    obtain ⟨tree0, ht0⟩ := orderingTerm_of_shape hs (comma :: rest)
      (by rw [LA_one_cons, hcomma]; rfl)
    refine ⟨fuel + 1, tree0, comma :: rest, .terminal comma :: tree :: l, ht0, ?_⟩
    have hg : (LA 1 (comma :: rest) == T__1) = true := by
      rw [LA_one_cons, hcomma]; rfl
    simp only [orderingTermLoop]
    rw [if_pos hg, matchToken_cons, if_pos hcomma, ok_bind]
    simp only []
    rw [h1, ok_bind]
    simp only []
    rw [h2, ok_bind]
    rfl

/-- The inputs that the ORDER BY block of `filterStatement` consumes
entirely. -/
theorem orderByClause_ok_iff (s : List Token) :
    (∃ fuel l, orderByClause fuel s = .ok (l, [])) ↔ OrderByClauseShape s := by
  constructor
  · rintro ⟨fuel, l, h⟩
    unfold orderByClause at h
    split at h
    · obtain ⟨⟨a, r1⟩, h1, h⟩ := bind_eq_ok.1 h
      obtain ⟨⟨b, r2⟩, h2, h⟩ := bind_eq_ok.1 h
      obtain ⟨⟨c, r3⟩, h3, h⟩ := bind_eq_ok.1 h
      obtain ⟨⟨d, r4⟩, h4, h⟩ := bind_eq_ok.1 h
      obtain ⟨-, rfl⟩ := Prod.mk.inj (pure_eq_ok.1 h)
      obtain ⟨o, rfl, ho, -⟩ := (matchToken_eq_ok (by decide)).1 h1
      obtain ⟨b', rfl, hb, -⟩ := (matchToken_eq_ok (by decide)).1 h2
      obtain ⟨term, rfl, hterm⟩ := orderingTermShape_of_ok h3
      refine Or.inr ⟨o, b', _, rfl, ho, hb, ?_⟩
      rcases orderingTermLoop_shape fuel r3 d h4 with rfl | ⟨comma, terms, rfl, hc, hterms⟩
      · rw [List.append_nil]
        exact OrderingTermsShape.one term hterm
      · exact OrderingTermsShape.cons term comma terms hterm hc hterms
    · obtain ⟨-, rfl⟩ := Prod.mk.inj (pure_eq_ok.1 h)
      exact Or.inl rfl
  · rintro (rfl | ⟨o, b, terms, rfl, ho, hb, hterms⟩)
    · exact ⟨0, [], rfl⟩
    · obtain ⟨fuel, tree, r, l, h1, h2⟩ := orderingTerms_ok hterms
      have hg : (LA 1 (o :: b :: terms) == K_ORDER) = true := by
        rw [LA_one_cons, ho]; rfl
      refine ⟨fuel, [.terminal o, .terminal b, tree] ++ l, ?_⟩
      unfold orderByClause
      rw [if_pos hg, matchToken_cons, if_pos ho, ok_bind]
      simp only []
      rw [matchToken_cons, if_pos hb, ok_bind]
      simp only []
      rw [h1, ok_bind]
      simp only []
      rw [h2, ok_bind]
      rfl

theorem headIn_inert_of_orderByClauseShape {s : List Token} (h : OrderByClauseShape s) :
    HeadIn inert s := by
  rcases h with rfl | ⟨o, b, terms, rfl, ho, -, -⟩
  · rfl
  · show inert (LA 1 (o :: b :: terms)) = true
    rw [LA_one_cons, ho]; rfl

/-- An expression that stops before `rest` is an expression of the tokens it
consumed. -/
theorem expression_split {fuel p : Nat} {s rest : List Token} {tree : ParseTree}
    (h : expression fuel p s = .ok (tree, rest)) (hrest : HeadIn inert rest) :
    ∃ e, s = e ++ rest ∧ expression fuel p e = .ok (tree, []) := by
  have h1 := @rel_expression [] [] rfl rfl fuel fuel (Nat.le_refl fuel) p s
  rw [List.append_nil] at h1
  obtain ⟨c, u', hs, hu, -⟩ := h1 tree rest h
  rw [List.append_nil] at hu
  subst hu
  subst hs
  have h2 := @rel_expression rest [] hrest rfl fuel fuel (Nat.le_refl fuel) p c
  obtain ⟨c2, u2, hc, hu2, hy⟩ := h2 tree rest h
  have hnil : u2 = [] := by simpa using hu2
  subst hnil
  rw [List.append_nil] at hy
  exact ⟨c, rfl, hy⟩

/-- An expression keeps its context when tokens that cannot continue it
follow, and when fuel is added. -/
theorem expression_extend {fuel p : Nat} {e : List Token} {tree : ParseTree}
    (h : expression fuel p e = .ok (tree, [])) {rest : List Token} (hrest : HeadIn inert rest)
    {m : Nat} (hm : fuel ≤ m) : expression m p (e ++ rest) = .ok (tree, rest) := by
  have h1 := @rel_expression [] rest rfl hrest fuel m hm p e
  rw [List.append_nil] at h1
  obtain ⟨c, u', -, hu, hy⟩ := h1 tree [] h
  have hnil : u' = [] := by simpa using hu.symm
  subst hnil
  simpa using hy

/-- A rule whose result is stable under added fuel and that fails with some
fuel returns normally with none. -/
theorem not_ok_of_error_of_stable {α : Type} (f : Nat → Outcome α)
    (hst : ∀ n m, n ≤ m → Stable (f n) (f m)) {n : Nat} {e : ParseError}
    (h : f n = .error e) (fuel : Nat) : (f fuel).isOk = false := by
  rcases Nat.le_total fuel n with hle | hle
  · cases hp : f fuel with
    | ok r =>
      have := hst fuel n hle (by simp [hp])
      rw [h, hp] at this
      exact Outcome.noConfusion this
    | error e' => rfl
    | outOfFuel => rfl
  · have := hst n fuel hle (by simp [h])
    rw [this, h]
    rfl

theorem filterStatement_shape_of_ok {fuel : Nat} {s : List Token} {tree : ParseTree}
    (h : filterStatement fuel s = .ok (tree, [])) : FilterStatementShape s := by
  unfold filterStatement at h
  obtain ⟨⟨a, r1⟩, h1, h⟩ := bind_eq_ok.1 h
  obtain ⟨⟨b, r2⟩, h2, h⟩ := bind_eq_ok.1 h
  obtain ⟨⟨c, r3⟩, h3, h⟩ := bind_eq_ok.1 h
  obtain ⟨⟨d, r4⟩, h4, h⟩ := bind_eq_ok.1 h
  obtain ⟨⟨e, r5⟩, h5, h⟩ := bind_eq_ok.1 h
  obtain ⟨⟨o, r6⟩, h6, h⟩ := bind_eq_ok.1 h
  obtain ⟨-, rfl⟩ := Prod.mk.inj (pure_eq_ok.1 h)
  obtain ⟨f, rfl, hf, -⟩ := (matchToken_eq_ok (by decide)).1 h1
  obtain ⟨top, rfl, htop, -⟩ := (topClause_ok_iff _ _).1 ⟨b, h2⟩
  obtain ⟨tb, rfl, htb, -⟩ := tableName_eq_ok.1 h3
  obtain ⟨w, rfl, hw, -⟩ := (matchToken_eq_ok (by decide)).1 h4
  have hob : OrderByClauseShape r5 := (orderByClause_ok_iff r5).1 ⟨fuel, o, h6⟩
  obtain ⟨ex, rfl, hex⟩ := expression_split h5 (headIn_inert_of_orderByClauseShape hob)
  exact ⟨f, top, tb, w, ex, r5, rfl, hf, htop, htb, hw, ⟨fuel, e, hex⟩, hob⟩

theorem filterStatement_tree_of_shape {s : List Token} (h : FilterStatementShape s) :
    ∃ fuel children, filterStatement fuel s = .ok (.rule RuleFilterStatement children, []) := by
  obtain ⟨f, top, tb, w, e, ob, rfl, hf, htop, htb, hw, ⟨fe, te, he⟩, hob⟩ := h
  obtain ⟨fo, lo, ho⟩ := (orderByClause_ok_iff ob).2 hob
  obtain ⟨lt, hlt⟩ := (topClause_ok_iff (top ++ tb :: w :: (e ++ ob)) (tb :: w :: (e ++ ob))).2
    ⟨top, rfl, htop, fun _ => by rw [LA_one_cons, htb]; rfl⟩
  have hexp : expression (max fe fo) 0 (e ++ ob) = .ok (te, ob) :=
    expression_extend he (headIn_inert_of_orderByClauseShape hob) (Nat.le_max_left fe fo)
  have hord : orderByClause (max fe fo) ob = .ok (lo, []) := by
    have := stable_orderByClause (Nat.le_max_right fe fo) ob (by rw [ho]; simp)
    rw [this, ho]
  refine ⟨max fe fo, [.terminal f] ++ lt
    ++ [.rule RuleTableName [.terminal tb], .terminal w, te] ++ lo, ?_⟩
  unfold filterStatement
  rw [matchToken_cons, if_pos hf, ok_bind]
  simp only []
  rw [hlt, ok_bind]
  simp only []
  rw [tableName_cons, if_pos htb, ok_bind]
  simp only []
  rw [matchToken_cons, if_pos hw, ok_bind]
  simp only []
  rw [hexp, ok_bind]
  simp only []
  rw [hord, ok_bind]
  rfl

theorem filterStatement_ok_of_shape {s : List Token} (h : FilterStatementShape s) :
    IsFilterStatement s := by
  obtain ⟨fuel, children, h⟩ := filterStatement_tree_of_shape h
  exact ⟨fuel, _, h⟩

/-! ### C3: the filter statement -/

/-- C3. `filterStatement` accepts exactly the token shape
`K_FILTER (K_TOP topLimit)? IDENTIFIER K_WHERE expression
(K_ORDER K_BY orderingTerm (',' orderingTerm)*)?`: with enough fuel it
consumes a token sequence entirely and returns without error if and only if
the sequence has that shape, so a TOP clause sits between `K_FILTER` and the
table name.  The WHERE clause is mandatory: `FILTER T` alone is sent to inline
recovery whatever the fuel.  ORDER BY needs an ordering term: `ORDER BY` with
nothing after it is sent to inline recovery.  The token sequence of
`FILTER TOP 2 ActiveMeasurements WHERE SignalType = 'FREQ' ORDER BY PointTag`
is accepted by `parse` as one filter statement whose context has one
`topLimit` child, one `tableName` child and one `orderingTerm` child. -/
theorem filterStatement_accepts_iff :
    (∀ s, IsFilterStatement s ↔ FilterStatementShape s)
    ∧ (∀ fuel f t, f.type = K_FILTER → t.type = IDENTIFIER →
        filterStatement fuel [f, t] = .error .inputMismatch)
    ∧ (∀ fuel o b, o.type = K_ORDER → b.type = K_BY →
        orderByClause fuel [o, b] = .error .inputMismatch)
    ∧ (∀ fuel, (filterStatement fuel
        (toks [K_FILTER, IDENTIFIER, K_WHERE, IDENTIFIER, K_ORDER, K_BY])).isOk = false)
    ∧ (∀ fuel, (filterStatement fuel (toks [K_FILTER, IDENTIFIER])).isOk = false)
    ∧ (parse 10 (toks [K_FILTER, K_TOP, INTEGER_LITERAL, IDENTIFIER, K_WHERE, IDENTIFIER,
          T__13, STRING_LITERAL, K_ORDER, K_BY, IDENTIFIER])
        = .ok (.rule RuleParse [.rule RuleFilterExpressionStatementList
            [.rule RuleFilterExpressionStatement [.rule RuleFilterStatement
              [.terminal (tok K_FILTER), .terminal (tok K_TOP),
               .rule RuleTopLimit [.terminal (tok INTEGER_LITERAL)],
               .rule RuleTableName [.terminal (tok IDENTIFIER)],
               .terminal (tok K_WHERE),
               .rule RuleExpression [.rule RulePredicateExpression
                [.rule RulePredicateExpression
                  [.rule RuleValueExpression [.rule RuleColumnName [.terminal (tok IDENTIFIER)]]],
                 .rule RuleComparisonOperator [.terminal (tok T__13)],
                 .rule RulePredicateExpression
                  [.rule RuleValueExpression
                    [.rule RuleLiteralValue [.terminal (tok STRING_LITERAL)]]]]],
               .terminal (tok K_ORDER), .terminal (tok K_BY),
               .rule RuleOrderingTerm
                [.rule RuleOrderByColumnName [.terminal (tok IDENTIFIER)]]]]],
            .terminal ⟨EOF, "<EOF>"⟩], [])) := by
  refine ⟨fun s => ⟨fun ⟨_, _, h⟩ => filterStatement_shape_of_ok h, filterStatement_ok_of_shape⟩,
    ?_, ?_, ?_, ?_, rfl⟩
  · intro fuel f t hf ht
    have hntop : (LA 1 [t] == K_TOP) = false := by
      rw [LA_one_cons, ht]; rfl
    unfold filterStatement topClause
    rw [matchToken_cons, if_pos hf, ok_bind]
    simp only [hntop, Bool.false_eq_true, ↓reduceIte, pure_eq, ok_bind]
    rw [tableName_cons, if_pos ht, ok_bind]
    rfl
  · intro fuel o b ho hb
    have hg : (LA 1 [o, b] == K_ORDER) = true := by
      rw [LA_one_cons, ho]; rfl
    unfold orderByClause
    rw [if_pos hg, matchToken_cons, if_pos ho, ok_bind]
    simp only []
    rw [matchToken_cons, if_pos hb, ok_bind]
    rfl
  · exact not_ok_of_error_of_stable (fun n => filterStatement n _)
      (fun n m h => stable_filterStatement h _) (n := 10) (e := .inputMismatch) rfl
  · exact not_ok_of_error_of_stable (fun n => filterStatement n _)
      (fun n m h => stable_filterStatement h _) (n := 10) (e := .inputMismatch) rfl

/-! ### Set tests on arbitrary token types -/

theorem shl64_one_of_ge {s : Nat} (h : 64 ≤ s) : shl64 1 s = 0 := by
  unfold shl64
  rw [Nat.shiftLeft_eq, Nat.one_mul]
  exact Nat.mod_eq_zero_of_dvd (Nat.pow_dvd_pow 2 h)

/-- Above its window a set test fails, whatever the size of the lookahead. -/
theorem bitsetTest_high {la off : Nat} (mask : Nat) (h : off + 64 ≤ la) :
    bitsetTest la off mask = false := by
  have hs : sub64 la off = la - off := by
    unfold sub64
    rw [if_pos (by omega)]
  unfold bitsetTest
  rw [Bool.and_eq_false_iff]
  right
  rw [hs, shl64_one_of_ge (by omega), Nat.zero_and]
  rfl

theorem contains_eq_false_of_lt {l : List Nat} {n ty : Nat} (hl : ∀ x ∈ l, x < n) (h : n ≤ ty) :
    l.contains ty = false := by
  rw [List.contains_eq_any_beq, List.any_eq_false]
  intro x hx
  have := hl x hx
  simp only [beq_iff_eq]
  omega

theorem startsStatement_of_ge {ty : Nat} (h : 154 ≤ ty) : startsStatement ty = false := by
  have h1 : identifierStatementSet ty = false := bitsetTest_high _ (by omega)
  have h2 : notOperatorSet ty = false := by
    simp only [notOperatorSet, T__6, K_NOT, Bool.or_eq_false_iff, beq_eq_false_iff_ne, ne_eq]
    omega
  have h3 : literalValueCases.contains ty = false :=
    contains_eq_false_of_lt (n := 154) (by decide) h
  have h4 : functionExpressionCases.contains ty = false :=
    contains_eq_false_of_lt (n := 154) (by decide) h
  have h5 : unaryOperatorCases.contains ty = false :=
    contains_eq_false_of_lt (n := 154) (by decide) h
  have h6 : (ty == IDENTIFIER) = false := by
    simp only [IDENTIFIER, beq_eq_false_iff_ne, ne_eq]; omega
  have h7 : (ty == T__4) = false := by
    simp only [T__4, beq_eq_false_iff_ne, ne_eq]; omega
  have h8 : (ty == K_FILTER) = false := by
    simp only [K_FILTER, beq_eq_false_iff_ne, ne_eq]; omega
  simp only [startsStatement, startsExpression, startsValueExpression, h1, h2, h3, h4, h5, h6, h7,
    h8, Bool.or_false]

set_option maxRecDepth 100000 in
theorem startsStatement_small :
    ∀ ty < 154, startsStatement ty = true → statementListCases.contains ty = true := by
  decide

/-- A token that begins a statement is a `case` label of `parse`. -/
theorem statementListCases_of_startsStatement {ty : Nat} (h : startsStatement ty = true) :
    statementListCases.contains ty = true := by
  by_cases hty : ty < 154
  · exact startsStatement_small ty hty h
  · rw [startsStatement_of_ge (by omega)] at h
    exact Bool.noConfusion h

theorem identifierStatementSet_iff (ty : Nat) :
    identifierStatementSet ty = true
      ↔ ty = GUID_LITERAL ∨ ty = MEASUREMENT_KEY_LITERAL ∨ ty = POINT_TAG_LITERAL := by
  by_cases hty : ty < 2 ^ 64
  · rw [identifierStatementSet_eq ty hty]
    simp only [Bool.or_eq_true, beq_iff_eq, or_assoc]
  · have h1 : identifierStatementSet ty = false :=
      bitsetTest_high _ (by have : (154 : Nat) ≤ 2 ^ 64 := by decide
                            omega)
    rw [h1]
    simp only [GUID_LITERAL, MEASUREMENT_KEY_LITERAL, POINT_TAG_LITERAL, Bool.false_eq_true,
      false_iff]
    have : (154 : Nat) ≤ 2 ^ 64 := by decide
    omega

/-! ### Statements -/

theorem adaptivePredict5_cases (s : List Token) :
    adaptivePredict 5 0 s = none ∨ adaptivePredict 5 0 s = some 1
      ∨ adaptivePredict 5 0 s = some 2 ∨ adaptivePredict 5 0 s = some 3 := by
  unfold adaptivePredict
  simp only [Nat.reduceEqDiff, ↓reduceIte]
  split
  · exact Or.inr (Or.inl rfl)
  · split
    · split
      · exact Or.inr (Or.inr (Or.inr rfl))
      · exact Or.inr (Or.inl rfl)
    · split
      · exact Or.inr (Or.inr (Or.inl rfl))
      · split
        · exact Or.inr (Or.inr (Or.inr rfl))
        · exact Or.inl rfl

theorem startsStatement_of_predict {s : List Token} (h : adaptivePredict 5 0 s ≠ none) :
    startsStatement (LA 1 s) = true := by
  unfold adaptivePredict at h
  simp only [Nat.reduceEqDiff, ↓reduceIte] at h
  unfold startsStatement
  split at h
  · rename_i h1
    rcases Bool.or_eq_true _ _ ▸ h1 with h1 | h1
    · rw [beq_iff_eq.1 h1]; rfl
    · rw [beq_iff_eq.1 h1]; rfl
  · split at h
    · rename_i h1
      rw [beq_iff_eq.1 h1]; rfl
    · split at h
      · rename_i h1
        rw [beq_iff_eq.1 h1]; rfl
      · split at h
        · rename_i h1
          rw [h1]
          simp
        · exact absurd rfl h

/-- The token sequence that `filterExpressionStatement` consumes entirely is
a statement. -/
theorem isStatement_of_ok {fuel : Nat} {s : List Token} {tree : ParseTree}
    (h : filterExpressionStatement fuel s = .ok (tree, [])) : IsStatement s := by
  unfold filterExpressionStatement at h
  rcases adaptivePredict5_cases s with h5 | h5 | h5 | h5
  · rw [h5] at h
    exact Outcome.noConfusion h
  · rw [h5] at h
    obtain ⟨⟨a, r1⟩, h1, h⟩ := bind_eq_ok.1 h
    obtain ⟨-, rfl⟩ := Prod.mk.inj (pure_eq_ok.1 h)
    exact Or.inl ⟨a, h1⟩
  · rw [h5] at h
    obtain ⟨⟨a, r1⟩, h1, h⟩ := bind_eq_ok.1 h
    obtain ⟨-, rfl⟩ := Prod.mk.inj (pure_eq_ok.1 h)
    exact Or.inr (Or.inl ⟨fuel, a, h1⟩)
  · rw [h5] at h
    obtain ⟨⟨a, r1⟩, h1, h⟩ := bind_eq_ok.1 h
    obtain ⟨-, rfl⟩ := Prod.mk.inj (pure_eq_ok.1 h)
    exact Or.inr (Or.inr ⟨fuel, a, h1⟩)

theorem identifierStatement_eq_ok {s r : List Token} {tr : ParseTree} :
    identifierStatement s = .ok (tr, r) ↔
      ∃ x, s = x :: r ∧ (x.type = GUID_LITERAL ∨ x.type = MEASUREMENT_KEY_LITERAL
          ∨ x.type = POINT_TAG_LITERAL)
        ∧ tr = .rule RuleIdentifierStatement [.terminal x] := by
  unfold identifierStatement
  constructor
  · intro h
    obtain ⟨⟨a, r1⟩, h1, h2⟩ := bind_eq_ok.1 h
    obtain ⟨x, rfl, hx, rfl⟩ := (matchSet_eq_ok (by decide)).1 h1
    obtain ⟨rfl, rfl⟩ := Prod.mk.inj (pure_eq_ok.1 h2)
    exact ⟨x, rfl, (identifierStatementSet_iff _).1 hx, rfl⟩
  · rintro ⟨x, rfl, hx, rfl⟩
    rw [matchSet_cons, if_pos ((identifierStatementSet_iff _).2 hx)]
    rfl

theorem statement_of_identifierStatement {s : List Token} (h : IsIdentifierStatement s) :
    ∃ tree, filterExpressionStatement 0 s = .ok (tree, []) := by
  obtain ⟨tree, h⟩ := h
  obtain ⟨x, rfl, hx, rfl⟩ := identifierStatement_eq_ok.1 h
  have h5 : adaptivePredict 5 0 [x] = some 1 := by
    unfold adaptivePredict
    simp only [Nat.reduceEqDiff, ↓reduceIte, LA_one_cons, LA_two_cons, LA_one_nil]
    rcases hx with hx | hx | hx <;> simp only [hx] <;> rfl
  refine ⟨.rule RuleFilterExpressionStatement
    [.rule RuleIdentifierStatement [.terminal x]], ?_⟩
  simp only [filterExpressionStatement, h5]
  rw [h, ok_bind]
  rfl

theorem statement_of_filterStatement {s : List Token} (h : IsFilterStatement s) :
    ∃ fuel tree, filterExpressionStatement fuel s = .ok (tree, []) := by
  obtain ⟨fuel, tree, h⟩ := h
  obtain ⟨f, top, tb, w, e, ob, rfl, hf, -⟩ := filterStatement_shape_of_ok h
  have h5 : adaptivePredict 5 0 (f :: (top ++ tb :: w :: (e ++ ob))) = some 2 := by
    unfold adaptivePredict
    simp only [Nat.reduceEqDiff, ↓reduceIte, LA_one_cons, hf]
    rfl
  refine ⟨fuel, .rule RuleFilterExpressionStatement [tree], ?_⟩
  simp only [filterExpressionStatement, h5]
  rw [h, ok_bind]
  rfl

theorem expression_nil (fuel p : Nat) : ∀ res, expression fuel p [] ≠ .ok res := by
  intro res
  cases fuel with
  | zero => simp [expression]
  | succ n =>
    have h13 : adaptivePredict 13 p [] = none := rfl
    simp only [expression, h13]
    exact fun h => Outcome.noConfusion h

theorem startsExpression_of_ok {fuel p : Nat} {s : List Token} {res : ParseTree × List Token}
    (h : expression fuel p s = .ok res) : startsExpression (LA 1 s) = true := by
  cases fuel with
  | zero => simp [expression] at h
  | succ n =>
    by_contra hne
    have h1 : notOperatorSet (LA 1 s) = false ∧ startsValueExpression (LA 1 s) = false := by
      simpa [startsExpression] using hne
    have h13 : adaptivePredict 13 p s = none := by
      unfold adaptivePredict
      simp only [Nat.reduceEqDiff, ↓reduceIte, h1.1, h1.2, Bool.false_eq_true]
    simp only [expression, h13] at h
    exact Outcome.noConfusion h

theorem statement_of_expression {s : List Token} (h : IsExpression s) :
    ∃ fuel tree, filterExpressionStatement fuel s = .ok (tree, []) := by
  obtain ⟨fuel, tree, h⟩ := h
  have hstart := startsExpression_of_ok h
  cases s with
  | nil => exact absurd h (expression_nil fuel 0 _)
  | cons x r =>
    rw [LA_one_cons] at hstart
    have hmk : (x.type == MEASUREMENT_KEY_LITERAL || x.type == POINT_TAG_LITERAL) = false := by
      rw [Bool.or_eq_false_iff, beq_eq_false_iff_ne, beq_eq_false_iff_ne]
      constructor <;> intro hx <;> rw [hx] at hstart <;> exact Bool.noConfusion hstart
    have hfl : (x.type == K_FILTER) = false := by
      rw [beq_eq_false_iff_ne]
      intro hx
      rw [hx] at hstart
      exact Bool.noConfusion hstart
    by_cases hg : x.type = GUID_LITERAL
    · by_cases hc : continuesExpression (LA 1 r) = true
      · have h5 : adaptivePredict 5 0 (x :: r) = some 3 := by
          unfold adaptivePredict
          simp only [Nat.reduceEqDiff, ↓reduceIte, LA_one_cons, LA_two_cons, hg, hc]
          rfl
        refine ⟨fuel, .rule RuleFilterExpressionStatement [tree], ?_⟩
        simp only [filterExpressionStatement, h5]
        rw [h, ok_bind]
        rfl
      · have hc' : continuesExpression (LA 1 r) = false := by simpa using hc
        have hbig := (allStable fuel).expr (fuel + 4) 0 (x :: r) (by omega) (by rw [h]; simp)
        rw [expression_literal x r (by rw [hg]; rfl) (by rw [hg]; rfl) (by rw [hg]; rfl) hc' fuel 0,
          h] at hbig
        obtain ⟨-, hr⟩ := Prod.mk.inj (Outcome.ok.inj hbig)
        subst hr
        exact statement_of_identifierStatement
          ⟨_, identifierStatement_eq_ok.2 ⟨x, rfl, Or.inl hg, rfl⟩⟩ |>.elim
          (fun tree h => ⟨0, tree, h⟩)
    · have hg' : (x.type == GUID_LITERAL) = false := by simpa using hg
      have h5 : adaptivePredict 5 0 (x :: r) = some 3 := by
        unfold adaptivePredict
        simp only [Nat.reduceEqDiff, ↓reduceIte, LA_one_cons, hmk, hg', hfl, hstart,
          Bool.false_eq_true]
      refine ⟨fuel, .rule RuleFilterExpressionStatement [tree], ?_⟩
      simp only [filterExpressionStatement, h5]
      rw [h, ok_bind]
      rfl

/-- A statement is what `filterExpressionStatement` consumes entirely. -/
theorem statement_ok_iff (s : List Token) :
    (∃ fuel tree, filterExpressionStatement fuel s = .ok (tree, [])) ↔ IsStatement s := by
  constructor
  · rintro ⟨fuel, tree, h⟩
    exact isStatement_of_ok h
  · rintro (h | h | h)
    · obtain ⟨tree, h⟩ := statement_of_identifierStatement h
      exact ⟨0, tree, h⟩
    · exact statement_of_filterStatement h
    · exact statement_of_expression h

theorem startsStatement_of_isStatement {s : List Token} (h : IsStatement s) :
    startsStatement (LA 1 s) = true := by
  obtain ⟨fuel, tree, h⟩ := (statement_ok_iff s).2 h
  apply startsStatement_of_predict
  intro hnone
  unfold filterExpressionStatement at h
  rw [hnone] at h
  exact Outcome.noConfusion h

/-- A statement keeps its context when a statement end follows, and when
fuel is added. -/
theorem statement_extend {fuel : Nat} {st : List Token} {tree : ParseTree}
    (h : filterExpressionStatement fuel st = .ok (tree, [])) {rest : List Token}
    (hrest : HeadIn terminator rest) {m : Nat} (hm : fuel ≤ m) :
    filterExpressionStatement m (st ++ rest) = .ok (tree, rest) := by
  have h1 := @rel_filterExpressionStatement [] rest rfl hrest fuel m hm st
  rw [List.append_nil] at h1
  obtain ⟨c, u', -, hu, hy⟩ := h1 tree [] h
  have hnil : u' = [] := by simpa using hu.symm
  subst hnil
  simpa using hy

/-! ### Statement lists -/

theorem headIn_terminator_of_allSemicolons {semis : List Token} (h : AllSemicolons semis)
    {F : List Token} (hF : HeadIn terminator F) : HeadIn terminator (semis ++ F) := by
  cases semis with
  | nil => exact hF
  | cons x r =>
    show terminator (LA 1 (x :: (r ++ F))) = true
    rw [LA_one_cons, h x (List.mem_cons_self _ _)]
    rfl

theorem headIn_terminator_of_tail {p : List Token} (h : StatementListTail p) {F : List Token}
    (hF : HeadIn terminator F) : HeadIn terminator (p ++ F) := by
  cases h with
  | done semis hs => exact headIn_terminator_of_allSemicolons hs hF
  | more semis st rest hne hs _ _ =>
    cases semis with
    | nil => exact absurd rfl hne
    | cons x r =>
      show terminator (LA 1 (x :: r ++ st ++ rest ++ F)) = true
      simp only [List.cons_append, LA_one_cons]
      rw [hs x (List.mem_cons_self _ _)]
      rfl

theorem adaptivePredict3_cases (s : List Token) :
    (adaptivePredict 3 0 s = some 1 ∧ (LA 1 s == T__0) = true
        ∧ startsStatement (LA 1 (semicolons s).2) = true)
      ∨ (adaptivePredict 3 0 s = some 2
        ∧ ((LA 1 s == T__0) = true → startsStatement (LA 1 (semicolons s).2) = false)) := by
  unfold adaptivePredict
  simp only [Nat.reduceEqDiff, ↓reduceIte, dropWhile_semicolons]
  by_cases h1 : (LA 1 s == T__0) = true
  · by_cases h2 : startsStatement (LA 1 (semicolons s).2) = true
    · exact Or.inl ⟨by rw [if_pos h1, if_pos h2], h1, h2⟩
    · exact Or.inr ⟨by rw [if_pos h1, if_neg h2], fun _ => by simpa using h2⟩
  · exact Or.inr ⟨by rw [if_neg h1], fun h => absurd h h1⟩

theorem semicolonsPlus_eq_ok {s r : List Token} {l : List ParseTree}
    (h : semicolonsPlus s = .ok (l, r)) :
    r = (semicolons s).2 ∧ ∃ semis, semis ≠ [] ∧ AllSemicolons semis ∧ s = semis ++ r := by
  unfold semicolonsPlus at h
  obtain ⟨⟨a, r1⟩, h1, h2⟩ := bind_eq_ok.1 h
  obtain ⟨x, rfl, hx, -⟩ := (matchToken_eq_ok (by decide)).1 h1
  obtain ⟨-, rfl⟩ := Prod.mk.inj (pure_eq_ok.1 h2)
  obtain ⟨semis, h2, h3, -⟩ := semicolons_split r1
  refine ⟨by rw [semicolons_cons_semi x r1 hx], x :: semis, List.cons_ne_nil _ _, ?_, ?_⟩
  · intro y hy
    rcases List.mem_cons.1 hy with rfl | hy
    · exact hx
    · exact h3 y hy
  · rw [List.cons_append, ← h2]

theorem semicolonsPlus_ok {semis : List Token} (hne : semis ≠ []) (hs : AllSemicolons semis)
    (rest : List Token) (hrest : LA 1 rest ≠ T__0) :
    ∃ l, semicolonsPlus (semis ++ rest) = .ok (l, rest) := by
  cases semis with
  | nil => exact absurd rfl hne
  | cons x r =>
    have hx : x.type = T__0 := hs x (List.mem_cons_self _ _)
    have hr : (semicolons (r ++ rest)).2 = rest := by
      rw [semicolons_append r rest (fun y hy => hs y (List.mem_cons_of_mem _ hy)),
        semicolons_of_head rest hrest]
    refine ⟨.terminal x :: (semicolons (r ++ rest)).1, ?_⟩
    unfold semicolonsPlus
    rw [List.cons_append, matchToken_cons, if_pos hx, ok_bind]
    simp only [pure_eq, hr]

theorem ne_semicolon_of_startsStatement {ty : Nat} (h : startsStatement ty = true) :
    ty ≠ T__0 := by
  intro h0
  rw [h0] at h
  exact Bool.noConfusion h

/-- The loop over `';'+ statement` consumes a tail of the statement list up
to a final run of `';'`. -/
theorem statementListLoop_ok {t : List Token} (h : StatementListTail t) :
    ∃ fuel l r, statementListLoop fuel t = .ok (l, r) ∧ (semicolons r).2 = [] := by
  induction h with
  | done semis hs =>
    have hz : (semicolons semis).2 = [] := semicolons_allSemicolons semis hs
    refine ⟨1, [], semis, ?_, hz⟩
    rcases adaptivePredict3_cases semis with ⟨-, -, h2⟩ | ⟨h3, -⟩
    · rw [hz] at h2
      exact Bool.noConfusion h2
    · simp only [statementListLoop, h3]
      rfl
  | more semis st rest hne hs hst htail ih =>
    obtain ⟨f1, l1, r, h1, hr⟩ := ih
    obtain ⟨f0, tree, h0⟩ := (statement_ok_iff st).2 hst
    have hstart : startsStatement (LA 1 (st ++ rest)) = true := by
      have := startsStatement_of_isStatement hst
      cases st with
      | nil => exact Bool.noConfusion this
      | cons x r' => exact this
    have hhead : LA 1 (st ++ rest) ≠ T__0 := ne_semicolon_of_startsStatement hstart
    have hsemi : (semicolons (semis ++ (st ++ rest))).2 = st ++ rest := by
      rw [semicolons_append semis _ hs, semicolons_of_head _ hhead]
    have hrest : HeadIn terminator rest := by
      have := headIn_terminator_of_tail htail (F := []) rfl
      rwa [List.append_nil] at this
    have hst' : filterExpressionStatement (max f0 f1) (st ++ rest) = .ok (tree, rest) :=
      statement_extend h0 hrest (Nat.le_max_left f0 f1)
    have hloop : statementListLoop (max f0 f1) rest = .ok (l1, r) := by
      have := stable_statementListLoop f1 (max f0 f1) (Nat.le_max_right f0 f1) rest
        (by rw [h1]; simp)
      rw [this, h1]
    obtain ⟨ls, hls⟩ := semicolonsPlus_ok hne hs (st ++ rest) hhead
    have h3 : adaptivePredict 3 0 (semis ++ (st ++ rest)) = some 1 := by
      rcases adaptivePredict3_cases (semis ++ (st ++ rest)) with ⟨h3, -, -⟩ | ⟨-, h2⟩
      · exact h3
      · have hla : (LA 1 (semis ++ (st ++ rest)) == T__0) = true := by
          cases semis with
          | nil => exact absurd rfl hne
          | cons x r' =>
            rw [List.cons_append, LA_one_cons, hs x (List.mem_cons_self _ _)]
            rfl
        have := h2 hla
        rw [hsemi, hstart] at this
        exact Bool.noConfusion this
    refine ⟨max f0 f1 + 1, ls ++ tree :: l1, r, ?_, hr⟩
    rw [List.append_assoc]
    simp only [statementListLoop, h3]
    have hif : ((1 : Nat) != 2 && (1 : Nat) != INVALID_ALT_NUMBER) = true := rfl
    have hone : ((1 : Nat) == 1) = true := rfl
    rw [if_pos hif, if_pos hone, hls, ok_bind]
    simp only []
    rw [hst', ok_bind]
    simp only []
    rw [hloop, ok_bind]
    rfl

theorem error_not_ok (s : List Token) : ∀ res, error s ≠ .ok res := by
  intro res h
  unfold error at h
  split at h <;> exact Outcome.noConfusion h

/-- A token sequence with the shape of a statement list is accepted by
`parse`. -/
theorem accepted_of_shape {s : List Token} (h : StatementListShape s) : Accepted s := by
  obtain ⟨lead, st, rest, rfl, hlead, hst, hrest⟩ := h
  obtain ⟨f1, l1, r, h1, hr⟩ := statementListLoop_ok hrest
  obtain ⟨f0, tree, h0⟩ := (statement_ok_iff st).2 hst
  have hstart : startsStatement (LA 1 (st ++ rest)) = true := by
    have := startsStatement_of_isStatement hst
    cases st with
    | nil => exact Bool.noConfusion this
    | cons x r' => exact this
  have hhead : LA 1 (st ++ rest) ≠ T__0 := ne_semicolon_of_startsStatement hstart
  have hsemi : (semicolons (lead ++ (st ++ rest))).2 = st ++ rest := by
    rw [semicolons_append lead _ hlead, semicolons_of_head _ hhead]
  have htail : HeadIn terminator rest := by
    have := headIn_terminator_of_tail hrest (F := []) rfl
    rwa [List.append_nil] at this
  have hst' : filterExpressionStatement (max f0 f1) (st ++ rest) = .ok (tree, rest) :=
    statement_extend h0 htail (Nat.le_max_left f0 f1)
  have hloop : statementListLoop (max f0 f1) rest = .ok (l1, r) := by
    have := stable_statementListLoop f1 (max f0 f1) (Nat.le_max_right f0 f1) rest
      (by rw [h1]; simp)
    rw [this, h1]
  have hcase : statementListCases.contains (LA 1 (lead ++ (st ++ rest))) = true := by
    cases lead with
    | nil => exact statementListCases_of_startsStatement hstart
    | cons x r' =>
      rw [List.cons_append, LA_one_cons, hlead x (List.mem_cons_self _ _)]
      rfl
  refine ⟨max f0 f1, (.rule RuleParse [.rule RuleFilterExpressionStatementList
    ((semicolons (lead ++ (st ++ rest))).1 ++ tree :: l1 ++ (semicolons r).1),
    .terminal ⟨EOF, "<EOF>"⟩], []), ?_⟩
  rw [List.append_assoc]
  unfold parse
  rw [if_pos hcase]
  unfold filterExpressionStatementList
  rw [hsemi, hst', ok_bind]
  simp only []
  rw [hloop, ok_bind]
  simp only [pure_eq, ok_bind, hr]
  rfl

theorem statementListLoop_nil (n : Nat) : statementListLoop (n + 1) [] = .ok ([], []) := rfl

/-- An input that is one statement is accepted, and its tree holds that one
statement. -/
theorem parse_single_statement {fuel : Nat} {s : List Token} {tree : ParseTree}
    (h : filterExpressionStatement fuel s = .ok (tree, [])) :
    parse (fuel + 1) s = .ok (.rule RuleParse [.rule RuleFilterExpressionStatementList [tree],
      .terminal ⟨EOF, "<EOF>"⟩], []) := by
  have hstart : startsStatement (LA 1 s) = true :=
    startsStatement_of_isStatement (isStatement_of_ok h)
  have hsemi : semicolons s = ([], s) :=
    semicolons_of_head s (ne_semicolon_of_startsStatement hstart)
  have h' : filterExpressionStatement (fuel + 1) s = .ok (tree, []) := by
    have := stable_filterExpressionStatement (Nat.le_succ fuel) s (by rw [h]; simp)
    rw [this, h]
  unfold parse
  rw [if_pos (statementListCases_of_startsStatement hstart)]
  unfold filterExpressionStatementList
  rw [hsemi]
  simp only []
  rw [h', ok_bind]
  simp only []
  rw [statementListLoop_nil, ok_bind]
  rfl

theorem shape_of_single {s : List Token} (h : IsStatement s) : StatementListShape s :=
  ⟨[], s, [], by simp, fun _ hx => absurd hx (List.not_mem_nil _), h,
    StatementListTail.done [] (fun _ hx => absurd hx (List.not_mem_nil _))⟩

/-- A filter statement whose predicate is followed by a `K_TOP` token is not
accepted: the statement ends before `K_TOP`, and `parse` then requires the
end of the input. -/
theorem parse_top_after_where (f tb w k : Token) (e rest : List Token)
    (hf : f.type = K_FILTER) (htb : tb.type = IDENTIFIER) (hw : w.type = K_WHERE)
    (hk : k.type = K_TOP) (he : IsExpression e) :
    ∃ fuel, parse fuel (f :: tb :: w :: (e ++ k :: rest)) = .error .inputMismatch := by
  obtain ⟨fe, te, he⟩ := he
  have hin : HeadIn inert (k :: rest) := by
    show inert (LA 1 (k :: rest)) = true
    rw [LA_one_cons, hk]; rfl
  have hexp : expression (fe + 1) 0 (e ++ k :: rest) = .ok (te, k :: rest) :=
    expression_extend he hin (Nat.le_succ fe)
  have hntop : (LA 1 (tb :: w :: (e ++ k :: rest)) == K_TOP) = false := by
    rw [LA_one_cons, htb]; rfl
  have hnord : (LA 1 (k :: rest) == K_ORDER) = false := by
    rw [LA_one_cons, hk]; rfl
  have hfs : filterStatement (fe + 1) (f :: tb :: w :: (e ++ k :: rest))
      = .ok (.rule RuleFilterStatement ([.terminal f] ++ []
          ++ [.rule RuleTableName [.terminal tb], .terminal w, te] ++ []), k :: rest) := by
    unfold filterStatement topClause orderByClause
    rw [matchToken_cons, if_pos hf, ok_bind]
    simp only [hntop, Bool.false_eq_true, ↓reduceIte, pure_eq, ok_bind]
    rw [tableName_cons, if_pos htb, ok_bind]
    simp only []
    rw [matchToken_cons, if_pos hw, ok_bind]
    simp only []
    rw [hexp, ok_bind]
    simp only [hnord, Bool.false_eq_true, ↓reduceIte, ok_bind]
  have h5 : adaptivePredict 5 0 (f :: tb :: w :: (e ++ k :: rest)) = some 2 := by
    unfold adaptivePredict
    simp only [Nat.reduceEqDiff, ↓reduceIte, LA_one_cons, hf]
    rfl
  have hst : filterExpressionStatement (fe + 1) (f :: tb :: w :: (e ++ k :: rest))
      = .ok (.rule RuleFilterExpressionStatement [.rule RuleFilterStatement ([.terminal f] ++ []
          ++ [.rule RuleTableName [.terminal tb], .terminal w, te] ++ [])], k :: rest) := by
    simp only [filterExpressionStatement, h5]
    rw [hfs, ok_bind]
    rfl
  have hk0 : k.type ≠ T__0 := by rw [hk]; decide
  have hkE : k.type ≠ EOF := by rw [hk]; decide
  have hloop : statementListLoop (fe + 1) (k :: rest) = .ok ([], k :: rest) := by
    rcases adaptivePredict3_cases (k :: rest) with ⟨-, h1, -⟩ | ⟨h3, -⟩
    · rw [LA_one_cons, hk] at h1
      exact Bool.noConfusion h1
    · simp only [statementListLoop, h3]
      rfl
  have hcase : statementListCases.contains (LA 1 (f :: tb :: w :: (e ++ k :: rest))) = true := by
    rw [LA_one_cons, hf]; rfl
  have hsemi : semicolons (f :: tb :: w :: (e ++ k :: rest))
      = ([], f :: tb :: w :: (e ++ k :: rest)) :=
    semicolons_cons_other _ _ (by rw [hf]; decide)
  refine ⟨fe + 1, ?_⟩
  unfold parse
  rw [if_pos hcase]
  unfold filterExpressionStatementList
  rw [hsemi]
  simp only []
  rw [hst, ok_bind]
  simp only []
  rw [hloop, ok_bind]
  simp only [pure_eq, ok_bind, semicolons_cons_other k rest hk0]
  rw [matchToken_cons, if_neg hkE, error_bind]

/-- C4, counterexample. The token sequence of `FILTER T WHERE c = 'x' TOP 2`,
which carries its TOP clause after the WHERE predicate, is rejected by
`parse` with a recognition error, whatever the fuel, and so is the same
sequence followed by `ORDER BY c`. -/
theorem parse_rejects_top_after_where :
    parse 10 (toks [K_FILTER, IDENTIFIER, K_WHERE, IDENTIFIER, T__13, STRING_LITERAL, K_TOP,
        INTEGER_LITERAL]) = .error .inputMismatch
    ∧ (∀ fuel, accepts fuel (toks [K_FILTER, IDENTIFIER, K_WHERE, IDENTIFIER, T__13,
        STRING_LITERAL, K_TOP, INTEGER_LITERAL]) = false)
    ∧ (∀ fuel, accepts fuel (toks [K_FILTER, IDENTIFIER, K_WHERE, IDENTIFIER, T__13,
        STRING_LITERAL, K_TOP, INTEGER_LITERAL, K_ORDER, K_BY, IDENTIFIER]) = false) :=
  ⟨rfl, parse_not_ok_of_error (n := 10) (e := .inputMismatch) rfl,
    parse_not_ok_of_error (n := 10) (e := .inputMismatch) rfl⟩

/-- C4, amended. A FILTER statement carries its TOP clause directly after
`K_FILTER`, before the table name: for every table name `tb`, predicate `e`,
top limit `lim` and optional ORDER BY clause `ob`, the token sequence
`FILTER TOP lim tb WHERE e ob` is accepted by `parse` as one filter statement,
and the token sequence `FILTER tb WHERE e TOP lim ob`, with the TOP clause
after the predicate, is not accepted, whatever the fuel. -/
theorem parse_accepts_top_before_table (f k tb w : Token) (lim e ob : List Token)
    (hf : f.type = K_FILTER) (hk : k.type = K_TOP) (hlim : TopLimitShape lim)
    (htb : tb.type = IDENTIFIER) (hw : w.type = K_WHERE) (he : IsExpression e)
    (hob : OrderByClauseShape ob) :
    (∃ fuel children, parse fuel (f :: (k :: lim ++ tb :: w :: (e ++ ob)))
        = .ok (.rule RuleParse [.rule RuleFilterExpressionStatementList
            [.rule RuleFilterExpressionStatement [.rule RuleFilterStatement children]],
            .terminal ⟨EOF, "<EOF>"⟩], []))
    ∧ (∀ fuel, accepts fuel (f :: tb :: w :: (e ++ k :: (lim ++ ob))) = false) := by
  constructor
  · obtain ⟨fuel, children, h⟩ := filterStatement_tree_of_shape
      ⟨f, k :: lim, tb, w, e, ob, rfl, hf, Or.inr ⟨k, lim, rfl, hk, hlim⟩, htb, hw, he, hob⟩
    have h5 : adaptivePredict 5 0 (f :: (k :: lim ++ tb :: w :: (e ++ ob))) = some 2 := by
      unfold adaptivePredict
      simp only [Nat.reduceEqDiff, ↓reduceIte, LA_one_cons, hf]
      rfl
    have hst : filterExpressionStatement fuel (f :: (k :: lim ++ tb :: w :: (e ++ ob)))
        = .ok (.rule RuleFilterExpressionStatement [.rule RuleFilterStatement children], []) := by
      simp only [filterExpressionStatement, h5]
      rw [h, ok_bind]
      rfl
    exact ⟨fuel + 1, children, parse_single_statement hst⟩
  · obtain ⟨n, hn⟩ := parse_top_after_where f tb w k e (lim ++ ob) hf htb hw hk he
    exact parse_not_ok_of_error hn

/-- C4, amended, witness: `FILTER TOP 2 T WHERE c` is accepted and
`FILTER T WHERE c TOP 2` is not. -/
theorem parse_accepts_top_before_table_witness :
    (∃ fuel children, parse fuel (toks [K_FILTER, K_TOP, INTEGER_LITERAL, IDENTIFIER, K_WHERE,
        IDENTIFIER])
        = .ok (.rule RuleParse [.rule RuleFilterExpressionStatementList
            [.rule RuleFilterExpressionStatement [.rule RuleFilterStatement children]],
            .terminal ⟨EOF, "<EOF>"⟩], []))
    ∧ (∀ fuel, accepts fuel (toks [K_FILTER, IDENTIFIER, K_WHERE, IDENTIFIER, K_TOP,
        INTEGER_LITERAL]) = false) :=
  parse_accepts_top_before_table (tok K_FILTER) (tok K_TOP) (tok IDENTIFIER) (tok K_WHERE)
    [tok INTEGER_LITERAL] [tok IDENTIFIER] [] rfl rfl (Or.inl ⟨_, rfl, rfl⟩) rfl rfl
    ⟨10, _, rfl⟩ (Or.inl rfl)

/-! ### The operator and function-name sets -/

/-- A set test agrees with a predicate on every lookahead as soon as it
agrees with it inside its window and the predicate fails outside. -/
theorem bitsetTest_eq_all (P : Nat → Bool) {off mask : Nat} (hoff : off + 64 ≤ 2 ^ 64)
    (hin : ∀ k < 64, bitsetTest (off + k) off mask = P (off + k))
    (hout : ∀ la, la < off ∨ off + 64 ≤ la → P la = false) (la : Nat) :
    bitsetTest la off mask = P la := by
  by_cases hla : la < 2 ^ 64
  · exact bitsetTest_eq P hoff hin hout la hla
  · have h : off + 64 ≤ la := by omega
    rw [bitsetTest_high mask h, hout la (Or.inr h)]

theorem contains_eq_false_of_window (lo hi : Nat) {l : List Nat} {ty : Nat}
    (hl : ∀ x ∈ l, lo ≤ x ∧ x < hi) (h : ty < lo ∨ hi ≤ ty) : l.contains ty = false := by
  rw [List.contains_eq_any_beq, List.any_eq_false]
  intro x hx
  have := hl x hx
  simp only [beq_iff_eq]
  omega

theorem unaryOperatorSet_eq (la : Nat) : unaryOperatorSet la = unaryOperatorCases.contains la :=
  bitsetTest_eq_all (fun la => unaryOperatorCases.contains la) (by decide) (by decide)
    (fun _ h => contains_eq_false_of_window 0 64 (by decide) (by omega)) la

theorem mathOperatorSet_eq (la : Nat) :
    mathOperatorSet la = [T__3, T__2, T__25, T__26, T__27].contains la :=
  bitsetTest_eq_all (fun la => [T__3, T__2, T__25, T__26, T__27].contains la) (by decide)
    (by decide)
    (fun _ h => contains_eq_false_of_window 0 64 (by decide) (by omega)) la

theorem logicalOperatorSet_eq (la : Nat) :
    logicalOperatorSet la = [T__18, T__19, K_AND, K_OR].contains la :=
  bitsetTest_eq_all (fun la => [T__18, T__19, K_AND, K_OR].contains la) (by decide)
    (by decide)
    (fun _ h => contains_eq_false_of_window 19 83 (by decide) (by omega)) la

theorem bitwiseOperatorSet_eq (la : Nat) :
    bitwiseOperatorSet la = [T__22, T__23, T__24, T__20, T__21, K_XOR].contains la := by
  have h : bitsetTest la 0
      (bit64 T__20 0 ||| bit64 T__21 0 ||| bit64 T__22 0 ||| bit64 T__23 0 ||| bit64 T__24 0)
      = [T__22, T__23, T__24, T__20, T__21].contains la :=
    bitsetTest_eq_all (fun la => [T__22, T__23, T__24, T__20, T__21].contains la) (by decide)
      (by decide)
      (fun _ h => contains_eq_false_of_window 0 64 (by decide) (by omega)) la
  unfold bitwiseOperatorSet
  rw [h]
  simp only [List.contains_cons, List.contains_nil, Bool.or_false, Bool.or_assoc]

theorem functionNameSet_eq (la : Nat) :
    functionNameSet la = functionExpressionCases.contains la :=
  bitsetTest_eq_all (fun la => functionExpressionCases.contains la) (by decide) (by decide)
    (fun _ h => contains_eq_false_of_window 29 93 (by decide) (by omega)) la

theorem contains_iff_mem (l : List Nat) (ty : Nat) : l.contains ty = true ↔ ty ∈ l := by
  simp

theorem unaryOperator_cons (x : Token) (r : List Token) :
    unaryOperator (x :: r) =
      if unaryOperatorSet x.type then .ok (.rule RuleUnaryOperator [.terminal x], r)
      else .error .inputMismatch := by
  unfold unaryOperator
  rw [matchSet_cons]
  split <;> rfl

theorem bitwiseOperator_cons (x : Token) (r : List Token) :
    bitwiseOperator (x :: r) =
      if bitwiseOperatorSet x.type then .ok (.rule RuleBitwiseOperator [.terminal x], r)
      else .error .inputMismatch := by
  unfold bitwiseOperator
  rw [matchSet_cons]
  split <;> rfl

theorem mathOperator_cons (x : Token) (r : List Token) :
    mathOperator (x :: r) =
      if mathOperatorSet x.type then .ok (.rule RuleMathOperator [.terminal x], r)
      else .error .inputMismatch := by
  unfold mathOperator
  rw [matchSet_cons]
  split <;> rfl

theorem logicalOperator_cons (x : Token) (r : List Token) :
    logicalOperator (x :: r) =
      if logicalOperatorSet x.type then .ok (.rule RuleLogicalOperator [.terminal x], r)
      else .error .inputMismatch := by
  unfold logicalOperator
  rw [matchSet_cons]
  split <;> rfl

theorem functionName_cons (x : Token) (r : List Token) :
    functionName (x :: r) =
      if functionNameSet x.type then .ok (.rule RuleFunctionName [.terminal x], r)
      else .error .inputMismatch := by
  unfold functionName
  rw [matchSet_cons]
  split <;> rfl

theorem notOperator_cons (x : Token) (r : List Token) :
    notOperator (x :: r) =
      if notOperatorSet x.type then .ok (.rule RuleNotOperator [.terminal x], r)
      else .error .inputMismatch := by
  unfold notOperator
  rw [matchSet_cons]
  split <;> rfl

/-- A rule that matches one token of a set: what it returns on a token, in
terms of a list that enumerates the set. -/
theorem setRule_accepts {rule : List Token → RuleResult} {f : Nat → Bool} {idx : Nat}
    {S : List Nat}
    (hcons : ∀ x r, rule (x :: r) =
      if f x.type then .ok (.rule idx [.terminal x], r) else .error .inputMismatch)
    (hS : ∀ la, f la = S.contains la) (x : Token) (rest : List Token) :
    (rule (x :: rest) =
        if x.type ∈ S then .ok (.rule idx [.terminal x], rest) else .error .inputMismatch)
    ∧ ((∃ tree rest', rule (x :: rest) = .ok (tree, rest')) ↔ x.type ∈ S) := by
  have hmem : f x.type = true ↔ x.type ∈ S := by
    rw [hS, contains_iff_mem]
  have key : rule (x :: rest) =
      if x.type ∈ S then .ok (.rule idx [.terminal x], rest) else .error .inputMismatch := by
    rw [hcons]
    by_cases h : f x.type = true
    · rw [if_pos h, if_pos (hmem.1 h)]
    · rw [if_neg h, if_neg (fun h' => h (hmem.2 h'))]
  refine ⟨key, ?_⟩
  rw [key]
  split
  · rename_i h
    exact ⟨fun _ => h, fun _ => ⟨_, _, rfl⟩⟩
  · rename_i h
    exact ⟨fun ⟨_, _, h'⟩ => Outcome.noConfusion h', fun h' => absurd h' h⟩

/-! ### C11: the unary operators -/

/-- C11, counterexample. The token `'!'` (`T__6`), which is none of `'-'`,
`'+'`, `'~'` and `K_NOT`, is accepted by `unaryOperator`, and in
unary-operator position: `valueExpression` sends it to `unaryOperator`, and
`a = ! b` is accepted with a `unaryOperator` context over `'!'`. -/
theorem unaryOperator_accepts_exclamation :
    T__6 ∉ [T__2, T__3, T__7, K_NOT]
    ∧ unaryOperator (toks [T__6]) = .ok (.rule RuleUnaryOperator [.terminal (tok T__6)], [])
    ∧ valueExpression 5 0 (toks [T__6, IDENTIFIER])
        = .ok (.rule RuleValueExpression [.rule RuleUnaryOperator [.terminal (tok T__6)],
            .rule RuleValueExpression [.rule RuleColumnName [.terminal (tok IDENTIFIER)]]], [])
    ∧ accepts 10 (toks [IDENTIFIER, T__13, T__6, IDENTIFIER]) = true :=
  ⟨by decide, rfl, rfl, rfl⟩

/-- C11, amended. The unary operators are exactly `'-'`, `'+'`, `'!'`, `'~'`
and `K_NOT`: `unaryOperator` accepts a token if and only if its type is one
of these five, every other token type and the end of the input are sent to
inline recovery, and the `switch` of `valueExpression` leads to
`unaryOperator` on exactly these five token types. -/
theorem unaryOperator_accepts_iff (x : Token) (rest : List Token) :
    (unaryOperator (x :: rest) =
        if x.type ∈ [T__2, T__3, T__6, T__7, K_NOT]
        then .ok (.rule RuleUnaryOperator [.terminal x], rest)
        else .error .inputMismatch)
    ∧ ((∃ tree rest', unaryOperator (x :: rest) = .ok (tree, rest')) ↔
        x.type ∈ [T__2, T__3, T__6, T__7, K_NOT])
    ∧ unaryOperator [] = .error .inputMismatch
    ∧ unaryOperatorCases = [T__2, T__3, T__6, T__7, K_NOT] :=
  ⟨(setRule_accepts unaryOperator_cons unaryOperatorSet_eq x rest).1,
   (setRule_accepts unaryOperator_cons unaryOperatorSet_eq x rest).2, rfl, rfl⟩

/-! ### C12: the bitwise operators -/

/-- C12, counterexample. The keyword token `K_XOR`, which is none of `'&'`,
`'|'`, `'^'`, `'<<'` and `'>>'`, is accepted by `bitwiseOperator`, and in
bitwise-operator position: `a XOR b` is an expression with a
`bitwiseOperator` context over `K_XOR`. -/
theorem bitwiseOperator_accepts_xor :
    K_XOR ∉ [T__22, T__23, T__24, T__20, T__21]
    ∧ bitwiseOperator (toks [K_XOR])
        = .ok (.rule RuleBitwiseOperator [.terminal (tok K_XOR)], [])
    ∧ valueExpression 5 0 (toks [IDENTIFIER, K_XOR, IDENTIFIER])
        = .ok (.rule RuleValueExpression
            [.rule RuleValueExpression [.rule RuleColumnName [.terminal (tok IDENTIFIER)]],
             .rule RuleBitwiseOperator [.terminal (tok K_XOR)],
             .rule RuleValueExpression [.rule RuleColumnName [.terminal (tok IDENTIFIER)]]], [])
    ∧ accepts 10 (toks [IDENTIFIER, K_XOR, IDENTIFIER]) = true :=
  ⟨by decide, rfl, rfl, rfl⟩

/-- C12, amended. The bitwise operators are exactly `'&'`, `'|'`, `'^'`,
`'<<'`, `'>>'` and the keyword `K_XOR`: `bitwiseOperator` accepts a token if
and only if its type is one of these six, and every other token type and the
end of the input are sent to inline recovery. -/
theorem bitwiseOperator_accepts_iff (x : Token) (rest : List Token) :
    (bitwiseOperator (x :: rest) =
        if x.type ∈ [T__22, T__23, T__24, T__20, T__21, K_XOR]
        then .ok (.rule RuleBitwiseOperator [.terminal x], rest)
        else .error .inputMismatch)
    ∧ ((∃ tree rest', bitwiseOperator (x :: rest) = .ok (tree, rest')) ↔
        x.type ∈ [T__22, T__23, T__24, T__20, T__21, K_XOR])
    ∧ bitwiseOperator [] = .error .inputMismatch :=
  ⟨(setRule_accepts bitwiseOperator_cons bitwiseOperatorSet_eq x rest).1,
   (setRule_accepts bitwiseOperator_cons bitwiseOperatorSet_eq x rest).2, rfl⟩

/-! ### C13: the function names -/

set_option maxRecDepth 100000 in
theorem specFunctionNames_small :
    ∀ la < 154, functionExpressionCases.contains la = specFunctionNames.contains la := by
  decide

/-- The `case` labels that lead to `functionExpression` are the function
names of the specification, in another order. -/
theorem functionExpressionCases_eq (la : Nat) :
    functionExpressionCases.contains la = specFunctionNames.contains la := by
  by_cases h : la < 154
  · exact specFunctionNames_small la h
  · rw [contains_eq_false_of_window 0 154 (by decide) (by omega),
      contains_eq_false_of_window 0 154 (by decide) (by omega)]

/-- C13. The function names accepted by the grammar are exactly the 41 names
that the specification lists (`specFunctionNames`: LEN, SUBSTR, UPPER, LOWER,
TRIM, TRIMLEFT, TRIMRIGHT, REPLACE, SPLIT, REVERSE, STRCOUNT, STRCMP, INDEXOF,
LASTINDEXOF, NTHINDEXOF, STARTSWITH, ENDSWITH, CONTAINS, REGEXMATCH, REGEXVAL,
ABS, CEILING, FLOOR, ROUND, SQRT, POWER, MAXOF, MINOF, CONVERT, ISNULL,
ISNUMERIC, ISINTEGER, ISDATE, ISGUID, COALESCE, NOW, UTCNOW, DATEADD,
DATEDIFF, DATEPART, IIF): `functionName` accepts a token if and only if its
type is the keyword token of one of them; the list has 41 entries without
repetition, and the `switch` of `valueExpression` leads to
`functionExpression` on the same 41 token types. -/
theorem functionName_accepts_iff (x : Token) (rest : List Token) :
    (functionName (x :: rest) =
        if x.type ∈ specFunctionNames
        then .ok (.rule RuleFunctionName [.terminal x], rest)
        else .error .inputMismatch)
    ∧ ((∃ tree rest', functionName (x :: rest) = .ok (tree, rest')) ↔
        x.type ∈ specFunctionNames)
    ∧ functionName [] = .error .inputMismatch
    ∧ specFunctionNames.length = 41
    ∧ specFunctionNames.Nodup
    ∧ (∀ ty, ty ∈ functionExpressionCases ↔ ty ∈ specFunctionNames) := by
  have hS : ∀ la, functionNameSet la = specFunctionNames.contains la :=
    fun la => (functionNameSet_eq la).trans (functionExpressionCases_eq la)
  refine ⟨(setRule_accepts functionName_cons hS x rest).1,
    (setRule_accepts functionName_cons hS x rest).2, rfl, rfl, by decide, fun ty => ?_⟩
  rw [← contains_iff_mem, ← contains_iff_mem, functionExpressionCases_eq]

/-! ### C20: the math and logical operators -/

/-- C20. `mathOperator` accepts a token if and only if its type is one of
`'+'`, `'-'`, `'*'`, `'/'`, `'%'`, and `logicalOperator` accepts a token if
and only if its type is one of `'&&'`, `'||'`, `K_AND`, `K_OR`; each rule
sends every other token type, and the end of the input, to inline
recovery. -/
theorem mathOperator_logicalOperator_accept_iff (x : Token) (rest : List Token) :
    (mathOperator (x :: rest) =
        if x.type ∈ [T__3, T__2, T__25, T__26, T__27]
        then .ok (.rule RuleMathOperator [.terminal x], rest)
        else .error .inputMismatch)
    ∧ ((∃ tree rest', mathOperator (x :: rest) = .ok (tree, rest')) ↔
        x.type ∈ [T__3, T__2, T__25, T__26, T__27])
    ∧ mathOperator [] = .error .inputMismatch
    ∧ (logicalOperator (x :: rest) =
        if x.type ∈ [T__18, T__19, K_AND, K_OR]
        then .ok (.rule RuleLogicalOperator [.terminal x], rest)
        else .error .inputMismatch)
    ∧ ((∃ tree rest', logicalOperator (x :: rest) = .ok (tree, rest')) ↔
        x.type ∈ [T__18, T__19, K_AND, K_OR])
    ∧ logicalOperator [] = .error .inputMismatch :=
  ⟨(setRule_accepts mathOperator_cons mathOperatorSet_eq x rest).1,
   (setRule_accepts mathOperator_cons mathOperatorSet_eq x rest).2, rfl,
   (setRule_accepts logicalOperator_cons logicalOperatorSet_eq x rest).1,
   (setRule_accepts logicalOperator_cons logicalOperatorSet_eq x rest).2, rfl⟩

/-! ### C19: an unexpected character -/

/-- C19. An unrecognized character is reported with its text: on every token
sequence whose first token is `UNEXPECTED_CHAR` with text `t`, rule `error`
and rule `parse` return no parse tree, whatever the fuel and whatever
follows, but raise the runtime exception whose message is
`"Unexpected character: "` followed by `t`.  That exception is not a
recognition exception, so the `catch` clauses of `error` and `parse` do not
absorb it. -/
theorem parse_unexpected_char (t : Token) (rest : List Token) (fuel : Nat)
    (ht : t.type = UNEXPECTED_CHAR) :
    error (t :: rest) = .error (.runtime ("Unexpected character: " ++ t.text))
    ∧ parse fuel (t :: rest) = .error (.runtime ("Unexpected character: " ++ t.text))
    ∧ (parse fuel (t :: rest)).isOk = false
    ∧ ParseError.isRecognitionException (.runtime ("Unexpected character: " ++ t.text))
        = false := by
  have herr : error (t :: rest) = .error (.runtime ("Unexpected character: " ++ t.text)) := by
    unfold error
    rw [matchToken_cons, if_pos ht]
  have hcase : statementListCases.contains (LA 1 (t :: rest)) = false := by
    rw [LA_one_cons, ht]; rfl
  have hun : (LA 1 (t :: rest) == UNEXPECTED_CHAR) = true := by
    rw [LA_one_cons, ht]; rfl
  have hparse : parse fuel (t :: rest)
      = .error (.runtime ("Unexpected character: " ++ t.text)) := by
    unfold parse
    rw [hcase, if_neg (by decide), if_pos hun, herr, error_bind]
  exact ⟨herr, hparse, by rw [hparse]; rfl, rfl⟩

/-- C19, witness: the character `#` before an identifier. -/
theorem parse_unexpected_char_witness :
    parse 0 [⟨UNEXPECTED_CHAR, "#"⟩, tok IDENTIFIER]
      = .error (.runtime "Unexpected character: #") :=
  (parse_unexpected_char ⟨UNEXPECTED_CHAR, "#"⟩ [tok IDENTIFIER] 0 rfl).2.1

/-! ### What a rule consumes -/

theorem endsOk_nil : EndsOk [] := fun _ h => Option.noConfusion h

theorem endsOk_append {c1 c2 : List Token} (h : c2 ≠ []) (h2 : EndsOk c2) :
    EndsOk (c1 ++ c2) := by
  intro z hz
  rw [List.getLast?_append_of_ne_nil _ h] at hz
  exact h2 z hz

theorem endsOk_singleton {z : Token} (h : notOperatorSet z.type = false) : EndsOk [z] := by
  intro y hy
  simp only [List.getLast?_singleton, Option.some.injEq] at hy
  rw [← hy]
  exact h

theorem complete_singleton {z : Token} (h : notOperatorSet z.type = false) : Complete [z] :=
  ⟨List.cons_ne_nil _ _, endsOk_singleton h⟩

theorem complete_append_any {c1 c2 : List Token} (h : Complete c2) : Complete (c1 ++ c2) :=
  ⟨by simp [h.1], endsOk_append h.1 h.2⟩

theorem complete_append_endsOk {c1 c2 : List Token} (h1 : Complete c1) (h2 : EndsOk c2) :
    Complete (c1 ++ c2) := by
  refine ⟨by simp [h1.1], ?_⟩
  cases c2 with
  | nil => rw [List.append_nil]; exact h1.2
  | cons x r => exact endsOk_append (List.cons_ne_nil _ _) h2

theorem consumes_bind {α β : Type} {Q1 Q2 Q : List Token → Prop} {s : List Token}
    {x : Outcome (α × List Token)} {F : α × List Token → Outcome (β × List Token)}
    (h1 : Consumes Q1 s x) (h2 : ∀ a r, Consumes Q2 r (F (a, r)))
    (hQ : ∀ c1 c2, Q1 c1 → Q2 c2 → Q (c1 ++ c2)) : Consumes Q s (x >>= F) := by
  intro res a' h
  obtain ⟨⟨a, r⟩, hx, hF⟩ := bind_eq_ok.1 h
  obtain ⟨c1, rfl, hc1⟩ := h1 a r hx
  obtain ⟨c2, rfl, hc2⟩ := h2 a r res a' hF
  exact ⟨c1 ++ c2, by simp, hQ c1 c2 hc1 hc2⟩

/-- Any tokens, then a complete sequence. -/
theorem consumes_then_complete {α β : Type} {Q1 : List Token → Prop} {s : List Token}
    {x : Outcome (α × List Token)} {F : α × List Token → Outcome (β × List Token)}
    (h1 : Consumes Q1 s x) (h2 : ∀ a r, Consumes Complete r (F (a, r))) :
    Consumes Complete s (x >>= F) :=
  consumes_bind h1 h2 (fun _ _ _ h => complete_append_any h)

/-- A complete sequence, then what a loop consumes. -/
theorem consumes_then_loop {α β : Type} {s : List Token}
    {x : Outcome (α × List Token)} {F : α × List Token → Outcome (β × List Token)}
    (h1 : Consumes Complete s x) (h2 : ∀ a r, Consumes EndsOk r (F (a, r))) :
    Consumes Complete s (x >>= F) :=
  consumes_bind h1 h2 (fun _ _ h1 h2 => complete_append_endsOk h1 h2)

theorem consumes_mono {α : Type} {Q Q' : List Token → Prop} {s : List Token}
    {x : Outcome (α × List Token)} (h : Consumes Q s x) (hQ : ∀ c, Q c → Q' c) :
    Consumes Q' s x := by
  intro res a' hx
  obtain ⟨c, hs, hc⟩ := h res a' hx
  exact ⟨c, hs, hQ c hc⟩

theorem consumes_pure {α : Type} {Q : List Token → Prop} (hQ : Q []) (a : α) (s : List Token) :
    Consumes Q s (pure (a, s)) := by
  intro res a' h
  obtain ⟨-, rfl⟩ := Prod.mk.inj (pure_eq_ok.1 h)
  exact ⟨[], rfl, hQ⟩

theorem consumes_of_not_ok {α : Type} {Q : List Token → Prop} {s : List Token}
    {x : Outcome (α × List Token)} (h : ∀ r, x ≠ .ok r) : Consumes Q s x :=
  fun _ _ hx => absurd hx (h _)

theorem consumes_matchToken (X : Nat) (hX : X ≠ EOF) (s : List Token) :
    Consumes (fun c => ∃ z, c = [z] ∧ z.type = X) s (matchToken X s) := by
  intro res a' h
  obtain ⟨x, rfl, hx, -⟩ := (matchToken_eq_ok hX).1 h
  exact ⟨[x], rfl, x, rfl, hx⟩

theorem consumes_matchSet (f : Nat → Bool) (hf : f EOF = false) (s : List Token) :
    Consumes (fun c => ∃ z, c = [z] ∧ f z.type = true) s (matchSet f s) := by
  intro res a' h
  obtain ⟨x, rfl, hx, -⟩ := (matchSet_eq_ok hf).1 h
  exact ⟨[x], rfl, x, rfl, hx⟩

/-- A rule that matches one token of a set and wraps it. -/
theorem consumes_setRule (f : Nat → Bool) (hf : f EOF = false) (idx : Nat) (s : List Token) :
    Consumes (fun c => ∃ z, c = [z] ∧ f z.type = true) s
      (matchSet f s >>= fun p => pure (ParseTree.rule idx [p.1], p.2)) := by
  intro res a' h
  obtain ⟨⟨a, r⟩, h1, h2⟩ := bind_eq_ok.1 h
  obtain ⟨-, rfl⟩ := Prod.mk.inj (pure_eq_ok.1 h2)
  exact consumes_matchSet f hf s a r h1

theorem consumes_tokenRule (X : Nat) (hX : X ≠ EOF) (idx : Nat) (s : List Token) :
    Consumes (fun c => ∃ z, c = [z] ∧ z.type = X) s
      (matchToken X s >>= fun p => pure (ParseTree.rule idx [p.1], p.2)) := by
  intro res a' h
  obtain ⟨⟨a, r⟩, h1, h2⟩ := bind_eq_ok.1 h
  obtain ⟨-, rfl⟩ := Prod.mk.inj (pure_eq_ok.1 h2)
  exact consumes_matchToken X hX s a r h1

theorem consumes_optional {Q : List Token → Prop} (g : Bool) (rule : List Token → RuleResult)
    (s : List Token) (h : Consumes Q s (rule s)) :
    Consumes (fun _ => True) s (optional g rule s) := by
  intro res a' hx
  rcases optional_eq_ok.1 hx with ⟨-, -, rfl⟩ | ⟨-, tr, htr, -⟩
  · exact ⟨[], rfl, trivial⟩
  · obtain ⟨c, hc, -⟩ := h tr a' htr
    exact ⟨c, hc, trivial⟩

theorem literalValueSet_eq_all (la : Nat) : literalValueSet la = literalValueCases.contains la :=
  bitsetTest_eq_all (fun la => literalValueCases.contains la) (by decide) (by decide)
    (fun _ h => contains_eq_false_of_window 63 127 (by decide) (by omega)) la

theorem notOperatorSet_of_literal {ty : Nat} (h : literalValueSet ty = true) :
    notOperatorSet ty = false := by
  rw [literalValueSet_eq_all, contains_iff_mem] at h
  simp only [literalValueCases, List.mem_cons, List.mem_singleton, List.mem_nil_iff,
    or_false] at h
  rcases h with h | h | h | h | h | h | h <;> rw [h] <;> rfl

theorem consumes_literalValue (s : List Token) : Consumes Complete s (literalValue s) :=
  consumes_mono (consumes_setRule literalValueSet (by decide) RuleLiteralValue s)
    (fun _ ⟨z, hc, hz⟩ => hc ▸ complete_singleton (notOperatorSet_of_literal hz))

theorem consumes_columnName (s : List Token) : Consumes Complete s (columnName s) :=
  consumes_mono (consumes_tokenRule IDENTIFIER (by decide) RuleColumnName s)
    (fun _ ⟨z, hc, hz⟩ => hc ▸ complete_singleton (by rw [hz]; rfl))

/-- A closing token, then what a loop consumes. -/
theorem consumes_token_then_loop {β : Type} (X : Nat) (hX : X ≠ EOF)
    (hn : notOperatorSet X = false) {s : List Token}
    {F : ParseTree × List Token → Outcome (β × List Token)}
    (h2 : ∀ a r, Consumes EndsOk r (F (a, r))) :
    Consumes Complete s (matchToken X s >>= F) :=
  consumes_then_loop
    (consumes_mono (consumes_matchToken X hX s)
      (fun _ ⟨z, hc, hz⟩ => hc ▸ complete_singleton (by rw [hz]; exact hn))) h2

theorem consumes_any_leaf {Q : List Token → Prop} {s : List Token} {x : RuleResult}
    (h : Consumes Q s x) : Consumes (fun _ => True) s x :=
  consumes_mono h (fun _ _ => trivial)

theorem consumes_notOperator (s : List Token) : Consumes (fun _ => True) s (notOperator s) :=
  consumes_any_leaf (consumes_setRule notOperatorSet (by decide) RuleNotOperator s)

theorem consumes_unaryOperator (s : List Token) :
    Consumes (fun _ => True) s (unaryOperator s) :=
  consumes_any_leaf (consumes_setRule unaryOperatorSet (by decide) RuleUnaryOperator s)

theorem consumes_exactMatchModifier (s : List Token) :
    Consumes (fun _ => True) s (exactMatchModifier s) :=
  consumes_any_leaf (consumes_setRule exactMatchModifierSet (by decide) RuleExactMatchModifier s)

theorem consumes_comparisonOperator (s : List Token) :
    Consumes (fun _ => True) s (comparisonOperator s) :=
  consumes_any_leaf (consumes_setRule comparisonOperatorSet (by decide) RuleComparisonOperator s)

theorem consumes_logicalOperator (s : List Token) :
    Consumes (fun _ => True) s (logicalOperator s) :=
  consumes_any_leaf (consumes_setRule logicalOperatorSet (by decide) RuleLogicalOperator s)

theorem consumes_bitwiseOperator (s : List Token) :
    Consumes (fun _ => True) s (bitwiseOperator s) :=
  consumes_any_leaf (consumes_setRule bitwiseOperatorSet (by decide) RuleBitwiseOperator s)

theorem consumes_mathOperator (s : List Token) :
    Consumes (fun _ => True) s (mathOperator s) :=
  consumes_any_leaf (consumes_setRule mathOperatorSet (by decide) RuleMathOperator s)

theorem consumes_functionName (s : List Token) :
    Consumes (fun _ => True) s (functionName s) :=
  consumes_any_leaf (consumes_setRule functionNameSet (by decide) RuleFunctionName s)

theorem consumes_token (X : Nat) (hX : X ≠ EOF) (s : List Token) :
    Consumes (fun _ => True) s (matchToken X s) :=
  consumes_any_leaf (consumes_matchToken X hX s)

theorem ends_expressionList {n : Nat} (ih : AllEnds n) (s : List Token) :
    Consumes Complete s (expressionList (n + 1) s) := by
  simp only [expressionList]
  refine consumes_then_loop (ih.expr 0 s) (fun a r => ?_)
  exact consumes_bind (ih.exprListLoop r) (fun b r2 => consumes_pure endsOk_nil _ r2)
    (fun c1 c2 h1 _ => by
      cases c2 with
      | nil => rw [List.append_nil]; exact h1
      | cons x l => exact endsOk_append (List.cons_ne_nil _ _) ‹_›)

theorem consumes_loop_pure {α β : Type} {s : List Token} {x : Outcome (α × List Token)}
    {f : α × List Token → β} (h : Consumes EndsOk s x) :
    Consumes EndsOk s (x >>= fun p => pure (f p, p.2)) := by
  intro res a' hx
  obtain ⟨⟨a, r⟩, h1, h2⟩ := bind_eq_ok.1 hx
  obtain ⟨-, rfl⟩ := Prod.mk.inj (pure_eq_ok.1 h2)
  exact h a r h1

theorem ends_expressionListLoop {n : Nat} (ih : AllEnds n) (s : List Token) :
    Consumes EndsOk s (expressionListLoop (n + 1) s) := by
  simp only [expressionListLoop]
  split
  · refine consumes_mono (Q := Complete) ?_ (fun _ h => h.2)
    refine consumes_then_complete (consumes_token T__1 (by decide) s) (fun a r => ?_)
    refine consumes_then_loop (ih.expr 0 r) (fun b r2 => ?_)
    exact consumes_loop_pure (f := fun p => a :: b :: p.1) (ih.exprListLoop r2)
  · exact consumes_pure endsOk_nil _ s

theorem adaptivePredict13_cases (p : Nat) (s : List Token) :
    adaptivePredict 13 p s = none ∨ adaptivePredict 13 p s = some 1
      ∨ adaptivePredict 13 p s = some 2 := by
  unfold adaptivePredict
  simp only [Nat.reduceEqDiff, ↓reduceIte]
  split
  · exact Or.inr (Or.inl rfl)
  · split
    · exact Or.inr (Or.inr rfl)
    · exact Or.inl rfl

theorem ends_expression {n : Nat} (ih : AllEnds n) (p : Nat) (s : List Token) :
    Consumes Complete s (expression (n + 1) p s) := by
  rcases adaptivePredict13_cases p s with h | h | h <;> simp only [expression, h]
  · exact consumes_of_not_ok (by simp)
  · refine consumes_then_complete (consumes_notOperator s) (fun a r => ?_)
    exact consumes_then_loop (ih.expr 3 r) (fun b r2 => ih.exprLoop p _ r2)
  · exact consumes_then_loop (ih.pred 0 s) (fun b r2 => ih.exprLoop p _ r2)

theorem complete_endsOk {α : Type} {s : List Token} {x : Outcome (α × List Token)}
    (h : Consumes Complete s x) : Consumes EndsOk s x :=
  consumes_mono h (fun _ h => h.2)

theorem ends_expressionLoop {n : Nat} (ih : AllEnds n) (p : Nat) (ctx : ParseTree)
    (s : List Token) : Consumes EndsOk s (expressionLoop (n + 1) p ctx s) := by
  simp only [expressionLoop]
  split
  · exact consumes_of_not_ok (by simp)
  · split
    · split
      · split
        · exact consumes_of_not_ok (by simp)
        · refine complete_endsOk ?_
          refine consumes_then_complete (consumes_logicalOperator s) (fun a r => ?_)
          exact consumes_then_loop (ih.expr 3 r) (fun b r2 => ih.exprLoop p _ r2)
      · exact ih.exprLoop p ctx s
    · exact consumes_pure endsOk_nil _ s

theorem ends_predicateExpression {n : Nat} (ih : AllEnds n) (p : Nat) (s : List Token) :
    Consumes Complete s (predicateExpression (n + 1) p s) := by
  simp only [predicateExpression]
  exact consumes_then_loop (ih.value 0 s) (fun b r2 => ih.predLoop p _ r2)

theorem ends_predicateExpressionLoop {n : Nat} (ih : AllEnds n) (p : Nat) (ctx : ParseTree)
    (s : List Token) : Consumes EndsOk s (predicateExpressionLoop (n + 1) p ctx s) := by
  simp only [predicateExpressionLoop]
  split
  · exact consumes_of_not_ok (by simp)
  · split
    · split
      · split
        · exact consumes_of_not_ok (by simp)
        · split
          · exact consumes_of_not_ok (by simp)
          · refine complete_endsOk ?_
            refine consumes_then_complete (consumes_comparisonOperator s) (fun a r => ?_)
            exact consumes_then_loop (ih.pred 4 r) (fun b r2 => ih.predLoop p _ r2)
        · split
          · exact consumes_of_not_ok (by simp)
          · refine complete_endsOk ?_
            refine consumes_then_complete
              (consumes_optional _ _ s (consumes_notOperator s)) (fun a r => ?_)
            refine consumes_then_complete (consumes_token K_LIKE (by decide) r) (fun b r2 => ?_)
            refine consumes_then_complete
              (consumes_optional _ _ r2 (consumes_exactMatchModifier r2)) (fun c r3 => ?_)
            exact consumes_then_loop (ih.pred 3 r3) (fun d r4 => ih.predLoop p _ r4)
        · split
          · exact consumes_of_not_ok (by simp)
          · refine complete_endsOk ?_
            refine consumes_then_complete
              (consumes_optional _ _ s (consumes_notOperator s)) (fun a r => ?_)
            refine consumes_then_complete (consumes_token K_IN (by decide) r) (fun b r2 => ?_)
            refine consumes_then_complete
              (consumes_optional _ _ r2 (consumes_exactMatchModifier r2)) (fun c r3 => ?_)
            refine consumes_then_complete (consumes_token T__4 (by decide) r3) (fun d r4 => ?_)
            refine consumes_then_complete (ih.exprList r4) (fun e r5 => ?_)
            exact consumes_token_then_loop T__5 (by decide) (by decide)
              (fun f r6 => ih.predLoop p _ r6)
        · split
          · exact consumes_of_not_ok (by simp)
          · refine complete_endsOk ?_
            refine consumes_then_complete (consumes_token K_IS (by decide) s) (fun a r => ?_)
            refine consumes_then_complete
              (consumes_optional _ _ r (consumes_notOperator r)) (fun b r2 => ?_)
            exact consumes_token_then_loop K_NULL (by decide) (by decide)
              (fun c r3 => ih.predLoop p _ r3)
        · exact ih.predLoop p ctx s
      · exact ih.predLoop p ctx s
    · exact consumes_pure endsOk_nil _ s

theorem ends_valueExpression {n : Nat} (ih : AllEnds n) (p : Nat) (s : List Token) :
    Consumes Complete s (valueExpression (n + 1) p s) := by
  simp only [valueExpression]
  split
  · exact consumes_then_loop (consumes_literalValue s) (fun a r => ih.valueLoop p _ r)
  · split
    · exact consumes_then_loop (consumes_columnName s) (fun a r => ih.valueLoop p _ r)
    · split
      · exact consumes_then_loop (ih.func s) (fun a r => ih.valueLoop p _ r)
      · split
        · refine consumes_then_complete (consumes_unaryOperator s) (fun a r => ?_)
          exact consumes_then_loop (ih.value 4 r) (fun b r2 => ih.valueLoop p _ r2)
        · split
          · refine consumes_then_complete (consumes_token T__4 (by decide) s) (fun a r => ?_)
            refine consumes_then_complete (ih.expr 0 r) (fun b r2 => ?_)
            exact consumes_token_then_loop T__5 (by decide) (by decide)
              (fun c r3 => ih.valueLoop p _ r3)
          · exact consumes_of_not_ok (by simp)

theorem ends_valueExpressionLoop {n : Nat} (ih : AllEnds n) (p : Nat) (ctx : ParseTree)
    (s : List Token) : Consumes EndsOk s (valueExpressionLoop (n + 1) p ctx s) := by
  simp only [valueExpressionLoop]
  split
  · exact consumes_of_not_ok (by simp)
  · split
    · split
      · split
        · exact consumes_of_not_ok (by simp)
        · split
          · exact consumes_of_not_ok (by simp)
          · refine complete_endsOk ?_
            refine consumes_then_complete (consumes_mathOperator s) (fun a r => ?_)
            exact consumes_then_loop (ih.value 3 r) (fun b r2 => ih.valueLoop p _ r2)
        · split
          · exact consumes_of_not_ok (by simp)
          · refine complete_endsOk ?_
            refine consumes_then_complete (consumes_bitwiseOperator s) (fun a r => ?_)
            exact consumes_then_loop (ih.value 2 r) (fun b r2 => ih.valueLoop p _ r2)
        · exact ih.valueLoop p ctx s
      · exact ih.valueLoop p ctx s
    · exact consumes_pure endsOk_nil _ s

theorem ends_functionExpression {n : Nat} (ih : AllEnds n) (s : List Token) :
    Consumes Complete s (functionExpression (n + 1) s) := by
  simp only [functionExpression]
  refine consumes_then_complete (consumes_functionName s) (fun a r => ?_)
  refine consumes_then_complete (consumes_token T__4 (by decide) r) (fun b r2 => ?_)
  refine consumes_then_complete
    (consumes_optional _ _ r2 (ih.exprList r2)) (fun c r3 => ?_)
  exact consumes_token_then_loop T__5 (by decide) (by decide)
    (fun d r4 => consumes_pure endsOk_nil _ r4)

/-- What the recursive rules consume when they return normally. -/
theorem allEnds : ∀ n, AllEnds n
  | 0 =>
    { exprList := fun _ => consumes_of_not_ok (by simp [expressionList])
      exprListLoop := fun _ => consumes_of_not_ok (by simp [expressionListLoop])
      expr := fun _ _ => consumes_of_not_ok (by simp [expression])
      exprLoop := fun _ _ _ => consumes_of_not_ok (by simp [expressionLoop])
      pred := fun _ _ => consumes_of_not_ok (by simp [predicateExpression])
      predLoop := fun _ _ _ => consumes_of_not_ok (by simp [predicateExpressionLoop])
      value := fun _ _ => consumes_of_not_ok (by simp [valueExpression])
      valueLoop := fun _ _ _ => consumes_of_not_ok (by simp [valueExpressionLoop])
      func := fun _ => consumes_of_not_ok (by simp [functionExpression]) }
  | n + 1 =>
    { exprList := ends_expressionList (allEnds n)
      exprListLoop := ends_expressionListLoop (allEnds n)
      expr := ends_expression (allEnds n)
      exprLoop := ends_expressionLoop (allEnds n)
      pred := ends_predicateExpression (allEnds n)
      predLoop := ends_predicateExpressionLoop (allEnds n)
      value := ends_valueExpression (allEnds n)
      valueLoop := ends_valueExpressionLoop (allEnds n)
      func := ends_functionExpression (allEnds n) }

/-! ### Extension of a run by further tokens -/

section
variable {t : List Token}

theorem lastOk_suffix {c u1 : List Token} (h : LastOk t (c ++ u1)) : LastOk t u1 := by
  rcases h with h | h
  · exact Or.inl h
  · right
    cases u1 with
    | nil => exact endsOk_nil
    | cons x r =>
      intro z hz
      exact h z (by rw [List.getLast?_append_of_ne_nil _ (List.cons_ne_nil _ _)]; exact hz)

theorem ext_of_not_ok {α : Type} {X : Prop} {u : List Token} {x y : Outcome (α × List Token)}
    (h : ∀ r, x ≠ .ok r) : Ext t X u x y :=
  fun _ _ _ hx => absurd hx (h _)

theorem ext_of_last {α : Type} {X : Prop} {u : List Token} {x y : Outcome (α × List Token)}
    (h : LastOk t u → Ext t X u x y) : Ext t X u x y :=
  fun hl => h hl hl

theorem ext_mono {α : Type} {X X' : Prop} {u : List Token} {x y : Outcome (α × List Token)}
    (h : Ext t X u x y) (hX : X' → X) : Ext t X' u x y := by
  intro hl res a hx
  obtain ⟨c, hc, hy⟩ := h hl res a hx
  exact ⟨c, hc, fun hc' => hy (hc'.elim Or.inl (fun h => Or.inr (hX h)))⟩

theorem ext_pure {α : Type} {X : Prop} (a : α) (u : List Token) :
    Ext t X u (pure (a, u)) (pure (a, u ++ t)) := by
  intro _ res a' h
  obtain ⟨rfl, rfl⟩ := Prod.mk.inj (pure_eq_ok.1 h)
  exact ⟨[], rfl, fun _ => rfl⟩

theorem ext_of_stop {α : Type} {X : Prop} {x y : Outcome (α × List Token)} {ctx : α}
    (hx : x = .ok (ctx, [])) (hy : X → y = .ok (ctx, t)) : Ext t X [] x y := by
  intro _ res a h
  rw [hx] at h
  obtain ⟨rfl, rfl⟩ := Prod.mk.inj (Outcome.ok.inj h)
  exact ⟨[], rfl, fun hc => hc.elim (fun h => absurd rfl h) hy⟩

theorem ext_bind {α β : Type} {X : Prop} {u : List Token} {x y : Outcome (α × List Token)}
    {F G : α × List Token → Outcome (β × List Token)} (h1 : Ext t X u x y)
    (h2 : ∀ a u1, Ext t X u1 (F (a, u1)) (G (a, u1 ++ t))) :
    Ext t X u (x >>= F) (y >>= G) := by
  intro hl res a' h
  obtain ⟨⟨a, u1⟩, hx, hF⟩ := bind_eq_ok.1 h
  obtain ⟨c, rfl, hy⟩ := h1 hl a u1 hx
  obtain ⟨c2, rfl, hG⟩ := h2 a u1 (lastOk_suffix hl) res a' hF
  refine ⟨c ++ c2, by simp, fun hc => bind_eq_ok.2 ⟨_, hy ?_, hG hc⟩⟩
  rcases hc with hc | hc
  · exact Or.inl (by simp [hc])
  · exact Or.inr hc

theorem ext_bind_fail {α β : Type} {X X1 : Prop} {u : List Token}
    {x y : Outcome (α × List Token)} {F G : α × List Token → Outcome (β × List Token)}
    (h1 : Ext t X1 u x y) (hF : ∀ a res, F (a, []) ≠ .ok res)
    (h2 : ∀ a u1, u1 ≠ [] → Ext t X u1 (F (a, u1)) (G (a, u1 ++ t))) :
    Ext t X u (x >>= F) (y >>= G) := by
  intro hl res a' h
  obtain ⟨⟨a, u1⟩, hx, hF'⟩ := bind_eq_ok.1 h
  have hne : u1 ≠ [] := by
    rintro rfl
    exact hF a _ hF'
  obtain ⟨c, rfl, hy⟩ := h1 hl a u1 hx
  obtain ⟨c2, hc2, hG⟩ := h2 a u1 hne (lastOk_suffix hl) res a' hF'
  refine ⟨c ++ c2, by rw [hc2]; simp, fun hc => bind_eq_ok.2 ⟨_, hy (Or.inl hne), hG hc⟩⟩

theorem bind_not_ok {α β : Type} {x : Outcome α} {F : α → Outcome β} (h : ∀ r, x ≠ .ok r) :
    ∀ r, (x >>= F) ≠ .ok r := by
  intro r hr
  cases x with
  | ok a => exact h a rfl
  | error e => exact Outcome.noConfusion hr
  | outOfFuel => exact Outcome.noConfusion hr

theorem matchToken_nil_not_ok (X : Nat) (hX : X ≠ EOF) : ∀ r, matchToken X [] ≠ .ok r := by
  intro r h
  rw [matchToken_nil X hX] at h
  exact Outcome.noConfusion h

theorem valueExpression_nil (fuel p : Nat) : ∀ res, valueExpression fuel p [] ≠ .ok res := by
  intro res
  cases fuel with
  | zero => simp [valueExpression]
  | succ n =>
    have h : valueExpression (n + 1) p [] = .error .noViableAlt := by
      simp only [valueExpression]
      rfl
    rw [h]
    exact fun h => Outcome.noConfusion h

theorem predicateExpression_nil (fuel p : Nat) :
    ∀ res, predicateExpression fuel p [] ≠ .ok res := by
  intro res
  cases fuel with
  | zero => simp [predicateExpression]
  | succ n =>
    simp only [predicateExpression]
    exact bind_not_ok (valueExpression_nil n 0) res

theorem expressionList_nil (fuel : Nat) : ∀ res, expressionList fuel [] ≠ .ok res := by
  intro res
  cases fuel with
  | zero => simp [expressionList]
  | succ n =>
    simp only [expressionList]
    exact bind_not_ok (expression_nil n 0) res

theorem ext_matchToken {X : Prop} (X0 : Nat) (hX : X0 ≠ EOF) (u : List Token) :
    Ext t X u (matchToken X0 u) (matchToken X0 (u ++ t)) := by
  intro _ res a h
  obtain ⟨x, rfl, hx, rfl⟩ := (matchToken_eq_ok hX).1 h
  refine ⟨[x], rfl, fun _ => ?_⟩
  rw [List.cons_append, matchToken_cons, if_pos hx]

theorem ext_matchSet {X : Prop} (f : Nat → Bool) (hf : f EOF = false) (u : List Token) :
    Ext t X u (matchSet f u) (matchSet f (u ++ t)) := by
  intro _ res a h
  obtain ⟨x, rfl, hx, rfl⟩ := (matchSet_eq_ok hf).1 h
  refine ⟨[x], rfl, fun _ => ?_⟩
  rw [List.cons_append, matchSet_cons, if_pos hx]

theorem LA_one_append {u : List Token} (hu : u ≠ []) : LA 1 (u ++ t) = LA 1 u := by
  cases u with
  | nil => exact absurd rfl hu
  | cons x r => rfl

theorem ext_optional {X : Prop} (f : Nat → Bool) (hf : f EOF = false)
    {rule rule' : List Token → RuleResult} {u : List Token}
    (h : Ext t X u (rule u) (rule' (u ++ t))) :
    Ext t False u (optional (f (LA 1 u)) rule u) (optional (f (LA 1 (u ++ t))) rule' (u ++ t)) := by
  intro hl res a hx
  rcases optional_eq_ok.1 hx with ⟨hg, rfl, rfl⟩ | ⟨hg, tr, htr, rfl⟩
  · refine ⟨[], rfl, fun hc => ?_⟩
    have hu : a ≠ [] := hc.elim id False.elim
    exact optional_eq_ok.2 (Or.inl ⟨by rw [LA_one_append hu]; exact hg, rfl, rfl⟩)
  · have hu : u ≠ [] := by
      rintro rfl
      rw [LA_one_nil, hf] at hg
      exact Bool.noConfusion hg
    obtain ⟨c, hc, hy⟩ := h hl tr a htr
    refine ⟨c, hc, fun hc' => ?_⟩
    have ha : a ≠ [] := hc'.elim id False.elim
    exact optional_eq_ok.2
      (Or.inr ⟨by rw [LA_one_append hu]; exact hg, tr, hy (Or.inl ha), rfl⟩)

theorem optional_nil_bind_not_ok {β : Type} (f : Nat → Bool) (hf : f EOF = false)
    (rule : List Token → RuleResult)
    {K : List ParseTree × List Token → Outcome β} (hK : ∀ b res, K (b, []) ≠ .ok res) :
    ∀ res, (optional (f (LA 1 [])) rule [] >>= K) ≠ .ok res := by
  intro res h
  have h0 : optional (f (LA 1 [])) rule [] = .ok ([], []) := by
    unfold optional
    rw [LA_one_nil, hf]
    rfl
  rw [h0, ok_bind] at h
  exact hK _ _ h

theorem ext_notOperator {X : Prop} (u : List Token) :
    Ext t X u (notOperator u) (notOperator (u ++ t)) :=
  ext_bind (ext_matchSet _ (by decide) u) (fun _ u1 => ext_pure _ u1)

theorem ext_unaryOperator {X : Prop} (u : List Token) :
    Ext t X u (unaryOperator u) (unaryOperator (u ++ t)) :=
  ext_bind (ext_matchSet _ (by decide) u) (fun _ u1 => ext_pure _ u1)

theorem ext_exactMatchModifier {X : Prop} (u : List Token) :
    Ext t X u (exactMatchModifier u) (exactMatchModifier (u ++ t)) :=
  ext_bind (ext_matchSet _ (by decide) u) (fun _ u1 => ext_pure _ u1)

theorem ext_comparisonOperator {X : Prop} (u : List Token) :
    Ext t X u (comparisonOperator u) (comparisonOperator (u ++ t)) :=
  ext_bind (ext_matchSet _ (by decide) u) (fun _ u1 => ext_pure _ u1)

theorem ext_logicalOperator {X : Prop} (u : List Token) :
    Ext t X u (logicalOperator u) (logicalOperator (u ++ t)) :=
  ext_bind (ext_matchSet _ (by decide) u) (fun _ u1 => ext_pure _ u1)

theorem ext_bitwiseOperator {X : Prop} (u : List Token) :
    Ext t X u (bitwiseOperator u) (bitwiseOperator (u ++ t)) :=
  ext_bind (ext_matchSet _ (by decide) u) (fun _ u1 => ext_pure _ u1)

theorem ext_mathOperator {X : Prop} (u : List Token) :
    Ext t X u (mathOperator u) (mathOperator (u ++ t)) :=
  ext_bind (ext_matchSet _ (by decide) u) (fun _ u1 => ext_pure _ u1)

theorem ext_functionName {X : Prop} (u : List Token) :
    Ext t X u (functionName u) (functionName (u ++ t)) :=
  ext_bind (ext_matchSet _ (by decide) u) (fun _ u1 => ext_pure _ u1)

theorem ext_literalValue {X : Prop} (u : List Token) :
    Ext t X u (literalValue u) (literalValue (u ++ t)) :=
  ext_bind (ext_matchSet _ (by decide) u) (fun _ u1 => ext_pure _ u1)

theorem ext_columnName {X : Prop} (u : List Token) :
    Ext t X u (columnName u) (columnName (u ++ t)) :=
  ext_bind (ext_matchToken _ (by decide) u) (fun _ u1 => ext_pure _ u1)

end

section
variable {t : List Token}

theorem LA_two_append {u : List Token} (hu : 2 ≤ u.length) : LA 2 (u ++ t) = LA 2 u := by
  match u, hu with
  | _ :: _ :: _, _ => rfl

theorem likeAhead_ext {u : List Token} (hu : u ≠ []) (hl : LastOk t u) :
    likeAhead (u ++ t) = likeAhead u := by
  unfold likeAhead
  rw [LA_one_append hu]
  match u, hu, hl with
  | [x], _, hl =>
    simp only [List.singleton_append, LA_two_cons, LA_one_nil, LA_one_cons]
    rcases hl with hl | hl
    · rw [hl.1]
      rfl
    · rw [hl x rfl]
      rfl
  | _ :: _ :: _, _, _ => rfl

theorem inAhead_ext {u : List Token} (hu : u ≠ []) (hl : LastOk t u) :
    inAhead (u ++ t) = inAhead u := by
  unfold inAhead
  rw [LA_one_append hu]
  match u, hu, hl with
  | [x], _, hl =>
    simp only [List.singleton_append, LA_two_cons, LA_one_nil, LA_one_cons]
    rcases hl with hl | hl
    · rw [hl.2]
      rfl
    · rw [hl x rfl]
      rfl
  | _ :: _ :: _, _, _ => rfl

/-- A prediction inside `u` does not see the tokens that follow `u`. -/
theorem adaptivePredict_ext (d p : Nat)
    (hd : d = 13 ∨ d = 14 ∨ d = 20 ∨ d = 21 ∨ d = 23 ∨ d = 24) {u : List Token} (hu : u ≠ [])
    (hl : LastOk t u) : adaptivePredict d p (u ++ t) = adaptivePredict d p u := by
  unfold adaptivePredict
  rw [LA_one_append hu, likeAhead_ext hu hl, inAhead_ext hu hl]
  rcases hd with rfl | rfl | rfl | rfl | rfl | rfl <;>
    simp only [Nat.reduceEqDiff, ↓reduceIte]

/-- The loop of `valueExpression` ends before a token that is neither a math
nor a bitwise operator. -/
theorem valueExpressionLoop_stop {s : List Token} (hs : StopsValue s) (n p : Nat)
    (ctx : ParseTree) : valueExpressionLoop (n + 1) p ctx s = .ok (ctx, s) := by
  have h24 : adaptivePredict 24 p s = some 2 := by
    unfold adaptivePredict
    simp only [Nat.reduceEqDiff, ↓reduceIte, hs.1, hs.2, Bool.false_and, Bool.or_false,
      Bool.false_eq_true]
  simp only [valueExpressionLoop, h24]
  rfl

/-- The loop of `predicateExpression` ends before tokens that open none of
its four alternatives. -/
theorem predicateExpressionLoop_stop {s : List Token} (hs : StopsPredicate s) (n p : Nat)
    (ctx : ParseTree) : predicateExpressionLoop (n + 1) p ctx s = .ok (ctx, s) := by
  have h21 : adaptivePredict 21 p s = some 2 := by
    unfold adaptivePredict
    simp only [Nat.reduceEqDiff, ↓reduceIte, hs.2.1, hs.2.2.1, hs.2.2.2.1, hs.2.2.2.2,
      Bool.false_and, Bool.or_false, Bool.false_eq_true]
  simp only [predicateExpressionLoop, h21]
  rfl

/-- The loop of `expression` ends before a token that is no logical
operator. -/
theorem expressionLoop_stop {s : List Token} (hs : logicalOperatorSet (LA 1 s) = false)
    (n p : Nat) (ctx : ParseTree) : expressionLoop (n + 1) p ctx s = .ok (ctx, s) := by
  have h14 : adaptivePredict 14 p s = some 2 := by
    unfold adaptivePredict
    simp only [Nat.reduceEqDiff, ↓reduceIte, hs, Bool.false_and, Bool.false_eq_true]
  simp only [expressionLoop, h14]
  rfl

theorem expressionListLoop_stop {s : List Token} (hs : (LA 1 s == T__1) = false) (n : Nat) :
    expressionListLoop (n + 1) s = .ok ([], s) := by
  simp only [expressionListLoop, hs]
  rfl

theorem stopsList_nil : StopsList [] := ⟨⟨⟨⟨rfl, rfl⟩, rfl, rfl, rfl, rfl⟩, rfl⟩, rfl⟩

theorem ext_expressionList {n : Nat} (ih : AllExt t n) (m : Nat) (u : List Token)
    (hm : n + 1 ≤ m) :
    Ext t (StopsList t) u (expressionList (n + 1) u) (expressionList m (u ++ t)) := by
  obtain ⟨m, rfl⟩ : ∃ k, m = k + 1 := ⟨m - 1, by omega⟩
  simp only [expressionList]
  refine ext_bind (ext_mono (ih.expr m 0 u (by omega)) (fun h => h.1)) (fun e u1 => ?_)
  refine ext_bind (ih.exprListLoop m u1 (by omega)) (fun more u2 => ?_)
  exact ext_pure _ u2

theorem ext_expressionListLoop {n : Nat} (ih : AllExt t n) (m : Nat) (u : List Token)
    (hm : n + 1 ≤ m) :
    Ext t (StopsList t) u (expressionListLoop (n + 1) u) (expressionListLoop m (u ++ t)) := by
  obtain ⟨m, rfl⟩ : ∃ k, m = k + 1 := ⟨m - 1, by omega⟩
  by_cases hu : u = []
  · subst hu
    exact ext_of_stop (expressionListLoop_stop (s := []) rfl n)
      (fun hX => expressionListLoop_stop hX.2 m)
  · simp only [expressionListLoop]
    rw [LA_one_append hu]
    split
    · refine ext_bind_fail (ext_matchToken (X := True) _ (by decide) u)
        (fun a => bind_not_ok (expression_nil n 0)) (fun c u1 _ => ?_)
      refine ext_bind (ext_mono (ih.expr m 0 u1 (by omega)) (fun h => h.1)) (fun e u2 => ?_)
      refine ext_bind (ih.exprListLoop m u2 (by omega)) (fun more u3 => ?_)
      exact ext_pure _ u3
    · exact ext_pure _ u

theorem ext_expression {n : Nat} (ih : AllExt t n) (m p : Nat) (u : List Token)
    (hm : n + 1 ≤ m) :
    Ext t (StopsExpression t) u (expression (n + 1) p u) (expression m p (u ++ t)) := by
  obtain ⟨m, rfl⟩ : ∃ k, m = k + 1 := ⟨m - 1, by omega⟩
  by_cases hu : u = []
  · subst hu
    exact ext_of_not_ok (expression_nil _ p)
  · refine ext_of_last (fun hl => ?_)
    simp only [expression]
    rw [adaptivePredict_ext 13 p (by simp) hu hl]
    split
    · exact ext_of_not_ok (by simp)
    · refine ext_bind_fail (ext_notOperator (X := True) u)
        (fun a => bind_not_ok (expression_nil n 3)) (fun a u1 _ => ?_)
      refine ext_bind (ih.expr m 3 u1 (by omega)) (fun e u2 => ?_)
      exact ih.exprLoop m p _ u2 (by omega)
    · refine ext_bind (ext_mono (ih.pred m 0 u (by omega)) (fun h => h.1)) (fun e u1 => ?_)
      exact ih.exprLoop m p _ u1 (by omega)
    · exact ih.exprLoop m p _ u (by omega)

theorem ext_expressionLoop {n : Nat} (ih : AllExt t n) (m p : Nat) (ctx : ParseTree)
    (u : List Token) (hm : n + 1 ≤ m) :
    Ext t (StopsExpression t) u (expressionLoop (n + 1) p ctx u)
      (expressionLoop m p ctx (u ++ t)) := by
  obtain ⟨m, rfl⟩ : ∃ k, m = k + 1 := ⟨m - 1, by omega⟩
  by_cases hu : u = []
  · subst hu
    exact ext_of_stop (expressionLoop_stop (s := []) rfl n p ctx)
      (fun hX => expressionLoop_stop hX.2 m p ctx)
  · refine ext_of_last (fun hl => ?_)
    simp only [expressionLoop]
    rw [adaptivePredict_ext 14 p (by simp) hu hl]
    split
    · exact ext_of_not_ok (by simp)
    · split
      · split
        · split
          · exact ext_of_not_ok (by simp)
          · refine ext_bind_fail (ext_logicalOperator (X := True) u)
              (fun a => bind_not_ok (expression_nil n 3)) (fun a u1 _ => ?_)
            refine ext_bind (ih.expr m 3 u1 (by omega)) (fun e u2 => ?_)
            exact ih.exprLoop m p _ u2 (by omega)
        · exact ih.exprLoop m p _ u (by omega)
      · exact ext_pure _ u

theorem ext_predicateExpression {n : Nat} (ih : AllExt t n) (m p : Nat) (u : List Token)
    (hm : n + 1 ≤ m) :
    Ext t (StopsPredicate t) u (predicateExpression (n + 1) p u)
      (predicateExpression m p (u ++ t)) := by
  obtain ⟨m, rfl⟩ : ∃ k, m = k + 1 := ⟨m - 1, by omega⟩
  simp only [predicateExpression]
  refine ext_bind (ext_mono (ih.value m 0 u (by omega)) (fun h => h.1)) (fun e u1 => ?_)
  exact ih.predLoop m p _ u1 (by omega)

end

section
variable {t : List Token}

theorem stopsPredicate_nil : StopsPredicate [] := ⟨⟨rfl, rfl⟩, rfl, rfl, rfl, rfl⟩

theorem stopsValue_nil : StopsValue [] := ⟨rfl, rfl⟩

theorem ext_predicateExpressionLoop {n : Nat} (ih : AllExt t n) (m p : Nat) (ctx : ParseTree)
    (u : List Token) (hm : n + 1 ≤ m) :
    Ext t (StopsPredicate t) u (predicateExpressionLoop (n + 1) p ctx u)
      (predicateExpressionLoop m p ctx (u ++ t)) := by
  obtain ⟨m, rfl⟩ : ∃ k, m = k + 1 := ⟨m - 1, by omega⟩
  by_cases hu : u = []
  · subst hu
    exact ext_of_stop (predicateExpressionLoop_stop stopsPredicate_nil n p ctx)
      (fun hX => predicateExpressionLoop_stop hX m p ctx)
  · refine ext_of_last (fun hl => ?_)
    simp only [predicateExpressionLoop]
    rw [adaptivePredict_ext 21 p (by simp) hu hl, adaptivePredict_ext 20 p (by simp) hu hl]
    split
    · exact ext_of_not_ok (by simp)
    · split
      · split
        · split
          · exact ext_of_not_ok (by simp)
          · split
            · exact ext_of_not_ok (by simp)
            · refine ext_bind_fail (ext_comparisonOperator (X := True) u)
                (fun a => bind_not_ok (predicateExpression_nil n 4)) (fun a u1 _ => ?_)
              refine ext_bind (ih.pred m 4 u1 (by omega)) (fun e u2 => ?_)
              exact ih.predLoop m p _ u2 (by omega)
          · split
            · exact ext_of_not_ok (by simp)
            · refine ext_bind_fail
                (ext_optional (fun la => la == T__6 || la == K_NOT) (by decide)
                  (ext_notOperator (X := True) u))
                (fun a => bind_not_ok (matchToken_nil_not_ok K_LIKE (by decide)))
                (fun a u1 _ => ?_)
              refine ext_bind_fail (ext_matchToken (X := True) _ (by decide) u1)
                (fun b => optional_nil_bind_not_ok (fun la => la == T__8 || la == K_BINARY)
                  (by decide) exactMatchModifier
                  (fun c => bind_not_ok (predicateExpression_nil n 3)))
                (fun b u2 _ => ?_)
              refine ext_bind_fail
                (ext_optional (fun la => la == T__8 || la == K_BINARY) (by decide)
                  (ext_exactMatchModifier (X := True) u2))
                (fun c => bind_not_ok (predicateExpression_nil n 3)) (fun c u3 _ => ?_)
              refine ext_bind (ih.pred m 3 u3 (by omega)) (fun e u4 => ?_)
              exact ih.predLoop m p _ u4 (by omega)
          · split
            · exact ext_of_not_ok (by simp)
            · refine ext_bind_fail
                (ext_optional (fun la => la == T__6 || la == K_NOT) (by decide)
                  (ext_notOperator (X := True) u))
                (fun a => bind_not_ok (matchToken_nil_not_ok K_IN (by decide)))
                (fun a u1 _ => ?_)
              refine ext_bind_fail (ext_matchToken (X := True) _ (by decide) u1)
                (fun b => optional_nil_bind_not_ok (fun la => la == T__8 || la == K_BINARY)
                  (by decide) exactMatchModifier
                  (fun c => bind_not_ok (matchToken_nil_not_ok T__4 (by decide))))
                (fun b u2 _ => ?_)
              refine ext_bind_fail
                (ext_optional (fun la => la == T__8 || la == K_BINARY) (by decide)
                  (ext_exactMatchModifier (X := True) u2))
                (fun c => bind_not_ok (matchToken_nil_not_ok T__4 (by decide)))
                (fun c u3 _ => ?_)
              refine ext_bind_fail (ext_matchToken (X := True) _ (by decide) u3)
                (fun d => bind_not_ok (expressionList_nil n)) (fun d u4 _ => ?_)
              refine ext_bind_fail (ih.exprList m u4 (by omega))
                (fun e => bind_not_ok (matchToken_nil_not_ok T__5 (by decide)))
                (fun e u5 _ => ?_)
              refine ext_bind (ext_matchToken _ (by decide) u5) (fun f u6 => ?_)
              exact ih.predLoop m p _ u6 (by omega)
          · split
            · exact ext_of_not_ok (by simp)
            · refine ext_bind_fail (ext_matchToken (X := True) _ (by decide) u)
                (fun a => optional_nil_bind_not_ok (fun la => la == T__6 || la == K_NOT)
                  (by decide) notOperator
                  (fun b => bind_not_ok (matchToken_nil_not_ok K_NULL (by decide))))
                (fun a u1 _ => ?_)
              refine ext_bind_fail
                (ext_optional (fun la => la == T__6 || la == K_NOT) (by decide)
                  (ext_notOperator (X := True) u1))
                (fun b => bind_not_ok (matchToken_nil_not_ok K_NULL (by decide)))
                (fun b u2 _ => ?_)
              refine ext_bind (ext_matchToken _ (by decide) u2) (fun c u3 => ?_)
              exact ih.predLoop m p _ u3 (by omega)
          · exact ih.predLoop m p _ u (by omega)
        · exact ih.predLoop m p _ u (by omega)
      · exact ext_pure _ u

theorem ext_valueExpression {n : Nat} (ih : AllExt t n) (m p : Nat) (u : List Token)
    (hm : n + 1 ≤ m) :
    Ext t (StopsValue t) u (valueExpression (n + 1) p u) (valueExpression m p (u ++ t)) := by
  obtain ⟨m, rfl⟩ : ∃ k, m = k + 1 := ⟨m - 1, by omega⟩
  by_cases hu : u = []
  · subst hu
    exact ext_of_not_ok (valueExpression_nil _ p)
  · simp only [valueExpression]
    rw [LA_one_append hu]
    split
    · refine ext_bind (ext_literalValue u) (fun a u1 => ?_)
      exact ih.valueLoop m p _ u1 (by omega)
    · split
      · refine ext_bind (ext_columnName u) (fun a u1 => ?_)
        exact ih.valueLoop m p _ u1 (by omega)
      · split
        · refine ext_bind (ih.func m u (by omega)) (fun a u1 => ?_)
          exact ih.valueLoop m p _ u1 (by omega)
        · split
          · refine ext_bind_fail (ext_unaryOperator (X := True) u)
              (fun a => bind_not_ok (valueExpression_nil n 4)) (fun a u1 _ => ?_)
            refine ext_bind (ih.value m 4 u1 (by omega)) (fun b u2 => ?_)
            exact ih.valueLoop m p _ u2 (by omega)
          · split
            · refine ext_bind_fail (ext_matchToken (X := True) _ (by decide) u)
                (fun a => bind_not_ok (expression_nil n 0)) (fun a u1 _ => ?_)
              refine ext_bind_fail (ih.expr m 0 u1 (by omega))
                (fun b => bind_not_ok (matchToken_nil_not_ok T__5 (by decide)))
                (fun b u2 _ => ?_)
              refine ext_bind (ext_matchToken _ (by decide) u2) (fun c u3 => ?_)
              exact ih.valueLoop m p _ u3 (by omega)
            · exact ext_of_not_ok (by simp)

theorem ext_valueExpressionLoop {n : Nat} (ih : AllExt t n) (m p : Nat) (ctx : ParseTree)
    (u : List Token) (hm : n + 1 ≤ m) :
    Ext t (StopsValue t) u (valueExpressionLoop (n + 1) p ctx u)
      (valueExpressionLoop m p ctx (u ++ t)) := by
  obtain ⟨m, rfl⟩ : ∃ k, m = k + 1 := ⟨m - 1, by omega⟩
  by_cases hu : u = []
  · subst hu
    exact ext_of_stop (valueExpressionLoop_stop stopsValue_nil n p ctx)
      (fun hX => valueExpressionLoop_stop hX m p ctx)
  · refine ext_of_last (fun hl => ?_)
    simp only [valueExpressionLoop]
    rw [adaptivePredict_ext 24 p (by simp) hu hl, adaptivePredict_ext 23 p (by simp) hu hl]
    split
    · exact ext_of_not_ok (by simp)
    · split
      · split
        · split
          · exact ext_of_not_ok (by simp)
          · split
            · exact ext_of_not_ok (by simp)
            · refine ext_bind_fail (ext_mathOperator (X := True) u)
                (fun a => bind_not_ok (valueExpression_nil n 3)) (fun a u1 _ => ?_)
              refine ext_bind (ih.value m 3 u1 (by omega)) (fun e u2 => ?_)
              exact ih.valueLoop m p _ u2 (by omega)
          · split
            · exact ext_of_not_ok (by simp)
            · refine ext_bind_fail (ext_bitwiseOperator (X := True) u)
                (fun a => bind_not_ok (valueExpression_nil n 2)) (fun a u1 _ => ?_)
              refine ext_bind (ih.value m 2 u1 (by omega)) (fun e u2 => ?_)
              exact ih.valueLoop m p _ u2 (by omega)
          · exact ih.valueLoop m p _ u (by omega)
        · exact ih.valueLoop m p _ u (by omega)
      · exact ext_pure _ u

theorem ext_functionExpression {n : Nat} (ih : AllExt t n) (m : Nat) (u : List Token)
    (hm : n + 1 ≤ m) :
    Ext t (StopsValue t) u (functionExpression (n + 1) u) (functionExpression m (u ++ t)) := by
  obtain ⟨m, rfl⟩ : ∃ k, m = k + 1 := ⟨m - 1, by omega⟩
  simp only [functionExpression]
  refine ext_bind_fail (ext_functionName (X := True) u)
    (fun a => bind_not_ok (matchToken_nil_not_ok T__4 (by decide))) (fun a u1 _ => ?_)
  refine ext_bind_fail (ext_matchToken (X := True) _ (by decide) u1)
    (fun b => optional_nil_bind_not_ok expressionListGuard (by decide) (expressionList n)
      (fun c => bind_not_ok (matchToken_nil_not_ok T__5 (by decide))))
    (fun b u2 _ => ?_)
  refine ext_bind_fail
    (ext_optional expressionListGuard (by decide) (ih.exprList m u2 (by omega)))
    (fun c => bind_not_ok (matchToken_nil_not_ok T__5 (by decide))) (fun c u3 _ => ?_)
  refine ext_bind (ext_matchToken _ (by decide) u3) (fun d u4 => ?_)
  exact ext_pure _ u4

/-- The recursive rules, run on `u` and on `u` followed by any tokens `t`:
a run that returns normally on `u` returns the same context on `u ++ t`, as
long as it stopped inside `u` or `t` does not continue the rule. -/
theorem allExt (t : List Token) : ∀ n, AllExt t n
  | 0 =>
    { exprList := fun _ _ _ => ext_of_not_ok (by simp [expressionList])
      exprListLoop := fun _ _ _ => ext_of_not_ok (by simp [expressionListLoop])
      expr := fun _ _ _ _ => ext_of_not_ok (by simp [expression])
      exprLoop := fun _ _ _ _ _ => ext_of_not_ok (by simp [expressionLoop])
      pred := fun _ _ _ _ => ext_of_not_ok (by simp [predicateExpression])
      predLoop := fun _ _ _ _ _ => ext_of_not_ok (by simp [predicateExpressionLoop])
      value := fun _ _ _ _ => ext_of_not_ok (by simp [valueExpression])
      valueLoop := fun _ _ _ _ _ => ext_of_not_ok (by simp [valueExpressionLoop])
      func := fun _ _ _ => ext_of_not_ok (by simp [functionExpression]) }
  | n + 1 =>
    { exprList := fun m u hm => ext_expressionList (allExt t n) m u hm
      exprListLoop := fun m u hm => ext_expressionListLoop (allExt t n) m u hm
      expr := fun m p u hm => ext_expression (allExt t n) m p u hm
      exprLoop := fun m p c u hm => ext_expressionLoop (allExt t n) m p c u hm
      pred := fun m p u hm => ext_predicateExpression (allExt t n) m p u hm
      predLoop := fun m p c u hm => ext_predicateExpressionLoop (allExt t n) m p c u hm
      value := fun m p u hm => ext_valueExpression (allExt t n) m p u hm
      valueLoop := fun m p c u hm => ext_valueExpressionLoop (allExt t n) m p c u hm
      func := fun m u hm => ext_functionExpression (allExt t n) m u hm }

end

/-! ### Runs followed by further tokens -/

theorem lastOk_of_complete {t c : List Token} (h : Complete c) : LastOk t c := Or.inr h.2

/-- A value keeps its context when tokens follow that are neither a math nor
a bitwise operator, and when fuel is added. -/
theorem value_append {n p : Nat} {x : List Token} {tree : ParseTree}
    (h : valueExpression n p x = .ok (tree, [])) {t : List Token} (ht : StopsValue t)
    {m : Nat} (hm : n ≤ m) : valueExpression m p (x ++ t) = .ok (tree, t) := by
  obtain ⟨c, hc, hcomp⟩ := (allEnds n).value p x tree [] h
  rw [List.append_nil] at hc
  subst hc
  obtain ⟨c', -, hy⟩ := (allExt t n).value m p x hm (lastOk_of_complete hcomp) tree [] h
  simpa using hy (Or.inr ht)

/-- A predicate keeps its context when tokens follow that do not continue a
predicate. -/
theorem predicate_append {n p : Nat} {x : List Token} {tree : ParseTree}
    (h : predicateExpression n p x = .ok (tree, [])) {t : List Token} (ht : StopsPredicate t)
    {m : Nat} (hm : n ≤ m) : predicateExpression m p (x ++ t) = .ok (tree, t) := by
  obtain ⟨c, hc, hcomp⟩ := (allEnds n).pred p x tree [] h
  rw [List.append_nil] at hc
  subst hc
  obtain ⟨c', -, hy⟩ := (allExt t n).pred m p x hm (lastOk_of_complete hcomp) tree [] h
  simpa using hy (Or.inr ht)

/-- An expression keeps its context when tokens follow that do not continue
an expression. -/
theorem expression_append {n p : Nat} {x : List Token} {tree : ParseTree}
    (h : expression n p x = .ok (tree, [])) {t : List Token} (ht : StopsExpression t)
    {m : Nat} (hm : n ≤ m) : expression m p (x ++ t) = .ok (tree, t) := by
  obtain ⟨c, hc, hcomp⟩ := (allEnds n).expr p x tree [] h
  rw [List.append_nil] at hc
  subst hc
  obtain ⟨c', -, hy⟩ := (allExt t n).expr m p x hm (lastOk_of_complete hcomp) tree [] h
  simpa using hy (Or.inr ht)

/-- An expression list keeps its context when tokens follow that do not
continue it. -/
theorem expressionList_append {n : Nat} {x : List Token} {tree : ParseTree}
    (h : expressionList n x = .ok (tree, [])) {t : List Token} (ht : StopsList t)
    {m : Nat} (hm : n ≤ m) : expressionList m (x ++ t) = .ok (tree, t) := by
  obtain ⟨c, hc, hcomp⟩ := (allEnds n).exprList x tree [] h
  rw [List.append_nil] at hc
  subst hc
  obtain ⟨c', -, hy⟩ := (allExt t n).exprList m x hm (lastOk_of_complete hcomp) tree [] h
  simpa using hy (Or.inr ht)

/-- A token that no rule from `expressionList` downwards looks for after a
complete list: what follows it does not matter. -/
theorem stopsList_of_head {t : List Token}
    (h : continuesExpression (LA 1 t) = false) (hc : (LA 1 t == T__1) = false) :
    StopsList t := by
  have hh := continuesExpression_false h
  refine ⟨⟨⟨⟨hh.1, hh.2.1⟩, hh.2.2.1, ?_, ?_, hh.2.2.2.2.2.2.1⟩, hh.2.2.2.2.2.2.2⟩, hc⟩
  · simp only [likeAhead, hh.2.2.2.1, hh.2.2.2.2.1, Bool.false_and, Bool.or_false]
  · simp only [inAhead, hh.2.2.2.1, hh.2.2.2.2.2.1, Bool.false_and, Bool.or_false]

theorem stopsList_rparen (rp : Token) (rest : List Token) (h : rp.type = T__5) :
    StopsList (rp :: rest) :=
  stopsList_of_head (by rw [LA_one_cons, h]; rfl) (by rw [LA_one_cons, h]; rfl)

theorem stopsExpression_comma (c : Token) (rest : List Token) (h : c.type = T__1) :
    StopsExpression (c :: rest) := by
  have hh : continuesExpression (LA 1 (c :: rest)) = false := by
    rw [LA_one_cons, h]; rfl
  have hc := continuesExpression_false hh
  refine ⟨⟨⟨hc.1, hc.2.1⟩, hc.2.2.1, ?_, ?_, hc.2.2.2.2.2.2.1⟩, hc.2.2.2.2.2.2.2⟩
  · simp only [likeAhead, hc.2.2.2.1, hc.2.2.2.2.1, Bool.false_and, Bool.or_false]
  · simp only [inAhead, hc.2.2.2.1, hc.2.2.2.2.2.1, Bool.false_and, Bool.or_false]

theorem expression_fuel_pos {n p : Nat} {s : List Token} {res : ParseTree × List Token}
    (h : expression n p s = .ok res) : ∃ k, n = k + 1 := by
  cases n with
  | zero => simp [expression] at h
  | succ k => exact ⟨k, rfl⟩

/-- A sequence of comma-separated expressions is consumed by `expression`
followed by the loop over `',' expression`. -/
theorem expressions_ok {l : List Token} (h : ExpressionsShape l) :
    ∃ fuel first more, expression fuel 0 l >>= (fun p => expressionListLoop fuel p.2
        >>= fun q => pure (p.1 :: q.1, q.2)) = .ok (first :: more, []) := by
  induction h with
  | one e he =>
    obtain ⟨fe, te, he⟩ := he
    obtain ⟨k, rfl⟩ := expression_fuel_pos he
    refine ⟨k + 1, te, [], ?_⟩
    rw [he, ok_bind]
    rfl
  | cons e comma rest he hcomma _ ih =>
    obtain ⟨fe, te, he⟩ := he
    obtain ⟨f1, first, more, h1⟩ := ih
    obtain ⟨⟨a, r1⟩, ha, h2⟩ := bind_eq_ok.1 h1
    obtain ⟨⟨b, r2⟩, hb, h3⟩ := bind_eq_ok.1 h2
    obtain ⟨hfm, hr⟩ := Prod.mk.inj (pure_eq_ok.1 h3)
    simp only at hfm hr ha hb
    subst hr
    have hexp : expression (max fe f1 + 1) 0 (e ++ comma :: rest) = .ok (te, comma :: rest) :=
      expression_append he (stopsExpression_comma comma rest hcomma) (by omega)
    have ha' : expression (max fe f1) 0 rest = .ok (a, r1) := by
      have := (allStable f1).expr (max fe f1) 0 rest (Nat.le_max_right fe f1) (by rw [ha]; simp)
      rw [this, ha]
    have hb' : expressionListLoop (max fe f1) r1 = .ok (b, []) := by
      have := (allStable f1).exprListLoop (max fe f1) r1 (Nat.le_max_right fe f1)
        (by rw [hb]; simp)
      rw [this, hb]
    have hg : (LA 1 (comma :: rest) == T__1) = true := by
      rw [LA_one_cons, hcomma]; rfl
    have hloop : expressionListLoop (max fe f1 + 1) (comma :: rest)
        = .ok (.terminal comma :: a :: b, []) := by
      simp only [expressionListLoop]
      rw [if_pos hg, matchToken_cons, if_pos hcomma, ok_bind]
      simp only []
      rw [ha', ok_bind]
      simp only []
      rw [hb', ok_bind]
      rfl
    refine ⟨max fe f1 + 1, te, .terminal comma :: a :: b, ?_⟩
    rw [hexp, ok_bind]
    simp only []
    rw [hloop, ok_bind]
    rfl

/-- A sequence of comma-separated expressions is an expression list. -/
theorem expressionList_of_shape {l : List Token} (h : ExpressionsShape l) :
    ∃ fuel children, expressionList fuel l = .ok (.rule RuleExpressionList children, []) := by
  obtain ⟨fuel, first, more, h⟩ := expressions_ok h
  obtain ⟨⟨a, r1⟩, ha, h2⟩ := bind_eq_ok.1 h
  obtain ⟨⟨b, r2⟩, hb, h3⟩ := bind_eq_ok.1 h2
  obtain ⟨hfm, hr⟩ := Prod.mk.inj (pure_eq_ok.1 h3)
  simp only at hfm hr ha hb
  subst hr
  refine ⟨fuel + 1, a :: b, ?_⟩
  simp only [expressionList]
  rw [ha, ok_bind]
  simp only []
  rw [hb, ok_bind]
  rfl

/-! ### Optional tokens and the alternatives of the predicate loop -/

theorem optional_tokens (f : Nat → Bool) (idx : Nat) {rule : List Token → RuleResult}
    (hrule : ∀ x r, rule (x :: r) =
      if f x.type then .ok (.rule idx [.terminal x], r) else .error .inputMismatch)
    {o : List Token} (ho : OptionalToken f o) (r : List Token) (hr : f (LA 1 r) = false) :
    optional (f (LA 1 (o ++ r))) rule (o ++ r) = .ok (optionalContexts idx o, r) := by
  rcases ho with rfl | ⟨z, rfl, hz⟩
  · exact optional_eq_ok.2 (Or.inl ⟨hr, rfl, rfl⟩)
  · refine optional_eq_ok.2 (Or.inr ⟨hz, _, ?_, rfl⟩)
    rw [List.singleton_append, hrule, if_pos hz]

theorem optional_notOperator {o : List Token} (ho : OptionalToken notOperatorSet o)
    (r : List Token) (hr : notOperatorSet (LA 1 r) = false) :
    optional (LA 1 (o ++ r) == T__6 || LA 1 (o ++ r) == K_NOT) notOperator (o ++ r)
      = .ok (optionalContexts RuleNotOperator o, r) :=
  optional_tokens notOperatorSet RuleNotOperator notOperator_cons ho r hr

theorem optional_exactMatchModifier {o : List Token} (ho : OptionalToken exactMatchModifierSet o)
    (r : List Token) (hr : exactMatchModifierSet (LA 1 r) = false) :
    optional (LA 1 (o ++ r) == T__8 || LA 1 (o ++ r) == K_BINARY) exactMatchModifier (o ++ r)
      = .ok (optionalContexts RuleExactMatchModifier o, r) :=
  optional_tokens exactMatchModifierSet RuleExactMatchModifier exactMatchModifier_cons ho r hr

theorem notOperatorSet_cases {ty : Nat} (h : notOperatorSet ty = true) :
    ty = T__6 ∨ ty = K_NOT := by
  simpa [notOperatorSet] using h

theorem precpred_of_le {p k : Nat} (h : p ≤ k) : precpred p k = true := by
  simp [precpred, h]

/-- The lookahead at an optional `notOperator` token followed by the keyword
`X` (`K_LIKE` or `K_IN`). -/
theorem ahead_of_optional (X : Nat) {neg : List Token}
    (hneg : OptionalToken notOperatorSet neg) (k : Token) (hk : k.type = X) (s : List Token) :
    (LA 1 (neg ++ k :: s) == X || (notOperatorSet (LA 1 (neg ++ k :: s))
        && LA 2 (neg ++ k :: s) == X)) = true
    ∧ (notOperatorSet (LA 1 (neg ++ k :: s)) = true ∨ LA 1 (neg ++ k :: s) = X) := by
  rcases hneg with rfl | ⟨z, rfl, hz⟩
  · simp only [List.nil_append, LA_one_cons, hk, beq_self_eq_true, Bool.true_or, or_true,
      and_self]
  · simp only [List.singleton_append, LA_one_cons, LA_two_cons, hz, hk, beq_self_eq_true,
      Bool.and_self, Bool.or_true, true_or, and_self]

theorem comparison_false_of_head {ty X : Nat} (hX : comparisonOperatorSet X = false)
    (h : notOperatorSet ty = true ∨ ty = X) : comparisonOperatorSet ty = false := by
  rcases h with h | h
  · rcases notOperatorSet_cases h with h | h <;> rw [h] <;> rfl
  · rw [h]; exact hX

theorem ne_of_head {ty X Y : Nat} (hXY : (X == Y) = false) (hY : notOperatorSet Y = false)
    (h : notOperatorSet ty = true ∨ ty = X) : (ty == Y) = false := by
  rcases h with h | h
  · rw [beq_eq_false_iff_ne]
    rintro rfl
    rw [h] at hY
    exact Bool.noConfusion hY
  · rw [h]; exact hXY

/-- The predictions of the predicate loop before `(NOT | '!')? LIKE`. -/
theorem predict_like {neg : List Token} (hneg : OptionalToken notOperatorSet neg) (k : Token)
    (hk : k.type = K_LIKE) (s : List Token) {p : Nat} (hp : p ≤ 2) :
    adaptivePredict 21 p (neg ++ k :: s) = some 1
      ∧ adaptivePredict 20 p (neg ++ k :: s) = some 2 := by
  obtain ⟨h1, h2⟩ := ahead_of_optional K_LIKE hneg k hk s
  have hc := comparison_false_of_head (X := K_LIKE) (by decide) h2
  have hl : likeAhead (neg ++ k :: s) = true := h1
  unfold adaptivePredict
  simp only [Nat.reduceEqDiff, ↓reduceIte, hc, hl, precpred_of_le hp, Bool.false_and,
    Bool.and_self, Bool.false_or, Bool.true_or, Bool.or_true, Bool.false_eq_true, and_self]

/-- The predictions of the predicate loop before `(NOT | '!')? IN`. -/
theorem predict_in {neg : List Token} (hneg : OptionalToken notOperatorSet neg) (k : Token)
    (hk : k.type = K_IN) (s : List Token) {p : Nat} (hp : p ≤ 5) :
    adaptivePredict 21 p (neg ++ k :: s) = some 1
      ∧ adaptivePredict 20 p (neg ++ k :: s) = some 3 := by
  obtain ⟨h1, h2⟩ := ahead_of_optional K_IN hneg k hk s
  have hc := comparison_false_of_head (X := K_IN) (by decide) h2
  have hi : inAhead (neg ++ k :: s) = true := h1
  have hl : likeAhead (neg ++ k :: s) = false := by
    unfold likeAhead
    rcases hneg with rfl | ⟨z, rfl, hz⟩
    · simp only [List.nil_append, LA_one_cons, hk]
      rfl
    · simp only [List.singleton_append, LA_one_cons, LA_two_cons, hk,
        ne_of_head (X := K_IN) (Y := K_LIKE) (by decide) (by decide) (Or.inl hz),
        show (K_IN == K_LIKE) = false from rfl, Bool.and_false, Bool.or_false]
  unfold adaptivePredict
  simp only [Nat.reduceEqDiff, ↓reduceIte, hc, hl, hi, precpred_of_le hp, Bool.false_and,
    Bool.and_self, Bool.false_or, Bool.true_or, Bool.or_true, Bool.false_eq_true, and_self]

/-- The predictions of the predicate loop before `IS`. -/
theorem predict_is (k : Token) (hk : k.type = K_IS) (s : List Token) {p : Nat} (hp : p ≤ 4) :
    adaptivePredict 21 p (k :: s) = some 1 ∧ adaptivePredict 20 p (k :: s) = some 4 := by
  have hc : comparisonOperatorSet (LA 1 (k :: s)) = false := by
    rw [LA_one_cons, hk]; rfl
  have hl : likeAhead (k :: s) = false := by
    unfold likeAhead
    rw [LA_one_cons, hk]; rfl
  have hi : inAhead (k :: s) = false := by
    unfold inAhead
    rw [LA_one_cons, hk]; rfl
  have his : (LA 1 (k :: s) == K_IS) = true := by
    rw [LA_one_cons, hk]; rfl
  unfold adaptivePredict
  simp only [Nat.reduceEqDiff, ↓reduceIte, hc, hl, hi, his, precpred_of_le hp, Bool.false_and,
    Bool.and_self, Bool.false_or, Bool.true_or, Bool.or_true, Bool.false_eq_true, and_self]

theorem loop_guard_one : ((1 : Nat) != 2 && (1 : Nat) != INVALID_ALT_NUMBER) = true := rfl

theorem notOperatorSet_of_eq {k : Token} {X : Nat} (hk : k.type = X)
    (hX : notOperatorSet X = false) (s : List Token) :
    notOperatorSet (LA 1 (k :: s)) = false := by
  rw [LA_one_cons, hk]; exact hX

/-- One turn of the predicate loop through its `IS` alternative. -/
theorem predicateExpressionLoop_is (n : Nat) {p : Nat} (hp : p ≤ 4) (ctx : ParseTree)
    (k : Token) (hk : k.type = K_IS) {neg : List Token}
    (hneg : OptionalToken notOperatorSet neg) (nl : Token) (hnl : nl.type = K_NULL)
    (rest : List Token) :
    predicateExpressionLoop (n + 1) p ctx (k :: (neg ++ nl :: rest))
      = predicateExpressionLoop n p (.rule RulePredicateExpression
          ([ctx, .terminal k] ++ optionalContexts RuleNotOperator neg ++ [.terminal nl])) rest := by
  obtain ⟨h21, h20⟩ := predict_is k hk (neg ++ nl :: rest) hp
  simp only [predicateExpressionLoop, h21, h20, loop_guard_one, precpred_of_le hp]
  simp only [beq_self_eq_true, Bool.not_true, Bool.false_eq_true, ↓reduceIte]
  rw [matchToken_cons, if_pos hk, ok_bind]
  simp only []
  rw [optional_notOperator hneg (nl :: rest) (notOperatorSet_of_eq hnl (by decide) rest), ok_bind]
  simp only []
  rw [matchToken_cons, if_pos hnl, ok_bind]

/-- One turn of the predicate loop through its `LIKE` alternative, up to the
right operand. -/
theorem predicateExpressionLoop_like (n : Nat) {p : Nat} (hp : p ≤ 2) (ctx : ParseTree)
    {neg : List Token} (hneg : OptionalToken notOperatorSet neg) (k : Token)
    (hk : k.type = K_LIKE) {m : List Token} (hm : OptionalToken exactMatchModifierSet m)
    (s : List Token) (hs : exactMatchModifierSet (LA 1 s) = false) :
    predicateExpressionLoop (n + 1) p ctx (neg ++ k :: (m ++ s))
      = predicateExpression n 3 s >>= fun r =>
          predicateExpressionLoop n p (.rule RulePredicateExpression
            ([ctx] ++ optionalContexts RuleNotOperator neg ++ [.terminal k]
              ++ optionalContexts RuleExactMatchModifier m ++ [r.1])) r.2 := by
  obtain ⟨h21, h20⟩ := predict_like hneg k hk (m ++ s) hp
  simp only [predicateExpressionLoop, h21, h20, loop_guard_one, precpred_of_le hp]
  simp only [beq_self_eq_true, Bool.not_true, Bool.false_eq_true, ↓reduceIte]
  rw [optional_notOperator hneg (k :: (m ++ s)) (notOperatorSet_of_eq hk (by decide) _), ok_bind]
  simp only []
  rw [matchToken_cons, if_pos hk, ok_bind]
  simp only []
  rw [optional_exactMatchModifier hm s hs, ok_bind]

/-- One turn of the predicate loop through its `IN` alternative, up to the
expression list. -/
theorem predicateExpressionLoop_in (n : Nat) {p : Nat} (hp : p ≤ 5) (ctx : ParseTree)
    {neg : List Token} (hneg : OptionalToken notOperatorSet neg) (k : Token)
    (hk : k.type = K_IN) {m : List Token} (hm : OptionalToken exactMatchModifierSet m)
    (lp : Token) (hlp : lp.type = T__4) (s : List Token) :
    predicateExpressionLoop (n + 1) p ctx (neg ++ k :: (m ++ lp :: s))
      = expressionList n s >>= fun r => matchToken T__5 r.2 >>= fun q =>
          predicateExpressionLoop n p (.rule RulePredicateExpression
            ([ctx] ++ optionalContexts RuleNotOperator neg ++ [.terminal k]
              ++ optionalContexts RuleExactMatchModifier m ++ [.terminal lp, r.1, q.1])) q.2 := by
  obtain ⟨h21, h20⟩ := predict_in hneg k hk (m ++ lp :: s) hp
  have hlpm : exactMatchModifierSet (LA 1 (lp :: s)) = false := by
    rw [LA_one_cons, hlp]; rfl
  simp only [predicateExpressionLoop, h21, h20, loop_guard_one, precpred_of_le hp]
  simp only [beq_self_eq_true, Bool.not_true, Bool.false_eq_true, ↓reduceIte]
  rw [optional_notOperator hneg (k :: (m ++ lp :: s)) (notOperatorSet_of_eq hk (by decide) _),
    ok_bind]
  simp only []
  rw [matchToken_cons, if_pos hk, ok_bind]
  simp only []
  rw [optional_exactMatchModifier hm (lp :: s) hlpm, ok_bind]
  simp only []
  rw [matchToken_cons, if_pos hlp, ok_bind]

/-! ### From a run of `expression` to the run of `parse` -/

theorem keyTag_false_of_startsExpression {ty : Nat} (h : startsExpression ty = true) :
    (ty == MEASUREMENT_KEY_LITERAL || ty == POINT_TAG_LITERAL) = false ∧ (ty == K_FILTER) = false := by
  refine ⟨?_, ?_⟩
  · rw [Bool.or_eq_false_iff, beq_eq_false_iff_ne, beq_eq_false_iff_ne]
    constructor <;> intro hx <;> rw [hx] at h <;> exact Bool.noConfusion h
  · rw [beq_eq_false_iff_ne]
    intro hx
    rw [hx] at h
    exact Bool.noConfusion h

/-- Decision 5 on an input on which `expression` ends: alternative 3, or
alternative 1 for a lone GUID, which `expression` consumes alone too. -/
theorem adaptivePredict5_of_startsExpression (x : Token) (r : List Token)
    (h : startsExpression x.type = true) :
    adaptivePredict 5 0 (x :: r) = some 3
      ∨ (adaptivePredict 5 0 (x :: r) = some 1 ∧ x.type = GUID_LITERAL
          ∧ continuesExpression (LA 1 r) = false) := by
  obtain ⟨hmk, hfl⟩ := keyTag_false_of_startsExpression h
  by_cases hg : x.type = GUID_LITERAL
  · by_cases hc : continuesExpression (LA 1 r) = true
    · left
      unfold adaptivePredict
      simp only [Nat.reduceEqDiff, ↓reduceIte, LA_one_cons, LA_two_cons, hg, hc]
      rfl
    · have hc' : continuesExpression (LA 1 r) = false := by simpa using hc
      right
      refine ⟨?_, hg, hc'⟩
      unfold adaptivePredict
      simp only [Nat.reduceEqDiff, ↓reduceIte, LA_one_cons, LA_two_cons, hg, hc']
      rfl
  · have hg' : (x.type == GUID_LITERAL) = false := by simpa using hg
    left
    unfold adaptivePredict
    simp only [Nat.reduceEqDiff, ↓reduceIte, LA_one_cons, hmk, hg', hfl, h, Bool.false_eq_true]

/-- A statement that begins as an expression leaves what `expression`
leaves. -/
theorem statement_of_expression_ok {n : Nat} {s rest : List Token} {tree : ParseTree}
    (h : expression n 0 s = .ok (tree, rest)) :
    ∃ tree1, filterExpressionStatement n s = .ok (tree1, rest) := by
  have hstart := startsExpression_of_ok h
  cases s with
  | nil => exact absurd h (expression_nil n 0 _)
  | cons x r =>
    rw [LA_one_cons] at hstart
    rcases adaptivePredict5_of_startsExpression x r hstart with h5 | ⟨h5, hg, hc⟩
    · refine ⟨.rule RuleFilterExpressionStatement [tree], ?_⟩
      simp only [filterExpressionStatement, h5]
      rw [h, ok_bind]
      rfl
    · have hbig := (allStable n).expr (n + 4) 0 (x :: r) (by omega) (by rw [h]; simp)
      rw [expression_literal x r (by rw [hg]; rfl) (by rw [hg]; rfl) (by rw [hg]; rfl) hc n 0,
        h] at hbig
      obtain ⟨-, hr⟩ := Prod.mk.inj (Outcome.ok.inj hbig)
      subst hr
      refine ⟨.rule RuleFilterExpressionStatement [.rule RuleIdentifierStatement [.terminal x]], ?_⟩
      simp only [filterExpressionStatement, h5]
      rw [identifierStatement_eq_ok.2 ⟨x, rfl, Or.inl hg, rfl⟩, ok_bind]
      rfl

/-- A statement that begins as an expression fails as `expression` fails. -/
theorem statement_of_expression_error {n : Nat} {s : List Token} {e : ParseError}
    (h : expression n 0 s = .error e) (hstart : startsExpression (LA 1 s) = true) :
    filterExpressionStatement n s = .error e := by
  cases s with
  | nil => exact absurd hstart (by decide)
  | cons x r =>
    rw [LA_one_cons] at hstart
    rcases adaptivePredict5_of_startsExpression x r hstart with h5 | ⟨h5, hg, hc⟩
    · simp only [filterExpressionStatement, h5]
      rw [h, error_bind]
    · have hbig := (allStable n).expr (n + 4) 0 (x :: r) (by omega) (by rw [h]; simp)
      rw [expression_literal x r (by rw [hg]; rfl) (by rw [hg]; rfl) (by rw [hg]; rfl) hc n 0,
        h] at hbig
      exact Outcome.noConfusion hbig

theorem startsStatement_of_startsExpression {ty : Nat} (h : startsExpression ty = true) :
    startsStatement ty = true := by
  simp only [startsStatement, h, Bool.or_true]

/-- An input whose first statement fails is rejected with that error. -/
theorem parse_of_statement_error {n : Nat} {s : List Token} {e : ParseError}
    (h : filterExpressionStatement n s = .error e) (hstart : startsStatement (LA 1 s) = true) :
    parse n s = .error e := by
  unfold parse
  rw [if_pos (statementListCases_of_startsStatement hstart)]
  unfold filterExpressionStatementList
  rw [semicolons_of_head s (ne_semicolon_of_startsStatement hstart)]
  simp only []
  rw [h, error_bind, error_bind]

/-- An input whose first statement is followed by a token that is neither a
`';'` nor the end of the input is rejected: `match(EOF)` fails. -/
theorem parse_of_statement_leftover {n : Nat} {s : List Token} {tree : ParseTree} {z : Token}
    {r : List Token} (h : filterExpressionStatement (n + 1) s = .ok (tree, z :: r))
    (hstart : startsStatement (LA 1 s) = true) (hz : z.type ≠ T__0) (hzeof : z.type ≠ EOF) :
    parse (n + 1) s = .error .inputMismatch := by
  have hz0 : (LA 1 (z :: r) == T__0) = false := by
    rw [LA_one_cons, beq_eq_false_iff_ne]; exact hz
  have h3 : adaptivePredict 3 0 (z :: r) = some 2 := by
    unfold adaptivePredict
    simp only [Nat.reduceEqDiff, ↓reduceIte, hz0, Bool.false_eq_true]
  have hloop : statementListLoop (n + 1) (z :: r) = .ok ([], z :: r) := by
    simp only [statementListLoop, h3]
    rfl
  unfold parse
  rw [if_pos (statementListCases_of_startsStatement hstart)]
  unfold filterExpressionStatementList
  rw [semicolons_of_head s (ne_semicolon_of_startsStatement hstart)]
  simp only []
  rw [h, ok_bind]
  simp only []
  rw [hloop, ok_bind]
  simp only []
  rw [semicolons_of_head (z :: r) hz]
  simp only [pure_eq, ok_bind]
  rw [matchToken_cons, if_neg hzeof, error_bind]

/-- An input on which `expression` fails is rejected, whatever the fuel. -/
theorem not_accepted_of_expression_error {n : Nat} {s : List Token} {e : ParseError}
    (h : expression n 0 s = .error e) (hstart : startsExpression (LA 1 s) = true) :
    ∀ fuel, accepts fuel s = false :=
  parse_not_ok_of_error (parse_of_statement_error (statement_of_expression_error h hstart)
    (startsStatement_of_startsExpression hstart))

/-- An input on which `expression` stops before a token that is neither a
`';'` nor the end of the input is rejected, whatever the fuel. -/
theorem not_accepted_of_expression_leftover {n : Nat} {s : List Token} {tree : ParseTree}
    {z : Token} {r : List Token} (h : expression n 0 s = .ok (tree, z :: r))
    (hz : z.type ≠ T__0) (hzeof : z.type ≠ EOF) : ∀ fuel, accepts fuel s = false := by
  obtain ⟨k, rfl⟩ := expression_fuel_pos h
  obtain ⟨tree1, h1⟩ := statement_of_expression_ok h
  exact parse_not_ok_of_error (parse_of_statement_leftover h1
    (startsStatement_of_startsExpression (startsExpression_of_ok h)) hz hzeof)

/-- An input that is one expression is accepted. -/
theorem accepted_of_expression {s : List Token} (h : IsExpression s) : Accepted s :=
  accepted_of_shape (shape_of_single (Or.inr (Or.inr h)))

/-! ### Function calls -/

set_option maxRecDepth 100000 in
theorem expressionListGuard_small :
    ∀ la < 154, expressionListGuard la = startsExpression la := by
  decide

/-- The test that guards the argument list of a function call is the test
for the first token of an expression. -/
theorem expressionListGuard_eq (la : Nat) : expressionListGuard la = startsExpression la := by
  by_cases h : la < 154
  · exact expressionListGuard_small la h
  · have h1 : startsExpression la = false := by
      have := @startsStatement_of_ge la (by omega)
      simp only [startsStatement, Bool.or_eq_false_iff] at this
      exact this.2
    unfold expressionListGuard
    rw [bitsetTest_high _ (by omega), bitsetTest_high _ (by omega), h1]
    rfl

set_option maxRecDepth 100000 in
theorem function_dispatch_small :
    ∀ ty < 154, functionExpressionCases.contains ty = true →
      (literalValueCases.contains ty = false ∧ (ty == IDENTIFIER) = false
        ∧ notOperatorSet ty = false ∧ startsValueExpression ty = true) := by
  decide

/-- A function-name token leads `valueExpression` to `functionExpression`. -/
theorem function_dispatch {ty : Nat} (h : functionNameSet ty = true) :
    literalValueCases.contains ty = false ∧ (ty == IDENTIFIER) = false
      ∧ functionExpressionCases.contains ty = true ∧ notOperatorSet ty = false
      ∧ startsValueExpression ty = true := by
  rw [functionNameSet_eq] at h
  by_cases hlt : ty < 154
  · obtain ⟨h1, h2, h3, h4⟩ := function_dispatch_small ty hlt h
    exact ⟨h1, h2, h, h3, h4⟩
  · rw [contains_eq_false_of_window 0 154 (by decide) (by omega)] at h
    exact Bool.noConfusion h

theorem functionName_of_ok {n : Nat} {s r : List Token} {f : ParseTree}
    (h : functionExpression n s = .ok (f, r)) :
    ∃ k, n = k + 1 ∧ functionNameSet (LA 1 s) = true := by
  cases n with
  | zero => simp [functionExpression] at h
  | succ k =>
    refine ⟨k, rfl, ?_⟩
    simp only [functionExpression] at h
    obtain ⟨⟨a, r1⟩, h1, -⟩ := bind_eq_ok.1 h
    cases s with
    | nil =>
      have hnil : functionName [] = .error .inputMismatch := rfl
      rw [hnil] at h1
      exact Outcome.noConfusion h1
    | cons x r0 =>
      rw [functionName_cons] at h1
      by_cases hx : functionNameSet x.type = true
      · exact hx
      · rw [if_neg hx] at h1
        exact Outcome.noConfusion h1

/-- A function call is a value. -/
theorem value_of_function {n : Nat} {s r : List Token} {f : ParseTree}
    (h : functionExpression n s = .ok (f, r)) (hr : StopsValue r) (p : Nat) :
    valueExpression (n + 1) p s = .ok (.rule RuleValueExpression [f], r) := by
  obtain ⟨k, rfl, hname⟩ := functionName_of_ok h
  obtain ⟨h1, h2, h3, -, -⟩ := function_dispatch hname
  simp only [valueExpression, h1, h2, h3, Bool.false_eq_true, ↓reduceIte]
  rw [h, ok_bind]
  exact valueExpressionLoop_stop hr k p _

theorem value_fuel_pos {n p : Nat} {s : List Token} {res : ParseTree × List Token}
    (h : valueExpression n p s = .ok res) : ∃ k, n = k + 1 := by
  cases n with
  | zero => simp [valueExpression] at h
  | succ k => exact ⟨k, rfl⟩

theorem predicate_fuel_pos {n p : Nat} {s : List Token} {res : ParseTree × List Token}
    (h : predicateExpression n p s = .ok res) : ∃ k, n = k + 1 := by
  cases n with
  | zero => simp [predicateExpression] at h
  | succ k => exact ⟨k, rfl⟩

/-- A value is a predicate. -/
theorem predicate_of_value {n : Nat} {s r : List Token} {v : ParseTree}
    (h : valueExpression n 0 s = .ok (v, r)) (hr : StopsPredicate r) (p : Nat) :
    predicateExpression (n + 1) p s = .ok (.rule RulePredicateExpression [v], r) := by
  obtain ⟨k, rfl⟩ := value_fuel_pos h
  simp only [predicateExpression]
  rw [h, ok_bind]
  exact predicateExpressionLoop_stop hr k p _

theorem startsValueExpression_of_ok {n p : Nat} {s : List Token} {res : ParseTree × List Token}
    (h : valueExpression n p s = .ok res) : startsValueExpression (LA 1 s) = true := by
  obtain ⟨k, rfl⟩ := value_fuel_pos h
  by_contra hne
  have hne : startsValueExpression (LA 1 s) = false := by simpa using hne
  cases s with
  | nil => exact valueExpression_nil _ _ _ h
  | cons x r =>
    rw [valueExpression_noViableAlt x r hne k p] at h
    exact Outcome.noConfusion h

theorem startsValueExpression_of_predicate {n p : Nat} {s : List Token}
    {res : ParseTree × List Token} (h : predicateExpression n p s = .ok res) :
    startsValueExpression (LA 1 s) = true := by
  obtain ⟨k, rfl⟩ := predicate_fuel_pos h
  simp only [predicateExpression] at h
  obtain ⟨a, h1, -⟩ := bind_eq_ok.1 h
  exact startsValueExpression_of_ok h1

/-- A predicate that does not begin with a `notOperator` token is an
expression. -/
theorem expression_of_predicate {n : Nat} {s r : List Token} {t : ParseTree}
    (h : predicateExpression n 0 s = .ok (t, r)) (hn : notOperatorSet (LA 1 s) = false)
    (hr : logicalOperatorSet (LA 1 r) = false) (p : Nat) :
    expression (n + 1) p s = .ok (.rule RuleExpression [t], r) := by
  obtain ⟨k, rfl⟩ := predicate_fuel_pos h
  have h13 : adaptivePredict 13 p s = some 2 := by
    unfold adaptivePredict
    simp only [Nat.reduceEqDiff, ↓reduceIte, hn, startsValueExpression_of_predicate h,
      Bool.false_eq_true]
  simp only [expression, h13]
  rw [h, ok_bind]
  exact expressionLoop_stop hr k p _

/-- A function call is an expression. -/
theorem expression_of_function {n : Nat} {s r : List Token} {f : ParseTree}
    (h : functionExpression n s = .ok (f, r)) (hr : StopsExpression r) (p : Nat) :
    expression (n + 3) p s = .ok (.rule RuleExpression [.rule RulePredicateExpression
      [.rule RuleValueExpression [f]]], r) := by
  obtain ⟨-, -, hname⟩ := functionName_of_ok h
  exact expression_of_predicate (predicate_of_value (value_of_function h hr.1.1 0) hr.1 0)
    (function_dispatch hname).2.2.2.1 hr.2 p

theorem error_of_predicate_error {n : Nat} {s : List Token} {e : ParseError}
    (h : predicateExpression n 0 s = .error e) (hn : notOperatorSet (LA 1 s) = false)
    (hs : startsValueExpression (LA 1 s) = true) (p : Nat) :
    expression (n + 1) p s = .error e := by
  have h13 : adaptivePredict 13 p s = some 2 := by
    unfold adaptivePredict
    simp only [Nat.reduceEqDiff, ↓reduceIte, hn, hs, Bool.false_eq_true]
  simp only [expression, h13]
  rw [h, error_bind]

theorem error_of_value_error {n : Nat} {s : List Token} {e : ParseError}
    (h : valueExpression n 0 s = .error e) (p : Nat) :
    predicateExpression (n + 1) p s = .error e := by
  simp only [predicateExpression]
  rw [h, error_bind]

theorem error_of_function_error {n : Nat} {s : List Token} {e : ParseError}
    (h : functionExpression n s = .error e) (hname : functionNameSet (LA 1 s) = true) (p : Nat) :
    valueExpression (n + 1) p s = .error e := by
  obtain ⟨h1, h2, h3, -, -⟩ := function_dispatch hname
  simp only [valueExpression, h1, h2, h3, Bool.false_eq_true, ↓reduceIte]
  rw [h, error_bind]

/-- The rule `functionExpression` after the name and the `'('`. -/
theorem functionExpression_cons (n : Nat) (name lp : Token)
    (hname : functionNameSet name.type = true) (hlp : lp.type = T__4) (s : List Token) :
    functionExpression (n + 1) (name :: lp :: s)
      = optional (expressionListGuard (LA 1 s)) (expressionList n) s >>= fun a =>
          matchToken T__5 a.2 >>= fun q =>
            pure (.rule RuleFunctionExpression ([.rule RuleFunctionName [.terminal name],
              .terminal lp] ++ a.1 ++ [q.1]), q.2) := by
  simp only [functionExpression]
  rw [functionName_cons, if_pos hname, ok_bind]
  simp only []
  rw [matchToken_cons, if_pos hlp, ok_bind]

theorem functionExpression_empty (n : Nat) (name lp rp : Token)
    (hname : functionNameSet name.type = true) (hlp : lp.type = T__4) (hrp : rp.type = T__5)
    (rest : List Token) :
    functionExpression (n + 1) (name :: lp :: rp :: rest)
      = .ok (.rule RuleFunctionExpression [.rule RuleFunctionName [.terminal name], .terminal lp,
          .terminal rp], rest) := by
  have hg : expressionListGuard (LA 1 (rp :: rest)) = false := by
    rw [LA_one_cons, hrp]; rfl
  rw [functionExpression_cons n name lp hname hlp, hg,
    optional_eq_ok.2 (Or.inl ⟨rfl, rfl, rfl⟩), ok_bind]
  simp only []
  rw [matchToken_cons, if_pos hrp, ok_bind]
  rfl

theorem functionExpression_args {n : Nat} (name lp rp : Token)
    (hname : functionNameSet name.type = true) (hlp : lp.type = T__4) (hrp : rp.type = T__5)
    {args rest : List Token} {list : ParseTree}
    (h : expressionList n (args ++ rp :: rest) = .ok (list, rp :: rest))
    (hstart : startsExpression (LA 1 (args ++ rp :: rest)) = true) :
    functionExpression (n + 1) (name :: lp :: (args ++ rp :: rest))
      = .ok (.rule RuleFunctionExpression [.rule RuleFunctionName [.terminal name], .terminal lp,
          list, .terminal rp], rest) := by
  rw [functionExpression_cons n name lp hname hlp, expressionListGuard_eq,
    optional_eq_ok.2 (Or.inr ⟨hstart, list, h, rfl⟩), ok_bind]
  simp only []
  rw [matchToken_cons, if_pos hrp, ok_bind]
  rfl

theorem functionExpression_no_paren (n : Nat) (name x : Token)
    (hname : functionNameSet name.type = true) (hx : x.type ≠ T__4) (rest : List Token) :
    functionExpression (n + 1) (name :: x :: rest) = .error .inputMismatch := by
  simp only [functionExpression]
  rw [functionName_cons, if_pos hname, ok_bind]
  simp only []
  rw [matchToken_cons, if_neg hx, error_bind]

theorem functionExpression_alone (n : Nat) (name : Token)
    (hname : functionNameSet name.type = true) :
    functionExpression (n + 1) [name] = .error .inputMismatch := by
  simp only [functionExpression]
  rw [functionName_cons, if_pos hname, ok_bind]
  simp only []
  rw [matchToken_nil T__4 (by decide), error_bind]

theorem startsExpression_of_list {n : Nat} {s : List Token} {res : ParseTree × List Token}
    (h : expressionList n s = .ok res) : startsExpression (LA 1 s) = true := by
  cases n with
  | zero => simp [expressionList] at h
  | succ k =>
    simp only [expressionList] at h
    obtain ⟨a, h1, -⟩ := bind_eq_ok.1 h
    exact startsExpression_of_ok h1

theorem nonempty_of_list {n : Nat} {s : List Token} {res : ParseTree × List Token}
    (h : expressionList n s = .ok res) : s ≠ [] := by
  rintro rfl
  exact expressionList_nil n res h

theorem expressionsShape_integerArguments (k : Nat) : ExpressionsShape (integerArguments k) := by
  induction k with
  | zero => exact .one _ ⟨4, _, expression_literal (tok INTEGER_LITERAL) [] rfl rfl rfl rfl 0 0⟩
  | succ k ih =>
    exact .cons [tok INTEGER_LITERAL] (tok T__1) (integerArguments k)
      ⟨4, _, expression_literal (tok INTEGER_LITERAL) [] rfl rfl rfl rfl 0 0⟩ rfl ih

/-- A call with arguments, for every shape of the argument list. -/
theorem functionExpression_of_shape (name lp rp : Token)
    (hname : functionNameSet name.type = true) (hlp : lp.type = T__4) (hrp : rp.type = T__5)
    {args : List Token} (h : ExpressionsShape args) (rest : List Token) :
    ∃ fuel children, ∀ m, fuel ≤ m →
      functionExpression m (name :: lp :: (args ++ rp :: rest))
        = .ok (.rule RuleFunctionExpression [.rule RuleFunctionName [.terminal name],
            .terminal lp, .rule RuleExpressionList children, .terminal rp], rest) := by
  obtain ⟨fuel, children, hl⟩ := expressionList_of_shape h
  refine ⟨fuel + 1, children, fun m hm => ?_⟩
  obtain ⟨m, rfl⟩ : ∃ k, m = k + 1 := ⟨m - 1, by omega⟩
  have hne := nonempty_of_list hl
  have hstart : startsExpression (LA 1 (args ++ rp :: rest)) = true := by
    rw [LA_one_append hne]
    exact startsExpression_of_list hl
  exact functionExpression_args name lp rp hname hlp hrp
    (expressionList_append hl (stopsList_rparen rp rest hrp) (by omega)) hstart

/-- C14. A function call is `functionName '(' expressionList? ')'`.  For
every function-name token `name`, followed by a `'('` token: with the `')'`
next, `functionExpression` returns the call with no argument list, whatever
follows; with one or more comma-separated expressions and the `')'` next, it
returns the call with the `expressionList` of the arguments, given enough
fuel; both calls are accepted by `parse` as statements; a call with `k + 1`
integer arguments is accepted for every `k`, so no argument count is enforced
for any function; and the name alone, or followed by a token other than
`'('`, makes `functionExpression` raise a mismatch, and `parse` rejects the
input whatever the fuel. -/
theorem functionExpression_accepts_call (name lp rp : Token)
    (hname : functionNameSet name.type = true) (hlp : lp.type = T__4) (hrp : rp.type = T__5) :
    (∀ fuel rest, functionExpression (fuel + 1) (name :: lp :: rp :: rest)
        = .ok (.rule RuleFunctionExpression [.rule RuleFunctionName [.terminal name],
            .terminal lp, .terminal rp], rest))
    ∧ (∀ args rest, ExpressionsShape args → ∃ fuel children, ∀ m, fuel ≤ m →
        functionExpression m (name :: lp :: (args ++ rp :: rest))
          = .ok (.rule RuleFunctionExpression [.rule RuleFunctionName [.terminal name],
              .terminal lp, .rule RuleExpressionList children, .terminal rp], rest))
    ∧ Accepted [name, lp, rp]
    ∧ (∀ args, ExpressionsShape args → Accepted (name :: lp :: (args ++ [rp])))
    ∧ (∀ k, Accepted (name :: lp :: (integerArguments k ++ [rp])))
    ∧ (∀ fuel, functionExpression (fuel + 1) [name] = .error .inputMismatch)
    ∧ (∀ x rest fuel, x.type ≠ T__4 →
        functionExpression (fuel + 1) (name :: x :: rest) = .error .inputMismatch)
    ∧ (∀ fuel, accepts fuel [name] = false)
    ∧ (∀ x rest fuel, x.type ≠ T__4 → accepts fuel (name :: x :: rest) = false) := by
  obtain ⟨-, -, -, hn, hs⟩ := function_dispatch hname
  have hacc : ∀ args, ExpressionsShape args → Accepted (name :: lp :: (args ++ [rp])) := by
    intro args hargs
    obtain ⟨fuel, children, h⟩ := functionExpression_of_shape name lp rp hname hlp hrp hargs []
    exact accepted_of_expression
      ⟨_, _, expression_of_function (h fuel (Nat.le_refl fuel)) stopsList_nil.1 0⟩
  refine ⟨fun fuel rest => functionExpression_empty fuel name lp rp hname hlp hrp rest,
    fun args rest hargs => functionExpression_of_shape name lp rp hname hlp hrp hargs rest,
    ?_, hacc, fun k => hacc _ (expressionsShape_integerArguments k),
    fun fuel => functionExpression_alone fuel name hname,
    fun x rest fuel hx => functionExpression_no_paren fuel name x hname hx rest, ?_, ?_⟩
  · exact accepted_of_expression ⟨_, _, expression_of_function
      (functionExpression_empty 0 name lp rp hname hlp hrp []) stopsList_nil.1 0⟩
  · exact not_accepted_of_expression_error
      (error_of_predicate_error (error_of_value_error (error_of_function_error
        (functionExpression_alone 0 name hname) hname 0) 0) hn hs 0)
      (by simp only [startsExpression, LA_one_cons, hs, Bool.or_true])
  · intro x rest fuel hx
    exact not_accepted_of_expression_error
      (error_of_predicate_error (error_of_value_error (error_of_function_error
        (functionExpression_no_paren 0 name x hname hx rest) hname 0) 0) hn hs 0)
      (by simp only [startsExpression, LA_one_cons, hs, Bool.or_true]) fuel

/-- C14, witness: `NOW()` has no argument list, `LEN` is accepted with no
argument and with three, and `LEN 1` is rejected. -/
theorem functionExpression_accepts_call_witness :
    functionExpression 1 (toks [K_NOW, T__4, T__5])
        = .ok (.rule RuleFunctionExpression [.rule RuleFunctionName [.terminal (tok K_NOW)],
            .terminal (tok T__4), .terminal (tok T__5)], [])
    ∧ Accepted (toks [K_LEN, T__4, T__5])
    ∧ Accepted (toks [K_LEN, T__4, INTEGER_LITERAL, T__1, INTEGER_LITERAL, T__1,
        INTEGER_LITERAL, T__5])
    ∧ (∀ fuel, accepts fuel (toks [K_LEN, INTEGER_LITERAL]) = false) :=
  ⟨(functionExpression_accepts_call (tok K_NOW) (tok T__4) (tok T__5) rfl rfl rfl).1 0 [],
    (functionExpression_accepts_call (tok K_LEN) (tok T__4) (tok T__5) rfl rfl rfl).2.2.1,
    (functionExpression_accepts_call (tok K_LEN) (tok T__4) (tok T__5) rfl rfl rfl).2.2.2.2.1 2,
    fun fuel => (functionExpression_accepts_call (tok K_LEN) (tok T__4) (tok T__5) rfl rfl
      rfl).2.2.2.2.2.2.2.2 (tok INTEGER_LITERAL) [] fuel (by decide)⟩

/-! ### Operands: the context of a loop and the precedence of a rule -/

theorem sameRest_of_not_ok {α : Type} {x y : Outcome (α × List Token)}
    (h : ∀ res, x ≠ .ok res) : SameRest x y :=
  fun a r hx => absurd hx (h (a, r))

theorem sameRest_pure {α : Type} (a b : α) (r : List Token) :
    SameRest (pure (a, r) : Outcome (α × List Token)) (pure (b, r)) :=
  fun _ _ hx => ⟨b, by rw [← (Prod.mk.inj (pure_eq_ok.1 hx)).2]; rfl⟩

theorem sameRest_bind_same {α β : Type} {x : Outcome β} {F G : β → Outcome (α × List Token)}
    (h : ∀ a, SameRest (F a) (G a)) : SameRest (x >>= F) (x >>= G) := by
  intro a r hx
  obtain ⟨b, h1, h2⟩ := bind_eq_ok.1 hx
  obtain ⟨c, hc⟩ := h b a r h2
  exact ⟨c, by rw [h1, ok_bind, hc]⟩

/-- The input that the loop of `valueExpression` leaves does not depend on
the context it starts from. -/
theorem sameRest_valueExpressionLoop (n p : Nat) : ∀ (c c1 : ParseTree) (s : List Token),
    SameRest (valueExpressionLoop n p c s) (valueExpressionLoop n p c1 s) := by
  induction n with
  | zero =>
    intro c c1 s
    exact sameRest_of_not_ok (by simp [valueExpressionLoop])
  | succ n ih =>
    intro c c1 s
    simp only [valueExpressionLoop]
    split
    · exact sameRest_of_not_ok (by simp)
    · split
      · split
        · split
          · exact sameRest_of_not_ok (by simp)
          · split
            · exact sameRest_of_not_ok (by simp)
            · exact sameRest_bind_same (fun a => sameRest_bind_same (fun b => ih _ _ _))
          · split
            · exact sameRest_of_not_ok (by simp)
            · exact sameRest_bind_same (fun a => sameRest_bind_same (fun b => ih _ _ _))
          · exact ih _ _ _
        · exact ih _ _ _
      · exact sameRest_pure _ _ _

/-- The input that the loop of `predicateExpression` leaves does not depend
on the context it starts from. -/
theorem sameRest_predicateExpressionLoop (n p : Nat) : ∀ (c c1 : ParseTree) (s : List Token),
    SameRest (predicateExpressionLoop n p c s) (predicateExpressionLoop n p c1 s) := by
  induction n with
  | zero =>
    intro c c1 s
    exact sameRest_of_not_ok (by simp [predicateExpressionLoop])
  | succ n ih =>
    intro c c1 s
    simp only [predicateExpressionLoop]
    split
    · exact sameRest_of_not_ok (by simp)
    · split
      · split
        · split
          · exact sameRest_of_not_ok (by simp)
          · split
            · exact sameRest_of_not_ok (by simp)
            · exact sameRest_bind_same (fun a => sameRest_bind_same (fun b => ih _ _ _))
          · split
            · exact sameRest_of_not_ok (by simp)
            · exact sameRest_bind_same (fun a => sameRest_bind_same (fun b =>
                sameRest_bind_same (fun d => sameRest_bind_same (fun e => ih _ _ _))))
          · split
            · exact sameRest_of_not_ok (by simp)
            · exact sameRest_bind_same (fun a => sameRest_bind_same (fun b =>
                sameRest_bind_same (fun d => sameRest_bind_same (fun e =>
                  sameRest_bind_same (fun f => sameRest_bind_same (fun g => ih _ _ _))))))
          · split
            · exact sameRest_of_not_ok (by simp)
            · exact sameRest_bind_same (fun a => sameRest_bind_same (fun b =>
                sameRest_bind_same (fun d => ih _ _ _)))
          · exact ih _ _ _
        · exact ih _ _ _
      · exact sameRest_pure _ _ _

/-- The loop of `valueExpression` run for an operand of a unary operator
(precedence 4) takes no operator. -/
theorem valueExpressionLoop_operand (n : Nat) (ctx : ParseTree) (s : List Token) :
    valueExpressionLoop (n + 1) 4 ctx s = .ok (ctx, s) := by
  have h24 : adaptivePredict 24 4 s = some 2 := by
    unfold adaptivePredict
    simp [precpred]
  simp only [valueExpressionLoop, h24]
  rfl

/-- The loop of `expression` run for an operand of a logical operator
(precedence 3) takes no operator. -/
theorem expressionLoop_operand (n : Nat) (ctx : ParseTree) (s : List Token) :
    expressionLoop (n + 1) 3 ctx s = .ok (ctx, s) := by
  have h14 : adaptivePredict 14 3 s = some 2 := by
    unfold adaptivePredict
    simp [precpred]
  simp only [expressionLoop, h14]
  rfl

theorem valueExpressionLoop_fuel_pos {n p : Nat} {c : ParseTree} {s : List Token}
    {res : ParseTree × List Token} (h : valueExpressionLoop n p c s = .ok res) :
    ∃ k, n = k + 1 := by
  cases n with
  | zero => simp [valueExpressionLoop] at h
  | succ k => exact ⟨k, rfl⟩

theorem reprec_step {n p : Nat} {ctx c v t : ParseTree} {r0 r1 r2 : List Token}
    (h2 : valueExpressionLoop n 4 ctx r0 = .ok (v, r1))
    (hl : valueExpressionLoop n p c r1 = .ok (t, r2)) :
    ∃ t1, valueExpressionLoop n p ctx r0 = .ok (t1, r2) := by
  obtain ⟨k, rfl⟩ := valueExpressionLoop_fuel_pos hl
  rw [valueExpressionLoop_operand] at h2
  obtain ⟨-, hr⟩ := Prod.mk.inj (Outcome.ok.inj h2)
  subst hr
  exact sameRest_valueExpressionLoop _ _ _ _ _ _ _ hl

/-- What `valueExpression` leaves at precedence 4, followed by the loop of
another precedence, is what `valueExpression` leaves at that precedence. -/
theorem valueExpression_reprec {n p : Nat} {s r1 r2 : List Token} {v t c : ParseTree}
    (h : valueExpression (n + 1) 4 s = .ok (v, r1))
    (hl : valueExpressionLoop n p c r1 = .ok (t, r2)) :
    ∃ t1, valueExpression (n + 1) p s = .ok (t1, r2) := by
  simp only [valueExpression] at h ⊢
  by_cases c1 : literalValueCases.contains (LA 1 s) = true
  · rw [if_pos c1] at h ⊢
    obtain ⟨a, h1, h2⟩ := bind_eq_ok.1 h
    rw [h1, ok_bind]
    exact reprec_step h2 hl
  · rw [if_neg c1] at h ⊢
    by_cases c2 : (LA 1 s == IDENTIFIER) = true
    · rw [if_pos c2] at h ⊢
      obtain ⟨a, h1, h2⟩ := bind_eq_ok.1 h
      rw [h1, ok_bind]
      exact reprec_step h2 hl
    · rw [if_neg c2] at h ⊢
      by_cases c3 : functionExpressionCases.contains (LA 1 s) = true
      · rw [if_pos c3] at h ⊢
        obtain ⟨a, h1, h2⟩ := bind_eq_ok.1 h
        rw [h1, ok_bind]
        exact reprec_step h2 hl
      · rw [if_neg c3] at h ⊢
        by_cases c4 : unaryOperatorCases.contains (LA 1 s) = true
        · rw [if_pos c4] at h ⊢
          obtain ⟨a, h1, h⟩ := bind_eq_ok.1 h
          obtain ⟨b, h2, h3⟩ := bind_eq_ok.1 h
          rw [h1, ok_bind, h2, ok_bind]
          exact reprec_step h3 hl
        · rw [if_neg c4] at h ⊢
          by_cases c5 : (LA 1 s == T__4) = true
          · rw [if_pos c5] at h ⊢
            obtain ⟨a, h1, h⟩ := bind_eq_ok.1 h
            obtain ⟨b, h2, h⟩ := bind_eq_ok.1 h
            obtain ⟨d, h3, h4⟩ := bind_eq_ok.1 h
            rw [h1, ok_bind, h2, ok_bind, h3, ok_bind]
            exact reprec_step h4 hl
          · rw [if_neg c5] at h
            exact Outcome.noConfusion h

theorem notOperator_dispatch {ty : Nat} (h : notOperatorSet ty = true) :
    literalValueCases.contains ty = false ∧ (ty == IDENTIFIER) = false
      ∧ functionExpressionCases.contains ty = false ∧ unaryOperatorCases.contains ty = true
      ∧ unaryOperatorSet ty = true ∧ startsValueExpression ty = true := by
  rcases notOperatorSet_cases h with h | h <;> rw [h] <;> exact ⟨rfl, rfl, rfl, rfl, rfl, rfl⟩

/-- A value that begins with a `notOperator` token is that token, as a unary
operator, before a value: `valueExpression` leaves the same input when it
starts after the token. -/
theorem value_tail {n : Nat} {z : Token} {y r : List Token} {v : ParseTree}
    (hz : notOperatorSet z.type = true) (h : valueExpression n 0 (z :: y) = .ok (v, r)) :
    ∃ v1, valueExpression n 0 y = .ok (v1, r) := by
  obtain ⟨k, rfl⟩ := value_fuel_pos h
  obtain ⟨d1, d2, d3, d4, d5, -⟩ := notOperator_dispatch hz
  simp only [valueExpression, LA_one_cons, d1, d2, d3, d4, Bool.false_eq_true, ↓reduceIte] at h
  rw [unaryOperator_cons, if_pos d5, ok_bind] at h
  obtain ⟨a, h1, h2⟩ := bind_eq_ok.1 h
  have h1b : valueExpression (k + 1) 4 y = .ok a := by
    rw [(allStable k).value (k + 1) 4 y (by omega) (by rw [h1]; simp), h1]
  exact valueExpression_reprec h1b h2

theorem isValue_tail {z : Token} {y : List Token} (hz : notOperatorSet z.type = true)
    (h : IsValue (z :: y)) : IsValue y := by
  obtain ⟨n, v, h⟩ := h
  obtain ⟨v1, h1⟩ := value_tail hz h
  exact ⟨n, v1, h1⟩

/-- A predicate that begins with a `notOperator` token: `predicateExpression`
leaves the same input when it starts after the token. -/
theorem predicate_tail {n : Nat} {z : Token} {y r : List Token} {t : ParseTree}
    (hz : notOperatorSet z.type = true) (h : predicateExpression n 0 (z :: y) = .ok (t, r)) :
    ∃ t1, predicateExpression n 0 y = .ok (t1, r) := by
  obtain ⟨k, rfl⟩ := predicate_fuel_pos h
  simp only [predicateExpression] at h ⊢
  obtain ⟨a, h1, h2⟩ := bind_eq_ok.1 h
  obtain ⟨v1, h3⟩ := value_tail (v := a.1) (r := a.2) hz h1
  rw [h3, ok_bind]
  exact sameRest_predicateExpressionLoop _ _ _ _ _ _ _ h2

theorem isPredicate_tail {z : Token} {y : List Token} (hz : notOperatorSet z.type = true)
    (h : IsPredicate (z :: y)) : IsPredicate y := by
  obtain ⟨n, v, h⟩ := h
  obtain ⟨v1, h1⟩ := predicate_tail hz h
  exact ⟨n, v1, h1⟩

theorem isValue_nil : ¬ IsValue [] := by
  rintro ⟨n, v, h⟩
  exact valueExpression_nil n 0 _ h

theorem isPredicate_nil : ¬ IsPredicate [] := by
  rintro ⟨n, v, h⟩
  exact predicateExpression_nil n 0 _ h

/-- Rule `expression` on a `notOperator` token. -/
theorem expression_not_cons (n p : Nat) (z : Token) (hz : notOperatorSet z.type = true)
    (s : List Token) :
    expression (n + 1) p (z :: s) = expression n 3 s >>= fun e =>
      expressionLoop n p (.rule RuleExpression [.rule RuleNotOperator [.terminal z], e.1]) e.2 := by
  have h13 : adaptivePredict 13 p (z :: s) = some 1 := by
    unfold adaptivePredict
    simp only [Nat.reduceEqDiff, ↓reduceIte, LA_one_cons, hz]
  simp only [expression, h13]
  rw [notOperator_cons, if_pos hz, ok_bind]

/-- Rule `expression` on a token that begins a value and is no `notOperator`
token. -/
theorem expression_core (n p : Nat) (s : List Token) (hn : notOperatorSet (LA 1 s) = false)
    (hs : startsValueExpression (LA 1 s) = true) :
    expression (n + 1) p s = predicateExpression n 0 s >>= fun q =>
      expressionLoop n p (.rule RuleExpression [q.1]) q.2 := by
  have h13 : adaptivePredict 13 p s = some 2 := by
    unfold adaptivePredict
    simp only [Nat.reduceEqDiff, ↓reduceIte, hn, hs, Bool.false_eq_true]
  simp only [expression, h13]

theorem expressionLoop_fuel_pos {n p : Nat} {c : ParseTree} {s : List Token}
    {res : ParseTree × List Token} (h : expressionLoop n p c s = .ok res) :
    ∃ k, n = k + 1 := by
  cases n with
  | zero => simp [expressionLoop] at h
  | succ k => exact ⟨k, rfl⟩

/-- Rule `expression` is its run as an operand (precedence 3), which takes no
logical operator, followed by its loop. -/
theorem expression_of_operand {n : Nat} {s r : List Token} {e : ParseTree}
    (h : expression (n + 1) 3 s = .ok (e, r)) (p : Nat) :
    expression (n + 1) p s = expressionLoop n p e r := by
  have hp : adaptivePredict 13 p s = adaptivePredict 13 3 s := rfl
  simp only [expression, hp] at h ⊢
  rcases adaptivePredict13_cases 3 s with h13 | h13 | h13
  · simp only [h13] at h
    exact Outcome.noConfusion h
  · simp only [h13] at h ⊢
    obtain ⟨a, h1, h⟩ := bind_eq_ok.1 h
    obtain ⟨b, h2, h3⟩ := bind_eq_ok.1 h
    obtain ⟨k, rfl⟩ := expressionLoop_fuel_pos h3
    rw [expressionLoop_operand] at h3
    obtain ⟨he, hr⟩ := Prod.mk.inj (Outcome.ok.inj h3)
    rw [h1, ok_bind, h2, ok_bind, ← he, ← hr]
  · simp only [h13] at h ⊢
    obtain ⟨a, h1, h3⟩ := bind_eq_ok.1 h
    obtain ⟨k, rfl⟩ := expressionLoop_fuel_pos h3
    rw [expressionLoop_operand] at h3
    obtain ⟨he, hr⟩ := Prod.mk.inj (Outcome.ok.inj h3)
    rw [h1, ok_bind, ← he, ← hr]

/-- An operand run of `expression` on an operand followed by `t`, from the
run of `predicateExpression` on every operand that begins with no
`notOperator` token. -/
theorem operand_ok (C : List Token → Prop) (hnil : ¬ C [])
    (htail : ∀ z y, notOperatorSet z.type = true → C (z :: y) → C y) {t t1 : List Token}
    (H : ∀ core, C core → notOperatorSet (LA 1 core) = false →
      ∃ n pp, predicateExpression n 0 (core ++ t) = .ok (pp, t1)) :
    ∀ x, C x → ∃ n e, expression n 3 (x ++ t) = .ok (e, t1) := by
  intro x
  induction x with
  | nil => exact fun h => absurd h hnil
  | cons z y ih =>
    intro hC
    by_cases hz : notOperatorSet z.type = true
    · obtain ⟨n, e, h⟩ := ih (htail z y hz hC)
      obtain ⟨k, rfl⟩ := expression_fuel_pos h
      refine ⟨k + 2, .rule RuleExpression [.rule RuleNotOperator [.terminal z], e], ?_⟩
      rw [List.cons_append, expression_not_cons (k + 1) 3 z hz, h, ok_bind]
      exact expressionLoop_operand k _ _
    · have hz : notOperatorSet z.type = false := by simpa using hz
      obtain ⟨n, pp, h⟩ := H (z :: y) hC hz
      obtain ⟨k, rfl⟩ := predicate_fuel_pos h
      refine ⟨k + 2, .rule RuleExpression [pp], ?_⟩
      rw [expression_core (k + 1) 3 (z :: y ++ t) hz (startsValueExpression_of_predicate h), h,
        ok_bind]
      exact expressionLoop_operand k _ _

/-- A run of `expression` on an operand followed by `t` fails where the run
of `predicateExpression` fails on every operand that begins with no
`notOperator` token. -/
theorem operand_error (C : List Token → Prop) (hnil : ¬ C [])
    (htail : ∀ z y, notOperatorSet z.type = true → C (z :: y) → C y)
    (hstart : ∀ x, C x → startsValueExpression (LA 1 x) = true) {t : List Token}
    {e : ParseError}
    (H : ∀ core, C core → notOperatorSet (LA 1 core) = false →
      ∃ n, predicateExpression n 0 (core ++ t) = .error e) :
    ∀ x, C x → ∀ p, ∃ n, expression n p (x ++ t) = .error e := by
  intro x
  induction x with
  | nil => exact fun h => absurd h hnil
  | cons z y ih =>
    intro hC p
    by_cases hz : notOperatorSet z.type = true
    · obtain ⟨n, h⟩ := ih (htail z y hz hC) 3
      refine ⟨n + 1, ?_⟩
      rw [List.cons_append, expression_not_cons n p z hz, h, error_bind]
    · have hz : notOperatorSet z.type = false := by simpa using hz
      obtain ⟨n, h⟩ := H (z :: y) hC hz
      refine ⟨n + 1, ?_⟩
      rw [expression_core n p (z :: y ++ t) hz (hstart (z :: y) hC), h, error_bind]

theorem startsValueExpression_of_isValue {x : List Token} (h : IsValue x) :
    startsValueExpression (LA 1 x) = true := by
  obtain ⟨n, v, h⟩ := h
  exact startsValueExpression_of_ok h

/-- A run of `expression` at any precedence on an operand followed by `t`,
where the loop of `expression` stops before what is left. -/
theorem expression_of_operand_ok {s t1 : List Token}
    (h : ∃ n e, expression n 3 s = .ok (e, t1)) (ht1 : logicalOperatorSet (LA 1 t1) = false)
    (p : Nat) : ∃ n e, expression n p s = .ok (e, t1) := by
  obtain ⟨n, e, h⟩ := h
  obtain ⟨k, rfl⟩ := expression_fuel_pos h
  have h2 : expression (k + 2) 3 s = .ok (e, t1) := by
    rw [(allStable (k + 1)).expr (k + 2) 3 s (by omega) (by rw [h]; simp), h]
  exact ⟨k + 2, e, by rw [expression_of_operand h2 p]; exact expressionLoop_stop ht1 k p e⟩

/-! ### The null test -/

theorem notOperator_facts {ty : Nat} (h : notOperatorSet ty = true) :
    mathOperatorSet ty = false ∧ bitwiseOperatorSet ty = false
      ∧ comparisonOperatorSet ty = false ∧ logicalOperatorSet ty = false
      ∧ (ty == K_LIKE) = false ∧ (ty == K_IN) = false ∧ (ty == K_IS) = false
      ∧ ty ≠ T__0 ∧ ty ≠ EOF ∧ exactMatchModifierSet ty = false := by
  rcases notOperatorSet_cases h with h | h <;> rw [h] <;>
    exact ⟨rfl, rfl, rfl, rfl, rfl, rfl, rfl, by decide, by decide, rfl⟩

/-- The loops of `valueExpression` and `predicateExpression` stop before a
`notOperator` token that neither `LIKE` nor `IN` follows. -/
theorem stopsPredicate_not (z k : Token) (rest : List Token)
    (hz : notOperatorSet z.type = true) (hk1 : (k.type == K_LIKE) = false)
    (hk2 : (k.type == K_IN) = false) : StopsPredicate (z :: k :: rest) := by
  obtain ⟨f1, f2, f3, -, f5, f6, f7, -⟩ := notOperator_facts hz
  refine ⟨⟨f1, f2⟩, f3, ?_, ?_, f7⟩
  · simp only [likeAhead, LA_one_cons, LA_two_cons, f5, hk1, Bool.and_false, Bool.or_false]
  · simp only [inAhead, LA_one_cons, LA_two_cons, f6, hk2, Bool.and_false, Bool.or_false]

theorem stopsValue_of_head {t : List Token} (h1 : mathOperatorSet (LA 1 t) = false)
    (h2 : bitwiseOperatorSet (LA 1 t) = false) : StopsValue t := ⟨h1, h2⟩

/-- The null test on a value operand, at the level of `predicateExpression`. -/
theorem predicate_is_null {n : Nat} {x : List Token} {vx : ParseTree}
    (hx : valueExpression n 0 x = .ok (vx, [])) (k nl : Token) (hk : k.type = K_IS)
    (hnl : nl.type = K_NULL) {neg : List Token} (hneg : OptionalToken notOperatorSet neg)
    {rest : List Token} (hrest : StopsPredicate rest) {m : Nat} (hm : n + 3 ≤ m) :
    predicateExpression m 0 (x ++ k :: (neg ++ nl :: rest))
      = .ok (.rule RulePredicateExpression ([.rule RulePredicateExpression [vx], .terminal k]
          ++ optionalContexts RuleNotOperator neg ++ [.terminal nl]), rest) := by
  obtain ⟨m, rfl⟩ : ∃ j, m = j + 3 := ⟨m - 3, by omega⟩
  have hstop : StopsValue (k :: (neg ++ nl :: rest)) :=
    ⟨by rw [LA_one_cons, hk]; rfl, by rw [LA_one_cons, hk]; rfl⟩
  simp only [predicateExpression]
  rw [value_append hx hstop (by omega : n ≤ m + 2), ok_bind]
  simp only []
  rw [predicateExpressionLoop_is (m + 1) (Nat.zero_le 4) _ k hk hneg nl hnl rest]
  exact predicateExpressionLoop_stop hrest m 0 _

theorem optionalToken_nil (f : Nat → Bool) : OptionalToken f [] := Or.inl rfl

theorem optionalToken_one (f : Nat → Bool) (z : Token) (hz : f z.type = true) :
    OptionalToken f [z] := Or.inr ⟨z, rfl, hz⟩

/-- A predicate on a value operand that consumes `x ++ t` entirely, for every
value `x` that begins with no `notOperator` token, makes `x ++ t` an
expression for every value `x`. -/
theorem isExpression_of_operand {t : List Token}
    (H : ∀ core, IsValue core → notOperatorSet (LA 1 core) = false →
      ∃ n pp, predicateExpression n 0 (core ++ t) = .ok (pp, []))
    {x : List Token} (hx : IsValue x) : IsExpression (x ++ t) :=
  expression_of_operand_ok (operand_ok IsValue isValue_nil (fun _ _ => isValue_tail) H x hx)
    rfl 0

/-- Where `predicateExpression` stops before `z :: r` after every value
operand, `parse` rejects the operand followed by `z :: r`, `z` being neither
a logical operator, nor a `';'`, nor the end of the input. -/
theorem not_accepted_of_operand {z : Token} {r : List Token}
    (hst : StopsPredicate (z :: r)) (hl : logicalOperatorSet z.type = false)
    (hz : z.type ≠ T__0) (hzeof : z.type ≠ EOF) {x : List Token} (hx : IsValue x) :
    ∀ fuel, accepts fuel (x ++ z :: r) = false := by
  have H : ∀ core, IsValue core → notOperatorSet (LA 1 core) = false →
      ∃ n pp, predicateExpression n 0 (core ++ z :: r) = .ok (pp, z :: r) := by
    rintro core ⟨n, v, hv⟩ -
    exact ⟨n + 1, _, predicate_append (predicate_of_value hv stopsPredicate_nil 0) hst
      (Nat.le_refl _)⟩
  obtain ⟨n, e, h⟩ := expression_of_operand_ok
    (operand_ok IsValue isValue_nil (fun _ _ => isValue_tail) H x hx) hl 0
  exact not_accepted_of_expression_leftover h hz hzeof

theorem not_isPredicate_of_leftover {n : Nat} {s : List Token} {t : ParseTree} {z : Token}
    {r : List Token} (h : predicateExpression n 0 s = .ok (t, z :: r)) : ¬ IsPredicate s := by
  rintro ⟨m, t1, h1⟩
  rcases Nat.le_total n m with hle | hle
  · have := (allStable n).pred m 0 s hle (by rw [h]; simp)
    rw [h, h1] at this
    exact List.noConfusion (Prod.mk.inj (Outcome.ok.inj this)).2
  · have := (allStable m).pred n 0 s hle (by rw [h1]; simp)
    rw [h, h1] at this
    exact List.noConfusion (Prod.mk.inj (Outcome.ok.inj this)).2

/-- C16. A null test is `operand IS (NOT | '!')? NULL`.  For every value
operand `x` with tree `vx`, `predicateExpression` returns, given enough fuel
and whatever follows that continues no predicate: for `x IS NULL` the
postfix predicate on `x` with the children `x`, `IS`, `NULL`; for `x IS z
NULL` with `z` one of the tokens `NOT` and `'!'` the same with a
`notOperator` child for `z` between `IS` and `NULL`.  `parse` accepts both
forms.  With the negation token before `IS`, `predicateExpression` stops
after `x`, so `x z IS NULL` is no predicate, and `parse` rejects it whatever
the fuel and whatever follows.  In the loop of `predicateExpression` the
test wraps the predicate built so far, whatever it is. -/
theorem predicateExpression_is_null {n : Nat} {x : List Token} {vx : ParseTree}
    (hx : valueExpression n 0 x = .ok (vx, [])) (k nl : Token) (hk : k.type = K_IS)
    (hnl : nl.type = K_NULL) :
    (∀ rest, StopsPredicate rest → ∀ m, n + 3 ≤ m →
        predicateExpression m 0 (x ++ k :: nl :: rest)
          = .ok (.rule RulePredicateExpression [.rule RulePredicateExpression [vx],
              .terminal k, .terminal nl], rest))
    ∧ (∀ z rest, notOperatorSet z.type = true → StopsPredicate rest → ∀ m, n + 3 ≤ m →
        predicateExpression m 0 (x ++ k :: z :: nl :: rest)
          = .ok (.rule RulePredicateExpression [.rule RulePredicateExpression [vx],
              .terminal k, .rule RuleNotOperator [.terminal z], .terminal nl], rest))
    ∧ Accepted (x ++ [k, nl])
    ∧ (∀ z, notOperatorSet z.type = true → Accepted (x ++ [k, z, nl]))
    ∧ (∀ z rest, notOperatorSet z.type = true → ∀ m, n + 1 ≤ m →
        predicateExpression m 0 (x ++ z :: k :: nl :: rest)
          = .ok (.rule RulePredicateExpression [vx], z :: k :: nl :: rest))
    ∧ (∀ z rest, notOperatorSet z.type = true → ¬ IsPredicate (x ++ z :: k :: nl :: rest))
    ∧ (∀ z rest fuel, notOperatorSet z.type = true →
        accepts fuel (x ++ z :: k :: nl :: rest) = false)
    ∧ (∀ m p ctx neg rest, p ≤ 4 → OptionalToken notOperatorSet neg →
        predicateExpressionLoop (m + 1) p ctx (k :: (neg ++ nl :: rest))
          = predicateExpressionLoop m p (.rule RulePredicateExpression
              ([ctx, .terminal k] ++ optionalContexts RuleNotOperator neg ++ [.terminal nl]))
              rest) := by
  have hk1 : (k.type == K_LIKE) = false := by rw [hk]; rfl
  have hk2 : (k.type == K_IN) = false := by rw [hk]; rfl
  have hstop : ∀ z rest, notOperatorSet z.type = true → ∀ m, n + 1 ≤ m →
      predicateExpression m 0 (x ++ z :: k :: nl :: rest)
        = .ok (.rule RulePredicateExpression [vx], z :: k :: nl :: rest) :=
    fun z rest hz m hm => predicate_append (predicate_of_value hx stopsPredicate_nil 0)
      (stopsPredicate_not z k _ hz hk1 hk2) hm
  refine ⟨fun rest hrest m hm =>
      predicate_is_null hx k nl hk hnl (optionalToken_nil _) hrest hm,
    fun z rest hz hrest m hm =>
      predicate_is_null hx k nl hk hnl (optionalToken_one _ z hz) hrest hm,
    ?_, ?_, hstop, ?_, ?_, fun m p ctx neg rest hp hneg =>
      predicateExpressionLoop_is m hp ctx k hk hneg nl hnl rest⟩
  · refine accepted_of_expression (isExpression_of_operand ?_ ⟨n, vx, hx⟩)
    rintro core ⟨j, v, hv⟩ -
    exact ⟨_, _, predicate_is_null hv k nl hk hnl (optionalToken_nil _) stopsPredicate_nil
      (Nat.le_refl _)⟩
  · intro z hz
    refine accepted_of_expression (isExpression_of_operand ?_ ⟨n, vx, hx⟩)
    rintro core ⟨j, v, hv⟩ -
    exact ⟨_, _, predicate_is_null hv k nl hk hnl (optionalToken_one _ z hz) stopsPredicate_nil
      (Nat.le_refl _)⟩
  · intro z rest hz
    exact not_isPredicate_of_leftover (hstop z rest hz (n + 1) (Nat.le_refl _))
  · intro z rest fuel hz
    obtain ⟨-, -, -, f4, -, -, -, f8, f9, -⟩ := notOperator_facts hz
    exact not_accepted_of_operand (stopsPredicate_not z k _ hz hk1 hk2) f4 f8 f9 ⟨n, vx, hx⟩ fuel

/-- C16, witness: the operand is a column name; `c IS NULL`, `c IS NOT NULL`
and `c IS ! NULL` are predicates on `c`, and `c NOT IS NULL` is rejected. -/
theorem predicateExpression_is_null_witness :
    predicateExpression 5 0 (toks [IDENTIFIER, K_IS, K_NULL])
        = .ok (.rule RulePredicateExpression [.rule RulePredicateExpression
            [.rule RuleValueExpression [.rule RuleColumnName [.terminal (tok IDENTIFIER)]]],
            .terminal (tok K_IS), .terminal (tok K_NULL)], [])
    ∧ predicateExpression 5 0 (toks [IDENTIFIER, K_IS, K_NOT, K_NULL])
        = .ok (.rule RulePredicateExpression [.rule RulePredicateExpression
            [.rule RuleValueExpression [.rule RuleColumnName [.terminal (tok IDENTIFIER)]]],
            .terminal (tok K_IS), .rule RuleNotOperator [.terminal (tok K_NOT)],
            .terminal (tok K_NULL)], [])
    ∧ predicateExpression 5 0 (toks [IDENTIFIER, K_IS, T__6, K_NULL])
        = .ok (.rule RulePredicateExpression [.rule RulePredicateExpression
            [.rule RuleValueExpression [.rule RuleColumnName [.terminal (tok IDENTIFIER)]]],
            .terminal (tok K_IS), .rule RuleNotOperator [.terminal (tok T__6)],
            .terminal (tok K_NULL)], [])
    ∧ (∀ fuel, accepts fuel (toks [IDENTIFIER, K_NOT, K_IS, K_NULL]) = false) :=
  have hx : valueExpression 2 0 (toks [IDENTIFIER])
      = .ok (.rule RuleValueExpression [.rule RuleColumnName [.terminal (tok IDENTIFIER)]], []) :=
    rfl
  ⟨(predicateExpression_is_null hx (tok K_IS) (tok K_NULL) rfl rfl).1 [] stopsPredicate_nil 5
      (by decide),
    (predicateExpression_is_null hx (tok K_IS) (tok K_NULL) rfl rfl).2.1 (tok K_NOT) [] rfl
      stopsPredicate_nil 5 (by decide),
    (predicateExpression_is_null hx (tok K_IS) (tok K_NULL) rfl rfl).2.1 (tok T__6) [] rfl
      stopsPredicate_nil 5 (by decide),
    fun fuel => (predicateExpression_is_null hx (tok K_IS) (tok K_NULL) rfl
      rfl).2.2.2.2.2.2.1 (tok K_NOT) [] fuel rfl⟩

/-! ### LIKE -/

theorem modifier_false_of_startsValue {ty : Nat} (h : startsValueExpression ty = true) :
    exactMatchModifierSet ty = false := by
  by_contra hne
  have hm : exactMatchModifierSet ty = true := by simpa using hne
  have : ty = T__8 ∨ ty = K_BINARY := by simpa [exactMatchModifierSet] using hm
  rcases this with h1 | h1 <;> rw [h1] at h <;> exact Bool.noConfusion h

theorem nonempty_of_value {n p : Nat} {s : List Token} {res : ParseTree × List Token}
    (h : valueExpression n p s = .ok res) : s ≠ [] := by
  rintro rfl
  exact valueExpression_nil n p res h

/-- The loop of `valueExpression` stops before an optional negation token
followed by `LIKE` or `IN`. -/
theorem stopsValue_optional {neg : List Token} (hneg : OptionalToken notOperatorSet neg)
    (k : Token) (hk1 : mathOperatorSet k.type = false) (hk2 : bitwiseOperatorSet k.type = false)
    (s : List Token) : StopsValue (neg ++ k :: s) := by
  rcases hneg with rfl | ⟨z, rfl, hz⟩
  · exact ⟨hk1, hk2⟩
  · exact ⟨(notOperator_facts hz).1, (notOperator_facts hz).2.1⟩

/-- The LIKE predicate on value operands, at the level of
`predicateExpression`. -/
theorem predicate_like {nx ny : Nat} {x y : List Token} {vx vy : ParseTree}
    (hx : valueExpression nx 0 x = .ok (vx, [])) (hy : valueExpression ny 0 y = .ok (vy, []))
    (k : Token) (hk : k.type = K_LIKE) {neg md : List Token}
    (hneg : OptionalToken notOperatorSet neg) (hmd : OptionalToken exactMatchModifierSet md)
    {rest : List Token} (hrest : StopsPredicate rest) {m : Nat} (hm : nx + ny + 3 ≤ m) :
    predicateExpression m 0 (x ++ (neg ++ k :: (md ++ (y ++ rest))))
      = .ok (.rule RulePredicateExpression ([.rule RulePredicateExpression [vx]]
          ++ optionalContexts RuleNotOperator neg ++ [.terminal k]
          ++ optionalContexts RuleExactMatchModifier md
          ++ [.rule RulePredicateExpression [vy]]), rest) := by
  obtain ⟨m, rfl⟩ : ∃ j, m = j + 3 := ⟨m - 3, by omega⟩
  have hstop : StopsValue (neg ++ k :: (md ++ (y ++ rest))) :=
    stopsValue_optional hneg k (by rw [hk]; rfl) (by rw [hk]; rfl) _
  have hmod : exactMatchModifierSet (LA 1 (y ++ rest)) = false := by
    rw [LA_one_append (nonempty_of_value hy)]
    exact modifier_false_of_startsValue (startsValueExpression_of_ok hy)
  simp only [predicateExpression]
  rw [value_append hx hstop (by omega : nx ≤ m + 2), ok_bind]
  simp only []
  rw [predicateExpressionLoop_like (m + 1) (Nat.zero_le 2) _ hneg k hk hmd _ hmod,
    predicate_append (predicate_of_value hy stopsPredicate_nil 3) hrest (by omega : ny + 1 ≤ m + 1),
    ok_bind]
  exact predicateExpressionLoop_stop hrest m 0 _

theorem split_step {n p : Nat} {ctx v : ParseTree} {r0 r : List Token}
    (h2 : valueExpressionLoop n p ctx r0 = .ok (v, r)) :
    ∃ c r1, valueExpressionLoop n 4 ctx r0 = .ok (c, r1)
      ∧ valueExpressionLoop n p c r1 = .ok (v, r) := by
  obtain ⟨k, rfl⟩ := valueExpressionLoop_fuel_pos h2
  exact ⟨ctx, r0, valueExpressionLoop_operand k ctx r0, h2⟩

/-- A run of `valueExpression` is its run as a unary operand (precedence 4),
which takes no operator, followed by its loop. -/
theorem valueExpression_split {n p : Nat} {s r : List Token} {v : ParseTree}
    (h : valueExpression (n + 1) p s = .ok (v, r)) :
    ∃ c r1, valueExpression (n + 1) 4 s = .ok (c, r1)
      ∧ valueExpressionLoop n p c r1 = .ok (v, r) := by
  simp only [valueExpression] at h ⊢
  by_cases c1 : literalValueCases.contains (LA 1 s) = true
  · rw [if_pos c1] at h ⊢
    obtain ⟨a, h1, h2⟩ := bind_eq_ok.1 h
    rw [h1, ok_bind]
    exact split_step h2
  · rw [if_neg c1] at h ⊢
    by_cases c2 : (LA 1 s == IDENTIFIER) = true
    · rw [if_pos c2] at h ⊢
      obtain ⟨a, h1, h2⟩ := bind_eq_ok.1 h
      rw [h1, ok_bind]
      exact split_step h2
    · rw [if_neg c2] at h ⊢
      by_cases c3 : functionExpressionCases.contains (LA 1 s) = true
      · rw [if_pos c3] at h ⊢
        obtain ⟨a, h1, h2⟩ := bind_eq_ok.1 h
        rw [h1, ok_bind]
        exact split_step h2
      · rw [if_neg c3] at h ⊢
        by_cases c4 : unaryOperatorCases.contains (LA 1 s) = true
        · rw [if_pos c4] at h ⊢
          obtain ⟨a, h1, h⟩ := bind_eq_ok.1 h
          obtain ⟨b, h2, h3⟩ := bind_eq_ok.1 h
          rw [h1, ok_bind, h2, ok_bind]
          exact split_step h3
        · rw [if_neg c4] at h ⊢
          by_cases c5 : (LA 1 s == T__4) = true
          · rw [if_pos c5] at h ⊢
            obtain ⟨a, h1, h⟩ := bind_eq_ok.1 h
            obtain ⟨b, h2, h⟩ := bind_eq_ok.1 h
            obtain ⟨d, h3, h4⟩ := bind_eq_ok.1 h
            rw [h1, ok_bind, h2, ok_bind, h3, ok_bind]
            exact split_step h4
          · rw [if_neg c5] at h
            exact Outcome.noConfusion h

/-- Rule `valueExpression` on a `notOperator` token: it is a unary operator. -/
theorem valueExpression_not_cons (n p : Nat) (z : Token) (hz : notOperatorSet z.type = true)
    (y : List Token) :
    valueExpression (n + 1) p (z :: y) = valueExpression n 4 y >>= fun b =>
      valueExpressionLoop n p
        (.rule RuleValueExpression [.rule RuleUnaryOperator [.terminal z], b.1]) b.2 := by
  obtain ⟨d1, d2, d3, d4, d5, -⟩ := notOperator_dispatch hz
  rw [valueExpression]
  simp only [LA_one_cons, d1, d2, d3, d4, Bool.false_eq_true, ↓reduceIte]
  rw [unaryOperator_cons, if_pos d5, ok_bind]

/-- A value after a `notOperator` token is a value: the token is a unary
operator. -/
theorem value_not_cons {n : Nat} {y : List Token} {vy : ParseTree}
    (hy : valueExpression n 0 y = .ok (vy, [])) (z : Token) (hz : notOperatorSet z.type = true) :
    ∃ vw, valueExpression (n + 1) 0 (z :: y) = .ok (vw, []) := by
  obtain ⟨k, rfl⟩ := value_fuel_pos hy
  obtain ⟨c, r1, h1, h2⟩ := valueExpression_split hy
  obtain ⟨b, hb⟩ := sameRest_valueExpressionLoop k 0 c
    (.rule RuleValueExpression [.rule RuleUnaryOperator [.terminal z], c]) r1 vy [] h2
  refine ⟨b, ?_⟩
  rw [valueExpression_not_cons (k + 1) 0 z hz, h1, ok_bind]
  simp only []
  rw [(allStable k).valueLoop (k + 1) 0 _ r1 (by omega) (by rw [hb]; simp), hb]

/-- A unary operand after a `notOperator` token. -/
theorem value_not_operand {n : Nat} {y : List Token} {vy : ParseTree}
    (hy : valueExpression n 4 y = .ok (vy, [])) (z : Token) (hz : notOperatorSet z.type = true) :
    valueExpression (n + 1) 0 (z :: y)
      = .ok (.rule RuleValueExpression [.rule RuleUnaryOperator [.terminal z], vy], []) := by
  obtain ⟨k, rfl⟩ := value_fuel_pos hy
  rw [valueExpression_not_cons (k + 1) 0 z hz, hy, ok_bind]
  exact valueExpressionLoop_stop stopsValue_nil k 0 _

theorem stopsPredicate_of_head {t : List Token} (h : continuesExpression (LA 1 t) = false) :
    StopsPredicate t := by
  have hc := continuesExpression_false h
  refine ⟨⟨hc.1, hc.2.1⟩, hc.2.2.1, ?_, ?_, hc.2.2.2.2.2.2.1⟩
  · simp only [likeAhead, hc.2.2.2.1, hc.2.2.2.2.1, Bool.false_and, Bool.or_false]
  · simp only [inAhead, hc.2.2.2.1, hc.2.2.2.2.2.1, Bool.false_and, Bool.or_false]

theorem value_unique {n m p : Nat} {s : List Token} {a b : ParseTree × List Token}
    (h1 : valueExpression n p s = .ok a) (h2 : valueExpression m p s = .ok b) : a = b := by
  rcases Nat.le_total n m with hle | hle
  · have := (allStable n).value m p s hle (by rw [h1]; simp)
    rw [h1, h2] at this
    exact (Outcome.ok.inj this).symm
  · have := (allStable m).value n p s hle (by rw [h2]; simp)
    rw [h1, h2] at this
    exact Outcome.ok.inj this

/-- C17. In a LIKE predicate the negation token comes directly before `LIKE`
and the exact-match modifier directly after it.  For all value operands `x`
and `y` with trees `vx` and `vy`, given enough fuel and whatever follows that
continues no predicate: `x z LIKE b y`, with `z` a negation token and `b` a
modifier token, yields one predicate node with the children `x`, a
`notOperator` for `z`, `LIKE`, an `exactMatchModifier` for `b`, and `y`;
more generally each of the two is a child exactly when its token is present;
`parse` accepts `x z LIKE b y`.  In `x LIKE z y` the token `z` is no negation
of the predicate: the node is a plain LIKE with three children whose right
operand is the value `z y`, the unary expression of `z` on `y` where `y` is
a unary operand.  With `BINARY` before `LIKE`, `predicateExpression` stops
after `x`, so `x BINARY LIKE y` is no predicate, and `parse` rejects it
whatever the fuel.  In the loop of `predicateExpression` the alternative
wraps the predicate built so far, whatever it is, once the right operand is
read. -/
theorem predicateExpression_like {nx ny : Nat} {x y : List Token} {vx vy : ParseTree}
    (hx : valueExpression nx 0 x = .ok (vx, [])) (hy : valueExpression ny 0 y = .ok (vy, []))
    (k : Token) (hk : k.type = K_LIKE) :
    (∀ z b rest, notOperatorSet z.type = true → exactMatchModifierSet b.type = true →
        StopsPredicate rest → ∀ m, nx + ny + 3 ≤ m →
        predicateExpression m 0 (x ++ z :: k :: b :: (y ++ rest))
          = .ok (.rule RulePredicateExpression [.rule RulePredicateExpression [vx],
              .rule RuleNotOperator [.terminal z], .terminal k,
              .rule RuleExactMatchModifier [.terminal b],
              .rule RulePredicateExpression [vy]], rest))
    ∧ (∀ neg md rest, OptionalToken notOperatorSet neg → OptionalToken exactMatchModifierSet md →
        StopsPredicate rest → ∀ m, nx + ny + 3 ≤ m →
        predicateExpression m 0 (x ++ (neg ++ k :: (md ++ (y ++ rest))))
          = .ok (.rule RulePredicateExpression ([.rule RulePredicateExpression [vx]]
              ++ optionalContexts RuleNotOperator neg ++ [.terminal k]
              ++ optionalContexts RuleExactMatchModifier md
              ++ [.rule RulePredicateExpression [vy]]), rest))
    ∧ (∀ z b, notOperatorSet z.type = true → exactMatchModifierSet b.type = true →
        Accepted (x ++ z :: k :: b :: y))
    ∧ (∀ z, notOperatorSet z.type = true →
        ∃ vw, valueExpression (ny + 1) 0 (z :: y) = .ok (vw, [])
          ∧ (∀ n4 v4, valueExpression n4 4 y = .ok (v4, []) →
              vw = .rule RuleValueExpression [.rule RuleUnaryOperator [.terminal z], v4])
          ∧ ∀ rest, StopsPredicate rest → ∀ m, nx + ny + 4 ≤ m →
              predicateExpression m 0 (x ++ k :: z :: (y ++ rest))
                = .ok (.rule RulePredicateExpression [.rule RulePredicateExpression [vx],
                    .terminal k, .rule RulePredicateExpression [vw]], rest))
    ∧ (∀ b rest, b.type = K_BINARY → ∀ m, nx + 1 ≤ m →
        predicateExpression m 0 (x ++ b :: k :: (y ++ rest))
          = .ok (.rule RulePredicateExpression [vx], b :: k :: (y ++ rest)))
    ∧ (∀ b rest, b.type = K_BINARY → ¬ IsPredicate (x ++ b :: k :: (y ++ rest)))
    ∧ (∀ b rest fuel, b.type = K_BINARY → accepts fuel (x ++ b :: k :: (y ++ rest)) = false)
    ∧ (∀ m p ctx neg md s, p ≤ 2 → OptionalToken notOperatorSet neg →
        OptionalToken exactMatchModifierSet md → exactMatchModifierSet (LA 1 s) = false →
        predicateExpressionLoop (m + 1) p ctx (neg ++ k :: (md ++ s))
          = predicateExpression m 3 s >>= fun c =>
              predicateExpressionLoop m p (.rule RulePredicateExpression
                ([ctx] ++ optionalContexts RuleNotOperator neg ++ [.terminal k]
                  ++ optionalContexts RuleExactMatchModifier md ++ [c.1])) c.2) := by
  have hbin : ∀ (b : Token) (r : List Token), b.type = K_BINARY → StopsPredicate (b :: r) :=
    fun b r hb => stopsPredicate_of_head (by rw [LA_one_cons, hb]; rfl)
  have hstop : ∀ b rest, b.type = K_BINARY → ∀ m, nx + 1 ≤ m →
      predicateExpression m 0 (x ++ b :: k :: (y ++ rest))
        = .ok (.rule RulePredicateExpression [vx], b :: k :: (y ++ rest)) :=
    fun b rest hb m hm => predicate_append (predicate_of_value hx stopsPredicate_nil 0)
      (hbin b _ hb) hm
  refine ⟨fun z b rest hz hb hrest m hm =>
      predicate_like hx hy k hk (optionalToken_one _ z hz) (optionalToken_one _ b hb) hrest hm,
    fun neg md rest hneg hmd hrest m hm => predicate_like hx hy k hk hneg hmd hrest hm,
    ?_, ?_, hstop, ?_, ?_, fun m p ctx neg md s hp hneg hmd hs =>
      predicateExpressionLoop_like m hp ctx hneg k hk hmd s hs⟩
  · intro z b hz hb
    refine accepted_of_expression (isExpression_of_operand ?_ ⟨nx, vx, hx⟩)
    rintro core ⟨j, v, hv⟩ -
    have := predicate_like hv hy k hk (optionalToken_one _ z hz) (optionalToken_one _ b hb)
      stopsPredicate_nil (Nat.le_refl _)
    rw [List.append_nil] at this
    exact ⟨_, _, this⟩
  · intro z hz
    obtain ⟨vw, hvw⟩ := value_not_cons hy z hz
    refine ⟨vw, hvw, ?_, ?_⟩
    · intro n4 v4 h4
      exact (Prod.mk.inj (value_unique hvw (value_not_operand h4 z hz))).1
    · intro rest hrest m hm
      exact predicate_like hx hvw k hk (optionalToken_nil _) (optionalToken_nil _) hrest
        (by omega)
  · intro b rest hb
    exact not_isPredicate_of_leftover (hstop b rest hb (nx + 1) (Nat.le_refl _))
  · intro b rest fuel hb
    exact not_accepted_of_operand (hbin b _ hb) (by rw [hb]; rfl) (by rw [hb]; decide)
      (by rw [hb]; decide) ⟨nx, vx, hx⟩ fuel

/-- C17, witness: `c NOT LIKE BINARY 'a%'` is one LIKE node with both
children, `c LIKE NOT 'a%'` is a plain LIKE on the unary expression, and
`c BINARY LIKE 'a%'` is rejected. -/
theorem predicateExpression_like_witness :
    predicateExpression 7 0 (toks [IDENTIFIER, K_NOT, K_LIKE, K_BINARY, STRING_LITERAL])
        = .ok (.rule RulePredicateExpression [.rule RulePredicateExpression
            [.rule RuleValueExpression [.rule RuleColumnName [.terminal (tok IDENTIFIER)]]],
            .rule RuleNotOperator [.terminal (tok K_NOT)], .terminal (tok K_LIKE),
            .rule RuleExactMatchModifier [.terminal (tok K_BINARY)],
            .rule RulePredicateExpression [.rule RuleValueExpression
              [.rule RuleLiteralValue [.terminal (tok STRING_LITERAL)]]]], [])
    ∧ (∃ vw, valueExpression 3 0 (toks [K_NOT, STRING_LITERAL]) = .ok (vw, [])
        ∧ predicateExpression 8 0 (toks [IDENTIFIER, K_LIKE, K_NOT, STRING_LITERAL])
          = .ok (.rule RulePredicateExpression [.rule RulePredicateExpression
              [.rule RuleValueExpression [.rule RuleColumnName [.terminal (tok IDENTIFIER)]]],
              .terminal (tok K_LIKE), .rule RulePredicateExpression [vw]], []))
    ∧ (∀ fuel, accepts fuel (toks [IDENTIFIER, K_BINARY, K_LIKE, STRING_LITERAL]) = false) :=
  have hx : valueExpression 2 0 (toks [IDENTIFIER])
      = .ok (.rule RuleValueExpression [.rule RuleColumnName [.terminal (tok IDENTIFIER)]], []) :=
    rfl
  have hy : valueExpression 2 0 (toks [STRING_LITERAL])
      = .ok (.rule RuleValueExpression [.rule RuleLiteralValue [.terminal (tok STRING_LITERAL)]],
          []) := rfl
  ⟨(predicateExpression_like hx hy (tok K_LIKE) rfl).1 (tok K_NOT) (tok K_BINARY) [] rfl rfl
      stopsPredicate_nil 7 (by decide),
    ((predicateExpression_like hx hy (tok K_LIKE) rfl).2.2.2.1 (tok K_NOT) rfl).imp
      (fun _ h => ⟨h.1, h.2.2 [] stopsPredicate_nil 8 (by decide)⟩),
    fun fuel => (predicateExpression_like hx hy (tok K_LIKE) rfl).2.2.2.2.2.2.1 (tok K_BINARY)
      [] fuel rfl⟩

/-! ### IN -/

/-- The IN predicate on a value operand, at the level of
`predicateExpression`. -/
theorem predicate_in {nx : Nat} {x : List Token} {vx : ParseTree}
    (hx : valueExpression nx 0 x = .ok (vx, [])) (k lp rp : Token) (hk : k.type = K_IN)
    (hlp : lp.type = T__4) (hrp : rp.type = T__5) {neg md : List Token}
    (hneg : OptionalToken notOperatorSet neg) (hmd : OptionalToken exactMatchModifierSet md)
    {args : List Token} (hargs : ExpressionsShape args) {rest : List Token}
    (hrest : StopsPredicate rest) :
    ∃ fuel children, ∀ m, fuel ≤ m →
      predicateExpression m 0 (x ++ (neg ++ k :: (md ++ lp :: (args ++ rp :: rest))))
        = .ok (.rule RulePredicateExpression ([.rule RulePredicateExpression [vx]]
            ++ optionalContexts RuleNotOperator neg ++ [.terminal k]
            ++ optionalContexts RuleExactMatchModifier md
            ++ [.terminal lp, .rule RuleExpressionList children, .terminal rp]), rest) := by
  obtain ⟨fl, children, hl⟩ := expressionList_of_shape hargs
  refine ⟨nx + fl + 3, children, fun m hm => ?_⟩
  obtain ⟨m, rfl⟩ : ∃ j, m = j + 3 := ⟨m - 3, by omega⟩
  have hstop : StopsValue (neg ++ k :: (md ++ lp :: (args ++ rp :: rest))) :=
    stopsValue_optional hneg k (by rw [hk]; rfl) (by rw [hk]; rfl) _
  simp only [predicateExpression]
  rw [value_append hx hstop (by omega : nx ≤ m + 2), ok_bind]
  simp only []
  rw [predicateExpressionLoop_in (m + 1) (Nat.zero_le 5) _ hneg k hk hmd lp hlp,
    expressionList_append hl (stopsList_rparen rp rest hrp) (by omega : fl ≤ m + 1), ok_bind]
  simp only []
  rw [matchToken_cons, if_pos hrp, ok_bind]
  exact predicateExpressionLoop_stop hrest m 0 _

/-- The IN predicate with an empty list: `expressionList` finds no expression
at the `')'`. -/
theorem predicate_in_empty {nx : Nat} {x : List Token} {vx : ParseTree}
    (hx : valueExpression nx 0 x = .ok (vx, [])) (k lp rp : Token) (hk : k.type = K_IN)
    (hlp : lp.type = T__4) (hrp : rp.type = T__5) {neg md : List Token}
    (hneg : OptionalToken notOperatorSet neg) (hmd : OptionalToken exactMatchModifierSet md)
    (rest : List Token) {m : Nat} (hm : nx + 4 ≤ m) :
    predicateExpression m 0 (x ++ (neg ++ k :: (md ++ lp :: rp :: rest)))
      = .error .noViableAlt := by
  obtain ⟨m, rfl⟩ : ∃ j, m = j + 4 := ⟨m - 4, by omega⟩
  have hstop : StopsValue (neg ++ k :: (md ++ lp :: rp :: rest)) :=
    stopsValue_optional hneg k (by rw [hk]; rfl) (by rw [hk]; rfl) _
  simp only [predicateExpression]
  rw [value_append hx hstop (by omega : nx ≤ m + 3), ok_bind]
  simp only []
  rw [predicateExpressionLoop_in (m + 2) (Nat.zero_le 5) _ hneg k hk hmd lp hlp,
    expressionList_noViableAlt rp rest (by rw [hrp]; rfl) (by rw [hrp]; rfl) m, error_bind]

/-- C15. An IN predicate is `operand (NOT | '!')? IN exactMatchModifier? '('
expressionList ')'` with a non-empty list.  For every value operand `x` with
tree `vx`, an optional negation token directly before `IN`, an optional
modifier token directly after it, and one or more comma-separated
expressions between the parentheses, `predicateExpression` returns, given
enough fuel and whatever follows that continues no predicate, one predicate
node with the children `x`, a `notOperator` exactly when the negation token
is present, `IN`, an `exactMatchModifier` exactly when the modifier token is
present, `'('`, the `expressionList` and `')'`; `parse` accepts the input.
With an empty list, `predicateExpression` raises `NoViableAltException`, a
recognition error, and `parse` rejects the input whatever the fuel.  In the
loop of `predicateExpression` the alternative wraps the predicate built so
far, whatever it is, once the list and the `')'` are read. -/
theorem predicateExpression_in {nx : Nat} {x : List Token} {vx : ParseTree}
    (hx : valueExpression nx 0 x = .ok (vx, [])) (k lp rp : Token) (hk : k.type = K_IN)
    (hlp : lp.type = T__4) (hrp : rp.type = T__5) :
    (∀ neg md args rest, OptionalToken notOperatorSet neg →
        OptionalToken exactMatchModifierSet md → ExpressionsShape args → StopsPredicate rest →
        ∃ fuel children, ∀ m, fuel ≤ m →
          predicateExpression m 0 (x ++ (neg ++ k :: (md ++ lp :: (args ++ rp :: rest))))
            = .ok (.rule RulePredicateExpression ([.rule RulePredicateExpression [vx]]
                ++ optionalContexts RuleNotOperator neg ++ [.terminal k]
                ++ optionalContexts RuleExactMatchModifier md
                ++ [.terminal lp, .rule RuleExpressionList children, .terminal rp]), rest))
    ∧ (∀ args rest, ExpressionsShape args → StopsPredicate rest →
        ∃ fuel children, ∀ m, fuel ≤ m →
          predicateExpression m 0 (x ++ k :: lp :: (args ++ rp :: rest))
            = .ok (.rule RulePredicateExpression [.rule RulePredicateExpression [vx],
                .terminal k, .terminal lp, .rule RuleExpressionList children, .terminal rp],
                rest))
    ∧ (∀ z b args rest, notOperatorSet z.type = true → exactMatchModifierSet b.type = true →
        ExpressionsShape args → StopsPredicate rest →
        ∃ fuel children, ∀ m, fuel ≤ m →
          predicateExpression m 0 (x ++ z :: k :: b :: lp :: (args ++ rp :: rest))
            = .ok (.rule RulePredicateExpression [.rule RulePredicateExpression [vx],
                .rule RuleNotOperator [.terminal z], .terminal k,
                .rule RuleExactMatchModifier [.terminal b], .terminal lp,
                .rule RuleExpressionList children, .terminal rp], rest))
    ∧ (∀ neg md args, OptionalToken notOperatorSet neg →
        OptionalToken exactMatchModifierSet md → ExpressionsShape args →
        Accepted (x ++ (neg ++ k :: (md ++ lp :: (args ++ [rp])))))
    ∧ (∀ neg md rest, OptionalToken notOperatorSet neg →
        OptionalToken exactMatchModifierSet md → ∀ m, nx + 4 ≤ m →
        predicateExpression m 0 (x ++ (neg ++ k :: (md ++ lp :: rp :: rest)))
          = .error .noViableAlt)
    ∧ ParseError.isRecognitionException .noViableAlt = true
    ∧ (∀ neg md rest fuel, OptionalToken notOperatorSet neg →
        OptionalToken exactMatchModifierSet md →
        accepts fuel (x ++ (neg ++ k :: (md ++ lp :: rp :: rest))) = false)
    ∧ (∀ m p ctx neg md s, p ≤ 5 → OptionalToken notOperatorSet neg →
        OptionalToken exactMatchModifierSet md →
        predicateExpressionLoop (m + 1) p ctx (neg ++ k :: (md ++ lp :: s))
          = expressionList m s >>= fun l => matchToken T__5 l.2 >>= fun c =>
              predicateExpressionLoop m p (.rule RulePredicateExpression
                ([ctx] ++ optionalContexts RuleNotOperator neg ++ [.terminal k]
                  ++ optionalContexts RuleExactMatchModifier md
                  ++ [.terminal lp, l.1, c.1])) c.2) := by
  refine ⟨fun neg md args rest hneg hmd hargs hrest =>
      predicate_in hx k lp rp hk hlp hrp hneg hmd hargs hrest,
    fun args rest hargs hrest =>
      predicate_in hx k lp rp hk hlp hrp (optionalToken_nil _) (optionalToken_nil _) hargs hrest,
    fun z b args rest hz hb hargs hrest =>
      predicate_in hx k lp rp hk hlp hrp (optionalToken_one _ z hz) (optionalToken_one _ b hb)
        hargs hrest,
    ?_, fun neg md rest hneg hmd m hm => predicate_in_empty hx k lp rp hk hlp hrp hneg hmd rest hm,
    rfl, ?_, fun m p ctx neg md s hp hneg hmd =>
      predicateExpressionLoop_in m hp ctx hneg k hk hmd lp hlp s⟩
  · intro neg md args hneg hmd hargs
    refine accepted_of_expression (isExpression_of_operand ?_ ⟨nx, vx, hx⟩)
    rintro core ⟨j, v, hv⟩ -
    obtain ⟨fuel, children, h⟩ :=
      predicate_in hv k lp rp hk hlp hrp hneg hmd hargs stopsPredicate_nil
    exact ⟨fuel, _, h fuel (Nat.le_refl _)⟩
  · intro neg md rest fuel hneg hmd
    have H : ∀ core, IsValue core → notOperatorSet (LA 1 core) = false →
        ∃ n, predicateExpression n 0 (core ++ (neg ++ k :: (md ++ lp :: rp :: rest)))
          = .error .noViableAlt := by
      rintro core ⟨j, v, hv⟩ -
      exact ⟨j + 4, predicate_in_empty hv k lp rp hk hlp hrp hneg hmd rest (Nat.le_refl _)⟩
    obtain ⟨n, h⟩ := operand_error IsValue isValue_nil (fun _ _ => isValue_tail)
      (fun _ => startsValueExpression_of_isValue) H x ⟨nx, vx, hx⟩ 0
    refine not_accepted_of_expression_error h ?_ fuel
    rw [LA_one_append (nonempty_of_value hx)]
    simp only [startsExpression, startsValueExpression_of_ok hx, Bool.or_true]

/-- C15, witness: `c IN (1, 2)` and `c NOT IN BINARY (1)` are IN predicates on
`c`, and `c IN ()` is rejected. -/
theorem predicateExpression_in_witness :
    Accepted (toks [IDENTIFIER, K_IN, T__4, INTEGER_LITERAL, T__1, INTEGER_LITERAL, T__5])
    ∧ Accepted (toks [IDENTIFIER, K_NOT, K_IN, K_BINARY, T__4, INTEGER_LITERAL, T__5])
    ∧ predicateExpression 6 0 (toks [IDENTIFIER, K_IN, T__4, T__5]) = .error .noViableAlt
    ∧ (∀ fuel, accepts fuel (toks [IDENTIFIER, K_IN, T__4, T__5]) = false) :=
  have hx : valueExpression 2 0 (toks [IDENTIFIER])
      = .ok (.rule RuleValueExpression [.rule RuleColumnName [.terminal (tok IDENTIFIER)]], []) :=
    rfl
  ⟨(predicateExpression_in hx (tok K_IN) (tok T__4) (tok T__5) rfl rfl rfl).2.2.2.1 [] []
      (integerArguments 1) (optionalToken_nil _) (optionalToken_nil _)
      (expressionsShape_integerArguments 1),
    (predicateExpression_in hx (tok K_IN) (tok T__4) (tok T__5) rfl rfl rfl).2.2.2.1
      [tok K_NOT] [tok K_BINARY] (integerArguments 0) (optionalToken_one _ _ rfl)
      (optionalToken_one _ _ rfl) (expressionsShape_integerArguments 0),
    (predicateExpression_in hx (tok K_IN) (tok T__4) (tok T__5) rfl rfl rfl).2.2.2.2.1 [] [] []
      (optionalToken_nil _) (optionalToken_nil _) 6 (by decide),
    fun fuel => (predicateExpression_in hx (tok K_IN) (tok T__4) (tok T__5) rfl rfl
      rfl).2.2.2.2.2.2.1 [] [] [] fuel (optionalToken_nil _) (optionalToken_nil _)⟩

/-! ### Logical operators and parentheses -/

set_option maxRecDepth 100000 in
theorem logical_facts_small :
    ∀ ty < 154, logicalOperatorSet ty = true → continuesExpression ty = true
      ∧ mathOperatorSet ty = false ∧ bitwiseOperatorSet ty = false
      ∧ comparisonOperatorSet ty = false ∧ notOperatorSet ty = false
      ∧ (ty == K_LIKE) = false ∧ (ty == K_IN) = false ∧ (ty == K_IS) = false := by
  decide

theorem logical_facts {ty : Nat} (h : logicalOperatorSet ty = true) :
    mathOperatorSet ty = false ∧ bitwiseOperatorSet ty = false
      ∧ comparisonOperatorSet ty = false ∧ notOperatorSet ty = false
      ∧ (ty == K_LIKE) = false ∧ (ty == K_IN) = false ∧ (ty == K_IS) = false := by
  by_cases hlt : ty < 154
  · exact (logical_facts_small ty hlt h).2
  · rw [logicalOperatorSet_eq, contains_eq_false_of_window 0 154 (by decide) (by omega)] at h
    exact Bool.noConfusion h

/-- The loops of `valueExpression` and `predicateExpression` stop before a
logical operator. -/
theorem stopsPredicate_logical (a : Token) (r : List Token)
    (ha : logicalOperatorSet a.type = true) : StopsPredicate (a :: r) := by
  obtain ⟨f1, f2, f3, f4, f5, f6, f7⟩ := logical_facts ha
  refine ⟨⟨f1, f2⟩, f3, ?_, ?_, f7⟩
  · simp only [likeAhead, LA_one_cons, f4, f5, Bool.false_and, Bool.or_false]
  · simp only [inAhead, LA_one_cons, f4, f6, Bool.false_and, Bool.or_false]

/-- An operand run of `expression` that consumes `u` extends to `u ++ t`
where `t` continues no predicate, a logical operator included. -/
theorem operand_append : ∀ (n : Nat) {u : List Token} {tu : ParseTree},
    expression n 3 u = .ok (tu, []) → ∀ {t : List Token}, StopsPredicate t →
    ∀ {m : Nat}, n ≤ m → expression m 3 (u ++ t) = .ok (tu, t) := by
  intro n
  induction n with
  | zero =>
    intro u tu h
    simp [expression] at h
  | succ n ih =>
    intro u tu h t ht m hm
    obtain ⟨m, rfl⟩ : ∃ j, m = j + 1 := ⟨m - 1, by omega⟩
    cases u with
    | nil => exact absurd h (expression_nil _ _ _)
    | cons z y =>
      by_cases hz : notOperatorSet z.type = true
      · rw [expression_not_cons n 3 z hz] at h
        obtain ⟨a, h1, h2⟩ := bind_eq_ok.1 h
        obtain ⟨k, rfl⟩ := expressionLoop_fuel_pos h2
        rw [expressionLoop_operand] at h2
        obtain ⟨h3, h4⟩ := Prod.mk.inj (Outcome.ok.inj h2)
        have h1b : expression (k + 1) 3 y = .ok (a.1, []) := by rw [h1, ← h4]
        obtain ⟨j, rfl⟩ : ∃ j, m = j + 1 := ⟨m - 1, by omega⟩
        rw [List.cons_append, expression_not_cons (j + 1) 3 z hz,
          ih h1b ht (by omega : k + 1 ≤ j + 1), ok_bind, expressionLoop_operand, ← h3]
      · have hz : notOperatorSet z.type = false := by simpa using hz
        have hs : startsValueExpression z.type = true := by
          have := startsExpression_of_ok h
          simpa [startsExpression, LA_one_cons, hz] using this
        rw [expression_core n 3 (z :: y) hz hs] at h
        obtain ⟨a, h1, h2⟩ := bind_eq_ok.1 h
        obtain ⟨k, rfl⟩ := expressionLoop_fuel_pos h2
        rw [expressionLoop_operand] at h2
        obtain ⟨h3, h4⟩ := Prod.mk.inj (Outcome.ok.inj h2)
        have h1b : predicateExpression (k + 1) 0 (z :: y) = .ok (a.1, []) := by rw [h1, ← h4]
        obtain ⟨j, rfl⟩ : ∃ j, m = j + 1 := ⟨m - 1, by omega⟩
        rw [expression_core (j + 1) 3 (z :: y ++ t) hz hs,
          predicate_append h1b ht (by omega : k + 1 ≤ j + 1), ok_bind, expressionLoop_operand,
          ← h3]

/-- One turn of the loop of `expression`: a logical operator and its right
operand. -/
theorem expressionLoop_step {nw : Nat} {w : List Token} {tw : ParseTree}
    (hw : expression nw 3 w = .ok (tw, [])) (a : Token) (ha : logicalOperatorSet a.type = true)
    {rest : List Token} (hrest : StopsPredicate rest) {p : Nat} (hp : p ≤ 2) (ctx : ParseTree)
    {m : Nat} (hm : nw ≤ m) :
    expressionLoop (m + 1) p ctx (a :: (w ++ rest))
      = expressionLoop m p (.rule RuleExpression [ctx, .rule RuleLogicalOperator [.terminal a],
          tw]) rest := by
  have h14 : adaptivePredict 14 p (a :: (w ++ rest)) = some 1 := by
    unfold adaptivePredict
    simp only [Nat.reduceEqDiff, ↓reduceIte, LA_one_cons, ha, precpred_of_le hp, Bool.and_self]
  simp only [expressionLoop, h14, loop_guard_one, precpred_of_le hp]
  simp only [beq_self_eq_true, Bool.not_true, Bool.false_eq_true, ↓reduceIte]
  rw [logicalOperator_cons, if_pos ha, ok_bind]
  simp only []
  rw [operand_append nw hw hrest hm, ok_bind]

/-- Two operands around a logical operator. -/
theorem expression_binary {nu nw : Nat} {u w : List Token} {tu tw : ParseTree}
    (hu : expression nu 3 u = .ok (tu, [])) (hw : expression nw 3 w = .ok (tw, []))
    (a : Token) (ha : logicalOperatorSet a.type = true) {rest : List Token}
    (hrest : StopsExpression rest) {m : Nat} (hm : nu + nw + 1 ≤ m) :
    expression m 0 (u ++ a :: (w ++ rest))
      = .ok (.rule RuleExpression [tu, .rule RuleLogicalOperator [.terminal a], tw], rest) := by
  obtain ⟨ku, rfl⟩ := expression_fuel_pos hu
  obtain ⟨kw, rfl⟩ := expression_fuel_pos hw
  obtain ⟨m, rfl⟩ : ∃ j, m = j + 3 := ⟨m - 3, by omega⟩
  rw [expression_of_operand (operand_append _ hu (stopsPredicate_logical a _ ha)
      (by omega : ku + 1 ≤ m + 2 + 1)) 0,
    expressionLoop_step hw a ha hrest.1 (Nat.zero_le 2) tu (by omega : kw + 1 ≤ m + 1)]
  exact expressionLoop_stop hrest.2 m 0 _

/-- Three operands around two logical operators group to the left. -/
theorem expression_ternary {nu nw nv : Nat} {u w v : List Token} {tu tw tv : ParseTree}
    (hu : expression nu 3 u = .ok (tu, [])) (hw : expression nw 3 w = .ok (tw, []))
    (hv : expression nv 3 v = .ok (tv, []))
    (a o : Token) (ha : logicalOperatorSet a.type = true) (ho : logicalOperatorSet o.type = true)
    {rest : List Token} (hrest : StopsExpression rest) {m : Nat} (hm : nu + nw + nv + 1 ≤ m) :
    expression m 0 (u ++ a :: (w ++ o :: (v ++ rest)))
      = .ok (.rule RuleExpression [.rule RuleExpression [tu,
          .rule RuleLogicalOperator [.terminal a], tw],
          .rule RuleLogicalOperator [.terminal o], tv], rest) := by
  obtain ⟨ku, rfl⟩ := expression_fuel_pos hu
  obtain ⟨kw, rfl⟩ := expression_fuel_pos hw
  obtain ⟨kv, rfl⟩ := expression_fuel_pos hv
  obtain ⟨m, rfl⟩ : ∃ j, m = j + 4 := ⟨m - 4, by omega⟩
  rw [expression_of_operand (operand_append _ hu (stopsPredicate_logical a _ ha)
      (by omega : ku + 1 ≤ m + 3 + 1)) 0,
    expressionLoop_step hw a ha (stopsPredicate_logical o _ ho) (Nat.zero_le 2) tu
      (by omega : kw + 1 ≤ m + 2),
    expressionLoop_step hv o ho hrest.1 (Nat.zero_le 2) _ (by omega : kv + 1 ≤ m + 1)]
  exact expressionLoop_stop hrest.2 m 0 _

/-- A parenthesised expression is a value. -/
theorem value_paren {n : Nat} {s rest : List Token} {e : ParseTree} (lp rp : Token)
    (hlp : lp.type = T__4) (he : expression n 0 s = .ok (e, rp :: rest)) (hrp : rp.type = T__5)
    (hrest : StopsValue rest) (p : Nat) :
    valueExpression (n + 1) p (lp :: s)
      = .ok (.rule RuleValueExpression [.terminal lp, e, .terminal rp], rest) := by
  obtain ⟨k, rfl⟩ := expression_fuel_pos he
  have d1 : literalValueCases.contains (LA 1 (lp :: s)) = false := by
    rw [LA_one_cons, hlp]; rfl
  have d2 : (LA 1 (lp :: s) == IDENTIFIER) = false := by
    rw [LA_one_cons, hlp]; rfl
  have d3 : functionExpressionCases.contains (LA 1 (lp :: s)) = false := by
    rw [LA_one_cons, hlp]; rfl
  have d4 : unaryOperatorCases.contains (LA 1 (lp :: s)) = false := by
    rw [LA_one_cons, hlp]; rfl
  have d5 : (LA 1 (lp :: s) == T__4) = true := by
    rw [LA_one_cons, hlp]; rfl
  rw [valueExpression]
  simp only [d1, d2, d3, d4, d5, Bool.false_eq_true, ↓reduceIte]
  rw [matchToken_cons, if_pos hlp, ok_bind]
  simp only []
  rw [he, ok_bind]
  simp only []
  rw [matchToken_cons, if_pos hrp, ok_bind]
  exact valueExpressionLoop_stop hrest k p _

/-- A parenthesised expression is an operand of a logical operator. -/
theorem operand_paren {n : Nat} {s : List Token} {e : ParseTree} (lp rp : Token)
    (hlp : lp.type = T__4) (hrp : rp.type = T__5) (he : expression n 0 s = .ok (e, [])) :
    expression (n + 3) 3 (lp :: (s ++ [rp]))
      = .ok (.rule RuleExpression [.rule RulePredicateExpression
          [.rule RuleValueExpression [.terminal lp, e, .terminal rp]]], []) := by
  have h1 := expression_append he (stopsList_rparen rp [] hrp).1 (Nat.le_refl n)
  exact expression_of_predicate
    (predicate_of_value (value_paren lp rp hlp h1 hrp stopsValue_nil 0) stopsPredicate_nil 0)
    (by rw [LA_one_cons, hlp]; rfl) rfl 3

/-- Every predicate is an operand of a logical operator. -/
theorem operand_of_isPredicate {s : List Token} (h : IsPredicate s) :
    ∃ n t, expression n 3 s = .ok (t, []) := by
  have H : ∀ core, IsPredicate core → notOperatorSet (LA 1 core) = false →
      ∃ n pp, predicateExpression n 0 (core ++ []) = .ok (pp, []) := by
    rintro core ⟨n, pp, h⟩ -
    exact ⟨n, pp, by rw [List.append_nil]; exact h⟩
  have := operand_ok IsPredicate isPredicate_nil (fun _ _ => isPredicate_tail) H s h
  rwa [List.append_nil] at this

/-- C18. Parentheses override the default grouping of logical operators.
Let `p`, `q`, `r` be operands of a logical operator with trees `tp`, `tq`,
`tr`: token sequences that `expression` consumes at the precedence at which
it reads such an operand.  Every predicate is one, and its tree is the
expression node over the predicate when it begins with no negation token.
For logical operator tokens `a` and `o` (`AND` and `OR` among them),
`expression` returns on `p a ( q o r )`, given enough fuel, one expression
whose root is the node of `a`, whose left operand is `tp` and whose right
operand is the parenthesised expression holding the node of `o` over `tq`
and `tr`; `parse` accepts the sequence.  Without the parentheses the root is
the node of `o`, over the node of `a` on `tp` and `tq`, and `tr`. -/
theorem expression_parentheses_group {np nq nr : Nat} {p q r : List Token}
    {tp tq tr : ParseTree} (hp : expression np 3 p = .ok (tp, []))
    (hq : expression nq 3 q = .ok (tq, [])) (hr : expression nr 3 r = .ok (tr, []))
    (a lp o rp : Token) (ha : logicalOperatorSet a.type = true) (hlp : lp.type = T__4)
    (ho : logicalOperatorSet o.type = true) (hrp : rp.type = T__5) :
    (∀ m, np + nq + nr + 5 ≤ m →
        expression m 0 (p ++ a :: lp :: (q ++ o :: (r ++ [rp])))
          = .ok (.rule RuleExpression [tp, .rule RuleLogicalOperator [.terminal a],
              .rule RuleExpression [.rule RulePredicateExpression [.rule RuleValueExpression
                [.terminal lp,
                  .rule RuleExpression [tq, .rule RuleLogicalOperator [.terminal o], tr],
                  .terminal rp]]]], []))
    ∧ Accepted (p ++ a :: lp :: (q ++ o :: (r ++ [rp])))
    ∧ (∀ m, np + nq + nr + 1 ≤ m →
        expression m 0 (p ++ a :: (q ++ o :: r))
          = .ok (.rule RuleExpression [.rule RuleExpression [tp,
              .rule RuleLogicalOperator [.terminal a], tq],
              .rule RuleLogicalOperator [.terminal o], tr], []))
    ∧ (∀ s, IsPredicate s → ∃ n t, expression n 3 s = .ok (t, []))
    ∧ (∀ s n pp, predicateExpression n 0 s = .ok (pp, []) →
        notOperatorSet (LA 1 s) = false →
        expression (n + 1) 3 s = .ok (.rule RuleExpression [pp], [])) := by
  have hqr : expression (nq + nr + 1) 0 (q ++ o :: r)
      = .ok (.rule RuleExpression [tq, .rule RuleLogicalOperator [.terminal o], tr], []) := by
    have := expression_binary hq hr o ho stopsList_nil.1 (Nat.le_refl (nq + nr + 1))
    rwa [List.append_nil] at this
  have hw := operand_paren lp rp hlp hrp hqr
  have hall : ∀ m, np + nq + nr + 5 ≤ m →
      expression m 0 (p ++ a :: lp :: (q ++ o :: (r ++ [rp])))
        = .ok (.rule RuleExpression [tp, .rule RuleLogicalOperator [.terminal a],
            .rule RuleExpression [.rule RulePredicateExpression [.rule RuleValueExpression
              [.terminal lp,
                .rule RuleExpression [tq, .rule RuleLogicalOperator [.terminal o], tr],
                .terminal rp]]]], []) := by
    intro m hm
    have := expression_binary hp hw a ha stopsList_nil.1 (by omega : np + (nq + nr + 1 + 3) + 1 ≤ m)
    rwa [List.append_nil, List.append_assoc, List.cons_append] at this
  refine ⟨hall, accepted_of_expression ⟨_, _, hall _ (Nat.le_refl _)⟩, ?_,
    fun s hs => operand_of_isPredicate hs,
    fun s n pp h hn => expression_of_predicate h hn rfl 3⟩
  intro m hm
  have := expression_ternary hp hq hr a o ha ho stopsList_nil.1 hm
  rwa [List.append_nil] at this

/-- C18, witness: the tokens of `SignalType = 'PHA' AND (ID LIKE '%:PA%' OR
ID LIKE '%:PM%')`, with the tree that `expression` returns. -/
theorem expression_parentheses_group_witness :
    expression 23 0 (toks [IDENTIFIER, T__13, STRING_LITERAL, K_AND, T__4, IDENTIFIER, K_LIKE,
        STRING_LITERAL, K_OR, IDENTIFIER, K_LIKE, STRING_LITERAL, T__5])
      = .ok (.rule RuleExpression [
          .rule RuleExpression [.rule RulePredicateExpression [
            .rule RulePredicateExpression [.rule RuleValueExpression
              [.rule RuleColumnName [.terminal (tok IDENTIFIER)]]],
            .rule RuleComparisonOperator [.terminal (tok T__13)],
            .rule RulePredicateExpression [.rule RuleValueExpression
              [.rule RuleLiteralValue [.terminal (tok STRING_LITERAL)]]]]],
          .rule RuleLogicalOperator [.terminal (tok K_AND)],
          .rule RuleExpression [.rule RulePredicateExpression [.rule RuleValueExpression
            [.terminal (tok T__4),
              .rule RuleExpression [
                .rule RuleExpression [.rule RulePredicateExpression [
                  .rule RulePredicateExpression [.rule RuleValueExpression
                    [.rule RuleColumnName [.terminal (tok IDENTIFIER)]]],
                  .terminal (tok K_LIKE),
                  .rule RulePredicateExpression [.rule RuleValueExpression
                    [.rule RuleLiteralValue [.terminal (tok STRING_LITERAL)]]]]],
                .rule RuleLogicalOperator [.terminal (tok K_OR)],
                .rule RuleExpression [.rule RulePredicateExpression [
                  .rule RulePredicateExpression [.rule RuleValueExpression
                    [.rule RuleColumnName [.terminal (tok IDENTIFIER)]]],
                  .terminal (tok K_LIKE),
                  .rule RulePredicateExpression [.rule RuleValueExpression
                    [.rule RuleLiteralValue [.terminal (tok STRING_LITERAL)]]]]]],
              .terminal (tok T__5)]]]], [])
    ∧ Accepted (toks [IDENTIFIER, T__13, STRING_LITERAL, K_AND, T__4, IDENTIFIER, K_LIKE,
        STRING_LITERAL, K_OR, IDENTIFIER, K_LIKE, STRING_LITERAL, T__5]) :=
  have hp : expression 6 3 (toks [IDENTIFIER, T__13, STRING_LITERAL])
      = .ok (.rule RuleExpression [.rule RulePredicateExpression [
            .rule RulePredicateExpression [.rule RuleValueExpression
              [.rule RuleColumnName [.terminal (tok IDENTIFIER)]]],
            .rule RuleComparisonOperator [.terminal (tok T__13)],
            .rule RulePredicateExpression [.rule RuleValueExpression
              [.rule RuleLiteralValue [.terminal (tok STRING_LITERAL)]]]]], []) := rfl
  have hq : expression 6 3 (toks [IDENTIFIER, K_LIKE, STRING_LITERAL])
      = .ok (.rule RuleExpression [.rule RulePredicateExpression [
            .rule RulePredicateExpression [.rule RuleValueExpression
              [.rule RuleColumnName [.terminal (tok IDENTIFIER)]]],
            .terminal (tok K_LIKE),
            .rule RulePredicateExpression [.rule RuleValueExpression
              [.rule RuleLiteralValue [.terminal (tok STRING_LITERAL)]]]]], []) := rfl
  ⟨(expression_parentheses_group hp hq hq (tok K_AND) (tok T__4) (tok K_OR) (tok T__5) rfl rfl
      rfl rfl).1 23 (by decide),
    (expression_parentheses_group hp hq hq (tok K_AND) (tok T__4) (tok K_OR) (tok T__5) rfl rfl
      rfl rfl).2.1⟩

/-! ### The defaults of the diagnostics switch -/

/-- C21. The default of `suppressConsoleErrorOutput` is `true` in a release
build (no `_DEBUG`) and `false` in a debug build, for the constructor of
`FilterExpressionParser` and for the static `GenerateExpressionTrees`,
`GenerateExpressionTree`, `Evaluate` and `Select`; the five defaults are the
one constant `SUPPRESS_CONSOLE_ERROR_OUTPUT`. -/
theorem suppressConsoleErrorOutput_default :
    (FilterExpressionParser_suppressDefault false = true
      ∧ GenerateExpressionTrees_suppressDefault false = true
      ∧ GenerateExpressionTree_suppressDefault false = true
      ∧ Evaluate_suppressDefault false = true ∧ Select_suppressDefault false = true)
    ∧ (FilterExpressionParser_suppressDefault true = false
      ∧ GenerateExpressionTrees_suppressDefault true = false
      ∧ GenerateExpressionTree_suppressDefault true = false
      ∧ Evaluate_suppressDefault true = false ∧ Select_suppressDefault true = false)
    ∧ (∀ debug, FilterExpressionParser_suppressDefault debug = SUPPRESS_CONSOLE_ERROR_OUTPUT debug
      ∧ GenerateExpressionTrees_suppressDefault debug = SUPPRESS_CONSOLE_ERROR_OUTPUT debug
      ∧ GenerateExpressionTree_suppressDefault debug = SUPPRESS_CONSOLE_ERROR_OUTPUT debug
      ∧ Evaluate_suppressDefault debug = SUPPRESS_CONSOLE_ERROR_OUTPUT debug
      ∧ Select_suppressDefault debug = SUPPRESS_CONSOLE_ERROR_OUTPUT debug
      ∧ SUPPRESS_CONSOLE_ERROR_OUTPUT debug = !debug) := by
  refine ⟨⟨rfl, rfl, rfl, rfl, rfl⟩, ⟨rfl, rfl, rfl, rfl, rfl⟩, fun debug => ?_⟩
  cases debug <;> exact ⟨rfl, rfl, rfl, rfl, rfl, rfl⟩

/-! ### The first token of `parse` -/

set_option maxRecDepth 100000 in
theorem statementListCases_small :
    ∀ t < 154, statementListCases.contains t = specStatementListStart t
      ∧ statementListCases.contains t = (t == T__0 || startsStatement t) := by
  decide

set_option maxRecDepth 100000 in
theorem statementExample_small :
    ∀ t < 154, startsStatement t = true →
      consumedByStatement 12 (statementExample t) = true ∧ LA 1 (statementExample t) = t := by
  decide

theorem specStatementListStart_of_ge {t : Nat} (h : 154 ≤ t) : specStatementListStart t = false := by
  have h1 : functionNameSet t = false := by
    rw [functionNameSet_eq]
    exact contains_eq_false_of_window 0 154 (by decide) (by omega)
  have h2 : literalValueSet t = false := by
    rw [literalValueSet_eq_all]
    exact contains_eq_false_of_window 0 154 (by decide) (by omega)
  have hb : ∀ c, c < 154 → (t == c) = false := by
    intro c hc
    rw [beq_eq_false_iff_ne]
    omega
  simp only [specStatementListStart, h1, h2, hb T__0 (by decide), hb GUID_LITERAL (by decide),
    hb MEASUREMENT_KEY_LITERAL (by decide), hb POINT_TAG_LITERAL (by decide),
    hb K_FILTER (by decide), hb T__2 (by decide), hb T__3 (by decide), hb T__4 (by decide),
    hb T__6 (by decide), hb T__7 (by decide), hb K_NOT (by decide), hb IDENTIFIER (by decide),
    Bool.or_false]

/-- The `case` labels of `parse` are the first tokens of the specification,
and `';'` with the first tokens of a statement. -/
theorem statementListCases_eq (t : Nat) :
    statementListCases.contains t = specStatementListStart t
      ∧ statementListCases.contains t = (t == T__0 || startsStatement t) := by
  by_cases h : t < 154
  · exact statementListCases_small t h
  · have h0 : (t == T__0) = false := by
      rw [beq_eq_false_iff_ne]
      have : T__0 < 154 := by decide
      omega
    rw [contains_eq_false_of_window 0 154 (by decide) (by omega),
      specStatementListStart_of_ge (by omega), startsStatement_of_ge (by omega), h0]
    exact ⟨rfl, rfl⟩

theorem isStatement_of_consumed {fuel : Nat} {s : List Token}
    (h : consumedByStatement fuel s = true) : IsStatement s := by
  unfold consumedByStatement at h
  split at h
  · next tree heq => exact isStatement_of_ok heq
  · exact Bool.noConfusion h

/-- The tokens that can begin a statement are the first tokens of statements. -/
theorem startsStatement_iff (t : Nat) :
    startsStatement t = true ↔ ∃ s, LA 1 s = t ∧ IsStatement s := by
  constructor
  · intro h
    have hlt : t < 154 := by
      by_contra hge
      rw [startsStatement_of_ge (by omega)] at h
      exact Bool.noConfusion h
    obtain ⟨h1, h2⟩ := statementExample_small t hlt h
    exact ⟨statementExample t, h2, isStatement_of_consumed h1⟩
  · rintro ⟨s, rfl, hs⟩
    exact startsStatement_of_isStatement hs

set_option maxRecDepth 100000 in
theorem binary_only_small :
    ∀ t < 154, continuesExpression t = true → unaryOperatorSet t = false →
      statementListCases.contains t = false := by
  decide

/-! ### Left grouping of the logical operators -/

theorem parseTree_ne_rule_cons (t : ParseTree) (i : Nat) (l : List ParseTree) :
    t ≠ .rule i (t :: l) := by
  intro h
  have := congrArg sizeOf h
  simp at this
  omega

/-- C27. `AND` and `OR`, and their symbols `&&` and `||`, have the same
precedence and associate to the left.  Let `p`, `q`, `r` be operands of a
logical operator with trees `tp`, `tq`, `tr` (every predicate is one) and
`l1`, `l2` any two logical operator tokens: `expression` returns on `p l1 q
l2 r`, given enough fuel and whatever follows that continues no expression,
the node of `l2` over the node of `l1` on `tp` and `tq`, and `tr`; this tree
is not the one that groups to the right; `parse` accepts the sequence.  The
logical operator tokens are `&&`, `||`, `AND` and `OR`. -/
theorem expression_logical_left {np nq nr : Nat} {p q r : List Token} {tp tq tr : ParseTree}
    (hp : expression np 3 p = .ok (tp, [])) (hq : expression nq 3 q = .ok (tq, []))
    (hr : expression nr 3 r = .ok (tr, [])) (l1 l2 : Token)
    (h1 : logicalOperatorSet l1.type = true) (h2 : logicalOperatorSet l2.type = true) :
    (∀ rest, StopsExpression rest → ∀ m, np + nq + nr + 1 ≤ m →
        expression m 0 (p ++ l1 :: (q ++ l2 :: (r ++ rest)))
          = .ok (.rule RuleExpression [.rule RuleExpression [tp,
              .rule RuleLogicalOperator [.terminal l1], tq],
              .rule RuleLogicalOperator [.terminal l2], tr], rest))
    ∧ (∀ m, np + nq + nr + 1 ≤ m →
        expression m 0 (p ++ l1 :: (q ++ l2 :: r))
          = .ok (.rule RuleExpression [.rule RuleExpression [tp,
              .rule RuleLogicalOperator [.terminal l1], tq],
              .rule RuleLogicalOperator [.terminal l2], tr], []))
    ∧ (.rule RuleExpression [.rule RuleExpression [tp,
          .rule RuleLogicalOperator [.terminal l1], tq],
          .rule RuleLogicalOperator [.terminal l2], tr] : ParseTree)
        ≠ .rule RuleExpression [tp, .rule RuleLogicalOperator [.terminal l1],
            .rule RuleExpression [tq, .rule RuleLogicalOperator [.terminal l2], tr]]
    ∧ Accepted (p ++ l1 :: (q ++ l2 :: r))
    ∧ (∀ s, IsPredicate s → ∃ n t, expression n 3 s = .ok (t, []))
    ∧ (∀ t, logicalOperatorSet t = true ↔ (t = T__18 ∨ t = T__19 ∨ t = K_AND ∨ t = K_OR)) := by
  have hall : ∀ m, np + nq + nr + 1 ≤ m →
      expression m 0 (p ++ l1 :: (q ++ l2 :: r))
        = .ok (.rule RuleExpression [.rule RuleExpression [tp,
            .rule RuleLogicalOperator [.terminal l1], tq],
            .rule RuleLogicalOperator [.terminal l2], tr], []) := by
    intro m hm
    have := expression_ternary hp hq hr l1 l2 h1 h2 stopsList_nil.1 hm
    rwa [List.append_nil] at this
  refine ⟨fun rest hrest m hm => expression_ternary hp hq hr l1 l2 h1 h2 hrest hm, hall, ?_,
    accepted_of_expression ⟨_, _, hall _ (Nat.le_refl _)⟩,
    fun s hs => operand_of_isPredicate hs, ?_⟩
  · intro h
    injection h with _ h
    injection h with h _
    exact parseTree_ne_rule_cons tp _ _ h.symm
  · intro t
    rw [logicalOperatorSet_eq, contains_iff_mem]
    simp

/-- C27, witness: `a OR b AND c` on three column names is `(a OR b) AND c`. -/
theorem expression_logical_left_witness :
    expression 13 0 (toks [IDENTIFIER, K_OR, IDENTIFIER, K_AND, IDENTIFIER])
      = .ok (.rule RuleExpression [
          .rule RuleExpression [
            .rule RuleExpression [.rule RulePredicateExpression [.rule RuleValueExpression
              [.rule RuleColumnName [.terminal (tok IDENTIFIER)]]]],
            .rule RuleLogicalOperator [.terminal (tok K_OR)],
            .rule RuleExpression [.rule RulePredicateExpression [.rule RuleValueExpression
              [.rule RuleColumnName [.terminal (tok IDENTIFIER)]]]]],
          .rule RuleLogicalOperator [.terminal (tok K_AND)],
          .rule RuleExpression [.rule RulePredicateExpression [.rule RuleValueExpression
            [.rule RuleColumnName [.terminal (tok IDENTIFIER)]]]]], []) :=
  have hp : expression 4 3 (toks [IDENTIFIER])
      = .ok (.rule RuleExpression [.rule RulePredicateExpression [.rule RuleValueExpression
          [.rule RuleColumnName [.terminal (tok IDENTIFIER)]]]], []) := rfl
  (expression_logical_left hp hp hp (tok K_OR) (tok K_AND) rfl rfl).2.1 13 (by decide)

/-! ### Operands of the operators of `valueExpression` -/

theorem ext_nonempty {α : Type} {t u : List Token} {X : Prop}
    {x y : Outcome (α × List Token)} (h : Ext t X u x y) (hl : LastOk t u) {res : α}
    {a : List Token} (hx : x = .ok (res, a)) (ha : a ≠ []) : y = .ok (res, a ++ t) := by
  obtain ⟨c, -, hy⟩ := h hl res a hx
  exact hy (Or.inl ha)

theorem lastOk_of_last {t c : List Token} {z : Token} (hz : notOperatorSet z.type = false) :
    LastOk t (c ++ [z]) :=
  Or.inr (endsOk_append (by simp) (endsOk_singleton hz))

/-- An expression list before a `')'` stays the same whatever follows the
`')'`. -/
theorem expressionList_before_rparen {n : Nat} {s : List Token} {l : ParseTree} {rp : Token}
    (hrp : rp.type = T__5) (h : expressionList n s = .ok (l, [rp])) (t : List Token) {m : Nat}
    (hm : n ≤ m) : expressionList m (s ++ t) = .ok (l, rp :: t) := by
  obtain ⟨c, hc, -⟩ := (allEnds n).exprList s l [rp] h
  have hl : LastOk t s := by
    rw [hc]
    exact lastOk_of_last (by rw [hrp]; rfl)
  exact ext_nonempty ((allExt t n).exprList m s hm) hl h (by simp)

/-- An expression before a `')'` stays the same whatever follows the `')'`. -/
theorem expression_before_rparen {n p : Nat} {s : List Token} {e : ParseTree} {rp : Token}
    (hrp : rp.type = T__5) (h : expression n p s = .ok (e, [rp])) (t : List Token) {m : Nat}
    (hm : n ≤ m) : expression m p (s ++ t) = .ok (e, rp :: t) := by
  obtain ⟨c, hc, -⟩ := (allEnds n).expr p s e [rp] h
  have hl : LastOk t s := by
    rw [hc]
    exact lastOk_of_last (by rw [hrp]; rfl)
  exact ext_nonempty ((allExt t n).expr m p s hm) hl h (by simp)

/-- A function call stays the same whatever follows it. -/
theorem function_append {n : Nat} {u : List Token} {f : ParseTree}
    (h : functionExpression n u = .ok (f, [])) (t : List Token) {m : Nat} (hm : n ≤ m) :
    functionExpression m (u ++ t) = .ok (f, t) := by
  obtain ⟨k, rfl, hname⟩ := functionName_of_ok h
  obtain ⟨m, rfl⟩ : ∃ j, m = j + 1 := ⟨m - 1, by omega⟩
  cases u with
  | nil => exact absurd hname (by decide)
  | cons name r1 =>
    rw [LA_one_cons] at hname
    cases r1 with
    | nil =>
      rw [functionExpression_alone k name hname] at h
      exact Outcome.noConfusion h
    | cons lp r2 =>
      by_cases hlp : lp.type = T__4
      · rw [functionExpression_cons k name lp hname hlp] at h
        obtain ⟨a, h1, h⟩ := bind_eq_ok.1 h
        obtain ⟨q, h2, h3⟩ := bind_eq_ok.1 h
        obtain ⟨rp, h4, h5, h6⟩ := (matchToken_eq_ok (by decide)).1 h2
        obtain ⟨h7, h8⟩ := Prod.mk.inj (pure_eq_ok.1 h3)
        rw [h8] at h4
        rw [List.cons_append, List.cons_append,
          functionExpression_cons m name lp hname hlp]
        rcases optional_eq_ok.1 h1 with ⟨hg, ha, hr⟩ | ⟨hg, tr, hrule, ha⟩
        · rw [h4] at hr
          have hg2 : expressionListGuard (LA 1 (r2 ++ t)) = false := by
            rw [← hr, List.singleton_append, LA_one_cons]
            rw [← hr, LA_one_cons] at hg
            exact hg
          rw [hg2, optional_eq_ok.2 (Or.inl ⟨rfl, rfl, rfl⟩), ok_bind]
          simp only []
          rw [← hr, List.singleton_append, matchToken_cons, if_pos h5, ok_bind]
          rw [← h7, ha, h6]
          rfl
        · rw [h4] at hrule
          have hne : r2 ≠ [] := nonempty_of_list hrule
          have hg2 : expressionListGuard (LA 1 (r2 ++ t)) = true := by
            rw [LA_one_append hne]
            exact hg
          rw [hg2, optional_eq_ok.2 (Or.inr ⟨rfl, tr,
            expressionList_before_rparen h5 hrule t (by omega : k ≤ m), rfl⟩), ok_bind]
          simp only []
          rw [matchToken_cons, if_pos h5, ok_bind]
          rw [← h7, ha, h6]
          rfl
      · rw [functionExpression_no_paren k name lp hname hlp] at h
        exact Outcome.noConfusion h

theorem columnName_cons (x : Token) (r : List Token) :
    columnName (x :: r) =
      if x.type = IDENTIFIER then .ok (.rule RuleColumnName [.terminal x], r)
      else .error .inputMismatch := by
  unfold columnName
  rw [matchToken_cons]
  split <;> rfl

theorem ok_eta {α : Type} {x : Outcome (α × List Token)} {a : α × List Token}
    {r : List Token} (h : x = .ok a) (hr : a.2 = r) : x = .ok (a.1, r) := by
  rw [h, ← hr]

theorem operandLoop_inv {n : Nat} {ctx tu : ParseTree} {r r2 : List Token}
    (h : valueExpressionLoop n 4 ctx r = .ok (tu, r2)) : ∃ k, n = k + 1 ∧ tu = ctx ∧ r2 = r := by
  obtain ⟨k, rfl⟩ := valueExpressionLoop_fuel_pos h
  rw [valueExpressionLoop_operand] at h
  obtain ⟨h1, h2⟩ := Prod.mk.inj (Outcome.ok.inj h)
  exact ⟨k, rfl, h1.symm, h2.symm⟩

/-- An operand of a unary operator (a value read at precedence 4) stays the
same whatever follows it. -/
theorem unaryOperand_append : ∀ (n : Nat) {u : List Token} {tu : ParseTree},
    valueExpression n 4 u = .ok (tu, []) → ∀ (t : List Token) {m : Nat}, n ≤ m →
    valueExpression m 4 (u ++ t) = .ok (tu, t) := by
  intro n
  induction n with
  | zero =>
    intro u tu h
    simp [valueExpression] at h
  | succ n ih =>
    intro u tu h t m hm
    obtain ⟨m, rfl⟩ : ∃ j, m = j + 1 := ⟨m - 1, by omega⟩
    cases u with
    | nil => exact absurd h (valueExpression_nil _ _ _)
    | cons x r =>
      rw [List.cons_append]
      rw [valueExpression] at h ⊢
      simp only [LA_one_cons] at h ⊢
      by_cases c1 : literalValueCases.contains x.type = true
      · rw [if_pos c1] at h ⊢
        rw [literalValue_cons] at h ⊢
        by_cases hl : literalValueSet x.type = true
        · rw [if_pos hl, ok_bind] at h ⊢
          obtain ⟨k, rfl, h3, h4⟩ := operandLoop_inv h
          obtain ⟨j, rfl⟩ : ∃ j, m = j + 1 := ⟨m - 1, by omega⟩
          simp only [] at h3 h4
          subst h4
          rw [List.nil_append, valueExpressionLoop_operand, h3]
        · rw [if_neg hl] at h
          exact Outcome.noConfusion h
      · rw [if_neg c1] at h ⊢
        by_cases c2 : (x.type == IDENTIFIER) = true
        · rw [if_pos c2] at h ⊢
          rw [columnName_cons] at h ⊢
          rw [if_pos (beq_iff_eq.1 c2), ok_bind] at h ⊢
          obtain ⟨k, rfl, h3, h4⟩ := operandLoop_inv h
          obtain ⟨j, rfl⟩ : ∃ j, m = j + 1 := ⟨m - 1, by omega⟩
          simp only [] at h3 h4
          subst h4
          rw [List.nil_append, valueExpressionLoop_operand, h3]
        · rw [if_neg c2] at h ⊢
          by_cases c3 : functionExpressionCases.contains x.type = true
          · rw [if_pos c3] at h ⊢
            obtain ⟨a, h1, h2⟩ := bind_eq_ok.1 h
            obtain ⟨k, rfl, h3, h4⟩ := operandLoop_inv h2
            obtain ⟨j, rfl⟩ : ∃ j, m = j + 1 := ⟨m - 1, by omega⟩
            have h1b : functionExpression (k + 1) (x :: r) = .ok (a.1, []) := ok_eta h1 h4.symm
            have := function_append h1b t (by omega : k + 1 ≤ j + 1)
            rw [List.cons_append] at this
            rw [this, ok_bind, valueExpressionLoop_operand, h3]
          · rw [if_neg c3] at h ⊢
            by_cases c4 : unaryOperatorCases.contains x.type = true
            · rw [if_pos c4] at h ⊢
              rw [unaryOperator_cons] at h ⊢
              by_cases hu : unaryOperatorSet x.type = true
              · rw [if_pos hu, ok_bind] at h ⊢
                obtain ⟨b, h2, h3⟩ := bind_eq_ok.1 h
                obtain ⟨k, rfl, h4, h5⟩ := operandLoop_inv h3
                obtain ⟨j, rfl⟩ : ∃ j, m = j + 1 := ⟨m - 1, by omega⟩
                have h2b : valueExpression (k + 1) 4 r = .ok (b.1, []) := ok_eta h2 h5.symm
                simp only []
                rw [ih h2b t (by omega : k + 1 ≤ j + 1), ok_bind, valueExpressionLoop_operand,
                  h4]
              · rw [if_neg hu] at h
                exact Outcome.noConfusion h
            · rw [if_neg c4] at h ⊢
              by_cases c5 : (x.type == T__4) = true
              · rw [if_pos c5] at h ⊢
                rw [matchToken_cons] at h ⊢
                rw [if_pos (beq_iff_eq.1 c5), ok_bind] at h ⊢
                obtain ⟨b, h2, h⟩ := bind_eq_ok.1 h
                obtain ⟨d, h3, h4⟩ := bind_eq_ok.1 h
                obtain ⟨k, rfl, h5, h6⟩ := operandLoop_inv h4
                obtain ⟨j, rfl⟩ : ∃ j, m = j + 1 := ⟨m - 1, by omega⟩
                obtain ⟨rp, h7, h8, h9⟩ := (matchToken_eq_ok (by decide)).1 h3
                have h2b : expression (k + 1) 0 r = .ok (b.1, [rp]) :=
                  ok_eta h2 (by rw [h7, ← h6])
                simp only []
                rw [expression_before_rparen h8 h2b t (by omega : k + 1 ≤ j + 1), ok_bind]
                simp only []
                rw [matchToken_cons, if_pos h8, ok_bind, valueExpressionLoop_operand, h5, h9]
              · rw [if_neg c5] at h
                exact Outcome.noConfusion h

/-- A run of `valueExpression` is its run as a unary operand, which takes no
operator, followed by its loop: the tree too. -/
theorem valueExpression_of_operand {n : Nat} {s r : List Token} {v : ParseTree}
    (h : valueExpression (n + 1) 4 s = .ok (v, r)) (p : Nat) :
    valueExpression (n + 1) p s = valueExpressionLoop n p v r := by
  have step : ∀ {ctx : ParseTree} {r0 : List Token},
      valueExpressionLoop n 4 ctx r0 = .ok (v, r) →
      valueExpressionLoop n p ctx r0 = valueExpressionLoop n p v r := by
    intro ctx r0 h2
    obtain ⟨k, rfl, h3, h4⟩ := operandLoop_inv h2
    rw [h3, h4]
  simp only [valueExpression] at h ⊢
  by_cases c1 : literalValueCases.contains (LA 1 s) = true
  · rw [if_pos c1] at h ⊢
    obtain ⟨a, h1, h2⟩ := bind_eq_ok.1 h
    rw [h1, ok_bind]
    exact step h2
  · rw [if_neg c1] at h ⊢
    by_cases c2 : (LA 1 s == IDENTIFIER) = true
    · rw [if_pos c2] at h ⊢
      obtain ⟨a, h1, h2⟩ := bind_eq_ok.1 h
      rw [h1, ok_bind]
      exact step h2
    · rw [if_neg c2] at h ⊢
      by_cases c3 : functionExpressionCases.contains (LA 1 s) = true
      · rw [if_pos c3] at h ⊢
        obtain ⟨a, h1, h2⟩ := bind_eq_ok.1 h
        rw [h1, ok_bind]
        exact step h2
      · rw [if_neg c3] at h ⊢
        by_cases c4 : unaryOperatorCases.contains (LA 1 s) = true
        · rw [if_pos c4] at h ⊢
          obtain ⟨a, h1, h⟩ := bind_eq_ok.1 h
          obtain ⟨b, h2, h3⟩ := bind_eq_ok.1 h
          rw [h1, ok_bind, h2, ok_bind]
          exact step h3
        · rw [if_neg c4] at h ⊢
          by_cases c5 : (LA 1 s == T__4) = true
          · rw [if_pos c5] at h ⊢
            obtain ⟨a, h1, h⟩ := bind_eq_ok.1 h
            obtain ⟨b, h2, h⟩ := bind_eq_ok.1 h
            obtain ⟨d, h3, h4⟩ := bind_eq_ok.1 h
            rw [h1, ok_bind, h2, ok_bind, h3, ok_bind]
            exact step h4
          · rw [if_neg c5] at h
            exact Outcome.noConfusion h

/-- The loop of `valueExpression` stops where the precedence of the running
invocation admits neither the math nor the bitwise alternative. -/
theorem valueExpressionLoop_halt {p : Nat} {s : List Token}
    (h1 : (mathOperatorSet (LA 1 s) && precpred p 2) = false)
    (h2 : (bitwiseOperatorSet (LA 1 s) && precpred p 1) = false) (n : Nat) (ctx : ParseTree) :
    valueExpressionLoop (n + 1) p ctx s = .ok (ctx, s) := by
  have h24 : adaptivePredict 24 p s = some 2 := by
    unfold adaptivePredict
    simp only [Nat.reduceEqDiff, ↓reduceIte, h1, h2, Bool.or_self, Bool.false_eq_true]
  simp only [valueExpressionLoop, h24]
  rfl

theorem precpred_of_lt {p k : Nat} (h : k < p) : precpred p k = false := by
  simp [precpred, h]

set_option maxRecDepth 100000 in
theorem bitwise_facts_small :
    ∀ ty < 154, bitwiseOperatorSet ty = true →
      (mathOperatorSet ty = false ∧ unaryOperatorSet ty = false) := by
  decide

theorem bitwise_facts {ty : Nat} (h : bitwiseOperatorSet ty = true) :
    mathOperatorSet ty = false ∧ unaryOperatorSet ty = false := by
  by_cases hlt : ty < 154
  · exact bitwise_facts_small ty hlt h
  · rw [bitwiseOperatorSet_eq, contains_eq_false_of_window 0 154 (by decide) (by omega)] at h
    exact Bool.noConfusion h

/-- One turn of the loop of `valueExpression` through its math alternative,
up to the right operand. -/
theorem valueExpressionLoop_math (n : Nat) {p : Nat} (hp : p ≤ 2) (ctx : ParseTree) (o : Token)
    (ho : mathOperatorSet o.type = true) (s : List Token) :
    valueExpressionLoop (n + 1) p ctx (o :: s)
      = valueExpression n 3 s >>= fun r =>
          valueExpressionLoop n p (.rule RuleValueExpression
            [ctx, .rule RuleMathOperator [.terminal o], r.1]) r.2 := by
  have h24 : adaptivePredict 24 p (o :: s) = some 1 := by
    unfold adaptivePredict
    simp only [Nat.reduceEqDiff, ↓reduceIte, LA_one_cons, ho, precpred_of_le hp, Bool.and_self,
      Bool.true_or]
  have h23 : adaptivePredict 23 p (o :: s) = some 1 := by
    unfold adaptivePredict
    simp only [Nat.reduceEqDiff, ↓reduceIte, LA_one_cons, ho, precpred_of_le hp, Bool.and_self]
  simp only [valueExpressionLoop, h24, h23, loop_guard_one, precpred_of_le hp]
  simp only [beq_self_eq_true, Bool.not_true, Bool.false_eq_true, ↓reduceIte]
  rw [mathOperator_cons, if_pos ho, ok_bind]

/-- One turn of the loop of `valueExpression` through its bitwise
alternative, up to the right operand. -/
theorem valueExpressionLoop_bitwise (n : Nat) {p : Nat} (hp : p ≤ 1) (ctx : ParseTree)
    (o : Token) (ho : bitwiseOperatorSet o.type = true) (s : List Token) :
    valueExpressionLoop (n + 1) p ctx (o :: s)
      = valueExpression n 2 s >>= fun r =>
          valueExpressionLoop n p (.rule RuleValueExpression
            [ctx, .rule RuleBitwiseOperator [.terminal o], r.1]) r.2 := by
  have hm := (bitwise_facts ho).1
  have h24 : adaptivePredict 24 p (o :: s) = some 1 := by
    unfold adaptivePredict
    simp only [Nat.reduceEqDiff, ↓reduceIte, LA_one_cons, ho, hm, precpred_of_le hp,
      Bool.and_self, Bool.false_and, Bool.false_or]
  have h23 : adaptivePredict 23 p (o :: s) = some 2 := by
    unfold adaptivePredict
    simp only [Nat.reduceEqDiff, ↓reduceIte, LA_one_cons, ho, hm, precpred_of_le hp,
      Bool.and_self, Bool.false_and, Bool.false_eq_true]
  simp only [valueExpressionLoop, h24, h23, loop_guard_one, precpred_of_le hp]
  simp only [beq_self_eq_true, Bool.not_true, Bool.false_eq_true, ↓reduceIte]
  rw [bitwiseOperator_cons, if_pos ho, ok_bind]

/-- An operand followed by tokens at which the loop of the running precedence
stops. -/
theorem operand_at {n : Nat} {w : List Token} {tw : ParseTree}
    (hw : valueExpression n 4 w = .ok (tw, [])) (t : List Token) {q : Nat}
    (h1 : (mathOperatorSet (LA 1 t) && precpred q 2) = false)
    (h2 : (bitwiseOperatorSet (LA 1 t) && precpred q 1) = false) {m : Nat} (hm : n + 1 ≤ m) :
    valueExpression m q (w ++ t) = .ok (tw, t) := by
  obtain ⟨k, rfl⟩ := value_fuel_pos hw
  obtain ⟨m, rfl⟩ : ∃ j, m = j + 2 := ⟨m - 2, by omega⟩
  rw [valueExpression_of_operand (unaryOperand_append _ hw t (by omega : k + 1 ≤ m + 1 + 1)) q]
  exact valueExpressionLoop_halt h1 h2 m tw

/-- One turn of the loop of `valueExpression`: a math operator and its right
operand. -/
theorem valueLoop_math_step {n : Nat} {w : List Token} {tw : ParseTree}
    (hw : valueExpression n 4 w = .ok (tw, [])) (o : Token) (ho : mathOperatorSet o.type = true)
    {p : Nat} (hp : p ≤ 2) (ctx : ParseTree) (rest : List Token) {m : Nat} (hm : n + 1 ≤ m) :
    valueExpressionLoop (m + 1) p ctx (o :: (w ++ rest))
      = valueExpressionLoop m p (.rule RuleValueExpression
          [ctx, .rule RuleMathOperator [.terminal o], tw]) rest := by
  rw [valueExpressionLoop_math m hp ctx o ho,
    operand_at hw rest (q := 3) (by rw [precpred_of_lt (by decide), Bool.and_false])
      (by rw [precpred_of_lt (by decide), Bool.and_false]) hm, ok_bind]

/-- One turn of the loop of `valueExpression`: a bitwise operator and a right
operand that no math operator follows. -/
theorem valueLoop_bitwise_step {n : Nat} {w : List Token} {tw : ParseTree}
    (hw : valueExpression n 4 w = .ok (tw, [])) (o : Token)
    (ho : bitwiseOperatorSet o.type = true) {p : Nat} (hp : p ≤ 1) (ctx : ParseTree)
    {rest : List Token} (hrest : mathOperatorSet (LA 1 rest) = false) {m : Nat}
    (hm : n + 1 ≤ m) :
    valueExpressionLoop (m + 1) p ctx (o :: (w ++ rest))
      = valueExpressionLoop m p (.rule RuleValueExpression
          [ctx, .rule RuleBitwiseOperator [.terminal o], tw]) rest := by
  rw [valueExpressionLoop_bitwise m hp ctx o ho,
    operand_at hw rest (q := 2) (by rw [hrest, Bool.false_and])
      (by rw [precpred_of_lt (by decide), Bool.and_false]) hm, ok_bind]

/-- One turn of the loop of `valueExpression`: a bitwise operator whose right
operand is `b o c` with a math operator `o`. -/
theorem valueLoop_bitwise_math_step {nb nc : Nat} {b c : List Token} {tb tc : ParseTree}
    (hb : valueExpression nb 4 b = .ok (tb, [])) (hc : valueExpression nc 4 c = .ok (tc, []))
    (w o : Token) (hw : bitwiseOperatorSet w.type = true) (ho : mathOperatorSet o.type = true)
    {p : Nat} (hp : p ≤ 1) (ctx : ParseTree) {rest : List Token}
    (hrest : mathOperatorSet (LA 1 rest) = false) {m : Nat} (hm : nb + nc + 3 ≤ m) :
    valueExpressionLoop (m + 1) p ctx (w :: (b ++ o :: (c ++ rest)))
      = valueExpressionLoop m p (.rule RuleValueExpression
          [ctx, .rule RuleBitwiseOperator [.terminal w], .rule RuleValueExpression
            [tb, .rule RuleMathOperator [.terminal o], tc]]) rest := by
  obtain ⟨kb, rfl⟩ := value_fuel_pos hb
  obtain ⟨m, rfl⟩ : ∃ j, m = j + 3 := ⟨m - 3, by omega⟩
  rw [valueExpressionLoop_bitwise (m + 3) hp ctx w hw,
    valueExpression_of_operand (unaryOperand_append _ hb (o :: (c ++ rest))
      (by omega : kb + 1 ≤ m + 2 + 1)) 2,
    valueLoop_math_step hc o ho (Nat.le_refl 2) tb rest (by omega : nc + 1 ≤ m + 1),
    valueExpressionLoop_halt (by rw [hrest, Bool.false_and])
      (by rw [precpred_of_lt (by decide), Bool.and_false]) m _, ok_bind]

theorem stopsValue_halt {rest : List Token} (h : StopsValue rest) (p : Nat) :
    (mathOperatorSet (LA 1 rest) && precpred p 2) = false
      ∧ (bitwiseOperatorSet (LA 1 rest) && precpred p 1) = false := by
  rw [h.1, h.2]
  exact ⟨rfl, rfl⟩

theorem loop3_eq_loop4 (n : Nat) (ctx : ParseTree) (s : List Token) :
    valueExpressionLoop n 3 ctx s = valueExpressionLoop n 4 ctx s := by
  cases n with
  | zero => simp only [valueExpressionLoop]
  | succ k =>
    rw [valueExpressionLoop_operand,
      valueExpressionLoop_halt (by rw [precpred_of_lt (by decide), Bool.and_false])
        (by rw [precpred_of_lt (by decide), Bool.and_false])]

/-- The right operand of a math operator is read like the operand of a unary
operator: neither takes a binary operator. -/
theorem mathOperand_eq (n : Nat) (s : List Token) :
    valueExpression n 3 s = valueExpression n 4 s := by
  cases n with
  | zero => simp only [valueExpression]
  | succ k => simp only [valueExpression, loop3_eq_loop4]

set_option maxRecDepth 100000 in
theorem unary_dispatch_small :
    ∀ ty < 154, unaryOperatorSet ty = true →
      (literalValueCases.contains ty = false ∧ (ty == IDENTIFIER) = false
        ∧ functionExpressionCases.contains ty = false
        ∧ unaryOperatorCases.contains ty = true) := by
  decide

theorem unary_dispatch {ty : Nat} (h : unaryOperatorSet ty = true) :
    literalValueCases.contains ty = false ∧ (ty == IDENTIFIER) = false
      ∧ functionExpressionCases.contains ty = false
      ∧ unaryOperatorCases.contains ty = true := by
  by_cases hlt : ty < 154
  · exact unary_dispatch_small ty hlt h
  · rw [unaryOperatorSet_eq, contains_eq_false_of_window 0 154 (by decide) (by omega)] at h
    exact Bool.noConfusion h

/-- A unary operator applied to an operand is an operand. -/
theorem operand_unary {n : Nat} {a : List Token} {ta : ParseTree}
    (ha : valueExpression n 4 a = .ok (ta, [])) (u : Token)
    (hu : unaryOperatorSet u.type = true) :
    valueExpression (n + 1) 4 (u :: a)
      = .ok (.rule RuleValueExpression [.rule RuleUnaryOperator [.terminal u], ta], []) := by
  obtain ⟨d1, d2, d3, d4⟩ := unary_dispatch hu
  obtain ⟨k, rfl⟩ := value_fuel_pos ha
  rw [valueExpression]
  simp only [LA_one_cons, d1, d2, d3, d4, Bool.false_eq_true, ↓reduceIte]
  rw [unaryOperator_cons, if_pos hu, ok_bind]
  simp only []
  rw [ha, ok_bind]
  exact valueExpressionLoop_operand k _ _

/-- Two operands around a math operator. -/
theorem value_binary_math {na nb : Nat} {a b : List Token} {ta tb : ParseTree}
    (ha : valueExpression na 4 a = .ok (ta, [])) (hb : valueExpression nb 4 b = .ok (tb, []))
    (o : Token) (ho : mathOperatorSet o.type = true) {rest : List Token}
    (hrest : StopsValue rest) {m : Nat} (hm : na + nb + 2 ≤ m) :
    valueExpression m 0 (a ++ o :: (b ++ rest))
      = .ok (.rule RuleValueExpression [ta, .rule RuleMathOperator [.terminal o], tb], rest) := by
  obtain ⟨ka, rfl⟩ := value_fuel_pos ha
  obtain ⟨m, rfl⟩ : ∃ j, m = j + 3 := ⟨m - 3, by omega⟩
  rw [valueExpression_of_operand (unaryOperand_append _ ha (o :: (b ++ rest))
      (by omega : ka + 1 ≤ m + 2 + 1)) 0,
    valueLoop_math_step hb o ho (Nat.zero_le 2) ta rest (by omega : nb + 1 ≤ m + 1)]
  exact valueExpressionLoop_stop hrest m 0 _

/-- Two operands around a bitwise operator. -/
theorem value_binary_bitwise {na nb : Nat} {a b : List Token} {ta tb : ParseTree}
    (ha : valueExpression na 4 a = .ok (ta, [])) (hb : valueExpression nb 4 b = .ok (tb, []))
    (o : Token) (ho : bitwiseOperatorSet o.type = true) {rest : List Token}
    (hrest : StopsValue rest) {m : Nat} (hm : na + nb + 2 ≤ m) :
    valueExpression m 0 (a ++ o :: (b ++ rest))
      = .ok (.rule RuleValueExpression [ta, .rule RuleBitwiseOperator [.terminal o], tb],
          rest) := by
  obtain ⟨ka, rfl⟩ := value_fuel_pos ha
  obtain ⟨m, rfl⟩ : ∃ j, m = j + 3 := ⟨m - 3, by omega⟩
  rw [valueExpression_of_operand (unaryOperand_append _ ha (o :: (b ++ rest))
      (by omega : ka + 1 ≤ m + 2 + 1)) 0,
    valueLoop_bitwise_step hb o ho (Nat.zero_le 1) ta hrest.1 (by omega : nb + 1 ≤ m + 1)]
  exact valueExpressionLoop_stop hrest m 0 _

/-- Three operands around two math operators group to the left. -/
theorem value_math_math {na nb nc : Nat} {a b c : List Token} {ta tb tc : ParseTree}
    (ha : valueExpression na 4 a = .ok (ta, [])) (hb : valueExpression nb 4 b = .ok (tb, []))
    (hc : valueExpression nc 4 c = .ok (tc, [])) (o1 o2 : Token)
    (h1 : mathOperatorSet o1.type = true) (h2 : mathOperatorSet o2.type = true)
    {rest : List Token} (hrest : StopsValue rest) {m : Nat} (hm : na + nb + nc + 3 ≤ m) :
    valueExpression m 0 (a ++ o1 :: (b ++ o2 :: (c ++ rest)))
      = .ok (.rule RuleValueExpression [.rule RuleValueExpression
          [ta, .rule RuleMathOperator [.terminal o1], tb],
          .rule RuleMathOperator [.terminal o2], tc], rest) := by
  obtain ⟨ka, rfl⟩ := value_fuel_pos ha
  obtain ⟨kb, rfl⟩ := value_fuel_pos hb
  obtain ⟨m, rfl⟩ : ∃ j, m = j + 4 := ⟨m - 4, by omega⟩
  rw [valueExpression_of_operand (unaryOperand_append _ ha (o1 :: (b ++ o2 :: (c ++ rest)))
      (by omega : ka + 1 ≤ m + 3 + 1)) 0,
    valueLoop_math_step hb o1 h1 (Nat.zero_le 2) ta _ (by omega : kb + 1 + 1 ≤ m + 2),
    valueLoop_math_step hc o2 h2 (Nat.zero_le 2) _ rest (by omega : nc + 1 ≤ m + 1)]
  exact valueExpressionLoop_stop hrest m 0 _

/-- C24. The five math operators share one precedence level and associate to
the left.  Let `a`, `b`, `c` be operands with trees `ta`, `tb`, `tc`: token
sequences that `valueExpression` consumes when it reads the operand of an
operator (a literal, a column name, a function call, a parenthesised
expression, or a unary operator on such an operand), and `o1`, `o2` any two
math operator tokens.  On `a o1 b o2 c`, `valueExpression` returns, given
enough fuel and whatever follows that is no math or bitwise operator, the
node of `o2` over the node of `o1` on `ta` and `tb`, and `tc`; this tree is
not the one that groups to the right.  The math operator tokens are `'-'`,
`'+'`, `'*'`, `'/'` and `'%'`, and the right operand of each is read as the
operand of a unary operator is, so that it takes no operator of its own. -/
theorem valueExpression_math_left {na nb nc : Nat} {a b c : List Token}
    {ta tb tc : ParseTree} (ha : valueExpression na 4 a = .ok (ta, []))
    (hb : valueExpression nb 4 b = .ok (tb, [])) (hc : valueExpression nc 4 c = .ok (tc, []))
    (o1 o2 : Token) (h1 : mathOperatorSet o1.type = true)
    (h2 : mathOperatorSet o2.type = true) :
    (∀ rest, StopsValue rest → ∀ m, na + nb + nc + 3 ≤ m →
        valueExpression m 0 (a ++ o1 :: (b ++ o2 :: (c ++ rest)))
          = .ok (.rule RuleValueExpression [.rule RuleValueExpression
              [ta, .rule RuleMathOperator [.terminal o1], tb],
              .rule RuleMathOperator [.terminal o2], tc], rest))
    ∧ (∀ m, na + nb + nc + 3 ≤ m →
        valueExpression m 0 (a ++ o1 :: (b ++ o2 :: c))
          = .ok (.rule RuleValueExpression [.rule RuleValueExpression
              [ta, .rule RuleMathOperator [.terminal o1], tb],
              .rule RuleMathOperator [.terminal o2], tc], []))
    ∧ (.rule RuleValueExpression [.rule RuleValueExpression
          [ta, .rule RuleMathOperator [.terminal o1], tb],
          .rule RuleMathOperator [.terminal o2], tc] : ParseTree)
        ≠ .rule RuleValueExpression [ta, .rule RuleMathOperator [.terminal o1],
            .rule RuleValueExpression [tb, .rule RuleMathOperator [.terminal o2], tc]]
    ∧ (∀ t, mathOperatorSet t = true ↔
        (t = T__2 ∨ t = T__3 ∨ t = T__25 ∨ t = T__26 ∨ t = T__27))
    ∧ (∀ n s, valueExpression n 3 s = valueExpression n 4 s) := by
  refine ⟨fun rest hrest m hm => value_math_math ha hb hc o1 o2 h1 h2 hrest hm, ?_, ?_, ?_,
    mathOperand_eq⟩
  · intro m hm
    have := value_math_math ha hb hc o1 o2 h1 h2 stopsValue_nil hm
    rwa [List.append_nil] at this
  · intro h
    injection h with _ h
    injection h with h _
    exact parseTree_ne_rule_cons ta _ _ h.symm
  · intro t
    rw [mathOperatorSet_eq, contains_iff_mem]
    simp only [List.mem_cons, List.mem_singleton, List.not_mem_nil, or_false]
    constructor
    · rintro (h | h | h | h | h) <;> simp [h]
    · rintro (h | h | h | h | h) <;> simp [h]

/-- C24, witness: `a + b * c` on three column names is `(a + b) * c`. -/
theorem valueExpression_math_left_witness :
    valueExpression 9 0 (toks [IDENTIFIER, T__3, IDENTIFIER, T__25, IDENTIFIER])
      = .ok (.rule RuleValueExpression [
          .rule RuleValueExpression [
            .rule RuleValueExpression [.rule RuleColumnName [.terminal (tok IDENTIFIER)]],
            .rule RuleMathOperator [.terminal (tok T__3)],
            .rule RuleValueExpression [.rule RuleColumnName [.terminal (tok IDENTIFIER)]]],
          .rule RuleMathOperator [.terminal (tok T__25)],
          .rule RuleValueExpression [.rule RuleColumnName [.terminal (tok IDENTIFIER)]]], []) :=
  have ha : valueExpression 2 4 (toks [IDENTIFIER])
      = .ok (.rule RuleValueExpression [.rule RuleColumnName [.terminal (tok IDENTIFIER)]],
          []) := rfl
  (valueExpression_math_left ha ha ha (tok T__3) (tok T__25) rfl rfl).2.1 9 (by decide)

/-- An operand, a bitwise operator, and `b o c` with a math operator `o`. -/
theorem value_bitwise_math {na nb nc : Nat} {a b c : List Token} {ta tb tc : ParseTree}
    (ha : valueExpression na 4 a = .ok (ta, [])) (hb : valueExpression nb 4 b = .ok (tb, []))
    (hc : valueExpression nc 4 c = .ok (tc, [])) (w o : Token)
    (hw : bitwiseOperatorSet w.type = true) (ho : mathOperatorSet o.type = true)
    {rest : List Token} (hrest : StopsValue rest) {m : Nat} (hm : na + nb + nc + 5 ≤ m) :
    valueExpression m 0 (a ++ w :: (b ++ o :: (c ++ rest)))
      = .ok (.rule RuleValueExpression [ta, .rule RuleBitwiseOperator [.terminal w],
          .rule RuleValueExpression [tb, .rule RuleMathOperator [.terminal o], tc]], rest) := by
  obtain ⟨ka, rfl⟩ := value_fuel_pos ha
  obtain ⟨m, rfl⟩ : ∃ j, m = j + 6 := ⟨m - 6, by omega⟩
  rw [valueExpression_of_operand (unaryOperand_append _ ha (w :: (b ++ o :: (c ++ rest)))
      (by omega : ka + 1 ≤ m + 5 + 1)) 0,
    valueLoop_bitwise_math_step hb hc w o hw ho (Nat.zero_le 1) ta hrest.1
      (by omega : nb + nc + 3 ≤ m + 4)]
  exact valueExpressionLoop_stop hrest (m + 3) 0 _

/-- `a o b w c` with a math operator `o` and a bitwise operator `w`. -/
theorem value_math_bitwise {na nb nc : Nat} {a b c : List Token} {ta tb tc : ParseTree}
    (ha : valueExpression na 4 a = .ok (ta, [])) (hb : valueExpression nb 4 b = .ok (tb, []))
    (hc : valueExpression nc 4 c = .ok (tc, [])) (o w : Token)
    (ho : mathOperatorSet o.type = true) (hw : bitwiseOperatorSet w.type = true)
    {rest : List Token} (hrest : StopsValue rest) {m : Nat} (hm : na + nb + nc + 3 ≤ m) :
    valueExpression m 0 (a ++ o :: (b ++ w :: (c ++ rest)))
      = .ok (.rule RuleValueExpression [.rule RuleValueExpression
          [ta, .rule RuleMathOperator [.terminal o], tb],
          .rule RuleBitwiseOperator [.terminal w], tc], rest) := by
  obtain ⟨ka, rfl⟩ := value_fuel_pos ha
  obtain ⟨kb, rfl⟩ := value_fuel_pos hb
  obtain ⟨m, rfl⟩ : ∃ j, m = j + 4 := ⟨m - 4, by omega⟩
  rw [valueExpression_of_operand (unaryOperand_append _ ha (o :: (b ++ w :: (c ++ rest)))
      (by omega : ka + 1 ≤ m + 3 + 1)) 0,
    valueLoop_math_step hb o ho (Nat.zero_le 2) ta _ (by omega : kb + 1 + 1 ≤ m + 2),
    valueLoop_bitwise_step hc w hw (Nat.zero_le 1) _ hrest.1 (by omega : nc + 1 ≤ m + 1)]
  exact valueExpressionLoop_stop hrest m 0 _

/-- Three operands around two bitwise operators group to the left. -/
theorem value_bitwise_bitwise {na nb nc : Nat} {a b c : List Token} {ta tb tc : ParseTree}
    (ha : valueExpression na 4 a = .ok (ta, [])) (hb : valueExpression nb 4 b = .ok (tb, []))
    (hc : valueExpression nc 4 c = .ok (tc, [])) (w1 w2 : Token)
    (h1 : bitwiseOperatorSet w1.type = true) (h2 : bitwiseOperatorSet w2.type = true)
    {rest : List Token} (hrest : StopsValue rest) {m : Nat} (hm : na + nb + nc + 3 ≤ m) :
    valueExpression m 0 (a ++ w1 :: (b ++ w2 :: (c ++ rest)))
      = .ok (.rule RuleValueExpression [.rule RuleValueExpression
          [ta, .rule RuleBitwiseOperator [.terminal w1], tb],
          .rule RuleBitwiseOperator [.terminal w2], tc], rest) := by
  obtain ⟨ka, rfl⟩ := value_fuel_pos ha
  obtain ⟨kb, rfl⟩ := value_fuel_pos hb
  obtain ⟨m, rfl⟩ : ∃ j, m = j + 4 := ⟨m - 4, by omega⟩
  have hw2 : mathOperatorSet (LA 1 (w2 :: (c ++ rest))) = false := by
    rw [LA_one_cons]
    exact (bitwise_facts h2).1
  rw [valueExpression_of_operand (unaryOperand_append _ ha (w1 :: (b ++ w2 :: (c ++ rest)))
      (by omega : ka + 1 ≤ m + 3 + 1)) 0,
    valueLoop_bitwise_step hb w1 h1 (Nat.zero_le 1) ta hw2 (by omega : kb + 1 + 1 ≤ m + 2),
    valueLoop_bitwise_step hc w2 h2 (Nat.zero_le 1) _ hrest.1 (by omega : nc + 1 ≤ m + 1)]
  exact valueExpressionLoop_stop hrest m 0 _

/-- C25. Within a value expression a unary operator binds tighter than any
binary operator, and the math operators bind tighter than the bitwise ones.
Let `a`, `b`, `c` be operands with trees `ta`, `tb`, `tc` (what
`valueExpression` consumes as the operand of an operator), `u` a unary
operator token, `o` a math operator token and `w`, `w2` bitwise operator
tokens.  Given enough fuel and whatever follows that is no math or bitwise
operator, `valueExpression` returns: on `u a o b` the node of `o` over the
unary node of `u` on `ta`, and `tb`, and likewise on `u a w b`; on `a w b o
c` the node of `w` over `ta` and the node of `o` on `tb` and `tc`; on `a o b
w c` the node of `w` over the node of `o` on `ta` and `tb`, and `tc`; on `a
w b w2 c` the node of `w2` over the node of `w` on `ta` and `tb`, and
`tc`. -/
theorem valueExpression_operator_ranks {na nb nc : Nat} {a b c : List Token}
    {ta tb tc : ParseTree} (ha : valueExpression na 4 a = .ok (ta, []))
    (hb : valueExpression nb 4 b = .ok (tb, [])) (hc : valueExpression nc 4 c = .ok (tc, []))
    (u o w w2 : Token) (hu : unaryOperatorSet u.type = true)
    (ho : mathOperatorSet o.type = true) (hw : bitwiseOperatorSet w.type = true)
    (hw2 : bitwiseOperatorSet w2.type = true) :
    (∀ rest, StopsValue rest → ∀ m, na + nb + 3 ≤ m →
        valueExpression m 0 (u :: (a ++ o :: (b ++ rest)))
          = .ok (.rule RuleValueExpression [.rule RuleValueExpression
              [.rule RuleUnaryOperator [.terminal u], ta],
              .rule RuleMathOperator [.terminal o], tb], rest))
    ∧ (∀ rest, StopsValue rest → ∀ m, na + nb + 3 ≤ m →
        valueExpression m 0 (u :: (a ++ w :: (b ++ rest)))
          = .ok (.rule RuleValueExpression [.rule RuleValueExpression
              [.rule RuleUnaryOperator [.terminal u], ta],
              .rule RuleBitwiseOperator [.terminal w], tb], rest))
    ∧ (∀ rest, StopsValue rest → ∀ m, na + nb + nc + 5 ≤ m →
        valueExpression m 0 (a ++ w :: (b ++ o :: (c ++ rest)))
          = .ok (.rule RuleValueExpression [ta, .rule RuleBitwiseOperator [.terminal w],
              .rule RuleValueExpression [tb, .rule RuleMathOperator [.terminal o], tc]], rest))
    ∧ (∀ rest, StopsValue rest → ∀ m, na + nb + nc + 3 ≤ m →
        valueExpression m 0 (a ++ o :: (b ++ w :: (c ++ rest)))
          = .ok (.rule RuleValueExpression [.rule RuleValueExpression
              [ta, .rule RuleMathOperator [.terminal o], tb],
              .rule RuleBitwiseOperator [.terminal w], tc], rest))
    ∧ (∀ rest, StopsValue rest → ∀ m, na + nb + nc + 3 ≤ m →
        valueExpression m 0 (a ++ w :: (b ++ w2 :: (c ++ rest)))
          = .ok (.rule RuleValueExpression [.rule RuleValueExpression
              [ta, .rule RuleBitwiseOperator [.terminal w], tb],
              .rule RuleBitwiseOperator [.terminal w2], tc], rest)) := by
  refine ⟨fun rest hrest m hm => ?_, fun rest hrest m hm => ?_,
    fun rest hrest m hm => value_bitwise_math ha hb hc w o hw ho hrest hm,
    fun rest hrest m hm => value_math_bitwise ha hb hc o w ho hw hrest hm,
    fun rest hrest m hm => value_bitwise_bitwise ha hb hc w w2 hw hw2 hrest hm⟩
  · exact value_binary_math (operand_unary ha u hu) hb o ho hrest (by omega)
  · exact value_binary_bitwise (operand_unary ha u hu) hb w hw hrest (by omega)

/-- C25, witness: on column names, `- a * b` is `(- a) * b`, `a & b + c` is
`a & (b + c)`, `a + b & c` is `(a + b) & c` and `a & b | c` is
`(a & b) | c`. -/
theorem valueExpression_operator_ranks_witness :
    valueExpression 9 0 (toks [T__2, IDENTIFIER, T__25, IDENTIFIER])
        = .ok (.rule RuleValueExpression [
            .rule RuleValueExpression [.rule RuleUnaryOperator [.terminal (tok T__2)],
              .rule RuleValueExpression [.rule RuleColumnName [.terminal (tok IDENTIFIER)]]],
            .rule RuleMathOperator [.terminal (tok T__25)],
            .rule RuleValueExpression [.rule RuleColumnName [.terminal (tok IDENTIFIER)]]], [])
    ∧ valueExpression 11 0 (toks [IDENTIFIER, T__22, IDENTIFIER, T__3, IDENTIFIER])
        = .ok (.rule RuleValueExpression [
            .rule RuleValueExpression [.rule RuleColumnName [.terminal (tok IDENTIFIER)]],
            .rule RuleBitwiseOperator [.terminal (tok T__22)],
            .rule RuleValueExpression [
              .rule RuleValueExpression [.rule RuleColumnName [.terminal (tok IDENTIFIER)]],
              .rule RuleMathOperator [.terminal (tok T__3)],
              .rule RuleValueExpression [.rule RuleColumnName [.terminal (tok IDENTIFIER)]]]],
            [])
    ∧ valueExpression 9 0 (toks [IDENTIFIER, T__3, IDENTIFIER, T__22, IDENTIFIER])
        = .ok (.rule RuleValueExpression [
            .rule RuleValueExpression [
              .rule RuleValueExpression [.rule RuleColumnName [.terminal (tok IDENTIFIER)]],
              .rule RuleMathOperator [.terminal (tok T__3)],
              .rule RuleValueExpression [.rule RuleColumnName [.terminal (tok IDENTIFIER)]]],
            .rule RuleBitwiseOperator [.terminal (tok T__22)],
            .rule RuleValueExpression [.rule RuleColumnName [.terminal (tok IDENTIFIER)]]], [])
    ∧ valueExpression 9 0 (toks [IDENTIFIER, T__22, IDENTIFIER, T__23, IDENTIFIER])
        = .ok (.rule RuleValueExpression [
            .rule RuleValueExpression [
              .rule RuleValueExpression [.rule RuleColumnName [.terminal (tok IDENTIFIER)]],
              .rule RuleBitwiseOperator [.terminal (tok T__22)],
              .rule RuleValueExpression [.rule RuleColumnName [.terminal (tok IDENTIFIER)]]],
            .rule RuleBitwiseOperator [.terminal (tok T__23)],
            .rule RuleValueExpression [.rule RuleColumnName [.terminal (tok IDENTIFIER)]]], []) :=
  have ha : valueExpression 2 4 (toks [IDENTIFIER])
      = .ok (.rule RuleValueExpression [.rule RuleColumnName [.terminal (tok IDENTIFIER)]],
          []) := rfl
  ⟨(valueExpression_operator_ranks ha ha ha (tok T__2) (tok T__25) (tok T__22) (tok T__23) rfl
      rfl rfl rfl).1 [] stopsValue_nil 9 (by decide),
    (valueExpression_operator_ranks ha ha ha (tok T__2) (tok T__3) (tok T__22) (tok T__23) rfl
      rfl rfl rfl).2.2.1 [] stopsValue_nil 11 (by decide),
    (valueExpression_operator_ranks ha ha ha (tok T__2) (tok T__3) (tok T__22) (tok T__23) rfl
      rfl rfl rfl).2.2.2.1 [] stopsValue_nil 9 (by decide),
    (valueExpression_operator_ranks ha ha ha (tok T__2) (tok T__3) (tok T__22) (tok T__23) rfl
      rfl rfl rfl).2.2.2.2 [] stopsValue_nil 9 (by decide)⟩

/-! ### Ranks of the operators of `predicateExpression` -/

/-- The loop of `predicateExpression` stops where no alternative is admitted. -/
theorem predicateExpressionLoop_halt {q : Nat} {t : List Token} (h : StopsPredicateAt q t)
    (n : Nat) (ctx : ParseTree) : predicateExpressionLoop (n + 1) q ctx t = .ok (ctx, t) := by
  obtain ⟨h1, h2, h3, h4⟩ := h
  have h21 : adaptivePredict 21 q t = some 2 := by
    unfold adaptivePredict
    simp only [Nat.reduceEqDiff, ↓reduceIte, h1, h2, h3, h4, Bool.or_self, Bool.false_eq_true]
  simp only [predicateExpressionLoop, h21]
  rfl

theorem stopsPredicateAt_of_stops {t : List Token} (h : StopsPredicate t) (q : Nat) :
    StopsPredicateAt q t := by
  obtain ⟨-, h1, h2, h3, h4⟩ := h
  refine ⟨?_, ?_, ?_, ?_⟩
  · rw [h1, Bool.false_and]
  · rw [h2, Bool.false_and]
  · rw [h3, Bool.false_and]
  · rw [h4, Bool.false_and]

set_option maxRecDepth 100000 in
theorem comparison_facts_small :
    ∀ ty < 154, comparisonOperatorSet ty = true →
      (mathOperatorSet ty = false ∧ bitwiseOperatorSet ty = false ∧ notOperatorSet ty = false
        ∧ (ty == K_LIKE) = false ∧ (ty == K_IN) = false ∧ (ty == K_IS) = false) := by
  decide

theorem comparison_facts {ty : Nat} (h : comparisonOperatorSet ty = true) :
    mathOperatorSet ty = false ∧ bitwiseOperatorSet ty = false ∧ notOperatorSet ty = false
      ∧ (ty == K_LIKE) = false ∧ (ty == K_IN) = false ∧ (ty == K_IS) = false := by
  by_cases hlt : ty < 154
  · exact comparison_facts_small ty hlt h
  · have : comparisonOperatorSet ty = false := bitsetTest_high _ (by omega)
    rw [this] at h
    exact Bool.noConfusion h

/-- Before a comparison operator the loop of `valueExpression` stops, and so
does the loop of `predicateExpression` run at precedence 4. -/
theorem stops_at_comparison (e : Token) (s : List Token)
    (he : comparisonOperatorSet e.type = true) :
    StopsValue (e :: s) ∧ StopsPredicateAt 4 (e :: s) := by
  obtain ⟨f1, f2, f3, f4, f5, f6⟩ := comparison_facts he
  refine ⟨⟨f1, f2⟩, ?_, ?_, ?_, ?_⟩
  · rw [precpred_of_lt (by decide), Bool.and_false]
  · rw [precpred_of_lt (by decide), Bool.and_false]
  · simp only [inAhead, LA_one_cons, f3, f5, Bool.false_and, Bool.or_false, Bool.false_and]
  · rw [LA_one_cons, f6, Bool.false_and]

/-- Before `LIKE` the loop of `valueExpression` stops, and so does the loop
of `predicateExpression` run at a precedence above 2. -/
theorem stops_at_like (k : Token) (s : List Token) (hk : k.type = K_LIKE) {q : Nat}
    (hq : 2 < q) : StopsValue (k :: s) ∧ StopsPredicateAt q (k :: s) := by
  refine ⟨⟨by rw [LA_one_cons, hk]; rfl, by rw [LA_one_cons, hk]; rfl⟩, ?_, ?_, ?_, ?_⟩
  · rw [LA_one_cons, hk]; rfl
  · rw [precpred_of_lt hq, Bool.and_false]
  · simp only [inAhead, LA_one_cons, hk]
    rfl
  · rw [LA_one_cons, hk]; rfl

/-- A value operand read by `predicateExpression` at precedence `q`, before
tokens at which its loops stop. -/
theorem predicate_at {n : Nat} {x : List Token} {vx : ParseTree}
    (hx : valueExpression n 0 x = .ok (vx, [])) {t : List Token} (hv : StopsValue t) {q : Nat}
    (hq : StopsPredicateAt q t) {m : Nat} (hm : n + 2 ≤ m) :
    predicateExpression m q (x ++ t) = .ok (.rule RulePredicateExpression [vx], t) := by
  obtain ⟨m, rfl⟩ : ∃ j, m = j + 2 := ⟨m - 2, by omega⟩
  simp only [predicateExpression]
  rw [value_append hx hv (by omega : n ≤ m + 1), ok_bind]
  exact predicateExpressionLoop_halt hq m _

/-- One turn of the loop of `predicateExpression` through its comparison
alternative, up to the right operand. -/
theorem predicateExpressionLoop_comparison (n : Nat) {p : Nat} (hp : p ≤ 3) (ctx : ParseTree)
    (e : Token) (he : comparisonOperatorSet e.type = true) (s : List Token) :
    predicateExpressionLoop (n + 1) p ctx (e :: s)
      = predicateExpression n 4 s >>= fun r =>
          predicateExpressionLoop n p (.rule RulePredicateExpression
            [ctx, .rule RuleComparisonOperator [.terminal e], r.1]) r.2 := by
  have h21 : adaptivePredict 21 p (e :: s) = some 1 := by
    unfold adaptivePredict
    simp only [Nat.reduceEqDiff, ↓reduceIte, LA_one_cons, he, precpred_of_le hp, Bool.and_self,
      Bool.true_or]
  have h20 : adaptivePredict 20 p (e :: s) = some 1 := by
    unfold adaptivePredict
    simp only [Nat.reduceEqDiff, ↓reduceIte, LA_one_cons, he, precpred_of_le hp, Bool.and_self]
  simp only [predicateExpressionLoop, h21, h20, loop_guard_one, precpred_of_le hp]
  simp only [beq_self_eq_true, Bool.not_true, Bool.false_eq_true, ↓reduceIte]
  rw [comparisonOperator_cons, if_pos he, ok_bind]

/-- One turn of the loop: a comparison operator and a value as its right
operand, before tokens that the right operand does not take. -/
theorem predLoop_comparison_step {n : Nat} {b : List Token} {vb : ParseTree}
    (hb : valueExpression n 0 b = .ok (vb, [])) (e : Token)
    (he : comparisonOperatorSet e.type = true) {p : Nat} (hp : p ≤ 3) (ctx : ParseTree)
    {rest : List Token} (hv : StopsValue rest) (hq : StopsPredicateAt 4 rest) {m : Nat}
    (hm : n + 2 ≤ m) :
    predicateExpressionLoop (m + 1) p ctx (e :: (b ++ rest))
      = predicateExpressionLoop m p (.rule RulePredicateExpression
          [ctx, .rule RuleComparisonOperator [.terminal e],
            .rule RulePredicateExpression [vb]]) rest := by
  rw [predicateExpressionLoop_comparison m hp ctx e he, predicate_at hb hv hq hm, ok_bind]

/-- One turn of the loop: `LIKE` and a value as its right operand, before
tokens that the right operand does not take. -/
theorem predLoop_like_step {n : Nat} {b : List Token} {vb : ParseTree}
    (hb : valueExpression n 0 b = .ok (vb, [])) (k : Token) (hk : k.type = K_LIKE) {p : Nat}
    (hp : p ≤ 2) (ctx : ParseTree) {rest : List Token} (hv : StopsValue rest)
    (hq : StopsPredicateAt 3 rest) {m : Nat} (hm : n + 2 ≤ m) :
    predicateExpressionLoop (m + 1) p ctx (k :: (b ++ rest))
      = predicateExpressionLoop m p (.rule RulePredicateExpression
          [ctx, .terminal k, .rule RulePredicateExpression [vb]]) rest := by
  have hmod : exactMatchModifierSet (LA 1 (b ++ rest)) = false := by
    rw [LA_one_append (nonempty_of_value hb)]
    exact modifier_false_of_startsValue (startsValueExpression_of_ok hb)
  have := predicateExpressionLoop_like m hp ctx (optionalToken_nil notOperatorSet) k hk
    (optionalToken_nil exactMatchModifierSet) (b ++ rest) hmod
  rw [List.nil_append, List.nil_append] at this
  rw [this, predicate_at hb hv hq hm, ok_bind]
  rfl

/-- Rule `predicateExpression` on a value operand: the loop starts on the
predicate of the operand. -/
theorem predicate_start {n : Nat} {x : List Token} {vx : ParseTree}
    (hx : valueExpression n 0 x = .ok (vx, [])) {t : List Token} (hv : StopsValue t) (q : Nat)
    {m : Nat} (hm : n ≤ m) :
    predicateExpression (m + 1) q (x ++ t)
      = predicateExpressionLoop m q (.rule RulePredicateExpression [vx]) t := by
  simp only [predicateExpression]
  rw [value_append hx hv hm, ok_bind]

/-- One turn of the loop through `LIKE` without negation and modifier, up to
the right operand. -/
theorem predicateExpressionLoop_like_plain (n : Nat) {p : Nat} (hp : p ≤ 2) (ctx : ParseTree)
    (k : Token) (hk : k.type = K_LIKE) (s : List Token)
    (hs : exactMatchModifierSet (LA 1 s) = false) :
    predicateExpressionLoop (n + 1) p ctx (k :: s)
      = predicateExpression n 3 s >>= fun r =>
          predicateExpressionLoop n p (.rule RulePredicateExpression
            [ctx, .terminal k, r.1]) r.2 := by
  have := predicateExpressionLoop_like n hp ctx (optionalToken_nil notOperatorSet) k hk
    (optionalToken_nil exactMatchModifierSet) s hs
  rw [List.nil_append, List.nil_append] at this
  rw [this]
  rfl

/-- The null test on a value operand, read at a precedence that admits it. -/
theorem predicate_is_at {n : Nat} {b : List Token} {vb : ParseTree}
    (hb : valueExpression n 0 b = .ok (vb, [])) (k nl : Token) (hk : k.type = K_IS)
    (hnl : nl.type = K_NULL) {q : Nat} (hq : q ≤ 4) {rest : List Token}
    (hrest : StopsPredicateAt q rest) {m : Nat} (hm : n + 3 ≤ m) :
    predicateExpression m q (b ++ k :: nl :: rest)
      = .ok (.rule RulePredicateExpression [.rule RulePredicateExpression [vb], .terminal k,
          .terminal nl], rest) := by
  obtain ⟨m, rfl⟩ : ∃ j, m = j + 3 := ⟨m - 3, by omega⟩
  have hstop : StopsValue (k :: nl :: rest) :=
    ⟨by rw [LA_one_cons, hk]; rfl, by rw [LA_one_cons, hk]; rfl⟩
  have hstep := predicateExpressionLoop_is (m + 1) hq (.rule RulePredicateExpression [vb]) k hk
    (optionalToken_nil notOperatorSet) nl hnl rest
  rw [List.nil_append] at hstep
  rw [predicate_start hb hstop q (by omega : n ≤ m + 2), hstep]
  exact predicateExpressionLoop_halt hrest m _

/-- The IN predicate on a value operand, read at a precedence that admits
it. -/
theorem predicate_in_at {n : Nat} {b : List Token} {vb : ParseTree}
    (hb : valueExpression n 0 b = .ok (vb, [])) (k lp rp : Token) (hk : k.type = K_IN)
    (hlp : lp.type = T__4) (hrp : rp.type = T__5) {args : List Token}
    (hargs : ExpressionsShape args) {q : Nat} (hq : q ≤ 5) {rest : List Token}
    (hrest : StopsPredicateAt q rest) :
    ∃ fuel children, ∀ m, fuel ≤ m →
      predicateExpression m q (b ++ k :: lp :: (args ++ rp :: rest))
        = .ok (.rule RulePredicateExpression [.rule RulePredicateExpression [vb], .terminal k,
            .terminal lp, .rule RuleExpressionList children, .terminal rp], rest) := by
  obtain ⟨fl, children, hl⟩ := expressionList_of_shape hargs
  refine ⟨n + fl + 3, children, fun m hm => ?_⟩
  obtain ⟨m, rfl⟩ : ∃ j, m = j + 3 := ⟨m - 3, by omega⟩
  have hstop : StopsValue (k :: lp :: (args ++ rp :: rest)) :=
    ⟨by rw [LA_one_cons, hk]; rfl, by rw [LA_one_cons, hk]; rfl⟩
  have hstep := predicateExpressionLoop_in (m + 1) hq (.rule RulePredicateExpression [vb])
    (optionalToken_nil notOperatorSet) k hk (optionalToken_nil exactMatchModifierSet) lp hlp
    (args ++ rp :: rest)
  rw [List.nil_append, List.nil_append] at hstep
  rw [predicate_start hb hstop q (by omega : n ≤ m + 2), hstep,
    expressionList_append hl (stopsList_rparen rp rest hrp) (by omega : fl ≤ m + 1), ok_bind]
  simp only []
  rw [matchToken_cons, if_pos hrp, ok_bind]
  exact predicateExpressionLoop_halt hrest m _

/-- `a e1 b e2 c` with comparison operators groups to the left. -/
theorem predicate_cmp_cmp {na nb nc : Nat} {a b c : List Token} {va vb vc : ParseTree}
    (ha : valueExpression na 0 a = .ok (va, [])) (hb : valueExpression nb 0 b = .ok (vb, []))
    (hc : valueExpression nc 0 c = .ok (vc, [])) (e1 e2 : Token)
    (h1 : comparisonOperatorSet e1.type = true) (h2 : comparisonOperatorSet e2.type = true)
    {rest : List Token} (hrest : StopsPredicate rest) {m : Nat} (hm : na + nb + nc + 5 ≤ m) :
    predicateExpression m 0 (a ++ e1 :: (b ++ e2 :: (c ++ rest)))
      = .ok (.rule RulePredicateExpression [.rule RulePredicateExpression
          [.rule RulePredicateExpression [va],
            .rule RuleComparisonOperator [.terminal e1], .rule RulePredicateExpression [vb]],
          .rule RuleComparisonOperator [.terminal e2],
          .rule RulePredicateExpression [vc]], rest) := by
  obtain ⟨m, rfl⟩ : ∃ j, m = j + 4 := ⟨m - 4, by omega⟩
  rw [predicate_start ha (stops_at_comparison e1 _ h1).1 0 (by omega : na ≤ m + 3),
    predLoop_comparison_step hb e1 h1 (Nat.zero_le 3) _ (stops_at_comparison e2 _ h2).1
      (stops_at_comparison e2 _ h2).2 (by omega : nb + 2 ≤ m + 2),
    predLoop_comparison_step hc e2 h2 (Nat.zero_le 3) _ hrest.1
      (stopsPredicateAt_of_stops hrest 4) (by omega : nc + 2 ≤ m + 1)]
  exact predicateExpressionLoop_stop hrest m 0 _

/-- `a e b IS NULL`: the null test binds to `b`. -/
theorem predicate_cmp_is {na nb : Nat} {a b : List Token} {va vb : ParseTree}
    (ha : valueExpression na 0 a = .ok (va, [])) (hb : valueExpression nb 0 b = .ok (vb, []))
    (e k nl : Token) (he : comparisonOperatorSet e.type = true) (hk : k.type = K_IS)
    (hnl : nl.type = K_NULL) {rest : List Token} (hrest : StopsPredicate rest) {m : Nat}
    (hm : na + nb + 5 ≤ m) :
    predicateExpression m 0 (a ++ e :: (b ++ k :: nl :: rest))
      = .ok (.rule RulePredicateExpression [.rule RulePredicateExpression [va],
          .rule RuleComparisonOperator [.terminal e],
          .rule RulePredicateExpression [.rule RulePredicateExpression [vb], .terminal k,
            .terminal nl]], rest) := by
  obtain ⟨m, rfl⟩ : ∃ j, m = j + 5 := ⟨m - 5, by omega⟩
  rw [predicate_start ha (stops_at_comparison e _ he).1 0 (by omega : na ≤ m + 4),
    predicateExpressionLoop_comparison (m + 3) (Nat.zero_le 3) _ e he,
    predicate_is_at hb k nl hk hnl (Nat.le_refl 4) (stopsPredicateAt_of_stops hrest 4)
      (by omega : nb + 3 ≤ m + 3), ok_bind]
  exact predicateExpressionLoop_stop hrest (m + 2) 0 _

/-- `a e b IN ( list )`: the IN predicate binds to `b`. -/
theorem predicate_cmp_in {na nb : Nat} {a b : List Token} {va vb : ParseTree}
    (ha : valueExpression na 0 a = .ok (va, [])) (hb : valueExpression nb 0 b = .ok (vb, []))
    (e k lp rp : Token) (he : comparisonOperatorSet e.type = true) (hk : k.type = K_IN)
    (hlp : lp.type = T__4) (hrp : rp.type = T__5) {args : List Token}
    (hargs : ExpressionsShape args) {rest : List Token} (hrest : StopsPredicate rest) :
    ∃ fuel children, ∀ m, fuel ≤ m →
      predicateExpression m 0 (a ++ e :: (b ++ k :: lp :: (args ++ rp :: rest)))
        = .ok (.rule RulePredicateExpression [.rule RulePredicateExpression [va],
            .rule RuleComparisonOperator [.terminal e],
            .rule RulePredicateExpression [.rule RulePredicateExpression [vb], .terminal k,
              .terminal lp, .rule RuleExpressionList children, .terminal rp]], rest) := by
  obtain ⟨fuel, children, h⟩ := predicate_in_at hb k lp rp hk hlp hrp hargs (Nat.le_succ 4)
    (stopsPredicateAt_of_stops hrest 4)
  refine ⟨na + fuel + 3, children, fun m hm => ?_⟩
  obtain ⟨m, rfl⟩ : ∃ j, m = j + 3 := ⟨m - 3, by omega⟩
  rw [predicate_start ha (stops_at_comparison e _ he).1 0 (by omega : na ≤ m + 2),
    predicateExpressionLoop_comparison (m + 1) (Nat.zero_le 3) _ e he,
    h (m + 1) (by omega), ok_bind]
  exact predicateExpressionLoop_stop hrest m 0 _

/-- `a e b LIKE c`: `LIKE` applies to the comparison. -/
theorem predicate_cmp_like {na nb nc : Nat} {a b c : List Token} {va vb vc : ParseTree}
    (ha : valueExpression na 0 a = .ok (va, [])) (hb : valueExpression nb 0 b = .ok (vb, []))
    (hc : valueExpression nc 0 c = .ok (vc, [])) (e k : Token)
    (he : comparisonOperatorSet e.type = true) (hk : k.type = K_LIKE)
    {rest : List Token} (hrest : StopsPredicate rest) {m : Nat} (hm : na + nb + nc + 5 ≤ m) :
    predicateExpression m 0 (a ++ e :: (b ++ k :: (c ++ rest)))
      = .ok (.rule RulePredicateExpression [.rule RulePredicateExpression
          [.rule RulePredicateExpression [va],
            .rule RuleComparisonOperator [.terminal e], .rule RulePredicateExpression [vb]],
          .terminal k, .rule RulePredicateExpression [vc]], rest) := by
  obtain ⟨m, rfl⟩ : ∃ j, m = j + 4 := ⟨m - 4, by omega⟩
  rw [predicate_start ha (stops_at_comparison e _ he).1 0 (by omega : na ≤ m + 3),
    predLoop_comparison_step hb e he (Nat.zero_le 3) _ (stops_at_like k _ hk (q := 4)
      (by decide)).1 (stops_at_like k _ hk (by decide)).2 (by omega : nb + 2 ≤ m + 2),
    predLoop_like_step hc k hk (Nat.zero_le 2) _ hrest.1
      (stopsPredicateAt_of_stops hrest 3) (by omega : nc + 2 ≤ m + 1)]
  exact predicateExpressionLoop_stop hrest m 0 _

/-- `a LIKE b e c`: the comparison is the right operand of `LIKE`. -/
theorem predicate_like_cmp {na nb nc : Nat} {a b c : List Token} {va vb vc : ParseTree}
    (ha : valueExpression na 0 a = .ok (va, [])) (hb : valueExpression nb 0 b = .ok (vb, []))
    (hc : valueExpression nc 0 c = .ok (vc, [])) (k e : Token) (hk : k.type = K_LIKE)
    (he : comparisonOperatorSet e.type = true)
    {rest : List Token} (hrest : StopsPredicate rest) {m : Nat} (hm : na + nb + nc + 6 ≤ m) :
    predicateExpression m 0 (a ++ k :: (b ++ e :: (c ++ rest)))
      = .ok (.rule RulePredicateExpression [.rule RulePredicateExpression [va], .terminal k,
          .rule RulePredicateExpression [.rule RulePredicateExpression [vb],
            .rule RuleComparisonOperator [.terminal e],
            .rule RulePredicateExpression [vc]]], rest) := by
  obtain ⟨m, rfl⟩ : ∃ j, m = j + 6 := ⟨m - 6, by omega⟩
  have hmod : exactMatchModifierSet (LA 1 (b ++ e :: (c ++ rest))) = false := by
    rw [LA_one_append (nonempty_of_value hb)]
    exact modifier_false_of_startsValue (startsValueExpression_of_ok hb)
  rw [predicate_start ha (stops_at_like k _ hk (q := 4) (by decide)).1 0
      (by omega : na ≤ m + 5),
    predicateExpressionLoop_like_plain (m + 4) (Nat.zero_le 2) _ k hk _ hmod,
    predicate_start hb (stops_at_comparison e _ he).1 3 (by omega : nb ≤ m + 3),
    predLoop_comparison_step hc e he (Nat.le_refl 3) _ hrest.1
      (stopsPredicateAt_of_stops hrest 4) (by omega : nc + 2 ≤ m + 2),
    predicateExpressionLoop_halt (stopsPredicateAt_of_stops hrest 3) (m + 1) _, ok_bind]
  exact predicateExpressionLoop_stop hrest (m + 3) 0 _

/-- `a LIKE b LIKE c` groups to the left. -/
theorem predicate_like_like {na nb nc : Nat} {a b c : List Token} {va vb vc : ParseTree}
    (ha : valueExpression na 0 a = .ok (va, [])) (hb : valueExpression nb 0 b = .ok (vb, []))
    (hc : valueExpression nc 0 c = .ok (vc, [])) (k1 k2 : Token) (h1 : k1.type = K_LIKE)
    (h2 : k2.type = K_LIKE)
    {rest : List Token} (hrest : StopsPredicate rest) {m : Nat} (hm : na + nb + nc + 5 ≤ m) :
    predicateExpression m 0 (a ++ k1 :: (b ++ k2 :: (c ++ rest)))
      = .ok (.rule RulePredicateExpression [.rule RulePredicateExpression
          [.rule RulePredicateExpression [va], .terminal k1,
            .rule RulePredicateExpression [vb]],
          .terminal k2, .rule RulePredicateExpression [vc]], rest) := by
  obtain ⟨m, rfl⟩ : ∃ j, m = j + 4 := ⟨m - 4, by omega⟩
  rw [predicate_start ha (stops_at_like k1 _ h1 (q := 4) (by decide)).1 0
      (by omega : na ≤ m + 3),
    predLoop_like_step hb k1 h1 (Nat.zero_le 2) _ (stops_at_like k2 _ h2 (q := 3)
      (by decide)).1 (stops_at_like k2 _ h2 (by decide)).2 (by omega : nb + 2 ≤ m + 2),
    predLoop_like_step hc k2 h2 (Nat.zero_le 2) _ hrest.1
      (stopsPredicateAt_of_stops hrest 3) (by omega : nc + 2 ≤ m + 1)]
  exact predicateExpressionLoop_stop hrest m 0 _

/-- C26. The operators of `predicateExpression` are ranked IN (5) above IS
NULL (4) above comparison (3) above LIKE (2), and comparison and LIKE
associate to the left.  Let `a`, `b`, `c` be values with trees `va`, `vb`,
`vc`, `e1`, `e2` comparison operator tokens and `k1`, `k2` `LIKE` tokens.
Given enough fuel and whatever follows that continues no predicate,
`predicateExpression` returns: on `a e1 b e2 c` the node of `e2` over the
node of `e1`; on `a e1 b IS NULL` the node of `e1` over `a` and the null
test on `b`; on `a e1 b IN ( list )` the node of `e1` over `a` and the IN
predicate on `b`; on `a e1 b LIKE c` the LIKE node over the node of `e1`; on
`a LIKE b e1 c` the LIKE node over `a` and the node of `e1` on `b` and `c`;
on `a LIKE b LIKE c` the second LIKE node over the first.  The precedence
predicates of the four alternatives hold exactly up to the precedences 3, 2,
5 and 4. -/
theorem predicateExpression_operator_ranks {na nb nc : Nat} {a b c : List Token}
    {va vb vc : ParseTree} (ha : valueExpression na 0 a = .ok (va, []))
    (hb : valueExpression nb 0 b = .ok (vb, [])) (hc : valueExpression nc 0 c = .ok (vc, []))
    (e1 e2 k1 k2 ki nl kin lp rp : Token) (he1 : comparisonOperatorSet e1.type = true)
    (he2 : comparisonOperatorSet e2.type = true) (hk1 : k1.type = K_LIKE)
    (hk2 : k2.type = K_LIKE) (hki : ki.type = K_IS) (hnl : nl.type = K_NULL)
    (hkin : kin.type = K_IN) (hlp : lp.type = T__4) (hrp : rp.type = T__5) :
    (∀ rest, StopsPredicate rest → ∀ m, na + nb + nc + 5 ≤ m →
        predicateExpression m 0 (a ++ e1 :: (b ++ e2 :: (c ++ rest)))
          = .ok (.rule RulePredicateExpression [.rule RulePredicateExpression
              [.rule RulePredicateExpression [va],
                .rule RuleComparisonOperator [.terminal e1],
                .rule RulePredicateExpression [vb]],
              .rule RuleComparisonOperator [.terminal e2],
              .rule RulePredicateExpression [vc]], rest))
    ∧ (∀ rest, StopsPredicate rest → ∀ m, na + nb + 5 ≤ m →
        predicateExpression m 0 (a ++ e1 :: (b ++ ki :: nl :: rest))
          = .ok (.rule RulePredicateExpression [.rule RulePredicateExpression [va],
              .rule RuleComparisonOperator [.terminal e1],
              .rule RulePredicateExpression [.rule RulePredicateExpression [vb],
                .terminal ki, .terminal nl]], rest))
    ∧ (∀ args rest, ExpressionsShape args → StopsPredicate rest →
        ∃ fuel children, ∀ m, fuel ≤ m →
          predicateExpression m 0 (a ++ e1 :: (b ++ kin :: lp :: (args ++ rp :: rest)))
            = .ok (.rule RulePredicateExpression [.rule RulePredicateExpression [va],
                .rule RuleComparisonOperator [.terminal e1],
                .rule RulePredicateExpression [.rule RulePredicateExpression [vb],
                  .terminal kin, .terminal lp, .rule RuleExpressionList children,
                  .terminal rp]], rest))
    ∧ (∀ rest, StopsPredicate rest → ∀ m, na + nb + nc + 5 ≤ m →
        predicateExpression m 0 (a ++ e1 :: (b ++ k1 :: (c ++ rest)))
          = .ok (.rule RulePredicateExpression [.rule RulePredicateExpression
              [.rule RulePredicateExpression [va],
                .rule RuleComparisonOperator [.terminal e1],
                .rule RulePredicateExpression [vb]],
              .terminal k1, .rule RulePredicateExpression [vc]], rest))
    ∧ (∀ rest, StopsPredicate rest → ∀ m, na + nb + nc + 6 ≤ m →
        predicateExpression m 0 (a ++ k1 :: (b ++ e1 :: (c ++ rest)))
          = .ok (.rule RulePredicateExpression [.rule RulePredicateExpression [va],
              .terminal k1,
              .rule RulePredicateExpression [.rule RulePredicateExpression [vb],
                .rule RuleComparisonOperator [.terminal e1],
                .rule RulePredicateExpression [vc]]], rest))
    ∧ (∀ rest, StopsPredicate rest → ∀ m, na + nb + nc + 5 ≤ m →
        predicateExpression m 0 (a ++ k1 :: (b ++ k2 :: (c ++ rest)))
          = .ok (.rule RulePredicateExpression [.rule RulePredicateExpression
              [.rule RulePredicateExpression [va], .terminal k1,
                .rule RulePredicateExpression [vb]],
              .terminal k2, .rule RulePredicateExpression [vc]], rest))
    ∧ (∀ p, sempred p 10 1 = decide (p ≤ 3) ∧ sempred p 10 2 = decide (p ≤ 2)
        ∧ sempred p 10 3 = decide (p ≤ 5) ∧ sempred p 10 4 = decide (p ≤ 4)) :=
  ⟨fun _ hrest _ hm => predicate_cmp_cmp ha hb hc e1 e2 he1 he2 hrest hm,
    fun _ hrest _ hm => predicate_cmp_is ha hb e1 ki nl he1 hki hnl hrest hm,
    fun _ _ hargs hrest => predicate_cmp_in ha hb e1 kin lp rp he1 hkin hlp hrp hargs hrest,
    fun _ hrest _ hm => predicate_cmp_like ha hb hc e1 k1 he1 hk1 hrest hm,
    fun _ hrest _ hm => predicate_like_cmp ha hb hc k1 e1 hk1 he1 hrest hm,
    fun _ hrest _ hm => predicate_like_like ha hb hc k1 k2 hk1 hk2 hrest hm,
    fun _ => ⟨rfl, rfl, rfl, rfl⟩⟩

/-- C26, witness: on column names, `a = b = c` is `(a = b) = c`, `a = b IS
NULL` is `a = (b IS NULL)`, `a = b LIKE c` is `(a = b) LIKE c` and `a LIKE b
= c` is `a LIKE (b = c)`. -/
theorem predicateExpression_operator_ranks_witness :
    predicateExpression 11 0 (toks [IDENTIFIER, T__13, IDENTIFIER, T__13, IDENTIFIER])
        = .ok (.rule RulePredicateExpression [.rule RulePredicateExpression
            [.rule RulePredicateExpression [.rule RuleValueExpression
                [.rule RuleColumnName [.terminal (tok IDENTIFIER)]]],
              .rule RuleComparisonOperator [.terminal (tok T__13)],
              .rule RulePredicateExpression [.rule RuleValueExpression
                [.rule RuleColumnName [.terminal (tok IDENTIFIER)]]]],
            .rule RuleComparisonOperator [.terminal (tok T__13)],
            .rule RulePredicateExpression [.rule RuleValueExpression
              [.rule RuleColumnName [.terminal (tok IDENTIFIER)]]]], [])
    ∧ predicateExpression 9 0 (toks [IDENTIFIER, T__13, IDENTIFIER, K_IS, K_NULL])
        = .ok (.rule RulePredicateExpression [.rule RulePredicateExpression
              [.rule RuleValueExpression [.rule RuleColumnName [.terminal (tok IDENTIFIER)]]],
            .rule RuleComparisonOperator [.terminal (tok T__13)],
            .rule RulePredicateExpression [.rule RulePredicateExpression
                [.rule RuleValueExpression
                  [.rule RuleColumnName [.terminal (tok IDENTIFIER)]]],
              .terminal (tok K_IS), .terminal (tok K_NULL)]], [])
    ∧ predicateExpression 11 0 (toks [IDENTIFIER, T__13, IDENTIFIER, K_LIKE, IDENTIFIER])
        = .ok (.rule RulePredicateExpression [.rule RulePredicateExpression
            [.rule RulePredicateExpression [.rule RuleValueExpression
                [.rule RuleColumnName [.terminal (tok IDENTIFIER)]]],
              .rule RuleComparisonOperator [.terminal (tok T__13)],
              .rule RulePredicateExpression [.rule RuleValueExpression
                [.rule RuleColumnName [.terminal (tok IDENTIFIER)]]]],
            .terminal (tok K_LIKE),
            .rule RulePredicateExpression [.rule RuleValueExpression
              [.rule RuleColumnName [.terminal (tok IDENTIFIER)]]]], [])
    ∧ predicateExpression 12 0 (toks [IDENTIFIER, K_LIKE, IDENTIFIER, T__13, IDENTIFIER])
        = .ok (.rule RulePredicateExpression [.rule RulePredicateExpression
              [.rule RuleValueExpression [.rule RuleColumnName [.terminal (tok IDENTIFIER)]]],
            .terminal (tok K_LIKE),
            .rule RulePredicateExpression [.rule RulePredicateExpression
                [.rule RuleValueExpression
                  [.rule RuleColumnName [.terminal (tok IDENTIFIER)]]],
              .rule RuleComparisonOperator [.terminal (tok T__13)],
              .rule RulePredicateExpression [.rule RuleValueExpression
                [.rule RuleColumnName [.terminal (tok IDENTIFIER)]]]]], []) :=
  have ha : valueExpression 2 0 (toks [IDENTIFIER])
      = .ok (.rule RuleValueExpression [.rule RuleColumnName [.terminal (tok IDENTIFIER)]],
          []) := rfl
  ⟨(predicateExpression_operator_ranks ha ha ha (tok T__13) (tok T__13) (tok K_LIKE)
      (tok K_LIKE) (tok K_IS) (tok K_NULL) (tok K_IN) (tok T__4) (tok T__5) rfl rfl rfl rfl rfl
      rfl rfl rfl rfl).1 [] stopsPredicate_nil 11 (by decide),
    (predicateExpression_operator_ranks ha ha ha (tok T__13) (tok T__13) (tok K_LIKE)
      (tok K_LIKE) (tok K_IS) (tok K_NULL) (tok K_IN) (tok T__4) (tok T__5) rfl rfl rfl rfl rfl
      rfl rfl rfl rfl).2.1 [] stopsPredicate_nil 9 (by decide),
    (predicateExpression_operator_ranks ha ha ha (tok T__13) (tok T__13) (tok K_LIKE)
      (tok K_LIKE) (tok K_IS) (tok K_NULL) (tok K_IN) (tok T__4) (tok T__5) rfl rfl rfl rfl rfl
      rfl rfl rfl rfl).2.2.2.1 [] stopsPredicate_nil 11 (by decide),
    (predicateExpression_operator_ranks ha ha ha (tok T__13) (tok T__13) (tok K_LIKE)
      (tok K_LIKE) (tok K_IS) (tok K_NULL) (tok K_IN) (tok T__4) (tok T__5) rfl rfl rfl rfl rfl
      rfl rfl rfl rfl).2.2.2.2.1 [] stopsPredicate_nil 12 (by decide)⟩

/-! ### A negation token at the start of an expression -/

/-- Two values around a comparison operator. -/
theorem predicate_cmp {na nb : Nat} {a b : List Token} {va vb : ParseTree}
    (ha : valueExpression na 0 a = .ok (va, [])) (hb : valueExpression nb 0 b = .ok (vb, []))
    (e : Token) (he : comparisonOperatorSet e.type = true) {rest : List Token}
    (hrest : StopsPredicate rest) {m : Nat} (hm : na + nb + 4 ≤ m) :
    predicateExpression m 0 (a ++ e :: (b ++ rest))
      = .ok (.rule RulePredicateExpression [.rule RulePredicateExpression [va],
          .rule RuleComparisonOperator [.terminal e], .rule RulePredicateExpression [vb]],
          rest) := by
  obtain ⟨m, rfl⟩ : ∃ j, m = j + 3 := ⟨m - 3, by omega⟩
  rw [predicate_start ha (stops_at_comparison e _ he).1 0 (by omega : na ≤ m + 2),
    predLoop_comparison_step hb e he (Nat.zero_le 3) _ hrest.1
      (stopsPredicateAt_of_stops hrest 4) (by omega : nb + 2 ≤ m + 1)]
  exact predicateExpressionLoop_stop hrest m 0 _

theorem expression_unique {n m p : Nat} {s : List Token} {x y : ParseTree × List Token}
    (h1 : expression n p s = .ok x) (h2 : expression m p s = .ok y) : x = y := by
  rcases Nat.le_total n m with hle | hle
  · have := (allStable n).expr m p s hle (by rw [h1]; simp)
    rw [h1, h2] at this
    exact (Outcome.ok.inj this).symm
  · have := (allStable m).expr n p s hle (by rw [h2]; simp)
    rw [h1, h2] at this
    exact Outcome.ok.inj this

/-- A negation token before an operand of a logical operator, at the start
of an expression. -/
theorem expression_not_operand {n : Nat} {x : List Token} {tx : ParseTree}
    (hx : expression n 3 x = .ok (tx, [])) (z : Token) (hz : notOperatorSet z.type = true)
    {rest : List Token} (hrest : StopsExpression rest) {m : Nat} (hm : n + 2 ≤ m) :
    expression m 0 (z :: (x ++ rest))
      = .ok (.rule RuleExpression [.rule RuleNotOperator [.terminal z], tx], rest) := by
  obtain ⟨m, rfl⟩ : ∃ j, m = j + 2 := ⟨m - 2, by omega⟩
  rw [expression_not_cons (m + 1) 0 z hz, operand_append n hx hrest.1 (by omega : n ≤ m + 1),
    ok_bind]
  exact expressionLoop_stop hrest.2 m 0 _

/-- A negation token before an operand, a logical operator and its right
operand: the negation applies to the first operand only. -/
theorem expression_not_logical {n nq : Nat} {x q : List Token} {tx tq : ParseTree}
    (hx : expression n 3 x = .ok (tx, [])) (hq : expression nq 3 q = .ok (tq, [])) (z l : Token)
    (hz : notOperatorSet z.type = true) (hl : logicalOperatorSet l.type = true)
    {rest : List Token} (hrest : StopsExpression rest) {m : Nat} (hm : n + nq + 3 ≤ m) :
    expression m 0 (z :: (x ++ l :: (q ++ rest)))
      = .ok (.rule RuleExpression [.rule RuleExpression [.rule RuleNotOperator [.terminal z],
          tx], .rule RuleLogicalOperator [.terminal l], tq], rest) := by
  obtain ⟨m, rfl⟩ : ∃ j, m = j + 3 := ⟨m - 3, by omega⟩
  rw [expression_not_cons (m + 2) 0 z hz,
    operand_append n hx (stopsPredicate_logical l _ hl) (by omega : n ≤ m + 2), ok_bind]
  simp only []
  rw [expressionLoop_step hq l hl hrest.1 (Nat.zero_le 2) _ (by omega : nq ≤ m + 1)]
  exact expressionLoop_stop hrest.2 m 0 _

/-- A comparison of two values is an operand of a logical operator, whatever
the first value begins with. -/
theorem operand_of_comparison {a b : List Token} (ha : IsValue a) (hb : IsValue b) (e : Token)
    (he : comparisonOperatorSet e.type = true) :
    ∃ n t, expression n 3 (a ++ e :: b) = .ok (t, []) := by
  obtain ⟨nb, vb, hb⟩ := hb
  refine operand_ok IsValue isValue_nil (fun _ _ => isValue_tail) ?_ a ha
  rintro core ⟨n, v, hv⟩ -
  have := predicate_cmp hv hb e he stopsPredicate_nil (Nat.le_refl _)
  rw [List.append_nil] at this
  exact ⟨_, _, this⟩

/-- C28. A `NOT` or `'!'` token at the start of an expression is the
`notOperator` of the expression: decision 13 takes alternative 1 on it, at
every precedence and whatever follows, although the token is a unary operator
too.  Its operand is the whole following predicate and ends before the next
logical operator.  Let `a`, `b` be values with trees `va`, `vb`, `e` a
comparison operator token, `E` the tree of the tokens `a e b` read as an
operand of a logical operator (there is one for all values, and it is the
expression node over the comparison of `va` and `vb` when `a` begins with no
negation token), and `q` an operand with tree `tq`.  Given enough fuel,
`expression` returns on `z a e b` the node with the children `notOperator`
and `E`, and on `z a e b l q`, `l` a logical operator token, the node of `l`
over that node and `tq`.  After a comparison operator (`a e z b`) the token
is read by `valueExpression` as a unary operator: the right operand of `e`
is the value of the tokens `z b`, the unary node of `z` on `b` where `b` is
a unary operand. -/
theorem expression_leading_not {na nb nE nq : Nat} {a b q : List Token} {e : Token}
    {va vb E tq : ParseTree} (ha : valueExpression na 0 a = .ok (va, []))
    (hb : valueExpression nb 0 b = .ok (vb, []))
    (hE : expression nE 3 (a ++ e :: b) = .ok (E, []))
    (hq : expression nq 3 q = .ok (tq, [])) (z l : Token)
    (hz : notOperatorSet z.type = true) (he : comparisonOperatorSet e.type = true)
    (hl : logicalOperatorSet l.type = true) :
    (∀ p s, adaptivePredict 13 p (z :: s) = some 1)
    ∧ unaryOperatorSet z.type = true
    ∧ (∀ x y, IsValue x → IsValue y → ∃ n t, expression n 3 (x ++ e :: y) = .ok (t, []))
    ∧ (notOperatorSet (LA 1 a) = false →
        E = .rule RuleExpression [.rule RulePredicateExpression
          [.rule RulePredicateExpression [va], .rule RuleComparisonOperator [.terminal e],
            .rule RulePredicateExpression [vb]]])
    ∧ (∀ rest, StopsExpression rest → ∀ m, nE + 2 ≤ m →
        expression m 0 (z :: (a ++ e :: (b ++ rest)))
          = .ok (.rule RuleExpression [.rule RuleNotOperator [.terminal z], E], rest))
    ∧ (∀ rest, StopsExpression rest → ∀ m, nE + nq + 3 ≤ m →
        expression m 0 (z :: (a ++ e :: (b ++ l :: (q ++ rest))))
          = .ok (.rule RuleExpression [.rule RuleExpression
              [.rule RuleNotOperator [.terminal z], E],
              .rule RuleLogicalOperator [.terminal l], tq], rest))
    ∧ (∃ vw, valueExpression (nb + 1) 0 (z :: b) = .ok (vw, [])
        ∧ (∀ n4 v4, valueExpression n4 4 b = .ok (v4, []) →
            vw = .rule RuleValueExpression [.rule RuleUnaryOperator [.terminal z], v4])
        ∧ ∀ rest, StopsPredicate rest → ∀ m, na + nb + 5 ≤ m →
            predicateExpression m 0 (a ++ e :: z :: (b ++ rest))
              = .ok (.rule RulePredicateExpression [.rule RulePredicateExpression [va],
                  .rule RuleComparisonOperator [.terminal e],
                  .rule RulePredicateExpression [vw]], rest)) := by
  refine ⟨?_, (notOperator_dispatch hz).2.2.2.2.1,
    fun x y hx hy => operand_of_comparison hx hy e he, ?_, ?_, ?_, ?_⟩
  · intro p s
    unfold adaptivePredict
    simp only [Nat.reduceEqDiff, ↓reduceIte, LA_one_cons, hz]
  · intro hn
    have h1 := predicate_cmp ha hb e he stopsPredicate_nil (Nat.le_refl _)
    rw [List.append_nil] at h1
    have h2 := expression_of_predicate h1
      (by rw [LA_one_append (nonempty_of_value ha)]; exact hn) rfl 3
    exact (Prod.mk.inj (expression_unique hE h2)).1
  · intro rest hrest m hm
    have := expression_not_operand hE z hz hrest hm
    rwa [List.append_assoc, List.cons_append] at this
  · intro rest hrest m hm
    have := expression_not_logical hE hq z l hz hl hrest hm
    rwa [List.append_assoc, List.cons_append] at this
  · obtain ⟨vw, hvw⟩ := value_not_cons hb z hz
    refine ⟨vw, hvw, ?_, ?_⟩
    · intro n4 v4 h4
      exact (Prod.mk.inj (value_unique hvw (value_not_operand h4 z hz))).1
    · intro rest hrest m hm
      exact predicate_cmp ha hvw e he hrest (by omega)

/-- C28, witness: on column names, `NOT a = b` is `NOT (a = b)` and `NOT a =
b AND q` is `(NOT (a = b)) AND q`. -/
theorem expression_leading_not_witness :
    expression 8 0 (toks [K_NOT, IDENTIFIER, T__13, IDENTIFIER])
        = .ok (.rule RuleExpression [.rule RuleNotOperator [.terminal (tok K_NOT)],
            .rule RuleExpression [.rule RulePredicateExpression
              [.rule RulePredicateExpression [.rule RuleValueExpression
                  [.rule RuleColumnName [.terminal (tok IDENTIFIER)]]],
                .rule RuleComparisonOperator [.terminal (tok T__13)],
                .rule RulePredicateExpression [.rule RuleValueExpression
                  [.rule RuleColumnName [.terminal (tok IDENTIFIER)]]]]]], [])
    ∧ expression 13 0 (toks [K_NOT, IDENTIFIER, T__13, IDENTIFIER, K_AND, IDENTIFIER])
        = .ok (.rule RuleExpression [
            .rule RuleExpression [.rule RuleNotOperator [.terminal (tok K_NOT)],
              .rule RuleExpression [.rule RulePredicateExpression
                [.rule RulePredicateExpression [.rule RuleValueExpression
                    [.rule RuleColumnName [.terminal (tok IDENTIFIER)]]],
                  .rule RuleComparisonOperator [.terminal (tok T__13)],
                  .rule RulePredicateExpression [.rule RuleValueExpression
                    [.rule RuleColumnName [.terminal (tok IDENTIFIER)]]]]]],
            .rule RuleLogicalOperator [.terminal (tok K_AND)],
            .rule RuleExpression [.rule RulePredicateExpression [.rule RuleValueExpression
              [.rule RuleColumnName [.terminal (tok IDENTIFIER)]]]]], []) :=
  have ha : valueExpression 2 0 (toks [IDENTIFIER])
      = .ok (.rule RuleValueExpression [.rule RuleColumnName [.terminal (tok IDENTIFIER)]],
          []) := rfl
  have hE : expression 6 3 (toks [IDENTIFIER] ++ tok T__13 :: toks [IDENTIFIER])
      = .ok (.rule RuleExpression [.rule RulePredicateExpression
            [.rule RulePredicateExpression [.rule RuleValueExpression
                [.rule RuleColumnName [.terminal (tok IDENTIFIER)]]],
              .rule RuleComparisonOperator [.terminal (tok T__13)],
              .rule RulePredicateExpression [.rule RuleValueExpression
                [.rule RuleColumnName [.terminal (tok IDENTIFIER)]]]]], []) := rfl
  have hq : expression 4 3 (toks [IDENTIFIER])
      = .ok (.rule RuleExpression [.rule RulePredicateExpression [.rule RuleValueExpression
          [.rule RuleColumnName [.terminal (tok IDENTIFIER)]]]], []) := rfl
  ⟨(expression_leading_not ha ha hE hq (tok K_NOT) (tok K_AND) rfl rfl rfl).2.2.2.2.1 []
      stopsList_nil.1 8 (by decide),
    (expression_leading_not ha ha hE hq (tok K_NOT) (tok K_AND) rfl rfl rfl).2.2.2.2.2.1 []
      stopsList_nil.1 13 (by decide)⟩

/-! ### The filter driver -/

theorem scanRows_cons_match {Row : Type} {evaluate : Row → Evaluation} {row : Row}
    (h : evaluate row = .value (.boolean true)) (rest : List Row) :
    scanRows evaluate (row :: rest) = row :: scanRows evaluate rest := by
  simp only [scanRows, h]

theorem scanRows_cons_other {Row : Type} {evaluate : Row → Evaluation} {row : Row}
    (h : evaluate row ≠ .value (.boolean true)) (rest : List Row) :
    scanRows evaluate (row :: rest) = scanRows evaluate rest := by
  simp only [scanRows]
  split
  · next heq => exact absurd heq h
  · rfl
  · rfl

theorem scanRows_eq_filter {Row : Type} (evaluate : Row → Evaluation) (table : List Row) :
    scanRows evaluate table
      = table.filter (fun row => decide (evaluate row = .value (.boolean true))) := by
  induction table with
  | nil => rfl
  | cons row rest ih =>
    by_cases h : evaluate row = .value (.boolean true)
    · rw [scanRows_cons_match h, List.filter_cons_of_pos (by simpa using h), ih]
    · rw [scanRows_cons_other h, List.filter_cons_of_neg (by simpa using h), ih]

theorem scanRows_append {Row : Type} (evaluate : Row → Evaluation) (pre post : List Row) :
    scanRows evaluate (pre ++ post) = scanRows evaluate pre ++ scanRows evaluate post := by
  rw [scanRows_eq_filter, scanRows_eq_filter, scanRows_eq_filter, List.filter_append]

theorem Select_plain {Row : Type} (evaluate : Row → Evaluation) (name : String)
    (table : List Row) :
    Select evaluate { tableName := name } table = scanRows evaluate table := rfl

/-- C22. For every table and predicate, `Select` on a FILTER statement
without TOP and ORDER BY returns exactly the rows of the table for which the
predicate evaluates to Boolean true, in storage order: the result is the
table filtered by that test, a row is in it if and only if it is a row of
the table with that evaluation, and it is a sublist of the table.  A row
whose predicate evaluates to false, to Undefined or to a value of another
type, or raises an evaluation error, is excluded, and the scan goes on with
the rows after it. -/
theorem Select_filter_where {Row : Type} (evaluate : Row → Evaluation) (name : String)
    (table : List Row) :
    Select evaluate { tableName := name } table
        = table.filter (fun row => decide (evaluate row = .value (.boolean true)))
    ∧ (∀ row, row ∈ Select evaluate { tableName := name } table
        ↔ (row ∈ table ∧ evaluate row = .value (.boolean true)))
    ∧ List.Sublist (Select evaluate { tableName := name } table) table
    ∧ (∀ pre row post, evaluate row = .value (.boolean false)
          ∨ evaluate row = .value .undefined
          ∨ (∃ message, evaluate row = .evaluationError message)
          ∨ evaluate row ≠ .value (.boolean true) →
        Select evaluate { tableName := name } (pre ++ row :: post)
          = Select evaluate { tableName := name } pre
            ++ Select evaluate { tableName := name } post)
    ∧ (∀ pre row post, evaluate row = .value (.boolean true) →
        Select evaluate { tableName := name } (pre ++ row :: post)
          = Select evaluate { tableName := name } pre
            ++ row :: Select evaluate { tableName := name } post) := by
  refine ⟨?_, ?_, ?_, ?_, ?_⟩
  · rw [Select_plain, scanRows_eq_filter]
  · intro row
    rw [Select_plain, scanRows_eq_filter, List.mem_filter, decide_eq_true_eq]
  · rw [Select_plain, scanRows_eq_filter]
    exact List.filter_sublist _
  · intro pre row post h
    have hne : evaluate row ≠ .value (.boolean true) := by
      rcases h with h | h | ⟨message, h⟩ | h
      · rw [h]; decide
      · rw [h]; decide
      · rw [h]; exact fun hc => Evaluation.noConfusion hc
      · exact h
    rw [Select_plain, Select_plain, Select_plain, scanRows_append, scanRows_cons_other hne]
  · intro pre row post h
    rw [Select_plain, Select_plain, Select_plain, scanRows_append, scanRows_cons_match h]

theorem length_insertOrdered {Row : Type} (before : Row → Row → Bool) (row : Row)
    (rows : List Row) : (insertOrdered before row rows).length = rows.length + 1 := by
  induction rows with
  | nil => rfl
  | cons x rest ih =>
    simp only [insertOrdered]
    split
    · rfl
    · simp only [List.length_cons, ih]

theorem length_sortRows {Row : Type} (before : Row → Row → Bool) (rows : List Row) :
    (sortRows before rows).length = rows.length := by
  induction rows with
  | nil => rfl
  | cons x rest ih => simp only [sortRows, length_insertOrdered, ih, List.length_cons]

theorem returns_bind {α β : Type} (i j : Nat) {k : Nat} (hk : k ≤ i + j) {s : List Token}
    {x : Outcome (α × List Token)} {F : α × List Token → Outcome (β × List Token)}
    (h1 : Returns i s x) (h2 : ∀ a r, r.length + i ≤ s.length → Returns j r (F (a, r))) :
    Returns k s (x >>= F) := by
  cases x with
  | ok v =>
    obtain ⟨a, r⟩ := v
    have hr := h1.2 a r rfl
    refine ⟨(h2 a r hr).1, fun res a' h => ?_⟩
    have := (h2 a r hr).2 res a' h
    omega
  | error e => exact ⟨fun h => Outcome.noConfusion h, fun _ _ h => Outcome.noConfusion h⟩
  | outOfFuel => exact absurd rfl h1.1

theorem returns_mono {α : Type} {i k : Nat} (hk : k ≤ i) {s : List Token}
    {x : Outcome (α × List Token)} (h : Returns i s x) : Returns k s x :=
  ⟨h.1, fun res a hx => by have := h.2 res a hx; omega⟩

theorem returns_pure {α : Type} (a : α) (s : List Token) : Returns 0 s (pure (a, s)) := by
  refine ⟨fun h => Outcome.noConfusion h, fun res a' h => ?_⟩
  obtain ⟨-, rfl⟩ := Prod.mk.inj (pure_eq_ok.1 h)
  exact Nat.le_refl _

theorem returns_error {α : Type} (k : Nat) (s : List Token) (e : ParseError) :
    Returns k s (Outcome.error e : Outcome (α × List Token)) :=
  ⟨fun h => Outcome.noConfusion h, fun _ _ h => Outcome.noConfusion h⟩

theorem returns_shorter {α : Type} {k : Nat} {s t : List Token}
    {x : Outcome (α × List Token)} (h : Returns k s x) (ht : s.length ≤ t.length) :
    Returns k t x :=
  ⟨h.1, fun res a hx => by have := h.2 res a hx; omega⟩

theorem returns_matchToken (X : Nat) (hX : X ≠ EOF) (s : List Token) :
    Returns 1 s (matchToken X s) := by
  cases s with
  | nil =>
    simp only [matchToken, hX, if_false]
    exact returns_error 1 [] _
  | cons y r =>
    refine ⟨?_, fun res a h => ?_⟩
    · simp only [matchToken]
      split <;> exact fun h => Outcome.noConfusion h
    · obtain ⟨x, hx, -, -⟩ := (matchToken_eq_ok hX).1 h
      rw [hx]
      exact Nat.le_refl _

theorem returns_matchSet (f : Nat → Bool) (hf : f EOF = false) (s : List Token) :
    Returns 1 s (matchSet f s) := by
  refine ⟨?_, fun res a h => ?_⟩
  · unfold matchSet
    split
    · cases s <;> exact fun h => Outcome.noConfusion h
    · exact fun h => Outcome.noConfusion h
  · obtain ⟨x, hx, -, -⟩ := (matchSet_eq_ok hf).1 h
    rw [hx]
    exact Nat.le_refl _

/-- A rule that matches one token of a set and wraps it. -/
theorem returns_setRule (f : Nat → Bool) (hf : f EOF = false) (idx : Nat) (s : List Token) :
    Returns 1 s (matchSet f s >>= fun p => pure (ParseTree.rule idx [p.1], p.2)) :=
  returns_bind 1 0 (Nat.le_refl _) (returns_matchSet f hf s) (fun _ r _ => returns_pure _ r)

theorem returns_tokenRule (X : Nat) (hX : X ≠ EOF) (idx : Nat) (s : List Token) :
    Returns 1 s (matchToken X s >>= fun p => pure (ParseTree.rule idx [p.1], p.2)) :=
  returns_bind 1 0 (Nat.le_refl _) (returns_matchToken X hX s) (fun _ r _ => returns_pure _ r)

theorem returns_optional {k : Nat} (g : Bool) (rule : List Token → RuleResult)
    (s : List Token) (h : g = true → Returns k s (rule s)) :
    Returns 0 s (optional g rule s) := by
  unfold optional
  cases g with
  | false => exact returns_pure _ s
  | true =>
    have h := h rfl
    simp only [if_true]
    cases hx : rule s with
    | ok v =>
      obtain ⟨a, r⟩ := v
      refine ⟨fun h => Outcome.noConfusion h, fun res a' h' => ?_⟩
      have := h.2 a r hx
      simp only [Outcome.ok.injEq, Prod.mk.injEq] at h'
      rw [← h'.2]
      omega
    | error e => exact returns_error 0 s e
    | outOfFuel => exact absurd hx h.1

theorem returns_notOperator (s : List Token) : Returns 1 s (notOperator s) :=
  returns_setRule notOperatorSet (by decide) RuleNotOperator s

theorem returns_unaryOperator (s : List Token) : Returns 1 s (unaryOperator s) :=
  returns_setRule unaryOperatorSet (by decide) RuleUnaryOperator s

theorem returns_exactMatchModifier (s : List Token) : Returns 1 s (exactMatchModifier s) :=
  returns_setRule exactMatchModifierSet (by decide) RuleExactMatchModifier s

theorem returns_comparisonOperator (s : List Token) : Returns 1 s (comparisonOperator s) :=
  returns_setRule comparisonOperatorSet (by decide) RuleComparisonOperator s

theorem returns_logicalOperator (s : List Token) : Returns 1 s (logicalOperator s) :=
  returns_setRule logicalOperatorSet (by decide) RuleLogicalOperator s

theorem returns_bitwiseOperator (s : List Token) : Returns 1 s (bitwiseOperator s) :=
  returns_setRule bitwiseOperatorSet (by decide) RuleBitwiseOperator s

theorem returns_mathOperator (s : List Token) : Returns 1 s (mathOperator s) :=
  returns_setRule mathOperatorSet (by decide) RuleMathOperator s

theorem returns_functionName (s : List Token) : Returns 1 s (functionName s) :=
  returns_setRule functionNameSet (by decide) RuleFunctionName s

theorem returns_literalValue (s : List Token) : Returns 1 s (literalValue s) :=
  returns_setRule literalValueSet (by decide) RuleLiteralValue s

theorem returns_columnName (s : List Token) : Returns 1 s (columnName s) :=
  returns_tokenRule IDENTIFIER (by decide) RuleColumnName s

theorem adaptivePredict14_cases (p : Nat) (s : List Token) :
    adaptivePredict 14 p s = some 1 ∨ adaptivePredict 14 p s = some 2 := by
  unfold adaptivePredict
  simp only [Nat.reduceEqDiff, ↓reduceIte]
  split
  · exact Or.inl rfl
  · exact Or.inr rfl

theorem adaptivePredict21_cases (p : Nat) (s : List Token) :
    adaptivePredict 21 p s = some 1 ∨ adaptivePredict 21 p s = some 2 := by
  unfold adaptivePredict
  simp only [Nat.reduceEqDiff, ↓reduceIte]
  split
  · exact Or.inl rfl
  · exact Or.inr rfl

theorem adaptivePredict24_cases (p : Nat) (s : List Token) :
    adaptivePredict 24 p s = some 1 ∨ adaptivePredict 24 p s = some 2 := by
  unfold adaptivePredict
  simp only [Nat.reduceEqDiff, ↓reduceIte]
  split
  · exact Or.inl rfl
  · exact Or.inr rfl

theorem adaptivePredict23_cases (p : Nat) (s : List Token) :
    adaptivePredict 23 p s = none ∨ adaptivePredict 23 p s = some 1
      ∨ adaptivePredict 23 p s = some 2 := by
  unfold adaptivePredict
  simp only [Nat.reduceEqDiff, ↓reduceIte]
  split
  · exact Or.inr (Or.inl rfl)
  · split
    · exact Or.inr (Or.inr rfl)
    · exact Or.inl rfl

theorem adaptivePredict20_cases (p : Nat) (s : List Token) :
    adaptivePredict 20 p s = none ∨ adaptivePredict 20 p s = some 1
      ∨ adaptivePredict 20 p s = some 2 ∨ adaptivePredict 20 p s = some 3
      ∨ adaptivePredict 20 p s = some 4 := by
  unfold adaptivePredict
  simp only [Nat.reduceEqDiff, ↓reduceIte]
  split
  · exact Or.inr (Or.inl rfl)
  · split
    · exact Or.inr (Or.inr (Or.inl rfl))
    · split
      · exact Or.inr (Or.inr (Or.inr (Or.inl rfl)))
      · split
        · exact Or.inr (Or.inr (Or.inr (Or.inr rfl)))
        · exact Or.inl rfl

theorem total_expressionList {n : Nat} (ih : AllTotal n) (s : List Token)
    (h : 5 * s.length + 5 ≤ n + 1) : Returns 1 s (expressionList (n + 1) s) := by
  simp only [expressionList]
  refine returns_bind 1 0 (Nat.le_refl _) (ih.expr 0 s (by omega)) (fun a r hr => ?_)
  refine returns_bind 0 0 (Nat.le_refl _) (ih.exprListLoop r (by omega)) (fun b r2 _ => ?_)
  exact returns_pure _ r2

theorem total_expressionListLoop {n : Nat} (ih : AllTotal n) (s : List Token)
    (h : 5 * s.length + 1 ≤ n + 1) : Returns 0 s (expressionListLoop (n + 1) s) := by
  simp only [expressionListLoop]
  split
  · refine returns_bind 1 0 (Nat.zero_le _) (returns_matchToken T__1 (by decide) s)
      (fun a r hr => ?_)
    refine returns_bind 1 0 (Nat.zero_le _) (ih.expr 0 r (by omega)) (fun b r2 hr2 => ?_)
    refine returns_bind 0 0 (Nat.le_refl _) (ih.exprListLoop r2 (by omega)) (fun c r3 _ => ?_)
    exact returns_pure _ r3
  · exact returns_pure _ s

theorem total_expression {n : Nat} (ih : AllTotal n) (p : Nat) (s : List Token)
    (h : 5 * s.length + 4 ≤ n + 1) : Returns 1 s (expression (n + 1) p s) := by
  rcases adaptivePredict13_cases p s with h13 | h13 | h13 <;> simp only [expression, h13]
  · exact returns_error 1 s _
  · refine returns_bind 1 0 (Nat.le_refl _) (returns_notOperator s) (fun a r hr => ?_)
    refine returns_bind 1 0 (Nat.zero_le _) (ih.expr 3 r (by omega)) (fun b r2 hr2 => ?_)
    exact ih.exprLoop p _ r2 (by omega)
  · refine returns_bind 1 0 (Nat.le_refl _) (ih.pred 0 s (by omega)) (fun b r2 hr2 => ?_)
    exact ih.exprLoop p _ r2 (by omega)

theorem total_expressionLoop {n : Nat} (ih : AllTotal n) (p : Nat) (ctx : ParseTree)
    (s : List Token) (h : 5 * s.length + 1 ≤ n + 1) :
    Returns 0 s (expressionLoop (n + 1) p ctx s) := by
  rcases adaptivePredict14_cases p s with h14 | h14
  · simp only [expressionLoop, h14, loop_guard_one]
    simp only [beq_self_eq_true, ↓reduceIte]
    split
    · exact returns_error 0 s _
    · refine returns_bind 1 0 (Nat.zero_le _) (returns_logicalOperator s) (fun a r hr => ?_)
      refine returns_bind 1 0 (Nat.zero_le _) (ih.expr 3 r (by omega)) (fun b r2 hr2 => ?_)
      exact ih.exprLoop p _ r2 (by omega)
  · simp only [expressionLoop, h14]
    exact returns_pure _ s

theorem total_predicateExpression {n : Nat} (ih : AllTotal n) (p : Nat) (s : List Token)
    (h : 5 * s.length + 3 ≤ n + 1) : Returns 1 s (predicateExpression (n + 1) p s) := by
  simp only [predicateExpression]
  refine returns_bind 1 0 (Nat.le_refl _) (ih.value 0 s (by omega)) (fun b r2 hr2 => ?_)
  exact ih.predLoop p _ r2 (by omega)

theorem total_predicateExpressionLoop {n : Nat} (ih : AllTotal n) (p : Nat) (ctx : ParseTree)
    (s : List Token) (h : 5 * s.length + 1 ≤ n + 1) :
    Returns 0 s (predicateExpressionLoop (n + 1) p ctx s) := by
  rcases adaptivePredict21_cases p s with h21 | h21
  · rcases adaptivePredict20_cases p s with h20 | h20 | h20 | h20 | h20
    · simp only [predicateExpressionLoop, h21, h20, loop_guard_one]
      simp only [beq_self_eq_true, ↓reduceIte]
      exact returns_error 0 s _
    · simp only [predicateExpressionLoop, h21, h20, loop_guard_one]
      simp only [beq_self_eq_true, ↓reduceIte]
      split
      · exact returns_error 0 s _
      · refine returns_bind 1 0 (Nat.zero_le _) (returns_comparisonOperator s)
          (fun a r hr => ?_)
        refine returns_bind 1 0 (Nat.zero_le _) (ih.pred 4 r (by omega)) (fun b r2 hr2 => ?_)
        exact ih.predLoop p _ r2 (by omega)
    · simp only [predicateExpressionLoop, h21, h20, loop_guard_one]
      simp only [beq_self_eq_true, ↓reduceIte]
      split
      · exact returns_error 0 s _
      · refine returns_bind 0 0 (Nat.zero_le _)
          (returns_optional _ _ s (fun _ => returns_notOperator s)) (fun a r hr => ?_)
        refine returns_bind 1 0 (Nat.zero_le _) (returns_matchToken K_LIKE (by decide) r)
          (fun b r2 hr2 => ?_)
        refine returns_bind 0 0 (Nat.zero_le _)
          (returns_optional _ _ r2 (fun _ => returns_exactMatchModifier r2))
          (fun c r3 hr3 => ?_)
        refine returns_bind 1 0 (Nat.zero_le _) (ih.pred 3 r3 (by omega)) (fun d r4 hr4 => ?_)
        exact ih.predLoop p _ r4 (by omega)
    · simp only [predicateExpressionLoop, h21, h20, loop_guard_one]
      simp only [beq_self_eq_true, ↓reduceIte]
      split
      · exact returns_error 0 s _
      · refine returns_bind 0 0 (Nat.zero_le _)
          (returns_optional _ _ s (fun _ => returns_notOperator s)) (fun a r hr => ?_)
        refine returns_bind 1 0 (Nat.zero_le _) (returns_matchToken K_IN (by decide) r)
          (fun b r2 hr2 => ?_)
        refine returns_bind 0 0 (Nat.zero_le _)
          (returns_optional _ _ r2 (fun _ => returns_exactMatchModifier r2))
          (fun c r3 hr3 => ?_)
        refine returns_bind 1 0 (Nat.zero_le _) (returns_matchToken T__4 (by decide) r3)
          (fun d r4 hr4 => ?_)
        refine returns_bind 1 0 (Nat.zero_le _) (ih.exprList r4 (by omega)) (fun e r5 hr5 => ?_)
        refine returns_bind 1 0 (Nat.zero_le _) (returns_matchToken T__5 (by decide) r5)
          (fun f r6 hr6 => ?_)
        exact ih.predLoop p _ r6 (by omega)
    · simp only [predicateExpressionLoop, h21, h20, loop_guard_one]
      simp only [beq_self_eq_true, ↓reduceIte]
      split
      · exact returns_error 0 s _
      · refine returns_bind 1 0 (Nat.zero_le _) (returns_matchToken K_IS (by decide) s)
          (fun a r hr => ?_)
        refine returns_bind 0 0 (Nat.zero_le _)
          (returns_optional _ _ r (fun _ => returns_notOperator r)) (fun b r2 hr2 => ?_)
        refine returns_bind 1 0 (Nat.zero_le _) (returns_matchToken K_NULL (by decide) r2)
          (fun c r3 hr3 => ?_)
        exact ih.predLoop p _ r3 (by omega)
  · simp only [predicateExpressionLoop, h21]
    exact returns_pure _ s

theorem total_valueExpression {n : Nat} (ih : AllTotal n) (p : Nat) (s : List Token)
    (h : 5 * s.length + 2 ≤ n + 1) : Returns 1 s (valueExpression (n + 1) p s) := by
  simp only [valueExpression]
  split
  · refine returns_bind 1 0 (Nat.le_refl _) (returns_literalValue s) (fun a r hr => ?_)
    exact ih.valueLoop p _ r (by omega)
  · split
    · refine returns_bind 1 0 (Nat.le_refl _) (returns_columnName s) (fun a r hr => ?_)
      exact ih.valueLoop p _ r (by omega)
    · split
      · refine returns_bind 1 0 (Nat.le_refl _) (ih.func s (by omega)) (fun a r hr => ?_)
        exact ih.valueLoop p _ r (by omega)
      · split
        · refine returns_bind 1 0 (Nat.le_refl _) (returns_unaryOperator s) (fun a r hr => ?_)
          refine returns_bind 1 0 (Nat.zero_le _) (ih.value 4 r (by omega))
            (fun b r2 hr2 => ?_)
          exact ih.valueLoop p _ r2 (by omega)
        · split
          · refine returns_bind 1 0 (Nat.le_refl _) (returns_matchToken T__4 (by decide) s)
              (fun a r hr => ?_)
            refine returns_bind 1 0 (Nat.zero_le _) (ih.expr 0 r (by omega))
              (fun b r2 hr2 => ?_)
            refine returns_bind 1 0 (Nat.zero_le _) (returns_matchToken T__5 (by decide) r2)
              (fun c r3 hr3 => ?_)
            exact ih.valueLoop p _ r3 (by omega)
          · exact returns_error 1 s _

theorem total_valueExpressionLoop {n : Nat} (ih : AllTotal n) (p : Nat) (ctx : ParseTree)
    (s : List Token) (h : 5 * s.length + 1 ≤ n + 1) :
    Returns 0 s (valueExpressionLoop (n + 1) p ctx s) := by
  rcases adaptivePredict24_cases p s with h24 | h24
  · rcases adaptivePredict23_cases p s with h23 | h23 | h23
    · simp only [valueExpressionLoop, h24, h23, loop_guard_one]
      simp only [beq_self_eq_true, ↓reduceIte]
      exact returns_error 0 s _
    · simp only [valueExpressionLoop, h24, h23, loop_guard_one]
      simp only [beq_self_eq_true, ↓reduceIte]
      split
      · exact returns_error 0 s _
      · refine returns_bind 1 0 (Nat.zero_le _) (returns_mathOperator s) (fun a r hr => ?_)
        refine returns_bind 1 0 (Nat.zero_le _) (ih.value 3 r (by omega)) (fun b r2 hr2 => ?_)
        exact ih.valueLoop p _ r2 (by omega)
    · simp only [valueExpressionLoop, h24, h23, loop_guard_one]
      simp only [beq_self_eq_true, ↓reduceIte]
      split
      · exact returns_error 0 s _
      · refine returns_bind 1 0 (Nat.zero_le _) (returns_bitwiseOperator s) (fun a r hr => ?_)
        refine returns_bind 1 0 (Nat.zero_le _) (ih.value 2 r (by omega)) (fun b r2 hr2 => ?_)
        exact ih.valueLoop p _ r2 (by omega)
  · simp only [valueExpressionLoop, h24]
    exact returns_pure _ s

theorem total_functionExpression {n : Nat} (ih : AllTotal n) (s : List Token)
    (h : 5 * s.length + 1 ≤ n + 1) : Returns 1 s (functionExpression (n + 1) s) := by
  simp only [functionExpression]
  refine returns_bind 1 0 (Nat.le_refl _) (returns_functionName s) (fun a r hr => ?_)
  refine returns_bind 1 0 (Nat.zero_le _) (returns_matchToken T__4 (by decide) r)
    (fun b r2 hr2 => ?_)
  refine returns_bind 0 0 (Nat.zero_le _)
    (returns_optional _ _ r2 (fun _ => ih.exprList r2 (by omega))) (fun c r3 hr3 => ?_)
  refine returns_bind 1 0 (Nat.zero_le _) (returns_matchToken T__5 (by decide) r3)
    (fun d r4 hr4 => ?_)
  exact returns_pure _ r4

/-- The recursive rules return on every input for which the fuel is at least
five times the number of tokens plus the rank of the rule. -/
theorem allTotal : ∀ n, AllTotal n
  | 0 =>
    { exprList := fun _ h => absurd h (by omega)
      exprListLoop := fun _ h => absurd h (by omega)
      expr := fun _ _ h => absurd h (by omega)
      exprLoop := fun _ _ _ h => absurd h (by omega)
      pred := fun _ _ h => absurd h (by omega)
      predLoop := fun _ _ _ h => absurd h (by omega)
      value := fun _ _ h => absurd h (by omega)
      valueLoop := fun _ _ _ h => absurd h (by omega)
      func := fun _ h => absurd h (by omega) }
  | n + 1 =>
    { exprList := total_expressionList (allTotal n)
      exprListLoop := total_expressionListLoop (allTotal n)
      expr := total_expression (allTotal n)
      exprLoop := total_expressionLoop (allTotal n)
      pred := total_predicateExpression (allTotal n)
      predLoop := total_predicateExpressionLoop (allTotal n)
      value := total_valueExpression (allTotal n)
      valueLoop := total_valueExpressionLoop (allTotal n)
      func := total_functionExpression (allTotal n) }

/-! ### Termination of the statements -/

theorem ne_outOfFuel_bind {α β : Type} {x : Outcome α} {F : α → Outcome β}
    (h1 : x ≠ .outOfFuel) (h2 : ∀ a, x = .ok a → F a ≠ .outOfFuel) :
    (x >>= F) ≠ .outOfFuel := by
  cases x with
  | ok a => exact h2 a rfl
  | error e => exact fun h => Outcome.noConfusion h
  | outOfFuel => exact absurd rfl h1

theorem matchToken_ne_outOfFuel (X : Nat) (s : List Token) : matchToken X s ≠ .outOfFuel := by
  cases s with
  | nil =>
    simp only [matchToken]
    split <;> exact fun h => Outcome.noConfusion h
  | cons y r =>
    simp only [matchToken]
    split <;> exact fun h => Outcome.noConfusion h

theorem error_ne_outOfFuel (s : List Token) : error s ≠ .outOfFuel := by
  unfold error
  have h := matchToken_ne_outOfFuel UNEXPECTED_CHAR s
  split
  · exact fun h => Outcome.noConfusion h
  · exact fun h => Outcome.noConfusion h
  · exact fun h => Outcome.noConfusion h
  · next heq => exact absurd heq h

theorem returns_tableName (s : List Token) : Returns 1 s (tableName s) :=
  returns_tokenRule IDENTIFIER (by decide) RuleTableName s

theorem returns_orderByColumnName (s : List Token) : Returns 1 s (orderByColumnName s) :=
  returns_tokenRule IDENTIFIER (by decide) RuleOrderByColumnName s

theorem returns_identifierStatement (s : List Token) : Returns 1 s (identifierStatement s) :=
  returns_setRule identifierStatementSet (by decide) RuleIdentifierStatement s

theorem returns_topLimit (s : List Token) : Returns 1 s (topLimit s) := by
  unfold topLimit
  refine returns_bind 0 1 (Nat.le_refl _)
    (returns_optional _ _ s (fun _ => returns_matchSet signSet (by decide) s))
    (fun a r hr => ?_)
  refine returns_bind 1 0 (Nat.le_refl _) (returns_matchToken INTEGER_LITERAL (by decide) r)
    (fun b r2 _ => ?_)
  exact returns_pure _ r2

theorem returns_orderingTerm (s : List Token) : Returns 1 s (orderingTerm s) := by
  unfold orderingTerm
  refine returns_bind 0 1 (Nat.le_refl _)
    (returns_optional _ _ s (fun _ => returns_exactMatchModifier s)) (fun a r hr => ?_)
  refine returns_bind 1 0 (Nat.le_refl _) (returns_orderByColumnName r) (fun b r2 _ => ?_)
  refine returns_bind 0 0 (Nat.le_refl _)
    (returns_optional _ _ r2 (fun _ => returns_matchSet directionSet (by decide) r2))
    (fun c r3 _ => ?_)
  exact returns_pure _ r3

theorem returns_topClause (s : List Token) : Returns 0 s (topClause s) := by
  unfold topClause
  split
  · refine returns_bind 1 0 (Nat.zero_le _) (returns_matchToken K_TOP (by decide) s)
      (fun a r hr => ?_)
    refine returns_bind 1 0 (Nat.zero_le _) (returns_topLimit r) (fun b r2 _ => ?_)
    exact returns_pure _ r2
  · exact returns_pure _ s

theorem total_orderingTermLoop :
    ∀ (n : Nat) (s : List Token), s.length + 1 ≤ n → Returns 0 s (orderingTermLoop n s)
  | 0, _, h => absurd h (by omega)
  | n + 1, s, h => by
    simp only [orderingTermLoop]
    split
    · refine returns_bind 1 0 (Nat.zero_le _) (returns_matchToken T__1 (by decide) s)
        (fun a r hr => ?_)
      refine returns_bind 1 0 (Nat.zero_le _) (returns_orderingTerm r) (fun b r2 hr2 => ?_)
      refine returns_bind 0 0 (Nat.le_refl _) (total_orderingTermLoop n r2 (by omega))
        (fun c r3 _ => ?_)
      exact returns_pure _ r3
    · exact returns_pure _ s

theorem total_orderByClause (n : Nat) (s : List Token) (h : s.length + 1 ≤ n) :
    Returns 0 s (orderByClause n s) := by
  unfold orderByClause
  split
  · refine returns_bind 1 0 (Nat.zero_le _) (returns_matchToken K_ORDER (by decide) s)
      (fun a r hr => ?_)
    refine returns_bind 1 0 (Nat.zero_le _) (returns_matchToken K_BY (by decide) r)
      (fun b r2 hr2 => ?_)
    refine returns_bind 1 0 (Nat.zero_le _) (returns_orderingTerm r2) (fun c r3 hr3 => ?_)
    refine returns_bind 0 0 (Nat.le_refl _) (total_orderingTermLoop n r3 (by omega))
      (fun d r4 _ => ?_)
    exact returns_pure _ r4
  · exact returns_pure _ s

theorem total_filterStatement (n : Nat) (s : List Token) (h : 5 * s.length + 4 ≤ n) :
    Returns 1 s (filterStatement n s) := by
  unfold filterStatement
  refine returns_bind 1 0 (Nat.le_refl _) (returns_matchToken K_FILTER (by decide) s)
    (fun a r hr => ?_)
  refine returns_bind 0 0 (Nat.le_refl _) (returns_topClause r) (fun b r2 hr2 => ?_)
  refine returns_bind 1 0 (Nat.zero_le _) (returns_tableName r2) (fun c r3 hr3 => ?_)
  refine returns_bind 1 0 (Nat.zero_le _) (returns_matchToken K_WHERE (by decide) r3)
    (fun d r4 hr4 => ?_)
  refine returns_bind 1 0 (Nat.zero_le _) ((allTotal n).expr 0 r4 (by omega))
    (fun e r5 hr5 => ?_)
  refine returns_bind 0 0 (Nat.le_refl _) (total_orderByClause n r5 (by omega))
    (fun f r6 _ => ?_)
  exact returns_pure _ r6

theorem total_filterExpressionStatement (n : Nat) (s : List Token)
    (h : 5 * s.length + 4 ≤ n) : Returns 1 s (filterExpressionStatement n s) := by
  rcases adaptivePredict5_cases s with h5 | h5 | h5 | h5 <;>
    simp only [filterExpressionStatement, h5]
  · exact returns_error 1 s _
  · refine returns_bind 1 0 (Nat.le_refl _) (returns_identifierStatement s) (fun a r _ => ?_)
    exact returns_pure _ r
  · refine returns_bind 1 0 (Nat.le_refl _) (total_filterStatement n s h) (fun a r _ => ?_)
    exact returns_pure _ r
  · refine returns_bind 1 0 (Nat.le_refl _) ((allTotal n).expr 0 s h) (fun a r _ => ?_)
    exact returns_pure _ r

theorem length_semicolons (s : List Token) : (semicolons s).2.length ≤ s.length := by
  obtain ⟨semis, h, -, -⟩ := semicolons_split s
  have h2 := congrArg List.length h
  rw [List.length_append] at h2
  omega

theorem returns_semicolonsPlus (s : List Token) : Returns 1 s (semicolonsPlus s) := by
  refine ⟨?_, fun res a h => ?_⟩
  · unfold semicolonsPlus
    exact ne_outOfFuel_bind (matchToken_ne_outOfFuel _ s) (fun _ _ h => Outcome.noConfusion h)
  · obtain ⟨-, semis, hne, -, hs⟩ := semicolonsPlus_eq_ok h
    have h2 := congrArg List.length hs
    rw [List.length_append] at h2
    have := List.length_pos.2 hne
    omega

theorem adaptivePredict3_alt (s : List Token) :
    adaptivePredict 3 0 s = some 1 ∨ adaptivePredict 3 0 s = some 2 := by
  rcases adaptivePredict3_cases s with h | h
  · exact Or.inl h.1
  · exact Or.inr h.1

theorem total_statementListLoop :
    ∀ (n : Nat) (s : List Token), 5 * s.length + 5 ≤ n → Returns 0 s (statementListLoop n s)
  | 0, _, h => absurd h (by omega)
  | n + 1, s, h => by
    rcases adaptivePredict3_alt s with h3 | h3
    · simp only [statementListLoop, h3, loop_guard_one]
      simp only [beq_self_eq_true, ↓reduceIte]
      refine returns_bind 1 0 (Nat.zero_le _) (returns_semicolonsPlus s) (fun a r hr => ?_)
      refine returns_bind 1 0 (Nat.zero_le _) (total_filterExpressionStatement n r (by omega))
        (fun b r2 hr2 => ?_)
      refine returns_bind 0 0 (Nat.le_refl _) (total_statementListLoop n r2 (by omega))
        (fun c r3 _ => ?_)
      exact returns_pure _ r3
    · simp only [statementListLoop, h3]
      exact returns_pure _ s

theorem total_filterExpressionStatementList (n : Nat) (s : List Token)
    (h : 5 * s.length + 5 ≤ n) : Returns 1 s (filterExpressionStatementList n s) := by
  unfold filterExpressionStatementList
  have hs := length_semicolons s
  refine returns_shorter ?_ hs
  refine returns_bind 1 0 (Nat.le_refl _)
    (total_filterExpressionStatement n _ (by omega)) (fun a r hr => ?_)
  refine returns_bind 0 0 (Nat.le_refl _) (total_statementListLoop n r (by omega))
    (fun b r2 _ => ?_)
  refine ⟨fun h => Outcome.noConfusion h, fun res a' h' => ?_⟩
  obtain ⟨-, rfl⟩ := Prod.mk.inj (pure_eq_ok.1 h')
  have := length_semicolons r2
  omega

theorem total_parse (n : Nat) (s : List Token) (h : 5 * s.length + 5 ≤ n) :
    parse n s ≠ .outOfFuel := by
  unfold parse
  split
  · refine ne_outOfFuel_bind (total_filterExpressionStatementList n s h).1 (fun a _ => ?_)
    exact ne_outOfFuel_bind (matchToken_ne_outOfFuel _ _) (fun _ _ h => Outcome.noConfusion h)
  · split
    · refine ne_outOfFuel_bind (error_ne_outOfFuel s) (fun a _ => ?_)
      exact ne_outOfFuel_bind (matchToken_ne_outOfFuel _ _)
        (fun _ _ h => Outcome.noConfusion h)
    · exact fun h => Outcome.noConfusion h

/-! ### Every turn of a loop consumes a token -/

theorem length_lt_of_complete {α : Type} {s : List Token} {x : Outcome (α × List Token)}
    (h : Consumes Complete s x) {res : α} {a : List Token} (hx : x = .ok (res, a)) :
    a.length < s.length := by
  obtain ⟨c, hs, hc, -⟩ := h res a hx
  have h2 := congrArg List.length hs
  rw [List.length_append] at h2
  have := List.length_pos.2 hc
  omega

theorem length_semicolons_eq (s : List Token) :
    (semicolons s).1.length + (semicolons s).2.length = s.length := by
  induction s with
  | nil => rfl
  | cons x r ih =>
    simp only [semicolons]
    split
    · simp only [List.cons, List.length_cons]
      omega
    · exact Nat.zero_add _

theorem valueExpressionLoop_progress {n p : Nat} {ctx t : ParseTree} {s a : List Token}
    (h : valueExpressionLoop (n + 1) p ctx s = .ok (t, a)) :
    (t = ctx ∧ a = s)
      ∨ ∃ r ctx', r.length < s.length ∧ valueExpressionLoop n p ctx' r = .ok (t, a) := by
  rcases adaptivePredict24_cases p s with h24 | h24
  · rcases adaptivePredict23_cases p s with h23 | h23 | h23
    · simp only [valueExpressionLoop, h24, h23, loop_guard_one] at h
      simp only [beq_self_eq_true, ↓reduceIte] at h
      exact Outcome.noConfusion h
    · simp only [valueExpressionLoop, h24, h23, loop_guard_one] at h
      simp only [beq_self_eq_true, ↓reduceIte] at h
      split at h
      · exact Outcome.noConfusion h
      · obtain ⟨⟨op, r1⟩, h1, h'⟩ := bind_eq_ok.1 h
        obtain ⟨⟨rhs, r2⟩, h2, h3⟩ := bind_eq_ok.1 h'
        have k1 := (returns_mathOperator s).2 op r1 h1
        have k2 := length_lt_of_complete ((allEnds n).value 3 r1) h2
        exact Or.inr ⟨r2, _, by omega, h3⟩
    · simp only [valueExpressionLoop, h24, h23, loop_guard_one] at h
      simp only [beq_self_eq_true, ↓reduceIte] at h
      split at h
      · exact Outcome.noConfusion h
      · obtain ⟨⟨op, r1⟩, h1, h'⟩ := bind_eq_ok.1 h
        obtain ⟨⟨rhs, r2⟩, h2, h3⟩ := bind_eq_ok.1 h'
        have k1 := (returns_bitwiseOperator s).2 op r1 h1
        have k2 := length_lt_of_complete ((allEnds n).value 2 r1) h2
        exact Or.inr ⟨r2, _, by omega, h3⟩
  · simp only [valueExpressionLoop, h24] at h
    obtain ⟨rfl, rfl⟩ := Prod.mk.inj (pure_eq_ok.1 h)
    exact Or.inl ⟨rfl, rfl⟩

theorem expressionLoop_progress {n p : Nat} {ctx t : ParseTree} {s a : List Token}
    (h : expressionLoop (n + 1) p ctx s = .ok (t, a)) :
    (t = ctx ∧ a = s)
      ∨ ∃ r ctx', r.length < s.length ∧ expressionLoop n p ctx' r = .ok (t, a) := by
  rcases adaptivePredict14_cases p s with h14 | h14
  · simp only [expressionLoop, h14, loop_guard_one] at h
    simp only [beq_self_eq_true, ↓reduceIte] at h
    split at h
    · exact Outcome.noConfusion h
    · obtain ⟨⟨op, r1⟩, h1, h'⟩ := bind_eq_ok.1 h
      obtain ⟨⟨rhs, r2⟩, h2, h3⟩ := bind_eq_ok.1 h'
      have k1 := (returns_logicalOperator s).2 op r1 h1
      have k2 := length_lt_of_complete ((allEnds n).expr 3 r1) h2
      exact Or.inr ⟨r2, _, by omega, h3⟩
  · simp only [expressionLoop, h14] at h
    obtain ⟨rfl, rfl⟩ := Prod.mk.inj (pure_eq_ok.1 h)
    exact Or.inl ⟨rfl, rfl⟩

theorem predicateExpressionLoop_progress {n p : Nat} {ctx t : ParseTree} {s a : List Token}
    (h : predicateExpressionLoop (n + 1) p ctx s = .ok (t, a)) :
    (t = ctx ∧ a = s)
      ∨ ∃ r ctx', r.length < s.length ∧ predicateExpressionLoop n p ctx' r = .ok (t, a) := by
  rcases adaptivePredict21_cases p s with h21 | h21
  · rcases adaptivePredict20_cases p s with h20 | h20 | h20 | h20 | h20
    · simp only [predicateExpressionLoop, h21, h20, loop_guard_one] at h
      simp only [beq_self_eq_true, ↓reduceIte] at h
      exact Outcome.noConfusion h
    · simp only [predicateExpressionLoop, h21, h20, loop_guard_one] at h
      simp only [beq_self_eq_true, ↓reduceIte] at h
      split at h
      · exact Outcome.noConfusion h
      · obtain ⟨⟨op, r1⟩, h1, h'⟩ := bind_eq_ok.1 h
        obtain ⟨⟨rhs, r2⟩, h2, h3⟩ := bind_eq_ok.1 h'
        have k1 := (returns_comparisonOperator s).2 op r1 h1
        have k2 := length_lt_of_complete ((allEnds n).pred 4 r1) h2
        exact Or.inr ⟨r2, _, by omega, h3⟩
    · simp only [predicateExpressionLoop, h21, h20, loop_guard_one] at h
      simp only [beq_self_eq_true, ↓reduceIte] at h
      split at h
      · exact Outcome.noConfusion h
      · obtain ⟨⟨x1, r1⟩, h1, h'⟩ := bind_eq_ok.1 h
        obtain ⟨⟨x2, r2⟩, h2, h'⟩ := bind_eq_ok.1 h'
        obtain ⟨⟨x3, r3⟩, h3, h'⟩ := bind_eq_ok.1 h'
        obtain ⟨⟨x4, r4⟩, h4, h5⟩ := bind_eq_ok.1 h'
        have k1 := (returns_optional _ _ s (fun _ => returns_notOperator s)).2 x1 r1 h1
        have k2 := (returns_matchToken K_LIKE (by decide) r1).2 x2 r2 h2
        have k3 := (returns_optional _ _ r2 (fun _ => returns_exactMatchModifier r2)).2
          x3 r3 h3
        have k4 := length_lt_of_complete ((allEnds n).pred 3 r3) h4
        exact Or.inr ⟨r4, _, by omega, h5⟩
    · simp only [predicateExpressionLoop, h21, h20, loop_guard_one] at h
      simp only [beq_self_eq_true, ↓reduceIte] at h
      split at h
      · exact Outcome.noConfusion h
      · obtain ⟨⟨x1, r1⟩, h1, h'⟩ := bind_eq_ok.1 h
        obtain ⟨⟨x2, r2⟩, h2, h'⟩ := bind_eq_ok.1 h'
        obtain ⟨⟨x3, r3⟩, h3, h'⟩ := bind_eq_ok.1 h'
        obtain ⟨⟨x4, r4⟩, h4, h'⟩ := bind_eq_ok.1 h'
        obtain ⟨⟨x5, r5⟩, h5, h'⟩ := bind_eq_ok.1 h'
        obtain ⟨⟨x6, r6⟩, h6, h7⟩ := bind_eq_ok.1 h'
        have k1 := (returns_optional _ _ s (fun _ => returns_notOperator s)).2 x1 r1 h1
        have k2 := (returns_matchToken K_IN (by decide) r1).2 x2 r2 h2
        have k3 := (returns_optional _ _ r2 (fun _ => returns_exactMatchModifier r2)).2
          x3 r3 h3
        have k4 := (returns_matchToken T__4 (by decide) r3).2 x4 r4 h4
        have k5 := length_lt_of_complete ((allEnds n).exprList r4) h5
        have k6 := (returns_matchToken T__5 (by decide) r5).2 x6 r6 h6
        exact Or.inr ⟨r6, _, by omega, h7⟩
    · simp only [predicateExpressionLoop, h21, h20, loop_guard_one] at h
      simp only [beq_self_eq_true, ↓reduceIte] at h
      split at h
      · exact Outcome.noConfusion h
      · obtain ⟨⟨x1, r1⟩, h1, h'⟩ := bind_eq_ok.1 h
        obtain ⟨⟨x2, r2⟩, h2, h'⟩ := bind_eq_ok.1 h'
        obtain ⟨⟨x3, r3⟩, h3, h4⟩ := bind_eq_ok.1 h'
        have k1 := (returns_matchToken K_IS (by decide) s).2 x1 r1 h1
        have k2 := (returns_optional _ _ r1 (fun _ => returns_notOperator r1)).2 x2 r2 h2
        have k3 := (returns_matchToken K_NULL (by decide) r2).2 x3 r3 h3
        exact Or.inr ⟨r3, _, by omega, h4⟩
  · simp only [predicateExpressionLoop, h21] at h
    obtain ⟨rfl, rfl⟩ := Prod.mk.inj (pure_eq_ok.1 h)
    exact Or.inl ⟨rfl, rfl⟩

theorem expressionListLoop_progress {n : Nat} {l : List ParseTree} {s a : List Token}
    (h : expressionListLoop (n + 1) s = .ok (l, a)) :
    (l = [] ∧ a = s)
      ∨ ∃ r l', r.length < s.length ∧ expressionListLoop n r = .ok (l', a) := by
  simp only [expressionListLoop] at h
  split at h
  · obtain ⟨⟨x1, r1⟩, h1, h'⟩ := bind_eq_ok.1 h
    obtain ⟨⟨x2, r2⟩, h2, h'⟩ := bind_eq_ok.1 h'
    obtain ⟨⟨x3, r3⟩, h3, h4⟩ := bind_eq_ok.1 h'
    obtain ⟨-, rfl⟩ := Prod.mk.inj (pure_eq_ok.1 h4)
    have k1 := (returns_matchToken T__1 (by decide) s).2 x1 r1 h1
    have k2 := length_lt_of_complete ((allEnds n).expr 0 r1) h2
    exact Or.inr ⟨r2, x3, by omega, h3⟩
  · obtain ⟨rfl, rfl⟩ := Prod.mk.inj (pure_eq_ok.1 h)
    exact Or.inl ⟨rfl, rfl⟩

theorem orderingTermLoop_progress {n : Nat} {l : List ParseTree} {s a : List Token}
    (h : orderingTermLoop (n + 1) s = .ok (l, a)) :
    (l = [] ∧ a = s)
      ∨ ∃ r l', r.length < s.length ∧ orderingTermLoop n r = .ok (l', a) := by
  simp only [orderingTermLoop] at h
  split at h
  · obtain ⟨⟨x1, r1⟩, h1, h'⟩ := bind_eq_ok.1 h
    obtain ⟨⟨x2, r2⟩, h2, h'⟩ := bind_eq_ok.1 h'
    obtain ⟨⟨x3, r3⟩, h3, h4⟩ := bind_eq_ok.1 h'
    obtain ⟨-, rfl⟩ := Prod.mk.inj (pure_eq_ok.1 h4)
    have k1 := (returns_matchToken T__1 (by decide) s).2 x1 r1 h1
    have k2 := (returns_orderingTerm r1).2 x2 r2 h2
    exact Or.inr ⟨r2, x3, by omega, h3⟩
  · obtain ⟨rfl, rfl⟩ := Prod.mk.inj (pure_eq_ok.1 h)
    exact Or.inl ⟨rfl, rfl⟩

theorem filterExpressionStatement_lt {n : Nat} {t : ParseTree} {s a : List Token}
    (h : filterExpressionStatement n s = .ok (t, a)) : a.length < s.length := by
  rcases adaptivePredict5_cases s with h5 | h5 | h5 | h5 <;>
    simp only [filterExpressionStatement, h5] at h
  · exact Outcome.noConfusion h
  · obtain ⟨⟨x1, r1⟩, h1, h2⟩ := bind_eq_ok.1 h
    obtain ⟨-, rfl⟩ := Prod.mk.inj (pure_eq_ok.1 h2)
    exact (returns_identifierStatement s).2 x1 r1 h1
  · obtain ⟨⟨x1, r1⟩, h1, h2⟩ := bind_eq_ok.1 h
    obtain ⟨-, rfl⟩ := Prod.mk.inj (pure_eq_ok.1 h2)
    unfold filterStatement at h1
    obtain ⟨⟨y1, q1⟩, g1, h'⟩ := bind_eq_ok.1 h1
    obtain ⟨⟨y2, q2⟩, g2, h'⟩ := bind_eq_ok.1 h'
    obtain ⟨⟨y3, q3⟩, g3, h'⟩ := bind_eq_ok.1 h'
    obtain ⟨⟨y4, q4⟩, g4, h'⟩ := bind_eq_ok.1 h'
    obtain ⟨⟨y5, q5⟩, g5, h'⟩ := bind_eq_ok.1 h'
    obtain ⟨⟨y6, q6⟩, g6, h7⟩ := bind_eq_ok.1 h'
    obtain ⟨-, rfl⟩ := Prod.mk.inj (pure_eq_ok.1 h7)
    have k1 := (returns_matchToken K_FILTER (by decide) s).2 y1 q1 g1
    have k2 := (returns_topClause q1).2 y2 q2 g2
    have k3 := (returns_tableName q2).2 y3 q3 g3
    have k4 := (returns_matchToken K_WHERE (by decide) q3).2 y4 q4 g4
    have k5 := length_lt_of_complete ((allEnds n).expr 0 q4) g5
    have k6 : q6.length ≤ q5.length := by
      unfold orderByClause at g6
      split at g6
      · obtain ⟨⟨z1, w1⟩, e1, h'⟩ := bind_eq_ok.1 g6
        obtain ⟨⟨z2, w2⟩, e2, h'⟩ := bind_eq_ok.1 h'
        obtain ⟨⟨z3, w3⟩, e3, h'⟩ := bind_eq_ok.1 h'
        obtain ⟨⟨z4, w4⟩, e4, e5⟩ := bind_eq_ok.1 h'
        obtain ⟨-, rfl⟩ := Prod.mk.inj (pure_eq_ok.1 e5)
        have j1 := (returns_matchToken K_ORDER (by decide) q5).2 z1 w1 e1
        have j2 := (returns_matchToken K_BY (by decide) w1).2 z2 w2 e2
        have j3 := (returns_orderingTerm w2).2 z3 w3 e3
        have j4 : w4.length ≤ w3.length := by
          by_cases hf : w3.length + 1 ≤ n
          · exact (total_orderingTermLoop n w3 hf).2 z4 w4 e4
          · have hst := stable_orderingTermLoop n (max n (w3.length + 1)) (Nat.le_max_left _ _)
              w3 (by rw [e4]; exact fun h => Outcome.noConfusion h)
            exact (total_orderingTermLoop _ w3 (Nat.le_max_right _ _)).2 z4 w4
              (hst.trans e4)
        omega
      · obtain ⟨-, rfl⟩ := Prod.mk.inj (pure_eq_ok.1 g6)
        exact Nat.le_refl _
    show q6.length < s.length
    omega
  · obtain ⟨⟨x1, r1⟩, h1, h2⟩ := bind_eq_ok.1 h
    obtain ⟨-, rfl⟩ := Prod.mk.inj (pure_eq_ok.1 h2)
    exact length_lt_of_complete ((allEnds n).expr 0 s) h1

theorem statementListLoop_progress {n : Nat} {l : List ParseTree} {s a : List Token}
    (h : statementListLoop (n + 1) s = .ok (l, a)) :
    (l = [] ∧ a = s)
      ∨ ∃ r l', r.length < s.length ∧ statementListLoop n r = .ok (l', a) := by
  rcases adaptivePredict3_alt s with h3 | h3
  · simp only [statementListLoop, h3, loop_guard_one] at h
    simp only [beq_self_eq_true, ↓reduceIte] at h
    obtain ⟨⟨x1, r1⟩, h1, h'⟩ := bind_eq_ok.1 h
    obtain ⟨⟨x2, r2⟩, h2, h'⟩ := bind_eq_ok.1 h'
    obtain ⟨⟨x3, r3⟩, h3, h4⟩ := bind_eq_ok.1 h'
    obtain ⟨-, rfl⟩ := Prod.mk.inj (pure_eq_ok.1 h4)
    have k1 := (returns_semicolonsPlus s).2 x1 r1 h1
    have k2 : r2.length < r1.length := filterExpressionStatement_lt h2
    exact Or.inr ⟨r2, x3, by omega, h3⟩
  · simp only [statementListLoop, h3] at h
    obtain ⟨rfl, rfl⟩ := Prod.mk.inj (pure_eq_ok.1 h)
    exact Or.inl ⟨rfl, rfl⟩

/-- C29. The parser terminates: with fuel of at least five units per token
and five more, `parse` returns on every token sequence, normally or with an
exception, and further fuel does not change what it returns; a sequence that
is accepted is accepted with that fuel.  The recursion of the rule functions
is well-founded on the length of the remaining input and the rank of the
rule: each of `expressionList` (rank 5), `expression` (4),
`predicateExpression` (3), `valueExpression` (2), `functionExpression` and
the loops (1) returns when the fuel is at least five times the number of
remaining tokens plus its rank, since every call is made after a token has
been consumed or goes to a rule of lower rank, and each rule proper consumes
at least one token.  Every turn of each loop of
`filterExpressionStatementList`, `filterStatement`, `expressionList`,
`expression`, `predicateExpression` and `valueExpression` consumes at least
one token: a run of a loop that returns normally either leaves the loop at
once, with the input where it is, or runs the loop again on a strictly
shorter input. -/
theorem parse_terminates (s : List Token) (fuel : Nat) (h : 5 * s.length + 5 ≤ fuel) :
    parse fuel s ≠ .outOfFuel
    ∧ parse fuel s = parse (5 * s.length + 5) s
    ∧ (Accepted s → ∃ res, parse fuel s = .ok res)
    ∧ (∀ n, AllTotal n)
    ∧ (∀ n, 5 * s.length + 5 ≤ n → Returns 1 s (filterExpressionStatementList n s))
    ∧ (∀ n, 5 * s.length + 5 ≤ n → Returns 0 s (statementListLoop n s))
    ∧ (∀ n, 5 * s.length + 4 ≤ n → Returns 1 s (filterExpressionStatement n s))
    ∧ (∀ n, 5 * s.length + 4 ≤ n → Returns 1 s (filterStatement n s))
    ∧ (∀ n, s.length + 1 ≤ n → Returns 0 s (orderingTermLoop n s))
    ∧ (∀ n l a, statementListLoop (n + 1) s = .ok (l, a) →
        (l = [] ∧ a = s)
          ∨ ∃ r l', r.length < s.length ∧ statementListLoop n r = .ok (l', a))
    ∧ (semicolons s).1.length + (semicolons s).2.length = s.length
    ∧ (∀ n l a, orderingTermLoop (n + 1) s = .ok (l, a) →
        (l = [] ∧ a = s)
          ∨ ∃ r l', r.length < s.length ∧ orderingTermLoop n r = .ok (l', a))
    ∧ (∀ n l a, expressionListLoop (n + 1) s = .ok (l, a) →
        (l = [] ∧ a = s)
          ∨ ∃ r l', r.length < s.length ∧ expressionListLoop n r = .ok (l', a))
    ∧ (∀ n p ctx t a, expressionLoop (n + 1) p ctx s = .ok (t, a) →
        (t = ctx ∧ a = s)
          ∨ ∃ r ctx', r.length < s.length ∧ expressionLoop n p ctx' r = .ok (t, a))
    ∧ (∀ n p ctx t a, predicateExpressionLoop (n + 1) p ctx s = .ok (t, a) →
        (t = ctx ∧ a = s)
          ∨ ∃ r ctx', r.length < s.length
              ∧ predicateExpressionLoop n p ctx' r = .ok (t, a))
    ∧ (∀ n p ctx t a, valueExpressionLoop (n + 1) p ctx s = .ok (t, a) →
        (t = ctx ∧ a = s)
          ∨ ∃ r ctx', r.length < s.length ∧ valueExpressionLoop n p ctx' r = .ok (t, a)) := by
  have h1 := total_parse _ s (Nat.le_refl (5 * s.length + 5))
  have h2 : parse fuel s = parse (5 * s.length + 5) s := stable_parse h s h1
  refine ⟨total_parse fuel s h, h2, ?_, allTotal,
    fun n hn => total_filterExpressionStatementList n s hn,
    fun n hn => total_statementListLoop n s hn,
    fun n hn => total_filterExpressionStatement n s hn,
    fun n hn => total_filterStatement n s hn,
    fun n hn => total_orderingTermLoop n s hn,
    fun _ _ _ hx => statementListLoop_progress hx, length_semicolons_eq s,
    fun _ _ _ hx => orderingTermLoop_progress hx,
    fun _ _ _ hx => expressionListLoop_progress hx,
    fun _ _ _ _ _ hx => expressionLoop_progress hx,
    fun _ _ _ _ _ hx => predicateExpressionLoop_progress hx,
    fun _ _ _ _ _ hx => valueExpressionLoop_progress hx⟩
  rintro ⟨k, res, hk⟩
  have hne : parse k s ≠ .outOfFuel := by rw [hk]; exact fun h => Outcome.noConfusion h
  have e1 : parse (max k fuel) s = parse k s := stable_parse (Nat.le_max_left _ _) s hne
  have e2 : parse (max k fuel) s = parse fuel s :=
    stable_parse (Nat.le_max_right _ _) s (total_parse fuel s h)
  exact ⟨res, by rw [← e2, e1, hk]⟩

/-- C29, witness: `parse` returns on the six tokens of `a + 1 AND NOT b` with
fuel 35, and it accepts them. -/
theorem parse_terminates_witness :
    5 * (toks [IDENTIFIER, T__3, INTEGER_LITERAL, K_AND, K_NOT, IDENTIFIER]).length + 5 ≤ 35
    ∧ parse 35 (toks [IDENTIFIER, T__3, INTEGER_LITERAL, K_AND, K_NOT, IDENTIFIER])
        ≠ .outOfFuel
    ∧ parse 35 (toks [IDENTIFIER, T__3, INTEGER_LITERAL, K_AND, K_NOT, IDENTIFIER])
        = parse (5 * (toks [IDENTIFIER, T__3, INTEGER_LITERAL, K_AND, K_NOT,
            IDENTIFIER]).length + 5)
          (toks [IDENTIFIER, T__3, INTEGER_LITERAL, K_AND, K_NOT, IDENTIFIER])
    ∧ (parse 35 (toks [IDENTIFIER, T__3, INTEGER_LITERAL, K_AND, K_NOT, IDENTIFIER])).isOk
        = true :=
  ⟨by decide,
    (parse_terminates (toks [IDENTIFIER, T__3, INTEGER_LITERAL, K_AND, K_NOT, IDENTIFIER]) 35
      (by decide)).1,
    (parse_terminates (toks [IDENTIFIER, T__3, INTEGER_LITERAL, K_AND, K_NOT, IDENTIFIER]) 35
      (by decide)).2.1, by rfl⟩

/-! ### Exactness of the set tests -/

theorem sub64_wrap {la off : Nat} (hla : la < 2 ^ 64) (hoff : off ≤ 2 ^ 64) :
    sub64 la off = (la + 2 ^ 64 - off) % 2 ^ 64 := by
  unfold sub64
  split <;> omega

theorem sub64_lt {la off : Nat} (hla : la < 2 ^ 64) (hoff : off ≤ 2 ^ 64) :
    sub64 la off < 2 ^ 64 := by
  unfold sub64
  split <;> omega

theorem shift_lt_of_window {la off : Nat} (hla : la < 2 ^ 64) (hoff : off ≤ 2 ^ 64)
    (h : ((sub64 la off &&& not64 0x3f) == 0) = true) : sub64 la off < 64 := by
  by_contra hge
  exact land_not64_ne_zero (by omega) (sub64_lt hla hoff) (by simpa using h)

theorem shift_eq_of_window {la off : Nat} (hla : la < 2 ^ 64) (hoff : off + 64 ≤ 2 ^ 64)
    (h : ((sub64 la off &&& not64 0x3f) == 0) = true) :
    off ≤ la ∧ la < off + 64 ∧ sub64 la off = la - off := by
  have h1 := shift_lt_of_window hla (by omega) h
  unfold sub64 at h1 ⊢
  split at h1 <;> rename_i hle
  · rw [if_pos hle]
    omega
  · omega

theorem logicalOperatorSet_iff (la : Nat) :
    logicalOperatorSet la = true ↔ la = 19 ∨ la = 20 ∨ la = 30 ∨ la = 64 := by
  rw [logicalOperatorSet_eq, contains_iff_mem]
  simp only [List.mem_cons, List.mem_singleton, List.mem_nil_iff, or_false, T__18, T__19,
    K_AND, K_OR]

theorem literalValueSet_iff (la : Nat) :
    literalValueSet la = true
      ↔ la = 63 ∨ la = 86 ∨ la = 88 ∨ la = 89 ∨ la = 90 ∨ la = 93 ∨ la = 94 := by
  rw [literalValueSet_eq_all, contains_iff_mem]
  simp only [literalValueCases, List.mem_cons, List.mem_singleton, List.mem_nil_iff, or_false,
    K_NULL, BOOLEAN_LITERAL, INTEGER_LITERAL, NUMERIC_LITERAL, GUID_LITERAL, STRING_LITERAL,
    DATETIME_LITERAL]

theorem functionNameSet_iff (la : Nat) :
    functionNameSet la = true ↔ la ∈ functionExpressionCases := by
  rw [functionNameSet_eq, contains_iff_mem]

set_option maxRecDepth 100000 in
theorem functionExpressionCases_nodup : functionExpressionCases.Nodup := by
  decide

/-- C32. The 64-bit set tests are exact.  Each one is
`((la - off) & ~0x3f) == 0 && ((1 << (la - off)) & mask) != 0` with the mask
of its rule, and the subtraction wraps modulo `2^64` (`sub64 la off` is
`(la + 2^64 - off) mod 2^64` on 64-bit values).  For every lookahead value,
also outside the 64-bit range: the test of
`identifierStatement` (offset 90) holds if and only if the lookahead is 90,
91 or 92; that of `logicalOperator` (offset 19) if and only if it is 19, 20,
30 or 64; that of `literalValue` (offset 63) if and only if it is 63, 86, 88,
89, 90, 93 or 94; that of `functionName` (offset 29) if and only if it is one
of the 41 distinct case labels of the function names, which are the 41 names
of the specification.  Where the first conjunct of a test holds, so that the
shift is evaluated, the shift amount is below 64 and is the lookahead minus
the offset without wrapping; a lookahead below the offset never tests true,
nor does the end-of-file value `2^64 - 1`. -/
theorem bitsetTest_exact :
    (∀ la off mask, bitsetTest la off mask
        = ((sub64 la off &&& not64 0x3f) == 0 && (shl64 1 (sub64 la off) &&& mask) != 0))
    ∧ (∀ la, identifierStatementSet la
        = bitsetTest la 90 (shl64 1 (90 - 90) ||| shl64 1 (91 - 90) ||| shl64 1 (92 - 90)))
    ∧ (∀ la, logicalOperatorSet la
        = bitsetTest la 19 (shl64 1 (19 - 19) ||| shl64 1 (20 - 19) ||| shl64 1 (30 - 19)
            ||| shl64 1 (64 - 19)))
    ∧ (∀ la, literalValueSet la
        = bitsetTest la 63 (shl64 1 (63 - 63) ||| shl64 1 (86 - 63) ||| shl64 1 (88 - 63)
            ||| shl64 1 (89 - 63) ||| shl64 1 (90 - 63) ||| shl64 1 (93 - 63)
            ||| shl64 1 (94 - 63)))
    ∧ (∀ la, functionNameSet la = bitsetTest la 29 functionNameMask)
    ∧ (∀ la off, la < 2 ^ 64 → off ≤ 2 ^ 64 → sub64 la off = (la + 2 ^ 64 - off) % 2 ^ 64)
    ∧ (∀ la, identifierStatementSet la = true ↔ la = 90 ∨ la = 91 ∨ la = 92)
    ∧ (∀ la, logicalOperatorSet la = true ↔ la = 19 ∨ la = 20 ∨ la = 30 ∨ la = 64)
    ∧ (∀ la, literalValueSet la = true
        ↔ la = 63 ∨ la = 86 ∨ la = 88 ∨ la = 89 ∨ la = 90 ∨ la = 93 ∨ la = 94)
    ∧ (∀ la, functionNameSet la = true ↔ la ∈ functionExpressionCases)
    ∧ functionExpressionCases.length = 41
    ∧ functionExpressionCases.Nodup
    ∧ (∀ la, la ∈ functionExpressionCases ↔ la ∈ specFunctionNames)
    ∧ (∀ la off, la < 2 ^ 64 → off ≤ 2 ^ 64 →
        ((sub64 la off &&& not64 0x3f) == 0) = true → sub64 la off < 64)
    ∧ (∀ la off, la < 2 ^ 64 → off + 64 ≤ 2 ^ 64 →
        ((sub64 la off &&& not64 0x3f) == 0) = true →
          off ≤ la ∧ la < off + 64 ∧ sub64 la off = la - off)
    ∧ (∀ la off mask, la < 2 ^ 64 → off + 64 ≤ 2 ^ 64 → la < off →
        bitsetTest la off mask = false)
    ∧ (∀ la off mask, off + 64 ≤ la → bitsetTest la off mask = false)
    ∧ EOF = 2 ^ 64 - 1
    ∧ identifierStatementSet EOF = false ∧ logicalOperatorSet EOF = false
    ∧ literalValueSet EOF = false ∧ functionNameSet EOF = false := by
  refine ⟨fun _ _ _ => rfl, fun _ => rfl, fun _ => rfl, fun _ => rfl, fun _ => rfl,
    fun la off h1 h2 => sub64_wrap h1 h2, identifierStatementSet_iff,
    logicalOperatorSet_iff, literalValueSet_iff, functionNameSet_iff, rfl,
    functionExpressionCases_nodup, ?_, fun la off h1 h2 h => shift_lt_of_window h1 h2 h,
    fun la off h1 h2 h => shift_eq_of_window h1 h2 h,
    fun la off mask h1 h2 h => bitsetTest_out mask h1 h2 (Or.inl h),
    fun la off mask h => bitsetTest_high mask h, rfl, ?_, ?_, ?_, ?_⟩
  · intro la
    rw [← contains_iff_mem, ← contains_iff_mem, functionExpressionCases_eq]
  · exact bitsetTest_high _ (by decide)
  · exact bitsetTest_high _ (by decide)
  · exact bitsetTest_high _ (by decide)
  · exact bitsetTest_high _ (by decide)

/-! ### The dispatch of `valueExpression` -/

theorem cons_of_contains {l : List Nat} (hl : l.contains EOF = false) {s : List Token}
    (h : l.contains (LA 1 s) = true) : ∃ x r, s = x :: r := by
  cases s with
  | nil =>
    rw [LA_one_nil, hl] at h
    exact Bool.noConfusion h
  | cons x r => exact ⟨x, r, rfl⟩

set_option maxRecDepth 100000 in
theorem literal_dispatch_small :
    ∀ ty < 154, literalValueCases.contains ty = true →
      ((ty == IDENTIFIER) = false ∧ functionExpressionCases.contains ty = false
        ∧ unaryOperatorCases.contains ty = false ∧ (ty == T__4) = false) := by
  decide

set_option maxRecDepth 100000 in
theorem function_cases_small :
    ∀ ty < 154, functionExpressionCases.contains ty = true →
      (literalValueCases.contains ty = false ∧ (ty == IDENTIFIER) = false
        ∧ unaryOperatorCases.contains ty = false ∧ (ty == T__4) = false) := by
  decide

set_option maxRecDepth 100000 in
theorem unary_cases_small :
    ∀ ty < 154, unaryOperatorCases.contains ty = true →
      (literalValueCases.contains ty = false ∧ (ty == IDENTIFIER) = false
        ∧ functionExpressionCases.contains ty = false ∧ (ty == T__4) = false) := by
  decide

theorem small_of_contains {l : List Nat} (hl : ∀ x ∈ l, 0 ≤ x ∧ x < 154) {ty : Nat}
    (h : l.contains ty = true) : ty < 154 := by
  by_contra hge
  rw [contains_eq_false_of_window 0 154 hl (by omega)] at h
  exact Bool.noConfusion h

/-- A literal token leads `valueExpression` to `literalValue`, which accepts
it. -/
theorem valueExpression_literal (n p : Nat) (x : Token) (r : List Token)
    (h : literalValueCases.contains x.type = true) :
    valueExpression (n + 1) p (x :: r)
      = valueExpressionLoop n p
          (.rule RuleValueExpression [.rule RuleLiteralValue [.terminal x]]) r := by
  have hs : literalValueSet x.type = true := by rw [literalValueSet_eq_all]; exact h
  rw [valueExpression]
  simp only [LA_one_cons, h, ↓reduceIte]
  rw [literalValue_cons, if_pos hs, ok_bind]

/-- A function-name token leads `valueExpression` to `functionExpression`. -/
theorem valueExpression_function (n p : Nat) (x : Token) (r : List Token)
    (h : functionNameSet x.type = true) :
    valueExpression (n + 1) p (x :: r)
      = functionExpression n (x :: r) >>= fun f =>
          valueExpressionLoop n p (.rule RuleValueExpression [f.1]) f.2 := by
  obtain ⟨h1, h2, h3, -, -⟩ := function_dispatch h
  rw [valueExpression]
  simp only [LA_one_cons, h1, h2, h3, Bool.false_eq_true, ↓reduceIte]

/-- A unary-operator token leads `valueExpression` to `unaryOperator`, which
accepts it. -/
theorem valueExpression_unary (n p : Nat) (x : Token) (r : List Token)
    (h : unaryOperatorSet x.type = true) :
    valueExpression (n + 1) p (x :: r)
      = valueExpression n 4 r >>= fun v =>
          valueExpressionLoop n p
            (.rule RuleValueExpression [.rule RuleUnaryOperator [.terminal x], v.1]) v.2 := by
  obtain ⟨d1, d2, d3, d4⟩ := unary_dispatch h
  rw [valueExpression]
  simp only [LA_one_cons, d1, d2, d3, d4, Bool.false_eq_true, ↓reduceIte]
  rw [unaryOperator_cons, if_pos h, ok_bind]

theorem adaptivePredict13_of_starts {s : List Token} (h : startsExpression (LA 1 s) = true)
    (p : Nat) :
    (notOperatorSet (LA 1 s) = true ∧ adaptivePredict 13 p s = some 1)
      ∨ (notOperatorSet (LA 1 s) = false ∧ startsValueExpression (LA 1 s) = true
          ∧ adaptivePredict 13 p s = some 2) := by
  unfold adaptivePredict
  simp only [Nat.reduceEqDiff, ↓reduceIte]
  by_cases hn : notOperatorSet (LA 1 s) = true
  · exact Or.inl ⟨hn, by rw [if_pos hn]⟩
  · have hn' : notOperatorSet (LA 1 s) = false := by simpa using hn
    have hv : startsValueExpression (LA 1 s) = true := by
      unfold startsExpression at h
      rw [hn', Bool.false_or] at h
      exact h
    exact Or.inr ⟨hn', hv, by rw [if_neg hn, if_pos hv]⟩

/-- C31. Dispatch never sends a token to a sub-rule that rejects it.  For
every token type the `case` labels of `valueExpression` that lead to
`literalValue`, to `functionExpression` and to `unaryOperator` are exactly
the tokens that the set tests of `literalValue`, `functionName` and
`unaryOperator` accept, and the three groups of labels, `IDENTIFIER` and
`'('` exclude one another.  So on a literal label `valueExpression` calls
`literalValue`, which returns normally; on a function-name label, and on
every token that `functionName` accepts, it calls `functionExpression`,
whose `functionName` returns normally; on a unary label it calls
`unaryOperator`, which returns normally: none of the three takes its
inline-recovery branch.  The test of `functionExpression` that guards
`expressionList` holds only on a token that the dispatch of
`valueExpression` accepts or that `notOperator` accepts (it is the test for
the first token of an expression), so the entry decision of `expression`
finds an alternative: `notOperator` on a token it accepts, else
`predicateExpression` and `valueExpression` on a token with a `case`
label. -/
theorem valueExpression_dispatch_safe :
    (∀ t, literalValueCases.contains t = literalValueSet t)
    ∧ (∀ t, functionExpressionCases.contains t = functionNameSet t)
    ∧ (∀ t, unaryOperatorCases.contains t = unaryOperatorSet t)
    ∧ (∀ t, literalValueCases.contains t = true →
        (t == IDENTIFIER) = false ∧ functionExpressionCases.contains t = false
          ∧ unaryOperatorCases.contains t = false ∧ (t == T__4) = false)
    ∧ (∀ t, functionExpressionCases.contains t = true →
        literalValueCases.contains t = false ∧ (t == IDENTIFIER) = false
          ∧ unaryOperatorCases.contains t = false ∧ (t == T__4) = false)
    ∧ (∀ t, unaryOperatorCases.contains t = true →
        literalValueCases.contains t = false ∧ (t == IDENTIFIER) = false
          ∧ functionExpressionCases.contains t = false ∧ (t == T__4) = false)
    ∧ (∀ n p s, literalValueCases.contains (LA 1 s) = true →
        ∃ x r, s = x :: r
          ∧ literalValue s = .ok (.rule RuleLiteralValue [.terminal x], r)
          ∧ valueExpression (n + 1) p s
              = valueExpressionLoop n p
                  (.rule RuleValueExpression [.rule RuleLiteralValue [.terminal x]]) r)
    ∧ (∀ n p s, functionExpressionCases.contains (LA 1 s) = true →
        ∃ x r, s = x :: r
          ∧ functionName s = .ok (.rule RuleFunctionName [.terminal x], r)
          ∧ valueExpression (n + 1) p s
              = functionExpression n s >>= fun f =>
                  valueExpressionLoop n p (.rule RuleValueExpression [f.1]) f.2)
    ∧ (∀ n p x r, functionNameSet x.type = true →
        valueExpression (n + 1) p (x :: r)
          = functionExpression n (x :: r) >>= fun f =>
              valueExpressionLoop n p (.rule RuleValueExpression [f.1]) f.2)
    ∧ (∀ n p s, unaryOperatorCases.contains (LA 1 s) = true →
        ∃ x r, s = x :: r
          ∧ unaryOperator s = .ok (.rule RuleUnaryOperator [.terminal x], r)
          ∧ valueExpression (n + 1) p s
              = valueExpression n 4 r >>= fun v =>
                  valueExpressionLoop n p
                    (.rule RuleValueExpression [.rule RuleUnaryOperator [.terminal x], v.1])
                    v.2)
    ∧ (∀ t, expressionListGuard t = true →
        startsValueExpression t = true ∨ notOperatorSet t = true)
    ∧ (∀ t, expressionListGuard t = startsExpression t)
    ∧ (∀ n name lp s, functionNameSet name.type = true → lp.type = T__4 →
        functionExpression (n + 1) (name :: lp :: s)
          = optional (expressionListGuard (LA 1 s)) (expressionList n) s >>= fun a =>
              matchToken T__5 a.2 >>= fun q =>
                pure (.rule RuleFunctionExpression ([.rule RuleFunctionName [.terminal name],
                  .terminal lp] ++ a.1 ++ [q.1]), q.2))
    ∧ (∀ p s, expressionListGuard (LA 1 s) = true →
        (∃ y r, s = y :: r)
          ∧ ((notOperatorSet (LA 1 s) = true ∧ adaptivePredict 13 p s = some 1)
            ∨ (notOperatorSet (LA 1 s) = false ∧ startsValueExpression (LA 1 s) = true
                ∧ adaptivePredict 13 p s = some 2))) := by
  have hlit : ∀ x ∈ literalValueCases, 0 ≤ x ∧ x < 154 := by decide
  have hfun : ∀ x ∈ functionExpressionCases, 0 ≤ x ∧ x < 154 := by decide
  have hun : ∀ x ∈ unaryOperatorCases, 0 ≤ x ∧ x < 154 := by decide
  refine ⟨fun t => (literalValueSet_eq_all t).symm, fun t => (functionNameSet_eq t).symm,
    fun t => (unaryOperatorSet_eq t).symm,
    fun t h => literal_dispatch_small t (small_of_contains hlit h) h,
    fun t h => function_cases_small t (small_of_contains hfun h) h,
    fun t h => unary_cases_small t (small_of_contains hun h) h, ?_, ?_,
    fun n p x r h => valueExpression_function n p x r h, ?_, ?_, expressionListGuard_eq,
    fun n name lp s h1 h2 => functionExpression_cons n name lp h1 h2 s, ?_⟩
  · intro n p s h
    obtain ⟨x, r, rfl⟩ := cons_of_contains (by decide) h
    rw [LA_one_cons] at h
    have hs : literalValueSet x.type = true := by rw [literalValueSet_eq_all]; exact h
    exact ⟨x, r, rfl, by rw [literalValue_cons, if_pos hs], valueExpression_literal n p x r h⟩
  · intro n p s h
    obtain ⟨x, r, rfl⟩ := cons_of_contains (by decide) h
    rw [LA_one_cons] at h
    have hs : functionNameSet x.type = true := by rw [functionNameSet_eq]; exact h
    exact ⟨x, r, rfl, by rw [functionName_cons, if_pos hs], valueExpression_function n p x r hs⟩
  · intro n p s h
    obtain ⟨x, r, rfl⟩ := cons_of_contains (by decide) h
    rw [LA_one_cons] at h
    have hs : unaryOperatorSet x.type = true := by rw [unaryOperatorSet_eq]; exact h
    exact ⟨x, r, rfl, by rw [unaryOperator_cons, if_pos hs], valueExpression_unary n p x r hs⟩
  · intro t h
    rw [expressionListGuard_eq] at h
    unfold startsExpression at h
    rcases Bool.or_eq_true _ _ ▸ h with h | h
    · exact Or.inr h
    · exact Or.inl h
  · intro p s h
    rw [expressionListGuard_eq] at h
    refine ⟨?_, adaptivePredict13_of_starts h p⟩
    cases s with
    | nil =>
      rw [LA_one_nil] at h
      exact absurd h (by decide)
    | cons y r => exact ⟨y, r, rfl⟩

/-! ### The precedence predicates and the checks written inline -/

theorem sempred_eq_spec (p r i : Nat) : sempred p r i = specSempred p r i := by
  unfold sempred specSempred
  split
  · split <;> simp_all
  · split <;> simp_all
  · split <;> simp_all
  · simp_all

theorem sempred_dispatch (p i : Nat) :
    sempred p 9 i = expressionSempred p i ∧ sempred p 10 i = predicateExpressionSempred p i
      ∧ sempred p 11 i = valueExpressionSempred p i :=
  ⟨rfl, rfl, rfl⟩

theorem not_precpred_of_false {p k : Nat} (h : precpred p k = false) :
    (!precpred p k) = true := by
  rw [h]; rfl

theorem not_precpred_of_true {p k : Nat} (h : precpred p k = true) :
    (!precpred p k) = false := by
  rw [h]; rfl

theorem expressionLoop_alternative (n p : Nat) (ctx : ParseTree) (s : List Token)
    (h14 : adaptivePredict 14 p s = some 1) :
    expressionLoop (n + 1) p ctx s = expressionAlternative n p ctx s := by
  simp only [expressionLoop, h14, loop_guard_one]
  simp only [beq_self_eq_true, ↓reduceIte]
  rfl

theorem predicateExpressionLoop_alternative (n p : Nat) (ctx : ParseTree) (s : List Token)
    (h21 : adaptivePredict 21 p s = some 1) (c : Nat)
    (h20 : adaptivePredict 20 p s = some c) :
    predicateExpressionLoop (n + 1) p ctx s = predicateExpressionAlternative n p c ctx s := by
  simp only [predicateExpressionLoop, h21, h20, loop_guard_one]
  simp only [beq_self_eq_true, ↓reduceIte]
  rcases c with _ | _ | _ | _ | _ | c <;> rfl

theorem valueExpressionLoop_alternative (n p : Nat) (ctx : ParseTree) (s : List Token)
    (h24 : adaptivePredict 24 p s = some 1) (c : Nat)
    (h23 : adaptivePredict 23 p s = some c) :
    valueExpressionLoop (n + 1) p ctx s = valueExpressionAlternative n p c ctx s := by
  simp only [valueExpressionLoop, h24, h23, loop_guard_one]
  simp only [beq_self_eq_true, ↓reduceIte]
  rcases c with _ | _ | _ | c <;> rfl

theorem and_true_right {a b : Bool} (h : (a && b) = true) : b = true := by
  cases a <;> cases b <;> simp_all

theorem sempred_of_predict14 {p : Nat} {s : List Token}
    (h : adaptivePredict 14 p s = some 1) : sempred p 9 0 = true := by
  unfold adaptivePredict at h
  simp only [Nat.reduceEqDiff, ↓reduceIte] at h
  split at h
  · next hc => exact and_true_right hc
  · exact absurd h (by decide)

theorem sempred_of_predict20 {p : Nat} {s : List Token} :
    (adaptivePredict 20 p s = some 1 → sempred p 10 1 = true)
    ∧ (adaptivePredict 20 p s = some 2 → sempred p 10 2 = true)
    ∧ (adaptivePredict 20 p s = some 3 → sempred p 10 3 = true)
    ∧ (adaptivePredict 20 p s = some 4 → sempred p 10 4 = true) := by
  unfold adaptivePredict
  simp only [Nat.reduceEqDiff, ↓reduceIte]
  split
  · next hc =>
    exact ⟨fun _ => and_true_right hc, fun h => absurd h (by decide),
      fun h => absurd h (by decide), fun h => absurd h (by decide)⟩
  · split
    · next hc =>
      exact ⟨fun h => absurd h (by decide), fun _ => and_true_right hc,
        fun h => absurd h (by decide), fun h => absurd h (by decide)⟩
    · split
      · next hc =>
        exact ⟨fun h => absurd h (by decide), fun h => absurd h (by decide),
          fun _ => and_true_right hc, fun h => absurd h (by decide)⟩
      · split
        · next hc =>
          exact ⟨fun h => absurd h (by decide), fun h => absurd h (by decide),
            fun h => absurd h (by decide), fun _ => and_true_right hc⟩
        · exact ⟨fun h => Option.noConfusion h, fun h => Option.noConfusion h,
            fun h => Option.noConfusion h, fun h => Option.noConfusion h⟩

theorem sempred_of_predict23 {p : Nat} {s : List Token} :
    (adaptivePredict 23 p s = some 1 → sempred p 11 5 = true)
    ∧ (adaptivePredict 23 p s = some 2 → sempred p 11 6 = true) := by
  unfold adaptivePredict
  simp only [Nat.reduceEqDiff, ↓reduceIte]
  split
  · next hc => exact ⟨fun _ => and_true_right hc, fun h => absurd h (by decide)⟩
  · split
    · next hc => exact ⟨fun h => absurd h (by decide), fun _ => and_true_right hc⟩
    · exact ⟨fun h => Option.noConfusion h, fun h => Option.noConfusion h⟩

/-- The loop of `expression` leaves where its predicate fails. -/
theorem expressionLoop_halt {p : Nat} (h : sempred p 9 0 = false) (n : Nat) (ctx : ParseTree)
    (s : List Token) : expressionLoop (n + 1) p ctx s = .ok (ctx, s) := by
  have hp : precpred p 2 = false := h
  have h14 : adaptivePredict 14 p s = some 2 := by
    unfold adaptivePredict
    simp only [Nat.reduceEqDiff, ↓reduceIte, hp, Bool.and_false, Bool.false_eq_true]
  simp only [expressionLoop, h14]
  rfl

/-- C33. The dispatcher `sempred` agrees with the precedence checks written
inline in the rule functions.  It is the table of the specification: rule 9
predicate 0 tests precedence 2; rule 10 predicates 1, 2, 3, 4 test
precedences 3, 2, 5, 4; rule 11 predicates 5, 6 test precedences 2, 1 (a test
of precedence `k` holds when the running invocation has precedence at most
`k`); every other pair of indices gives `true`; rules 9, 10, 11 go to
`expressionSempred`, `predicateExpressionSempred`, `valueExpressionSempred`.
The checks written inline are those of the bodies of the loops: a turn of a
loop that takes an operator alternative runs the body of that alternative,
and the check at the head of the body fails, raising a
`FailedPredicateException`, exactly when the predicate of `sempred` with the
index of that alternative is false; when it is true the body goes on to the
operator: the logical operator in `expression` (9, 0), comparison, `LIKE`,
`IN`, `IS NULL` in `predicateExpression` (10, 1..4), math and bitwise in
`valueExpression` (11, 5 and 6).  Prediction returns an alternative only
when its predicate holds, and the loop of `expression` leaves where the
predicate fails. -/
theorem sempred_agrees :
    (∀ p r i, sempred p r i = specSempred p r i)
    ∧ (∀ p, sempred p 9 0 = decide (p ≤ 2)
        ∧ sempred p 10 1 = decide (p ≤ 3) ∧ sempred p 10 2 = decide (p ≤ 2)
        ∧ sempred p 10 3 = decide (p ≤ 5) ∧ sempred p 10 4 = decide (p ≤ 4)
        ∧ sempred p 11 5 = decide (p ≤ 2) ∧ sempred p 11 6 = decide (p ≤ 1))
    ∧ (∀ p r i, ¬ (r = 9 ∧ i = 0) → ¬ (r = 10 ∧ (i = 1 ∨ i = 2 ∨ i = 3 ∨ i = 4)) →
        ¬ (r = 11 ∧ (i = 5 ∨ i = 6)) → sempred p r i = true)
    ∧ (∀ p i, sempred p 9 i = expressionSempred p i
        ∧ sempred p 10 i = predicateExpressionSempred p i
        ∧ sempred p 11 i = valueExpressionSempred p i)
    ∧ (∀ n p ctx s, adaptivePredict 14 p s = some 1 →
        expressionLoop (n + 1) p ctx s = expressionAlternative n p ctx s)
    ∧ (∀ n p ctx s c, adaptivePredict 21 p s = some 1 → adaptivePredict 20 p s = some c →
        predicateExpressionLoop (n + 1) p ctx s = predicateExpressionAlternative n p c ctx s)
    ∧ (∀ n p ctx s c, adaptivePredict 24 p s = some 1 → adaptivePredict 23 p s = some c →
        valueExpressionLoop (n + 1) p ctx s = valueExpressionAlternative n p c ctx s)
    ∧ (∀ n p ctx s, sempred p 9 0 = false →
        expressionAlternative n p ctx s = .error .failedPredicate)
    ∧ (∀ n p ctx s, sempred p 10 1 = false →
        predicateExpressionAlternative n p 1 ctx s = .error .failedPredicate)
    ∧ (∀ n p ctx s, sempred p 10 2 = false →
        predicateExpressionAlternative n p 2 ctx s = .error .failedPredicate)
    ∧ (∀ n p ctx s, sempred p 10 3 = false →
        predicateExpressionAlternative n p 3 ctx s = .error .failedPredicate)
    ∧ (∀ n p ctx s, sempred p 10 4 = false →
        predicateExpressionAlternative n p 4 ctx s = .error .failedPredicate)
    ∧ (∀ n p ctx s, sempred p 11 5 = false →
        valueExpressionAlternative n p 1 ctx s = .error .failedPredicate)
    ∧ (∀ n p ctx s, sempred p 11 6 = false →
        valueExpressionAlternative n p 2 ctx s = .error .failedPredicate)
    ∧ (∀ n p ctx s, sempred p 9 0 = true →
        expressionAlternative n p ctx s
          = logicalOperator s >>= fun a => expression n 3 a.2 >>= fun b =>
              expressionLoop n p (.rule RuleExpression [ctx, a.1, b.1]) b.2)
    ∧ (∀ n p ctx s, sempred p 10 1 = true →
        predicateExpressionAlternative n p 1 ctx s
          = comparisonOperator s >>= fun a => predicateExpression n 4 a.2 >>= fun b =>
              predicateExpressionLoop n p (.rule RulePredicateExpression [ctx, a.1, b.1]) b.2)
    ∧ (∀ n p ctx s, sempred p 10 2 = true →
        predicateExpressionAlternative n p 2 ctx s
          = optional (LA 1 s == T__6 || LA 1 s == K_NOT) notOperator s >>= fun a =>
              matchToken K_LIKE a.2 >>= fun b =>
                optional (LA 1 b.2 == T__8 || LA 1 b.2 == K_BINARY) exactMatchModifier b.2
                  >>= fun c => predicateExpression n 3 c.2 >>= fun d =>
                    predicateExpressionLoop n p (.rule RulePredicateExpression
                      ([ctx] ++ a.1 ++ [b.1] ++ c.1 ++ [d.1])) d.2)
    ∧ (∀ n p ctx s, sempred p 10 3 = true →
        predicateExpressionAlternative n p 3 ctx s
          = optional (LA 1 s == T__6 || LA 1 s == K_NOT) notOperator s >>= fun a =>
              matchToken K_IN a.2 >>= fun b =>
                optional (LA 1 b.2 == T__8 || LA 1 b.2 == K_BINARY) exactMatchModifier b.2
                  >>= fun c => matchToken T__4 c.2 >>= fun d =>
                    expressionList n d.2 >>= fun e => matchToken T__5 e.2 >>= fun f =>
                      predicateExpressionLoop n p (.rule RulePredicateExpression
                        ([ctx] ++ a.1 ++ [b.1] ++ c.1 ++ [d.1, e.1, f.1])) f.2)
    ∧ (∀ n p ctx s, sempred p 10 4 = true →
        predicateExpressionAlternative n p 4 ctx s
          = matchToken K_IS s >>= fun a =>
              optional (LA 1 a.2 == T__6 || LA 1 a.2 == K_NOT) notOperator a.2 >>= fun b =>
                matchToken K_NULL b.2 >>= fun c =>
                  predicateExpressionLoop n p (.rule RulePredicateExpression
                    ([ctx, a.1] ++ b.1 ++ [c.1])) c.2)
    ∧ (∀ n p ctx s, sempred p 11 5 = true →
        valueExpressionAlternative n p 1 ctx s
          = mathOperator s >>= fun a => valueExpression n 3 a.2 >>= fun b =>
              valueExpressionLoop n p (.rule RuleValueExpression [ctx, a.1, b.1]) b.2)
    ∧ (∀ n p ctx s, sempred p 11 6 = true →
        valueExpressionAlternative n p 2 ctx s
          = bitwiseOperator s >>= fun a => valueExpression n 2 a.2 >>= fun b =>
              valueExpressionLoop n p (.rule RuleValueExpression [ctx, a.1, b.1]) b.2)
    ∧ (∀ p s, (adaptivePredict 14 p s = some 1 → sempred p 9 0 = true)
        ∧ (adaptivePredict 20 p s = some 1 → sempred p 10 1 = true)
        ∧ (adaptivePredict 20 p s = some 2 → sempred p 10 2 = true)
        ∧ (adaptivePredict 20 p s = some 3 → sempred p 10 3 = true)
        ∧ (adaptivePredict 20 p s = some 4 → sempred p 10 4 = true)
        ∧ (adaptivePredict 23 p s = some 1 → sempred p 11 5 = true)
        ∧ (adaptivePredict 23 p s = some 2 → sempred p 11 6 = true))
    ∧ (∀ n p ctx s, sempred p 9 0 = false → expressionLoop (n + 1) p ctx s = .ok (ctx, s)) := by
  have fail : ∀ {p k : Nat}, precpred p k = false → (!precpred p k) = true :=
    fun h => not_precpred_of_false h
  have pass : ∀ {p k : Nat}, precpred p k = true → (!precpred p k) = false :=
    fun h => not_precpred_of_true h
  refine ⟨sempred_eq_spec, fun p => ⟨?_, ?_, ?_, ?_, ?_, ?_, ?_⟩, ?_, sempred_dispatch,
    expressionLoop_alternative,
    fun n p ctx s c h21 h20 => predicateExpressionLoop_alternative n p ctx s h21 c h20,
    fun n p ctx s c h24 h23 => valueExpressionLoop_alternative n p ctx s h24 c h23,
    ?_, ?_, ?_, ?_, ?_, ?_, ?_, ?_, ?_, ?_, ?_, ?_, ?_, ?_, ?_, ?_⟩
  · show decide (2 ≥ p) = decide (p ≤ 2); rfl
  · show decide (3 ≥ p) = decide (p ≤ 3); rfl
  · show decide (2 ≥ p) = decide (p ≤ 2); rfl
  · show decide (5 ≥ p) = decide (p ≤ 5); rfl
  · show decide (4 ≥ p) = decide (p ≤ 4); rfl
  · show decide (2 ≥ p) = decide (p ≤ 2); rfl
  · show decide (1 ≥ p) = decide (p ≤ 1); rfl
  · intro p r i h1 h2 h3
    rw [sempred_eq_spec]
    unfold specSempred
    have e1 : ¬ (r = 10 ∧ i = 1) := fun h => h2 ⟨h.1, Or.inl h.2⟩
    have e2 : ¬ (r = 10 ∧ i = 2) := fun h => h2 ⟨h.1, Or.inr (Or.inl h.2)⟩
    have e3 : ¬ (r = 10 ∧ i = 3) := fun h => h2 ⟨h.1, Or.inr (Or.inr (Or.inl h.2))⟩
    have e4 : ¬ (r = 10 ∧ i = 4) := fun h => h2 ⟨h.1, Or.inr (Or.inr (Or.inr h.2))⟩
    have e5 : ¬ (r = 11 ∧ i = 5) := fun h => h3 ⟨h.1, Or.inl h.2⟩
    have e6 : ¬ (r = 11 ∧ i = 6) := fun h => h3 ⟨h.1, Or.inr h.2⟩
    rw [if_neg h1, if_neg e1, if_neg e2, if_neg e3, if_neg e4, if_neg e5, if_neg e6]
  · intro n p ctx s h
    have hp : precpred p 2 = false := h
    unfold expressionAlternative
    rw [if_pos (fail hp)]
  · intro n p ctx s h
    have hp : precpred p 3 = false := h
    simp only [predicateExpressionAlternative]
    rw [if_pos (fail hp)]
  · intro n p ctx s h
    have hp : precpred p 2 = false := h
    simp only [predicateExpressionAlternative]
    rw [if_pos (fail hp)]
  · intro n p ctx s h
    have hp : precpred p 5 = false := h
    simp only [predicateExpressionAlternative]
    rw [if_pos (fail hp)]
  · intro n p ctx s h
    have hp : precpred p 4 = false := h
    simp only [predicateExpressionAlternative]
    rw [if_pos (fail hp)]
  · intro n p ctx s h
    have hp : precpred p 2 = false := h
    simp only [valueExpressionAlternative]
    rw [if_pos (fail hp)]
  · intro n p ctx s h
    have hp : precpred p 1 = false := h
    simp only [valueExpressionAlternative]
    rw [if_pos (fail hp)]
  · intro n p ctx s h
    have hp : precpred p 2 = true := h
    unfold expressionAlternative
    rw [if_neg (by rw [pass hp]; exact Bool.false_ne_true)]
  · intro n p ctx s h
    have hp : precpred p 3 = true := h
    simp only [predicateExpressionAlternative]
    rw [if_neg (by rw [pass hp]; exact Bool.false_ne_true)]
  · intro n p ctx s h
    have hp : precpred p 2 = true := h
    simp only [predicateExpressionAlternative]
    rw [if_neg (by rw [pass hp]; exact Bool.false_ne_true)]
  · intro n p ctx s h
    have hp : precpred p 5 = true := h
    simp only [predicateExpressionAlternative]
    rw [if_neg (by rw [pass hp]; exact Bool.false_ne_true)]
  · intro n p ctx s h
    have hp : precpred p 4 = true := h
    simp only [predicateExpressionAlternative]
    rw [if_neg (by rw [pass hp]; exact Bool.false_ne_true)]
  · intro n p ctx s h
    have hp : precpred p 2 = true := h
    simp only [valueExpressionAlternative]
    rw [if_neg (by rw [pass hp]; exact Bool.false_ne_true)]
  · intro n p ctx s h
    have hp : precpred p 1 = true := h
    simp only [valueExpressionAlternative]
    rw [if_neg (by rw [pass hp]; exact Bool.false_ne_true)]
  · intro p s
    exact ⟨sempred_of_predict14, sempred_of_predict20.1, sempred_of_predict20.2.1,
      sempred_of_predict20.2.2.1, sempred_of_predict20.2.2.2, sempred_of_predict23.1,
      sempred_of_predict23.2⟩
  · intro n p ctx s h
    exact expressionLoop_halt h n ctx s

/-! ### The top-level rule functions as the program runs them -/

theorem expectedAtParse_EOF : expectedAtParse EOF = false := by decide

theorem sync_of_expected {s : List Token} (h : expectedAtParse (LA 1 s) = true) :
    sync s = .ok ([], s) := by
  unfold sync
  rw [if_pos h]

theorem sync_delete (x y : Token) (r : List Token) (hx : expectedAtParse x.type = false)
    (hy : expectedAtParse y.type = true) : sync (x :: y :: r) = .ok ([x], y :: r) := by
  have h1 : expectedAtParse (LA 1 (x :: y :: r)) = false := hx
  have h2 : expectedAtParse (LA 2 (x :: y :: r)) = true := hy
  unfold sync
  rw [if_neg (by rw [h1]; exact Bool.false_ne_true), if_pos h2]

theorem sync_mismatch {s : List Token} (h1 : expectedAtParse (LA 1 s) = false)
    (h2 : expectedAtParse (LA 2 s) = false) : sync s = .error .inputMismatch := by
  unfold sync
  rw [if_neg (by rw [h1]; exact Bool.false_ne_true),
    if_neg (by rw [h2]; exact Bool.false_ne_true)]

/-- After `sync` has returned, the lookahead has a `case` label in the switch
of `parse`: either it had one, or `sync` deleted one token without a label
before a token with one. -/
theorem sync_eq_ok {s d r0 : List Token} (h : sync s = .ok (d, r0)) :
    expectedAtParse (LA 1 r0) = true
      ∧ ((d = [] ∧ r0 = s ∧ expectedAtParse (LA 1 s) = true)
        ∨ (∃ x, d = [x] ∧ s = x :: r0 ∧ expectedAtParse x.type = false)) := by
  unfold sync at h
  split at h
  · next h1 =>
    obtain ⟨rfl, rfl⟩ := Prod.mk.inj (Outcome.ok.inj h)
    exact ⟨h1, Or.inl ⟨rfl, rfl, h1⟩⟩
  · next h1 =>
    split at h
    · next h2 =>
      cases s with
      | nil => exact Outcome.noConfusion h
      | cons x r =>
        obtain ⟨rfl, rfl⟩ := Prod.mk.inj (Outcome.ok.inj h)
        have hx : expectedAtParse x.type = false := by
          rw [LA_one_cons] at h1
          simpa using h1
        refine ⟨?_, Or.inr ⟨x, rfl, rfl, hx⟩⟩
        rw [LA_two_cons] at h2
        exact h2
    · exact Outcome.noConfusion h

theorem filterExpressionStatementReturned_nil (fuel : Nat) :
    filterExpressionStatementReturned fuel []
      = .ok ⟨.rule RuleFilterExpressionStatement [], [], [.noViableAlt], []⟩ := rfl

/-- Where the statement rule returns normally, the rule function returns the
same context and has caught nothing. -/
theorem filterExpressionStatementReturned_of_ok {fuel : Nat} {s r : List Token}
    {tree : ParseTree} (h : filterExpressionStatement fuel s = .ok (tree, r)) :
    filterExpressionStatementReturned fuel s = .ok ⟨tree, [], [], r⟩ := by
  unfold filterExpressionStatementReturned
  split
  · rw [filterExpressionStatement_nil] at h
    exact Outcome.noConfusion h
  · rw [h]
    rfl

theorem filterExpressionStatementListReturned_of_ok {fuel : Nat} {s r : List Token}
    {tree : ParseTree} (h : filterExpressionStatementList fuel s = .ok (tree, r)) :
    filterExpressionStatementListReturned fuel s = .ok ⟨tree, [], [], r⟩ := by
  unfold filterExpressionStatementList at h
  obtain ⟨⟨st, q1⟩, h1, h'⟩ := bind_eq_ok.1 h
  obtain ⟨⟨more, q2⟩, h2, h3⟩ := bind_eq_ok.1 h'
  obtain ⟨rfl, rfl⟩ := Prod.mk.inj (pure_eq_ok.1 h3)
  unfold filterExpressionStatementListReturned
  rw [filterExpressionStatementReturned_of_ok h1, ok_bind]
  simp only []
  rw [h2, ok_bind]
  rfl

/-- Where `parse` returns normally, the program returns the same context,
has deleted no token and has caught no exception. -/
theorem parseReturned_of_ok {fuel : Nat} {s r : List Token} {tree : ParseTree}
    (h : parse fuel s = .ok (tree, r)) : parseReturned fuel s = .ok ⟨tree, [], [], r⟩ := by
  unfold parse at h
  unfold parseReturned
  split at h
  · next hc =>
    have he : expectedAtParse (LA 1 s) = true := by
      unfold expectedAtParse
      rw [hc, Bool.true_or]
    rw [sync_of_expected he]
    simp only []
    unfold parseSwitch
    rw [if_pos hc]
    obtain ⟨⟨l, q1⟩, h1, h'⟩ := bind_eq_ok.1 h
    obtain ⟨⟨eof, q2⟩, h2, h3⟩ := bind_eq_ok.1 h'
    obtain ⟨rfl, rfl⟩ := Prod.mk.inj (pure_eq_ok.1 h3)
    rw [filterExpressionStatementListReturned_of_ok h1, ok_bind]
    simp only []
    rw [h2, ok_bind]
    rfl
  · split at h
    · obtain ⟨a, h1, -⟩ := bind_eq_ok.1 h
      exact absurd h1 (error_not_ok s a)
    · exact Outcome.noConfusion h

theorem semicolons_fst_of_all (s : List Token) (h : AllSemicolons s) :
    (semicolons s).1 = s.map ParseTree.terminal := by
  induction s with
  | nil => rfl
  | cons x r ih =>
    have hx : x.type = T__0 := h x (List.mem_cons_self _ _)
    rw [semicolons_cons_semi x r hx]
    simp only [List.map_cons]
    rw [← ih (fun y hy => h y (List.mem_cons_of_mem _ hy))]

theorem parseReturned_nil (fuel : Nat) :
    parseReturned fuel [] = .ok ⟨.rule RuleParse [], [], [.inputMismatch], []⟩ := rfl

/-- On a run of `';'` the program returns a tree that holds a statement
context without children. -/
theorem parseReturned_semicolons {s : List Token} (hs : AllSemicolons s) (hne : s ≠ [])
    (n : Nat) :
    parseReturned (n + 1) s
      = .ok ⟨.rule RuleParse [.rule RuleFilterExpressionStatementList
          (s.map ParseTree.terminal ++ [.rule RuleFilterExpressionStatement []]),
          .terminal ⟨EOF, "<EOF>"⟩], [], [.noViableAlt], []⟩ := by
  obtain ⟨x, r, rfl⟩ : ∃ x r, s = x :: r := by
    cases s with
    | nil => exact absurd rfl hne
    | cons x r => exact ⟨x, r, rfl⟩
  have hx : x.type = T__0 := hs x (List.mem_cons_self _ _)
  have hc : statementListCases.contains (LA 1 (x :: r)) = true := by
    rw [LA_one_cons, hx]
    decide
  have he : expectedAtParse (LA 1 (x :: r)) = true := by
    unfold expectedAtParse
    rw [hc, Bool.true_or]
  unfold parseReturned
  rw [sync_of_expected he]
  simp only []
  unfold parseSwitch
  rw [if_pos hc]
  unfold filterExpressionStatementListReturned
  rw [semicolons_allSemicolons _ hs, semicolons_fst_of_all _ hs,
    filterExpressionStatementReturned_nil, ok_bind]
  simp only []
  rw [statementListLoop_nil, ok_bind]
  have e : semicolons ([] : List Token) = ([], []) := rfl
  simp only [e, List.append_nil]
  rfl

theorem getRuleContexts_semicolons (s : List Token) :
    (ParseTree.rule RuleFilterExpressionStatementList
        (s.map ParseTree.terminal ++ [.rule RuleFilterExpressionStatement []])).getRuleContexts
      RuleFilterExpressionStatement = [.rule RuleFilterExpressionStatement []] := by
  unfold ParseTree.getRuleContexts ParseTree.children
  rw [List.filter_append]
  have h1 : (s.map ParseTree.terminal).filter (ParseTree.isRule RuleFilterExpressionStatement)
      = [] := by
    rw [List.filter_eq_nil_iff]
    intro a ha
    obtain ⟨t, -, rfl⟩ := List.mem_map.1 ha
    exact Bool.false_ne_true
  rw [h1]
  rfl

/-! ### C2: at least one statement -/

/-- C2, counterexample: on the input `;` the program produces a statement
context.  `parse()` enters `filterExpressionStatementList()`, which after
the `';'` calls `filterExpressionStatement()`; that function creates its
context, its prediction throws at the end of the input, its own `catch`
block runs and it returns the context, without children.  The tree that
`parse()` returns holds it: the statement contexts of the list context are
not none. -/
theorem semicolon_yields_statement_context :
    AllSemicolons (toks [T__0])
    ∧ parseReturned 10 (toks [T__0])
        = .ok ⟨.rule RuleParse [.rule RuleFilterExpressionStatementList
            [.terminal (tok T__0), .rule RuleFilterExpressionStatement []],
            .terminal ⟨EOF, "<EOF>"⟩], [], [.noViableAlt], []⟩
    ∧ (ParseTree.rule RuleFilterExpressionStatementList
          [.terminal (tok T__0), .rule RuleFilterExpressionStatement []]).getRuleContexts
        RuleFilterExpressionStatement = [.rule RuleFilterExpressionStatement []]
    ∧ (ParseTree.rule RuleFilterExpressionStatementList
          [.terminal (tok T__0), .rule RuleFilterExpressionStatement []]).getRuleContexts
        RuleFilterExpressionStatement ≠ [] :=
  ⟨by intro x hx; simp [toks, tok] at hx; rw [hx], rfl, rfl, by
    intro h
    have e : (ParseTree.rule RuleFilterExpressionStatementList
        [.terminal (tok T__0), .rule RuleFilterExpressionStatement []]).getRuleContexts
          RuleFilterExpressionStatement = [.rule RuleFilterExpressionStatement []] := rfl
    rw [e] at h
    exact List.noConfusion h⟩

/-- C2, amended. `parse` requires at least one statement: the empty token
sequence and every token sequence that consists only of `';'` tokens are
rejected with a recognition error, for every amount of fuel, and none is
accepted.  For the empty sequence no statement context is produced: the
error strategy throws before the switch of `parse`, whose `catch` block
returns the context of `parse` without children.  For a sequence of `';'`
tokens a statement context is produced: the statement rule is entered after
the run of `';'`, its prediction fails at the end of the input, and the
rule function returns its context without children, which is the last child
of the list context and its only statement context. -/
theorem parse_requires_statement (s : List Token) (hs : AllSemicolons s) (fuel : Nat)
    (hf : 0 < fuel) :
    (parse fuel s).isError = true
    ∧ (∃ e, parse fuel s = .error e ∧ e.isRecognitionException = true)
    ∧ ¬ Accepted s
    ∧ parseReturned fuel [] = .ok ⟨.rule RuleParse [], [], [.inputMismatch], []⟩
    ∧ (ParseTree.rule RuleParse []).children = []
    ∧ (s ≠ [] →
        parseReturned fuel s
          = .ok ⟨.rule RuleParse [.rule RuleFilterExpressionStatementList
              (s.map ParseTree.terminal ++ [.rule RuleFilterExpressionStatement []]),
              .terminal ⟨EOF, "<EOF>"⟩], [], [.noViableAlt], []⟩)
    ∧ (ParseTree.rule RuleFilterExpressionStatementList
          (s.map ParseTree.terminal ++ [.rule RuleFilterExpressionStatement []])).getRuleContexts
        RuleFilterExpressionStatement = [.rule RuleFilterExpressionStatement []]
    ∧ filterExpressionStatementReturned fuel (semicolons s).2
        = .ok ⟨.rule RuleFilterExpressionStatement [], [], [.noViableAlt], []⟩ := by
  have h1 := (parse_semicolons_error s hs fuel).1
  refine ⟨by rw [h1]; rfl, ⟨_, h1, rfl⟩, ?_, rfl, rfl, ?_, getRuleContexts_semicolons s, ?_⟩
  · rintro ⟨k, res, hk⟩
    have := parse_not_ok_of_error h1 k
    rw [hk] at this
    exact Bool.noConfusion this
  · intro hne
    obtain ⟨n, rfl⟩ : ∃ n, fuel = n + 1 := ⟨fuel - 1, by omega⟩
    exact parseReturned_semicolons hs hne n
  · rw [semicolons_allSemicolons s hs]
    rfl

/-- C2, witness: the input `;;` is rejected, and the tree the program returns
for it holds one statement context, without children. -/
theorem parse_requires_statement_witness :
    AllSemicolons (toks [T__0, T__0]) ∧ 0 < 10
    ∧ (parse 10 (toks [T__0, T__0])).isError = true
    ∧ parseReturned 10 (toks [T__0, T__0])
        = .ok ⟨.rule RuleParse [.rule RuleFilterExpressionStatementList
            ((toks [T__0, T__0]).map ParseTree.terminal
              ++ [.rule RuleFilterExpressionStatement []]),
            .terminal ⟨EOF, "<EOF>"⟩], [], [.noViableAlt], []⟩ :=
  have hs : AllSemicolons (toks [T__0, T__0]) := by
    intro x hx
    simp [toks, tok] at hx
    rw [hx]
  ⟨hs, by decide, (parse_requires_statement (toks [T__0, T__0]) hs 10 (by decide)).1,
    (parse_requires_statement (toks [T__0, T__0]) hs 10 (by decide)).2.2.2.2.2.1
      (by simp [toks])⟩

/-! ### C30: the first token of `parse` -/

/-- C30, counterexample: on the input `WHERE x` the program raises no
`NoViableAltException`, although `K_WHERE` has no `case` label in the switch
of `parse`: `sync` deletes the token, because the next one has a label, and
`parse` enters `filterExpressionStatementList` on `x`.  Where the next token
has no label either, as in `WHERE WHERE` and at the end of the input, `sync`
throws `InputMismatchException` before the switch.  The switch on its own,
without `sync`, would take its default branch. -/
theorem where_enters_statementList :
    statementListCases.contains K_WHERE = false ∧ K_WHERE ≠ UNEXPECTED_CHAR
    ∧ parseReturned 10 (toks [K_WHERE, IDENTIFIER])
        = .ok ⟨.rule RuleParse [.rule RuleFilterExpressionStatementList
            [.rule RuleFilterExpressionStatement [.rule RuleExpression
              [.rule RulePredicateExpression [.rule RuleValueExpression
                [.rule RuleColumnName [.terminal (tok IDENTIFIER)]]]]]],
            .terminal ⟨EOF, "<EOF>"⟩], [tok K_WHERE], [], []⟩
    ∧ parseReturned 10 (toks [K_WHERE, IDENTIFIER]) ≠ .error .noViableAlt
    ∧ parseReturned 10 (toks [K_WHERE, K_WHERE]) = .error .inputMismatch
    ∧ parseReturned 10 [] = .ok ⟨.rule RuleParse [], [], [.inputMismatch], []⟩
    ∧ parseSwitch 10 [] (toks [K_WHERE, IDENTIFIER]) = .error .noViableAlt :=
  ⟨by decide, by decide, rfl, fun h => Outcome.noConfusion h, rfl, rfl, rfl⟩

theorem parseSwitch_list (fuel : Nat) (d s : List Token)
    (h : statementListCases.contains (LA 1 s) = true) :
    parseSwitch fuel d s
      = filterExpressionStatementListReturned fuel s >>= fun l =>
          matchToken EOF l.rest >>= fun b =>
            pure ⟨.rule RuleParse [l.context, b.1], d, l.caught, b.2⟩ := by
  unfold parseSwitch
  rw [if_pos h]

theorem parseSwitch_error (fuel : Nat) (d s : List Token) (h : LA 1 s = UNEXPECTED_CHAR) :
    parseSwitch fuel d s
      = error s >>= fun a => matchToken EOF a.2 >>= fun b =>
          pure ⟨.rule RuleParse [a.1, b.1], d, [], b.2⟩ := by
  have h1 : statementListCases.contains (LA 1 s) = false := by rw [h]; decide
  have h3 : (LA 1 s == UNEXPECTED_CHAR) = true := by rw [h]; rfl
  unfold parseSwitch
  rw [h1, h3]
  rfl

theorem parseSwitch_default (fuel : Nat) (d s : List Token)
    (h : expectedAtParse (LA 1 s) = false) : parseSwitch fuel d s = .error .noViableAlt := by
  unfold expectedAtParse at h
  rw [Bool.or_eq_false_iff] at h
  unfold parseSwitch
  rw [h.1, h.2]
  rfl

theorem expectedAtParse_of_continues {t : Nat} (h1 : continuesExpression t = true)
    (h2 : unaryOperatorSet t = false) : expectedAtParse t = false := by
  have hlt : t < 154 := by
    by_contra hge
    have : continuesExpression t = false := by
      have hw : ∀ l : List Nat, (∀ y ∈ l, 0 ≤ y ∧ y < 154) → l.contains t = false :=
        fun l hl => contains_eq_false_of_window 0 154 hl (Or.inr (by omega))
      have hb : ∀ c, c < 154 → (t == c) = false := by
        intro c hc
        rw [beq_eq_false_iff_ne]
        omega
      simp only [continuesExpression, mathOperatorSet_eq, bitwiseOperatorSet_eq,
        logicalOperatorSet_eq, notOperatorSet, hb K_LIKE (by decide), hb K_IN (by decide),
        hb K_IS (by decide), hb T__6 (by decide), hb K_NOT (by decide), Bool.or_false]
      have hcmp : comparisonOperatorSet t = false := bitsetTest_high _ (by omega)
      rw [hw _ (by decide), hw _ (by decide), hw _ (by decide), hcmp]
      rfl
    rw [this] at h1
    exact Bool.noConfusion h1
  unfold expectedAtParse
  rw [binary_only_small t hlt h1 h2, Bool.false_or, beq_eq_false_iff_ne]
  intro hu
  rw [hu] at h1
  exact Bool.noConfusion h1

/-- C30, amended. The `case` labels of the first-token switch of `parse`
agree with the grammar below it.  The labels that lead to
`filterExpressionStatementList` are the first tokens the specification
lists, and a token type is among them if and only if it is `';'` or the
first token of some statement (an identifier statement, a filter statement
or an expression); the label that leads to `error` is `UNEXPECTED_CHAR`,
which is none of them; no other token type has a label: not the end of the
input, `K_WHERE`, `K_TOP`, `')'`, `','` nor an operator that is binary only.
On a lookahead with a label the switch runs `filterExpressionStatementList`
or `error`, and then `match(EOF)`.  The default branch, which throws
`NoViableAltException`, is what the switch has for a lookahead without a
label, but the program does not reach it: after `sync` has returned the
lookahead has a label.  A first token without a label is deleted by `sync`
when the token after it has a label, and `parse` then dispatches on that
token; else `sync` throws `InputMismatchException`.  Where `parse` returns
normally the program returns the same tree. -/
theorem parse_dispatch_after_sync :
    (∀ t, statementListCases.contains t = specStatementListStart t)
    ∧ (∀ t, statementListCases.contains t = true ↔
        (t = T__0 ∨ ∃ s, LA 1 s = t ∧ IsStatement s))
    ∧ (∀ t, (∃ s, LA 1 s = t ∧ IsStatement s) ↔
        (identifierStatementSet t = true ∨ t = K_FILTER ∨ startsExpression t = true))
    ∧ statementListCases.contains UNEXPECTED_CHAR = false
    ∧ (∀ t, expectedAtParse t = true ↔
        (statementListCases.contains t = true ∨ t = UNEXPECTED_CHAR))
    ∧ expectedAtParse EOF = false
    ∧ (∀ t, t = K_WHERE ∨ t = K_TOP ∨ t = T__5 ∨ t = T__1 → expectedAtParse t = false)
    ∧ (∀ t, continuesExpression t = true → unaryOperatorSet t = false →
        expectedAtParse t = false)
    ∧ (∀ fuel d s, statementListCases.contains (LA 1 s) = true →
        parseSwitch fuel d s
          = filterExpressionStatementListReturned fuel s >>= fun l =>
              matchToken EOF l.rest >>= fun b =>
                pure ⟨.rule RuleParse [l.context, b.1], d, l.caught, b.2⟩)
    ∧ (∀ fuel s, statementListCases.contains (LA 1 s) = true →
        parse fuel s = filterExpressionStatementList fuel s >>= fun a =>
          matchToken EOF a.2 >>= fun b => pure (.rule RuleParse [a.1, b.1], b.2))
    ∧ (∀ fuel d s, LA 1 s = UNEXPECTED_CHAR →
        parseSwitch fuel d s
          = error s >>= fun a => matchToken EOF a.2 >>= fun b =>
              pure ⟨.rule RuleParse [a.1, b.1], d, [], b.2⟩)
    ∧ (∀ fuel s, LA 1 s = UNEXPECTED_CHAR →
        parse fuel s = error s >>= fun a =>
          matchToken EOF a.2 >>= fun b => pure (.rule RuleParse [a.1, b.1], b.2))
    ∧ (∀ fuel d s, expectedAtParse (LA 1 s) = false →
        parseSwitch fuel d s = .error .noViableAlt)
    ∧ (∀ s d r0, sync s = .ok (d, r0) → expectedAtParse (LA 1 r0) = true)
    ∧ (∀ fuel s, expectedAtParse (LA 1 s) = true →
        parseReturned fuel s = parseSwitch fuel [] s)
    ∧ (∀ fuel x y r, expectedAtParse x.type = false → expectedAtParse y.type = true →
        parseReturned fuel (x :: y :: r) = parseSwitch fuel [x] (y :: r))
    ∧ (∀ fuel x r, expectedAtParse x.type = false → expectedAtParse (LA 1 r) = false →
        parseReturned fuel (x :: r) = .error .inputMismatch)
    ∧ (∀ fuel, parseReturned fuel [] = .ok ⟨.rule RuleParse [], [], [.inputMismatch], []⟩)
    ∧ (∀ fuel s tree r, parse fuel s = .ok (tree, r) →
        parseReturned fuel s = .ok ⟨tree, [], [], r⟩) := by
  refine ⟨fun t => (statementListCases_eq t).1, ?_, ?_, by decide, ?_, expectedAtParse_EOF,
    ?_, fun t h1 h2 => expectedAtParse_of_continues h1 h2,
    fun fuel d s h => parseSwitch_list fuel d s h, ?_,
    fun fuel d s h => parseSwitch_error fuel d s h, ?_,
    fun fuel d s h => parseSwitch_default fuel d s h,
    fun s d r0 h => (sync_eq_ok h).1, ?_, ?_, ?_, fun fuel => rfl,
    fun fuel s tree r h => parseReturned_of_ok h⟩
  · intro t
    rw [(statementListCases_eq t).2, Bool.or_eq_true, beq_iff_eq, startsStatement_iff]
  · intro t
    rw [← startsStatement_iff]
    simp only [startsStatement, Bool.or_eq_true, beq_iff_eq, or_assoc]
  · intro t
    unfold expectedAtParse
    rw [Bool.or_eq_true, beq_iff_eq]
  · intro t ht
    rcases ht with h | h | h | h <;> rw [h] <;> decide
  · intro fuel s h
    unfold parse
    rw [if_pos h]
  · intro fuel s h
    have h1 : statementListCases.contains (LA 1 s) = false := by rw [h]; decide
    have h3 : (LA 1 s == UNEXPECTED_CHAR) = true := by rw [h]; rfl
    unfold parse
    rw [h1, h3]
    rfl
  · intro fuel s h
    unfold parseReturned
    rw [sync_of_expected h]
  · intro fuel x y r hx hy
    unfold parseReturned
    rw [sync_delete x y r hx hy]
  · intro fuel x r hx hr
    have h2 : expectedAtParse (LA 2 (x :: r)) = false := by
      rw [LA_two_cons]
      exact hr
    unfold parseReturned
    rw [sync_mismatch (s := x :: r) hx h2]

end FilterExpressionSyntaxParser
